import Mathlib

/-!
The poly2tri sweep engine: a shallow embedding of `src/poly2tri/sweep/sweep.cc`.

A coordinate is a rational number.  The floating-point operations of the
angle and basin computations round their results with the function `fl` of
the environment, and `atan2` and the constants it is compared with are taken
from the environment; the determinants of `Incircle`, the sum
`node.point->x + EPSILON` of `PointEvent` and the comparisons of coordinates
are evaluated exactly.  Pointers become
indices into heaps held by the sweep context; a null pointer is `none`.
Exceptions are modelled by the `Res.throw` outcome, which keeps the state
reached when the exception was raised.  Dereferencing a null pointer or
indexing an array with `-1` is reported as `Err.undefined_behaviour`, and a
recursion that exceeds the supplied fuel as `Err.out_of_fuel`; neither is an
exception of the program.  `assert` and `GEOMETRIX_ASSERT` are compiled out.
-/

namespace p2t

/-! ## Data model -/

/-- Orientation of a point triple, the result type of `Orient2d`. -/
inductive Orientation where
  | CW
  | CCW
  | COLLINEAR
deriving DecidableEq, Repr

/-- A point: the coordinates together with `id`, which stands for the address
of the point object; pointer comparison of points is equality of `Point`s. -/
structure Point where
  id : Nat
  x : ℚ
  y : ℚ
deriving DecidableEq

/-- A constraint edge `(p, q)`; `q` is rewritten when a constraint is split. -/
structure Edge where
  p : Point
  q : Point
deriving DecidableEq

/-- A C array of length three. -/
structure Arr3 (α : Type) where
  a0 : α
  a1 : α
  a2 : α
deriving DecidableEq

/-- Read `a[i]`. -/
def Arr3.get {α : Type} (a : Arr3 α) (i : Fin 3) : α :=
  match i with
  | 0 => a.a0
  | 1 => a.a1
  | 2 => a.a2

/-- Write `a[i] = v`. -/
def Arr3.set {α : Type} (a : Arr3 α) (i : Fin 3) (v : α) : Arr3 α :=
  match i with
  | 0 => { a with a0 := v }
  | 1 => { a with a1 := v }
  | 2 => { a with a2 := v }

/-- Index of a triangle in the triangle heap. -/
abbrev TriId := Nat

/-- Index of a front node in the node heap. -/
abbrev NodeId := Nat

/-- Index of a constraint edge in the edge heap. -/
abbrev EdgeId := Nat

/-- Modelled from the spec: the Triangle record of section 3 (shapes.h is not
under src): three points in CCW order and three arrays indexed by the
opposite vertex, plus the interior flag. -/
structure Triangle where
  constrained_edge : Arr3 Bool
  delaunay_edge : Arr3 Bool
  points_ : Arr3 Point
  neighbors_ : Arr3 (Option TriId)
  interior_ : Bool
deriving DecidableEq

/-- Modelled from the spec: the front node record {point, triangle, prev, next}
of section 3 (advancing_front.h is not under src). -/
structure Node where
  point : Option Point
  triangle : Option TriId
  next : Option NodeId
  prev : Option NodeId
deriving DecidableEq

/-- Modelled from the spec: the basin scratch of section 4.D. -/
structure Basin where
  left_node : Option NodeId
  bottom_node : Option NodeId
  right_node : Option NodeId
  width : ℚ
  left_highest : Bool
deriving DecidableEq

/-- Modelled from the spec: the edge_event scratch of section 4.D. -/
structure EdgeEventData where
  constrained_edge : Option EdgeId
  right : Bool
deriving DecidableEq

/-- Modelled from the spec: the sweep context of section 4.D
(sweep_context.h is not under src).  `tris`, `nodes` and `edges` are the heaps
of allocated objects, `map_` is the registry filled by `AddToMap`, `head_` and
`tail_` are the sentinels of the advancing front, `nodes_` is the node list
kept by the `Sweep` object, `points_` the sorted input points and
`edge_list` the constraint edges attached to each of them. -/
structure SweepContext where
  tris : List Triangle
  nodes : List Node
  edges : List Edge
  map_ : List TriId
  head_ : Option NodeId
  tail_ : Option NodeId
  nodes_ : List NodeId
  basin : Basin
  edge_event : EdgeEventData
  points_ : List Point
  edge_list : List (List EdgeId)
deriving DecidableEq

/-- The messages of the `std::runtime_error`s thrown by sweep.cc. -/
inductive RuntimeMsg where
  | PointEvent_null_node
  | FlipEdgeEvent_null_neighbor_across
  | FlipScanEdgeEvent_null_neighbor_across
  | FlipScanEdgeEvent_null_opposing_point
  | FlipScanEdgeEvent_null_on_either_of_points
deriving DecidableEq

/-- What a call can end with other than a normal return: one constructor for
each exception type thrown in sweep.cc, plus the two outcomes that are not
exceptions (see the header). -/
inductive Err where
  | runtime_error (what : RuntimeMsg)
  | null_triangle_exception (t : Option TriId)
  | collinear_points_exception (a b c : Point)
  | degenerate_triangle_exception (a b c : Point)
  | undefined_behaviour
  | out_of_fuel
deriving DecidableEq

/-- Outcome of a call: normal return with a value, or an exception, each with
the state reached. -/
inductive Res (α : Type) where
  | ok (a : α) (s : SweepContext)
  | throw (e : Err) (s : SweepContext)
deriving DecidableEq

/-- Code that reads and writes the sweep context and may throw. -/
def M (α : Type) : Type := SweepContext → Res α

/-- Normal return. -/
def M.pure {α : Type} (a : α) : M α := fun s => Res.ok a s

/-- Sequencing: an exception of the first part is propagated. -/
def M.bind {α β : Type} (m : M α) (f : α → M β) : M β := fun s =>
  match m s with
  | Res.ok a s1 => f a s1
  | Res.throw e s1 => Res.throw e s1

instance : Monad M where
  pure := M.pure
  bind := M.bind

/-- Raise an exception. -/
def raise {α : Type} (e : Err) : M α := fun s => Res.throw e s

/-- Dereference a pointer that the code does not test: null is undefined. -/
def deref {α : Type} (o : Option α) : M α :=
  match o with
  | some a => M.pure a
  | none => raise Err.undefined_behaviour

/-- Read the triangle object behind a pointer. -/
def getTri (t : TriId) : M Triangle := fun s =>
  match s.tris[t]? with
  | some v => Res.ok v s
  | none => Res.throw Err.undefined_behaviour s

/-- Update the triangle object behind a pointer in place. -/
def modifyTri (t : TriId) (f : Triangle → Triangle) : M Unit := fun s =>
  match s.tris[t]? with
  | some v => Res.ok () { s with tris := s.tris.set t (f v) }
  | none => Res.throw Err.undefined_behaviour s

/-- Read the node object behind a pointer. -/
def getNode (n : NodeId) : M Node := fun s =>
  match s.nodes[n]? with
  | some v => Res.ok v s
  | none => Res.throw Err.undefined_behaviour s

/-- Update the node object behind a pointer in place. -/
def modifyNode (n : NodeId) (f : Node → Node) : M Unit := fun s =>
  match s.nodes[n]? with
  | some v => Res.ok () { s with nodes := s.nodes.set n (f v) }
  | none => Res.throw Err.undefined_behaviour s

/-- Read the edge object behind a pointer. -/
def getEdge (e : EdgeId) : M Edge := fun s =>
  match s.edges[e]? with
  | some v => Res.ok v s
  | none => Res.throw Err.undefined_behaviour s

/-- Update the edge object behind a pointer in place. -/
def modifyEdge (e : EdgeId) (f : Edge → Edge) : M Unit := fun s =>
  match s.edges[e]? with
  | some v => Res.ok () { s with edges := s.edges.set e (f v) }
  | none => Res.throw Err.undefined_behaviour s

/-- The current state. -/
def getCtx : M SweepContext := fun s => Res.ok s s

/-- Replace the scratch fields of the state. -/
def modifyCtx (f : SweepContext → SweepContext) : M Unit := fun s => Res.ok () (f s)

/-! ## Triangle member functions (shapes.cc is not under src) -/

namespace Triangle

/-- Modelled from the spec: the constructor `Triangle(a, b, c)`; section 3:
three point references, no neighbour, no flag set. -/
def mk3 (a b c : Point) : Triangle :=
  { constrained_edge := ⟨false, false, false⟩
    delaunay_edge := ⟨false, false, false⟩
    points_ := ⟨a, b, c⟩
    neighbors_ := ⟨none, none, none⟩
    interior_ := false }

/-- Modelled from the spec: `GetPoint(i)`, vertex i. -/
def GetPoint (t : Triangle) (i : Fin 3) : Point := t.points_.get i

/-- Modelled from the spec: `GetNeighbor(i)`, the triangle sharing edge i. -/
def GetNeighbor (t : Triangle) (i : Fin 3) : Option TriId := t.neighbors_.get i

/-- Modelled from the spec: `Contains(p)`, p is one of the three vertices. -/
def Contains (t : Triangle) (p : Point) : Bool :=
  p == t.points_.a0 || p == t.points_.a1 || p == t.points_.a2

/-- Modelled from the spec: `Contains(p, q)`, both are vertices. -/
def Contains2 (t : Triangle) (p q : Point) : Bool :=
  t.Contains p && t.Contains q

/-- Modelled from the spec: `PointCW(point)`, the vertex clockwise of point
in the CCW vertex order of section 3; null when point is not a vertex. -/
def PointCW (t : Triangle) (point : Point) : Option Point :=
  if point = t.points_.a0 then some t.points_.a2
  else if point = t.points_.a1 then some t.points_.a0
  else if point = t.points_.a2 then some t.points_.a1
  else none

/-- Modelled from the spec: `PointCCW(point)`, the vertex counter-clockwise of
point in the CCW vertex order of section 3; null when point is not a vertex. -/
def PointCCW (t : Triangle) (point : Point) : Option Point :=
  if point = t.points_.a0 then some t.points_.a1
  else if point = t.points_.a1 then some t.points_.a2
  else if point = t.points_.a2 then some t.points_.a0
  else none

/-- Modelled from the spec: `ot.OppositePoint(t, p)`, the vertex of ot
opposite the edge it shares with t, where p is the vertex of t opposite that
edge: the vertex of ot clockwise of the vertex of t clockwise of p. -/
def OppositePoint (ot t : Triangle) (p : Point) : Option Point :=
  match t.PointCW p with
  | some cw => ot.PointCW cw
  | none => none

/-- Modelled from the spec: `Index(p)`, the index of vertex p. -/
def Index (t : Triangle) (p : Point) : Option (Fin 3) :=
  if p = t.points_.a0 then some 0
  else if p = t.points_.a1 then some 1
  else if p = t.points_.a2 then some 2
  else none

/-- Modelled from the spec: `EdgeIndex(p1, p2)`, the index of the edge with
endpoints p1 and p2 (the index of the third vertex, section 3), `-1` (here
`none`) when there is none. -/
def EdgeIndex (t : Triangle) (p1 p2 : Point) : Option (Fin 3) :=
  if t.points_.a0 = p1 then
    if t.points_.a1 = p2 then some 2
    else if t.points_.a2 = p2 then some 1
    else none
  else if t.points_.a1 = p1 then
    if t.points_.a2 = p2 then some 0
    else if t.points_.a0 = p2 then some 2
    else none
  else if t.points_.a2 = p1 then
    if t.points_.a0 = p2 then some 1
    else if t.points_.a1 = p2 then some 0
    else none
  else none

/-- Modelled from the spec: `MarkConstrainedEdge(index)`. -/
def MarkConstrainedEdgeIdx (t : Triangle) (index : Fin 3) : Triangle :=
  { t with constrained_edge := t.constrained_edge.set index true }

/-- Modelled from the spec: `MarkConstrainedEdge(p, q)`, sets the flag of the
edge with endpoints p and q when the triangle has it. -/
def MarkConstrainedEdge (t : Triangle) (p q : Point) : Triangle :=
  if (q = t.points_.a0 ∧ p = t.points_.a1) ∨ (q = t.points_.a1 ∧ p = t.points_.a0) then
    { t with constrained_edge := t.constrained_edge.set 2 true }
  else if (q = t.points_.a0 ∧ p = t.points_.a2) ∨ (q = t.points_.a2 ∧ p = t.points_.a0) then
    { t with constrained_edge := t.constrained_edge.set 1 true }
  else if (q = t.points_.a1 ∧ p = t.points_.a2) ∨ (q = t.points_.a2 ∧ p = t.points_.a1) then
    { t with constrained_edge := t.constrained_edge.set 0 true }
  else t

/-- Modelled from the spec: `NeighborAcross(point)`, the neighbour across the
edge opposite point. -/
def NeighborAcross (t : Triangle) (point : Point) : Option TriId :=
  if point = t.points_.a0 then t.neighbors_.a0
  else if point = t.points_.a1 then t.neighbors_.a1
  else t.neighbors_.a2

/-- Modelled from the spec: `NeighborCW(point)`, the neighbour across the edge
from point to the vertex clockwise of it. -/
def NeighborCW (t : Triangle) (point : Point) : Option TriId :=
  if point = t.points_.a0 then t.neighbors_.a1
  else if point = t.points_.a1 then t.neighbors_.a2
  else t.neighbors_.a0

/-- Modelled from the spec: `NeighborCCW(point)`, the neighbour across the
edge from point to the vertex counter-clockwise of it. -/
def NeighborCCW (t : Triangle) (point : Point) : Option TriId :=
  if point = t.points_.a0 then t.neighbors_.a2
  else if point = t.points_.a1 then t.neighbors_.a0
  else t.neighbors_.a1

/-- Modelled from the spec: `GetConstrainedEdgeCCW(p)`, the constrained flag
of the edge from p to the vertex counter-clockwise of it. -/
def GetConstrainedEdgeCCW (t : Triangle) (p : Point) : Bool :=
  if p = t.points_.a0 then t.constrained_edge.a2
  else if p = t.points_.a1 then t.constrained_edge.a0
  else t.constrained_edge.a1

/-- Modelled from the spec: `GetConstrainedEdgeCW(p)`, the constrained flag of
the edge from p to the vertex clockwise of it. -/
def GetConstrainedEdgeCW (t : Triangle) (p : Point) : Bool :=
  if p = t.points_.a0 then t.constrained_edge.a1
  else if p = t.points_.a1 then t.constrained_edge.a2
  else t.constrained_edge.a0

/-- Modelled from the spec: `SetConstrainedEdgeCCW(p, ce)`. -/
def SetConstrainedEdgeCCW (t : Triangle) (p : Point) (ce : Bool) : Triangle :=
  if p = t.points_.a0 then { t with constrained_edge := t.constrained_edge.set 2 ce }
  else if p = t.points_.a1 then { t with constrained_edge := t.constrained_edge.set 0 ce }
  else { t with constrained_edge := t.constrained_edge.set 1 ce }

/-- Modelled from the spec: `SetConstrainedEdgeCW(p, ce)`. -/
def SetConstrainedEdgeCW (t : Triangle) (p : Point) (ce : Bool) : Triangle :=
  if p = t.points_.a0 then { t with constrained_edge := t.constrained_edge.set 1 ce }
  else if p = t.points_.a1 then { t with constrained_edge := t.constrained_edge.set 2 ce }
  else { t with constrained_edge := t.constrained_edge.set 0 ce }

/-- Modelled from the spec: `GetDelunayEdgeCCW(p)`. -/
def GetDelunayEdgeCCW (t : Triangle) (p : Point) : Bool :=
  if p = t.points_.a0 then t.delaunay_edge.a2
  else if p = t.points_.a1 then t.delaunay_edge.a0
  else t.delaunay_edge.a1

/-- Modelled from the spec: `GetDelunayEdgeCW(p)`. -/
def GetDelunayEdgeCW (t : Triangle) (p : Point) : Bool :=
  if p = t.points_.a0 then t.delaunay_edge.a1
  else if p = t.points_.a1 then t.delaunay_edge.a2
  else t.delaunay_edge.a0

/-- Modelled from the spec: `SetDelunayEdgeCCW(p, e)`. -/
def SetDelunayEdgeCCW (t : Triangle) (p : Point) (e : Bool) : Triangle :=
  if p = t.points_.a0 then { t with delaunay_edge := t.delaunay_edge.set 2 e }
  else if p = t.points_.a1 then { t with delaunay_edge := t.delaunay_edge.set 0 e }
  else { t with delaunay_edge := t.delaunay_edge.set 1 e }

/-- Modelled from the spec: `SetDelunayEdgeCW(p, e)`. -/
def SetDelunayEdgeCW (t : Triangle) (p : Point) (e : Bool) : Triangle :=
  if p = t.points_.a0 then { t with delaunay_edge := t.delaunay_edge.set 1 e }
  else if p = t.points_.a1 then { t with delaunay_edge := t.delaunay_edge.set 2 e }
  else { t with delaunay_edge := t.delaunay_edge.set 0 e }

/-- Modelled from the spec: `ClearNeighbors()`. -/
def ClearNeighbors (t : Triangle) : Triangle :=
  { t with neighbors_ := ⟨none, none, none⟩ }

/-- Modelled from the spec: `ClearDelunayEdges()`. -/
def ClearDelunayEdges (t : Triangle) : Triangle :=
  { t with delaunay_edge := ⟨false, false, false⟩ }

/-- Modelled from the spec: the in-place re-vertex operation
`Legalize(opoint, npoint)` of section 4.E: the vertices are rotated clockwise
about opoint and npoint takes the place of the vertex that leaves, so that
(p, a, b) becomes a rotation of (p, op, b). -/
def Legalize (t : Triangle) (opoint npoint : Point) : Triangle :=
  if opoint = t.points_.a0 then
    { t with points_ := ⟨t.points_.a2, t.points_.a0, npoint⟩ }
  else if opoint = t.points_.a1 then
    { t with points_ := ⟨npoint, t.points_.a0, t.points_.a1⟩ }
  else if opoint = t.points_.a2 then
    { t with points_ := ⟨t.points_.a2, npoint, t.points_.a1⟩ }
  else t

/-- Modelled from the spec: `MarkNeighbor(p1, p2, t)`, records t as the
neighbour across the edge with endpoints p1 and p2. -/
def MarkNeighborEdge (self : Triangle) (p1 p2 : Point) (t : TriId) : Triangle :=
  if (p1 = self.points_.a2 ∧ p2 = self.points_.a1) ∨ (p1 = self.points_.a1 ∧ p2 = self.points_.a2) then
    { self with neighbors_ := self.neighbors_.set 0 (some t) }
  else if (p1 = self.points_.a0 ∧ p2 = self.points_.a2) ∨ (p1 = self.points_.a2 ∧ p2 = self.points_.a0) then
    { self with neighbors_ := self.neighbors_.set 1 (some t) }
  else if (p1 = self.points_.a0 ∧ p2 = self.points_.a1) ∨ (p1 = self.points_.a1 ∧ p2 = self.points_.a0) then
    { self with neighbors_ := self.neighbors_.set 2 (some t) }
  else self

end Triangle

/-- Modelled from the spec: `self.MarkNeighbor(t)` on two triangle objects:
the search for the side of self whose two endpoints t contains; both triangles
record each other across it. -/
def MarkNeighbor (self t : TriId) : M Unit := do
  let me ← getTri self
  let other ← getTri t
  if other.Contains2 me.points_.a1 me.points_.a2 then
    modifyTri self (fun x => { x with neighbors_ := x.neighbors_.set 0 (some t) })
    modifyTri t (fun x => x.MarkNeighborEdge me.points_.a1 me.points_.a2 self)
  else if other.Contains2 me.points_.a0 me.points_.a2 then
    modifyTri self (fun x => { x with neighbors_ := x.neighbors_.set 1 (some t) })
    modifyTri t (fun x => x.MarkNeighborEdge me.points_.a0 me.points_.a2 self)
  else if other.Contains2 me.points_.a0 me.points_.a1 then
    modifyTri self (fun x => { x with neighbors_ := x.neighbors_.set 2 (some t) })
    modifyTri t (fun x => x.MarkNeighborEdge me.points_.a0 me.points_.a1 self)
  else
    pure ()

/-! ## Collaborators that are not under src -/

/-- A finite `double`: its value and its sign bit.  The sign bit of a value
other than zero is the sign of the value; for zero it tells `-0.0` from
`+0.0`, which `atan2` observes. -/
structure Double where
  val : ℚ
  signbit : Bool
deriving DecidableEq

/-- The double of a coordinate; a coordinate that is zero is `+0.0`. -/
def Double.ofCoord (q : ℚ) : Double := ⟨q, decide (q < 0)⟩

/-- The parts of common/utils.h, advancing_front.cc and the C library that
sweep.cc calls and that are not under src, taken as a parameter: the constants
`EPSILON`, `PI_div2` and `PI_3div4`, the predicates `Orient2d` and
`InScanArea`, the front search `LocateNode`, the function `atan2(y, x)`, and
the rounding `fl` that takes the exact result of an arithmetic operation on
doubles to the double that the operation returns. -/
structure Env where
  EPSILON : ℚ
  PI_div2 : ℚ
  PI_3div4 : ℚ
  fl : ℚ → ℚ
  atan2 : Double → Double → ℚ
  Orient2d : Point → Point → Point → Orientation
  InScanArea : Point → Point → Point → Point → Bool
  LocateNode : SweepContext → Point → Option NodeId

/-- The result of an operation whose exact value is `e`: the rounded value,
with the sign of `e`, or the sign `z` that IEEE 754 gives an exact zero. -/
def Env.result (env : Env) (e : ℚ) (z : Bool) : Double :=
  ⟨env.fl e, if e = 0 then z else decide (e < 0)⟩

/-- The double operation `a - b`. -/
def Env.sub (env : Env) (a b : Double) : Double :=
  env.result (a.val - b.val) (a.signbit && !b.signbit)

/-- The double operation `a + b`. -/
def Env.add (env : Env) (a b : Double) : Double :=
  env.result (a.val + b.val) (a.signbit && b.signbit)

/-- The double operation `a * b`. -/
def Env.mul (env : Env) (a b : Double) : Double :=
  env.result (a.val * b.val) (xor a.signbit b.signbit)

/-- Modelled from the spec: `Orient2d(a, b, c)` of section 4.A (utils.h is not
under src): the sign of `(b.x−a.x)(c.y−a.y) − (b.y−a.y)(c.x−a.x)`, with an
epsilon around zero mapped to COLLINEAR. -/
def Orient2d (eps : ℚ) (a b c : Point) : Orientation :=
  let val := (b.x - a.x) * (c.y - a.y) - (b.y - a.y) * (c.x - a.x)
  if -eps < val ∧ val < eps then Orientation.COLLINEAR
  else if val = 0 then Orientation.COLLINEAR
  else if val > 0 then Orientation.CCW
  else Orientation.CW

/-- Modelled from the spec: `InScanArea(pa, pb, pc, pd)` of section 4.A
(utils.h is not under src): pd lies strictly inside the wedge at pa spanned by
pb and pc, that is strictly right of the ray from pa to pb and strictly left
of the ray from pa to pc. -/
def InScanArea (eps : ℚ) (pa pb pc pd : Point) : Bool :=
  let oadb := (pa.x - pb.x) * (pd.y - pb.y) - (pd.x - pb.x) * (pa.y - pb.y)
  if oadb ≥ -eps then false
  else
    let oadc := (pa.x - pc.x) * (pd.y - pc.y) - (pd.x - pc.x) * (pa.y - pc.y)
    if oadc ≤ eps then false else true

/-- The nodes reached from `start` by following `next`, at most `fuel` of them. -/
def walkNext (nodes : List Node) : Nat → Option NodeId → List NodeId
  | 0, _ => []
  | _ + 1, none => []
  | fuel + 1, some n =>
    match nodes[n]? with
    | some nd => n :: walkNext nodes fuel nd.next
    | none => []

/-- The advancing front: the nodes from the head sentinel along `next`. -/
def frontNodes (s : SweepContext) : List NodeId :=
  walkNext s.nodes s.nodes.length s.head_

/-- Does the front node `n` satisfy `n.x ≤ x < n.next.x`? -/
def locates (nodes : List Node) (point : Point) (n : NodeId) : Bool :=
  match nodes[n]? with
  | some nd =>
    match nd.point, nd.next with
    | some p, some nx =>
      match nodes[nx]? with
      | some nn =>
        match nn.point with
        | some q => decide (p.x ≤ point.x ∧ point.x < q.x)
        | none => false
      | none => false
    | _, _ => false
  | none => false

/-- Modelled from the spec: `Locate(p)` of section 4.B (advancing_front.cc is
not under src): the front node n with `n.x ≤ p.x < n.next.x`, none when p.x is
outside the span of the front. -/
def LocateNode (s : SweepContext) (point : Point) : Option NodeId :=
  (frontNodes s).find? (locates s.nodes point)

/-- The angle of the direction `(x, y)` on a scale on which a quarter turn is
`1`: the rational `y / (|x| + |y|)` in the right half plane, continued to
`(1, 2]` in the upper left and to `(-2, -1)` in the lower left quadrant.  It
increases with `atan2(y, x)` and takes the values `0`, `1`, `-1`, `3/2` where
`atan2` takes the values `0`, `π/2`, `-π/2`, `3π/4`. -/
def pseudoAngle (y x : ℚ) : ℚ :=
  let s := (if x < 0 then -x else x) + (if y < 0 then -y else y)
  if s = 0 then 0
  else if 0 ≤ x then y / s
  else if 0 ≤ y then 2 - y / s
  else -2 - y / s

/-- The collaborators as the spec describes them, for a given epsilon, in
exact arithmetic: no operation rounds, and angles are measured by
`pseudoAngle`, so that every comparison of an angle with `0`, `PI_div2`,
`-PI_div2` or `PI_3div4` has the outcome it has over the reals. -/
def specEnv (eps : ℚ) : Env :=
  { EPSILON := eps
    PI_div2 := 1
    PI_3div4 := 3 / 2
    fl := fun q => q
    atan2 := fun y x => pseudoAngle y.val x.val
    Orient2d := Orient2d eps
    InScanArea := InScanArea eps
    LocateNode := LocateNode }

/-- Set `triangle = t` on each of the listed nodes whose point is a vertex of
the triangle. -/
def mapToNodes (t : TriId) (tri : Triangle) : List NodeId → List Node → List Node
  | [], ns => ns
  | n :: rest, ns =>
    match ns[n]? with
    | some nd =>
      match nd.point with
      | some p =>
        if tri.Contains p then mapToNodes t tri rest (ns.set n { nd with triangle := some t })
        else mapToNodes t tri rest ns
      | none => mapToNodes t tri rest ns
    | none => mapToNodes t tri rest ns

/-- Modelled from the spec: `MapTriangleToNodes(t)` of section 4.C
(sweep_context.cc is not under src): for each vertex of t that appears as a
front-node point, set that node's `triangle = t`. -/
def MapTriangleToNodes (t : TriId) : M Unit := do
  let tri ← getTri t
  modifyCtx (fun s => { s with nodes := mapToNodes t tri (frontNodes s) s.nodes })

/-- Modelled from the spec: `AddToMap(t)` of section 4.C (sweep_context.cc is
not under src): append the triangle to the registry. -/
def AddToMap (t : TriId) : M Unit :=
  modifyCtx (fun s => { s with map_ := s.map_ ++ [t] })

/-- The expression `new Triangle(a, b, c)`: a fresh object on the heap. -/
def newTriangle (a b c : Point) : M TriId := fun s =>
  Res.ok s.tris.length { s with tris := s.tris ++ [Triangle.mk3 a b c] }

/-- The expression `new Node(point)`: a fresh node without triangle or links. -/
def newNode (point : Point) : M NodeId := fun s =>
  Res.ok s.nodes.length { s with nodes := s.nodes ++ [⟨some point, none, none, none⟩] }

/-! ## sweep.cc -/

/-- `Sweep::Angle(origin, pa, pb)`, lines 398-416: the double returned by
`atan2(x, y)` for the rounded cross product `x` and dot product `y`. -/
def Angle (env : Env) (origin pa pb : Point) : ℚ :=
  let px := Double.ofCoord origin.x
  let py := Double.ofCoord origin.y
  let ax := env.sub (Double.ofCoord pa.x) px
  let ay := env.sub (Double.ofCoord pa.y) py
  let bx := env.sub (Double.ofCoord pb.x) px
  let by_ := env.sub (Double.ofCoord pb.y) py
  let x := env.sub (env.mul ax by_) (env.mul ay bx)
  let y := env.add (env.mul ax bx) (env.mul ay by_)
  env.atan2 x y

/-- `Sweep::AngleIsNegative`, lines 383-386. -/
def AngleIsNegative (env : Env) (origin pa pb : Point) : Bool :=
  let angle := Angle env origin pa pb
  decide (angle < 0)

/-- `Sweep::AngleExceeds90Degrees`, lines 388-391. -/
def AngleExceeds90Degrees (env : Env) (origin pa pb : Point) : Bool :=
  let angle := Angle env origin pa pb
  decide (angle > env.PI_div2) || decide (angle < -env.PI_div2)

/-- `Sweep::AngleExceedsPlus90DegreesOrIsNegative`, lines 393-396. -/
def AngleExceedsPlus90DegreesOrIsNegative (env : Env) (origin pa pb : Point) : Bool :=
  let angle := Angle env origin pa pb
  decide (angle > env.PI_div2) || decide (angle < 0)

/-- The point of a node, as in `node->point->x`. -/
def nodePoint (n : NodeId) : M Point := do
  let nd ← getNode n
  deref nd.point

/-- `Sweep::LargeHole_DontFill(node)`, lines 359-381. -/
def LargeHole_DontFill (env : Env) (node : NodeId) : M Bool := do
  let nd ← getNode node
  let nextNode ← deref nd.next
  let prevNode ← deref nd.prev
  let p ← deref nd.point
  let pn ← nodePoint nextNode
  let pp ← nodePoint prevNode
  if !AngleExceeds90Degrees env p pn pp then
    return false
  if AngleIsNegative env p pn pp then
    return true
  let next2Node := (← getNode nextNode).next
  let chk1 ← (match next2Node with
    | some n2 => do
      let p2 ← nodePoint n2
      pure (!AngleExceedsPlus90DegreesOrIsNegative env p p2 pp)
    | none => pure false : M Bool)
  if chk1 then
    return false
  let prev2Node := (← getNode prevNode).prev
  let chk2 ← (match prev2Node with
    | some n2 => do
      let p2 ← nodePoint n2
      pure (!AngleExceedsPlus90DegreesOrIsNegative env p pn p2)
    | none => pure false : M Bool)
  if chk2 then
    return false
  return true

/-- `Sweep::BasinAngle(node)`, lines 418-423. -/
def BasinAngle (env : Env) (node : NodeId) : M ℚ := do
  let nd ← getNode node
  let p ← deref nd.point
  let n1 ← deref nd.next
  let n2 ← deref (← getNode n1).next
  let p2 ← nodePoint n2
  let ax := env.sub (Double.ofCoord p.x) (Double.ofCoord p2.x)
  let ay := env.sub (Double.ofCoord p.y) (Double.ofCoord p2.y)
  pure (env.atan2 ay ax)

/-- `Sweep::Incircle(pa, pb, pc, pd)`, lines 540-575, the branch compiled
without POLY2TRI_USE_EXACT. -/
def Incircle (pa pb pc pd : Point) : Bool :=
  let adx := pa.x - pd.x
  let ady := pa.y - pd.y
  let bdx := pb.x - pd.x
  let bdy := pb.y - pd.y
  let adxbdy := adx * bdy
  let bdxady := bdx * ady
  let oabd := adxbdy - bdxady
  if oabd ≤ 0 then false
  else
    let cdx := pc.x - pd.x
    let cdy := pc.y - pd.y
    let cdxady := cdx * ady
    let adxcdy := adx * cdy
    let ocad := cdxady - adxcdy
    if ocad ≤ 0 then false
    else
      let bdxcdy := bdx * cdy
      let cdxbdy := cdx * bdy
      let alift := adx * adx + ady * ady
      let blift := bdx * bdx + bdy * bdy
      let clift := cdx * cdx + cdy * cdy
      let det := alift * (bdxcdy - cdxbdy) + blift * ocad + clift * oabd
      decide (det > 0)

/-- The statement `if (n) self.MarkNeighbor(*n);` of lines 634-637. -/
def MarkNeighborIf (self : TriId) (n : Option TriId) : M Unit :=
  match n with
  | some n => MarkNeighbor self n
  | none => pure ()

/-- `Sweep::RotateTrianglePair(t, p, ot, op)`, lines 592-639. -/
def RotateTrianglePair (t : TriId) (p : Point) (ot : TriId) (op : Point) : M Unit := do
  let tt ← getTri t
  let ott ← getTri ot
  let n1 := tt.NeighborCCW p
  let n2 := tt.NeighborCW p
  let n3 := ott.NeighborCCW op
  let n4 := ott.NeighborCW op
  let ce1 := tt.GetConstrainedEdgeCCW p
  let ce2 := tt.GetConstrainedEdgeCW p
  let ce3 := ott.GetConstrainedEdgeCCW op
  let ce4 := ott.GetConstrainedEdgeCW op
  let de1 := tt.GetDelunayEdgeCCW p
  let de2 := tt.GetDelunayEdgeCW p
  let de3 := ott.GetDelunayEdgeCCW op
  let de4 := ott.GetDelunayEdgeCW op
  modifyTri t (fun x => x.Legalize p op)
  modifyTri ot (fun x => x.Legalize op p)
  -- Remap delaunay_edge
  modifyTri ot (fun x => x.SetDelunayEdgeCCW p de1)
  modifyTri t (fun x => x.SetDelunayEdgeCW p de2)
  modifyTri t (fun x => x.SetDelunayEdgeCCW op de3)
  modifyTri ot (fun x => x.SetDelunayEdgeCW op de4)
  -- Remap constrained_edge
  modifyTri ot (fun x => x.SetConstrainedEdgeCCW p ce1)
  modifyTri t (fun x => x.SetConstrainedEdgeCW p ce2)
  modifyTri t (fun x => x.SetConstrainedEdgeCCW op ce3)
  modifyTri ot (fun x => x.SetConstrainedEdgeCW op ce4)
  -- Remap neighbors
  modifyTri t Triangle.ClearNeighbors
  modifyTri ot Triangle.ClearNeighbors
  MarkNeighborIf ot n1
  MarkNeighborIf t n2
  MarkNeighborIf t n3
  MarkNeighborIf ot n4
  MarkNeighbor t ot

/-- The body of the loop of `Sweep::Legalize` for edge `i`, lines 447-498;
`rec` is the recursive call.  The result is true when the body executes
`return true` and false when it falls through to the next iteration. -/
def LegalizeEdge (rec : TriId → M Bool) (t : TriId) (i : Fin 3) : M Bool := do
  let tt ← getTri t
  if tt.delaunay_edge.get i then
    return false
  match tt.GetNeighbor i with
  | none => return false
  | some ot =>
    let p := tt.GetPoint i
    let ott ← getTri ot
    let op ← deref (ott.OppositePoint tt p)
    let oi ← deref (ott.Index op)
    if ott.constrained_edge.get oi || ott.delaunay_edge.get oi then
      modifyTri t (fun x => { x with constrained_edge := x.constrained_edge.set i (ott.constrained_edge.get oi) })
      return false
    let pccw ← deref (tt.PointCCW p)
    let pcw ← deref (tt.PointCW p)
    let inside := Incircle p pccw pcw op
    if inside then
      modifyTri t (fun x => { x with delaunay_edge := x.delaunay_edge.set i true })
      modifyTri ot (fun x => { x with delaunay_edge := x.delaunay_edge.set oi true })
      RotateTrianglePair t p ot op
      let not_legalized := !(← rec t)
      if not_legalized then
        MapTriangleToNodes t
      let not_legalized := !(← rec ot)
      if not_legalized then
        MapTriangleToNodes ot
      modifyTri t (fun x => { x with delaunay_edge := x.delaunay_edge.set i false })
      modifyTri ot (fun x => { x with delaunay_edge := x.delaunay_edge.set oi false })
      return true
    return false

/-- `Sweep::Legalize(tcx, t)`, lines 442-501. -/
def Legalize : Nat → TriId → M Bool
  | 0, _ => raise Err.out_of_fuel
  | fuel + 1, t => do
    if (← LegalizeEdge (Legalize fuel) t 0) then
      return true
    if (← LegalizeEdge (Legalize fuel) t 1) then
      return true
    if (← LegalizeEdge (Legalize fuel) t 2) then
      return true
    return false

/-- `Sweep::IsEdgeSideOfTriangle(triangle, ep, eq)`, lines 238-251. -/
def IsEdgeSideOfTriangle (triangle : TriId) (ep eq : Point) : M Bool := do
  let tri ← getTri triangle
  match tri.EdgeIndex ep eq with
  | some index =>
    modifyTri triangle (fun x => x.MarkConstrainedEdgeIdx index)
    let t := (← getTri triangle).GetNeighbor index
    match t with
    | some t => modifyTri t (fun x => x.MarkConstrainedEdge ep eq)
    | none => pure ()
    return true
  | none => return false

/-- `Sweep::NewFrontTriangle(tcx, point, node)`, lines 253-274. -/
def NewFrontTriangle (fuel : Nat) (point : Point) (node : NodeId) : M NodeId := do
  let nd ← getNode node
  let p1 ← deref nd.point
  let p2 ← nodePoint (← deref nd.next)
  let triangle ← newTriangle point p1 p2
  MarkNeighbor triangle (← deref nd.triangle)
  AddToMap triangle
  let new_node ← newNode point
  modifyCtx (fun s => { s with nodes_ := s.nodes_ ++ [new_node] })
  let nx := (← getNode node).next
  modifyNode new_node (fun x => { x with next := nx })
  modifyNode new_node (fun x => { x with prev := some node })
  let nx ← deref (← getNode node).next
  modifyNode nx (fun x => { x with prev := some new_node })
  modifyNode node (fun x => { x with next := some new_node })
  if !(← Legalize fuel triangle) then
    MapTriangleToNodes triangle
  return new_node

/-- `Sweep::Fill(tcx, node)`, lines 276-295. -/
def Fill (fuel : Nat) (node : NodeId) : M Unit := do
  let nd ← getNode node
  let a ← nodePoint (← deref nd.prev)
  let b ← deref nd.point
  let c ← nodePoint (← deref nd.next)
  let triangle ← newTriangle a b c
  MarkNeighbor triangle (← deref (← getNode (← deref (← getNode node).prev)).triangle)
  MarkNeighbor triangle (← deref (← getNode node).triangle)
  AddToMap triangle
  -- Update the advancing front
  let nd1 ← getNode node
  modifyNode (← deref nd1.prev) (fun x => { x with next := nd1.next })
  let nd2 ← getNode node
  modifyNode (← deref nd2.next) (fun x => { x with prev := nd2.prev })
  if !(← Legalize fuel triangle) then
    MapTriangleToNodes triangle

/-- The first loop of `Sweep::FillAdvancingFront`, lines 303-308. -/
def FillRightHoles (env : Env) : Nat → Option NodeId → M Unit
  | 0, _ => raise Err.out_of_fuel
  | fuel + 1, node =>
    match node with
    | none => pure ()
    | some n => do
      if (← getNode n).next.isNone then
        return
      if (← LargeHole_DontFill env n) then
        return
      Fill fuel n
      FillRightHoles env fuel (← getNode n).next

/-- The second loop of `Sweep::FillAdvancingFront`, lines 313-318. -/
def FillLeftHoles (env : Env) : Nat → Option NodeId → M Unit
  | 0, _ => raise Err.out_of_fuel
  | fuel + 1, node =>
    match node with
    | none => pure ()
    | some n => do
      if (← getNode n).prev.isNone then
        return
      if (← LargeHole_DontFill env n) then
        return
      Fill fuel n
      FillLeftHoles env fuel (← getNode n).prev

/-- `Sweep::IsShallow(tcx, node)`, lines 711-726. -/
def IsShallow (env : Env) (node : NodeId) : M Bool := do
  let s ← getCtx
  let p ← nodePoint node
  let height ← (if s.basin.left_highest then do
      let l ← nodePoint (← deref s.basin.left_node)
      pure (env.fl (l.y - p.y))
    else do
      let r ← nodePoint (← deref s.basin.right_node)
      pure (env.fl (r.y - p.y)) : M ℚ)
  if s.basin.width > height then
    return true
  return false

/-- `Sweep::FillBasinReq(tcx, node)`, lines 676-709. -/
def FillBasinReq (env : Env) : Nat → NodeId → M Unit
  | 0, _ => raise Err.out_of_fuel
  | fuel + 1, node => do
    if (← IsShallow env node) then
      return
    Fill fuel node
    let nd ← getNode node
    let s ← getCtx
    if nd.prev = s.basin.left_node ∧ nd.next = s.basin.right_node then
      return
    else if nd.prev = s.basin.left_node then
      let p ← deref nd.point
      let n1 ← deref nd.next
      let p1 ← nodePoint n1
      let p2 ← nodePoint (← deref (← getNode n1).next)
      let o := env.Orient2d p p1 p2
      if o = Orientation.CW then
        return
      FillBasinReq env fuel n1
    else if nd.next = s.basin.right_node then
      let p ← deref nd.point
      let n1 ← deref nd.prev
      let p1 ← nodePoint n1
      let p2 ← nodePoint (← deref (← getNode n1).prev)
      let o := env.Orient2d p p1 p2
      if o = Orientation.CCW then
        return
      FillBasinReq env fuel n1
    else
      let n1 ← deref nd.prev
      let n2 ← deref nd.next
      if (← nodePoint n1).y < (← nodePoint n2).y then
        FillBasinReq env fuel n1
      else
        FillBasinReq env fuel n2

/-- The first loop of `Sweep::FillBasin`, lines 651-654: advance
`tcx.basin.bottom_node`. -/
def FillBasinBottom : Nat → M Unit
  | 0 => raise Err.out_of_fuel
  | fuel + 1 => do
    let b ← deref (← getCtx).basin.bottom_node
    let bn ← getNode b
    match bn.next with
    | none => return
    | some nx =>
      if (← deref bn.point).y ≥ (← nodePoint nx).y then
        modifyCtx (fun s => { s with basin := { s.basin with bottom_node := some nx } })
        FillBasinBottom fuel
      else
        return

/-- The second loop of `Sweep::FillBasin`, lines 661-664: advance
`tcx.basin.right_node`. -/
def FillBasinRight : Nat → M Unit
  | 0 => raise Err.out_of_fuel
  | fuel + 1 => do
    let b ← deref (← getCtx).basin.right_node
    let bn ← getNode b
    match bn.next with
    | none => return
    | some nx =>
      if (← deref bn.point).y < (← nodePoint nx).y then
        modifyCtx (fun s => { s with basin := { s.basin with right_node := some nx } })
        FillBasinRight fuel
      else
        return

/-- `Sweep::FillBasin(tcx, node)`, lines 641-674. -/
def FillBasin (env : Env) (fuel : Nat) (node : NodeId) : M Unit := do
  let nd ← getNode node
  let p ← deref nd.point
  let n1 ← deref nd.next
  let p1 ← nodePoint n1
  let n2 := (← getNode n1).next
  let p2 ← nodePoint (← deref n2)
  if env.Orient2d p p1 p2 = Orientation.CCW then
    modifyCtx (fun s => { s with basin := { s.basin with left_node := n2 } })
  else
    modifyCtx (fun s => { s with basin := { s.basin with left_node := some n1 } })
  -- Find the bottom and right node
  modifyCtx (fun s => { s with basin := { s.basin with bottom_node := s.basin.left_node } })
  FillBasinBottom fuel
  if (← getCtx).basin.bottom_node = (← getCtx).basin.left_node then
    return
  modifyCtx (fun s => { s with basin := { s.basin with right_node := s.basin.bottom_node } })
  FillBasinRight fuel
  if (← getCtx).basin.right_node = (← getCtx).basin.bottom_node then
    return
  let r ← nodePoint (← deref (← getCtx).basin.right_node)
  let l ← nodePoint (← deref (← getCtx).basin.left_node)
  modifyCtx (fun s => { s with basin := { s.basin with width := env.fl (r.x - l.x) } })
  modifyCtx (fun s => { s with basin := { s.basin with left_highest := decide (l.y > r.y) } })
  FillBasinReq env fuel (← deref (← getCtx).basin.bottom_node)

/-- `Sweep::FillAdvancingFront(tcx, n)`, lines 297-327. -/
def FillAdvancingFront (env : Env) (fuel : Nat) (n : NodeId) : M Unit := do
  -- Fill right holes
  FillRightHoles env fuel (← getNode n).next
  -- Fill left holes
  FillLeftHoles env fuel (← getNode n).prev
  -- Fill right basins
  match (← getNode n).next with
  | none => pure ()
  | some nx =>
    if (← getNode nx).next.isSome then
      let angle ← BasinAngle env n
      if angle < env.PI_3div4 then
        FillBasin env fuel n

/-- `Sweep::PointEvent(tcx, point)`, lines 78-99. -/
def PointEvent (env : Env) (fuel : Nat) (point : Point) : M NodeId := do
  let node_ptr := env.LocateNode (← getCtx) point
  match node_ptr with
  | none => raise (Err.runtime_error RuntimeMsg.PointEvent_null_node)
  | some node =>
    let nd ← getNode node
    if nd.point.isNone || nd.next.isNone then
      raise (Err.runtime_error RuntimeMsg.PointEvent_null_node)
    else if (← getNode (← deref nd.next)).point.isNone then
      raise (Err.runtime_error RuntimeMsg.PointEvent_null_node)
    else
      let new_node ← NewFrontTriangle fuel point node
      if point.x ≤ (← nodePoint node).x + env.EPSILON then
        Fill fuel node
      FillAdvancingFront env fuel new_node
      return new_node

/-- `Sweep::FillRightConcaveEdgeEvent(tcx, edge, node)`, lines 764-779. -/
def FillRightConcaveEdgeEvent (env : Env) : Nat → EdgeId → NodeId → M Unit
  | 0, _, _ => raise Err.out_of_fuel
  | fuel + 1, edge, node => do
    Fill fuel (← deref (← getNode node).next)
    let nx ← deref (← getNode node).next
    let pn ← nodePoint nx
    let e ← getEdge edge
    if pn ≠ e.p then
      if env.Orient2d e.q pn e.p = Orientation.CCW then
        let p ← nodePoint node
        let p2 ← nodePoint (← deref (← getNode nx).next)
        if env.Orient2d p pn p2 = Orientation.CCW then
          FillRightConcaveEdgeEvent env fuel edge node

/-- `Sweep::FillRightConvexEdgeEvent(tcx, edge, node)`, lines 781-797. -/
def FillRightConvexEdgeEvent (env : Env) : Nat → EdgeId → NodeId → M Unit
  | 0, _, _ => raise Err.out_of_fuel
  | fuel + 1, edge, node => do
    let n1 ← deref (← getNode node).next
    let n2 ← deref (← getNode n1).next
    let n3 ← deref (← getNode n2).next
    let p1 ← nodePoint n1
    let p2 ← nodePoint n2
    let p3 ← nodePoint n3
    if env.Orient2d p1 p2 p3 = Orientation.CCW then
      FillRightConcaveEdgeEvent env fuel edge n1
    else
      let e ← getEdge edge
      if env.Orient2d e.q p2 e.p = Orientation.CCW then
        FillRightConvexEdgeEvent env fuel edge n1

/-- `Sweep::FillRightBelowEdgeEvent(tcx, edge, node)`, lines 749-762. -/
def FillRightBelowEdgeEvent (env : Env) : Nat → EdgeId → NodeId → M Unit
  | 0, _, _ => raise Err.out_of_fuel
  | fuel + 1, edge, node => do
    let p ← nodePoint node
    let e ← getEdge edge
    if p.x < e.p.x then
      let n1 ← deref (← getNode node).next
      let p1 ← nodePoint n1
      let p2 ← nodePoint (← deref (← getNode n1).next)
      if env.Orient2d p p1 p2 = Orientation.CCW then
        FillRightConcaveEdgeEvent env fuel edge node
      else
        FillRightConvexEdgeEvent env fuel edge node
        FillRightBelowEdgeEvent env fuel edge node

/-- `Sweep::FillRightAboveEdgeEvent(tcx, edge, node)`, lines 737-747. -/
def FillRightAboveEdgeEvent (env : Env) : Nat → EdgeId → NodeId → M Unit
  | 0, _, _ => raise Err.out_of_fuel
  | fuel + 1, edge, node => do
    let n1 ← deref (← getNode node).next
    let p1 ← nodePoint n1
    let e ← getEdge edge
    if p1.x < e.p.x then
      if env.Orient2d e.q p1 e.p = Orientation.CCW then
        FillRightBelowEdgeEvent env fuel edge node
        FillRightAboveEdgeEvent env fuel edge node
      else
        FillRightAboveEdgeEvent env fuel edge n1

/-- `Sweep::FillLeftConcaveEdgeEvent(tcx, edge, node)`, lines 844-859. -/
def FillLeftConcaveEdgeEvent (env : Env) : Nat → EdgeId → NodeId → M Unit
  | 0, _, _ => raise Err.out_of_fuel
  | fuel + 1, edge, node => do
    Fill fuel (← deref (← getNode node).prev)
    let pv ← deref (← getNode node).prev
    let pn ← nodePoint pv
    let e ← getEdge edge
    if pn ≠ e.p then
      if env.Orient2d e.q pn e.p = Orientation.CW then
        let p ← nodePoint node
        let p2 ← nodePoint (← deref (← getNode pv).prev)
        if env.Orient2d p pn p2 = Orientation.CW then
          FillLeftConcaveEdgeEvent env fuel edge node

/-- `Sweep::FillLeftConvexEdgeEvent(tcx, edge, node)`, lines 826-842. -/
def FillLeftConvexEdgeEvent (env : Env) : Nat → EdgeId → NodeId → M Unit
  | 0, _, _ => raise Err.out_of_fuel
  | fuel + 1, edge, node => do
    let n1 ← deref (← getNode node).prev
    let n2 ← deref (← getNode n1).prev
    let n3 ← deref (← getNode n2).prev
    let p1 ← nodePoint n1
    let p2 ← nodePoint n2
    let p3 ← nodePoint n3
    if env.Orient2d p1 p2 p3 = Orientation.CW then
      FillLeftConcaveEdgeEvent env fuel edge n1
    else
      let e ← getEdge edge
      if env.Orient2d e.q p2 e.p = Orientation.CW then
        FillLeftConvexEdgeEvent env fuel edge n1

/-- `Sweep::FillLeftBelowEdgeEvent(tcx, edge, node)`, lines 811-824. -/
def FillLeftBelowEdgeEvent (env : Env) : Nat → EdgeId → NodeId → M Unit
  | 0, _, _ => raise Err.out_of_fuel
  | fuel + 1, edge, node => do
    let p ← nodePoint node
    let e ← getEdge edge
    if p.x > e.p.x then
      let n1 ← deref (← getNode node).prev
      let p1 ← nodePoint n1
      let p2 ← nodePoint (← deref (← getNode n1).prev)
      if env.Orient2d p p1 p2 = Orientation.CW then
        FillLeftConcaveEdgeEvent env fuel edge node
      else
        FillLeftConvexEdgeEvent env fuel edge node
        FillLeftBelowEdgeEvent env fuel edge node

/-- `Sweep::FillLeftAboveEdgeEvent(tcx, edge, node)`, lines 799-809. -/
def FillLeftAboveEdgeEvent (env : Env) : Nat → EdgeId → NodeId → M Unit
  | 0, _, _ => raise Err.out_of_fuel
  | fuel + 1, edge, node => do
    let n1 ← deref (← getNode node).prev
    let p1 ← nodePoint n1
    let e ← getEdge edge
    if p1.x > e.p.x then
      if env.Orient2d e.q p1 e.p = Orientation.CW then
        FillLeftBelowEdgeEvent env fuel edge node
        FillLeftAboveEdgeEvent env fuel edge node
      else
        FillLeftAboveEdgeEvent env fuel edge n1

/-- `Sweep::FillEdgeEvent(tcx, edge, node)`, lines 728-735. -/
def FillEdgeEvent (env : Env) (fuel : Nat) (edge : EdgeId) (node : NodeId) : M Unit := do
  if (← getCtx).edge_event.right then
    FillRightAboveEdgeEvent env fuel edge node
  else
    FillLeftAboveEdgeEvent env fuel edge node

/-- `Sweep::NextFlipTriangle(tcx, o, t, ot, p, op)`, lines 899-917. -/
def NextFlipTriangle (fuel : Nat) (o : Orientation) (t ot : TriId) (p op : Point) : M TriId := do
  if o = Orientation.CCW then
    let edge_index ← deref ((← getTri ot).EdgeIndex p op)
    modifyTri ot (fun x => { x with delaunay_edge := x.delaunay_edge.set edge_index true })
    let _ ← Legalize fuel ot
    modifyTri ot Triangle.ClearDelunayEdges
    return t
  let edge_index ← deref ((← getTri t).EdgeIndex p op)
  modifyTri t (fun x => { x with delaunay_edge := x.delaunay_edge.set edge_index true })
  let _ ← Legalize fuel t
  modifyTri t Triangle.ClearDelunayEdges
  return ot

/-- `Sweep::NextFlipPoint(ep, eq, ot, op)`, lines 919-930. -/
def NextFlipPoint (env : Env) (ep eq : Point) (ot : TriId) (op : Point) : M Point := do
  let o2d := env.Orient2d eq op ep
  if o2d = Orientation.CW then
    deref ((← getTri ot).PointCCW op)
  else if o2d = Orientation.CCW then
    deref ((← getTri ot).PointCW op)
  else
    raise (Err.collinear_points_exception eq op ep)

/-- The body of `Sweep::EdgeEvent(tcx, ep, eq, triangle, point)`, lines
124-236, the interior form; `recur` is the recursive call of `EdgeEvent` and
`flip` the call of `FlipEdgeEvent`. -/
def EdgeEventBody (env : Env) (recur : Point → Point → Option TriId → Point → M Unit)
    (flip : Point → Point → TriId → Point → M Unit)
    (ep eq : Point) (triangle : Option TriId) (point : Point) : M Unit :=
  match triangle with
  | none => raise (Err.null_triangle_exception none)
  | some tr => do
    if (← IsEdgeSideOfTriangle tr ep eq) then
      return
    let tri ← getTri tr
    match tri.PointCCW point with
    | none =>
      raise (Err.degenerate_triangle_exception (tri.GetPoint 0) (tri.GetPoint 1) (tri.GetPoint 2))
    | some p1 =>
      let o1 := env.Orient2d eq p1 ep
      if o1 = Orientation.COLLINEAR then
        if tri.Contains2 eq p1 then
          modifyTri tr (fun x => x.MarkConstrainedEdge eq p1)
          let ce ← deref (← getCtx).edge_event.constrained_edge
          modifyEdge ce (fun e => { e with q := p1 })
          match (← getTri tr).NeighborAcross point with
          | some nt => recur ep p1 (some nt) p1
          | none => raise (Err.null_triangle_exception (some tr))
        else
          raise (Err.collinear_points_exception eq p1 ep)
      else
        match tri.PointCW point with
        | none =>
          raise (Err.degenerate_triangle_exception (tri.GetPoint 0) (tri.GetPoint 1) (tri.GetPoint 2))
        | some p2 =>
          let o2 := env.Orient2d eq p2 ep
          if o2 = Orientation.COLLINEAR then
            if tri.Contains2 eq p2 then
              modifyTri tr (fun x => x.MarkConstrainedEdge eq p2)
              let ce ← deref (← getCtx).edge_event.constrained_edge
              modifyEdge ce (fun e => { e with q := p2 })
              match (← getTri tr).NeighborAcross point with
              | some nt => recur ep p2 (some nt) p2
              | none => raise (Err.null_triangle_exception (some tr))
            else
              raise (Err.collinear_points_exception eq p2 ep)
          else if o1 = o2 then
            let nt := if o1 = Orientation.CW then tri.NeighborCCW point else tri.NeighborCW point
            match nt with
            | some nt => recur ep eq (some nt) point
            | none => raise (Err.null_triangle_exception (some tr))
          else
            flip ep eq tr point

mutual

/-- `Sweep::EdgeEvent(tcx, ep, eq, triangle, point)`, lines 124-236, the
interior form. -/
def EdgeEventInterior (env : Env) : Nat → Point → Point → Option TriId → Point → M Unit
  | 0, _, _, _, _ => raise Err.out_of_fuel
  | fuel + 1, ep, eq, triangle, point =>
    EdgeEventBody env (EdgeEventInterior env fuel) (FlipEdgeEvent env fuel) ep eq triangle point

/-- `Sweep::FlipEdgeEvent(tcx, ep, eq, t, p)`, lines 861-897. -/
def FlipEdgeEvent (env : Env) : Nat → Point → Point → TriId → Point → M Unit
  | 0, _, _, _, _ => raise Err.out_of_fuel
  | fuel + 1, ep, eq, t, p => do
    let tt ← getTri t
    match tt.NeighborAcross p with
    | none => raise (Err.runtime_error RuntimeMsg.FlipEdgeEvent_null_neighbor_across)
    | some ot =>
      let op ← deref ((← getTri ot).OppositePoint tt p)
      let pccw ← deref (tt.PointCCW p)
      let pcw ← deref (tt.PointCW p)
      if env.InScanArea p pccw pcw op then
        RotateTrianglePair t p ot op
        MapTriangleToNodes t
        MapTriangleToNodes ot
        if p = eq ∧ op = ep then
          let e ← getEdge (← deref (← getCtx).edge_event.constrained_edge)
          if eq = e.q ∧ ep = e.p then
            modifyTri t (fun x => x.MarkConstrainedEdge ep eq)
            modifyTri ot (fun x => x.MarkConstrainedEdge ep eq)
            let _ ← Legalize fuel t
            let _ ← Legalize fuel ot
          else
            pure ()
        else
          let o := env.Orient2d eq op ep
          let t1 ← NextFlipTriangle fuel o t ot p op
          FlipEdgeEvent env fuel ep eq t1 p
      else
        let newP ← NextFlipPoint env ep eq ot op
        FlipScanEdgeEvent env fuel ep eq t ot newP
        EdgeEventInterior env fuel ep eq (some t) p

/-- `Sweep::FlipScanEdgeEvent(tcx, ep, eq, flip_triangle, t, p)`, lines 932-968. -/
def FlipScanEdgeEvent (env : Env) : Nat → Point → Point → TriId → TriId → Point → M Unit
  | 0, _, _, _, _, _ => raise Err.out_of_fuel
  | fuel + 1, ep, eq, flip_triangle, t, p => do
    let tt ← getTri t
    match tt.NeighborAcross p with
    | none => raise (Err.runtime_error RuntimeMsg.FlipScanEdgeEvent_null_neighbor_across)
    | some ot =>
      match (← getTri ot).OppositePoint tt p with
      | none => raise (Err.runtime_error RuntimeMsg.FlipScanEdgeEvent_null_opposing_point)
      | some op =>
        let ft ← getTri flip_triangle
        match ft.PointCCW eq, ft.PointCW eq with
        | some p1, some p2 =>
          if env.InScanArea eq p1 p2 op then
            FlipEdgeEvent env fuel eq op ot op
          else
            let newP ← NextFlipPoint env ep eq ot op
            FlipScanEdgeEvent env fuel ep eq flip_triangle ot newP
        | _, _ => raise (Err.runtime_error RuntimeMsg.FlipScanEdgeEvent_null_on_either_of_points)

end

/-- The body of `Sweep::EdgeEvent(tcx, edge, node)`, lines 101-122, the
top-level form; `interior` is the call of the interior form at line 116. -/
def EdgeEventTop (env : Env) (interior : Point → Point → Option TriId → Point → M Unit)
    (fuel : Nat) (edge : EdgeId) (node : NodeId) : M Unit := do
  modifyCtx (fun s => { s with edge_event := { s.edge_event with constrained_edge := some edge } })
  let e ← getEdge edge
  modifyCtx (fun s => { s with edge_event := { s.edge_event with right := decide (e.p.x > e.q.x) } })
  if (← IsEdgeSideOfTriangle (← deref (← getNode node).triangle) e.p e.q) then
    return
  FillEdgeEvent env fuel edge node
  match (← getNode node).triangle with
  | some tr =>
    let e1 ← getEdge edge
    interior e1.p e1.q (some tr) e1.q
  | none => raise (Err.null_triangle_exception none)

/-- `Sweep::EdgeEvent(tcx, edge, node)`, lines 101-122, the top-level form. -/
def EdgeEvent (env : Env) (fuel : Nat) (edge : EdgeId) (node : NodeId) : M Unit :=
  EdgeEventTop env (EdgeEventInterior env fuel) fuel edge node

/-! ## The sweep as a whole -/

/-- The member functions of `SweepContext` that `Triangulate` and
`FinalizationPolygon` call; sweep_context.cc is not under src, so they are
parameters of the model. -/
structure ContextOps where
  InitTriangulation : M Unit
  CreateAdvancingFront : M Unit
  MeshClean : TriId → M Unit

/-- The loop of `Sweep::FinalizationPolygon`, lines 68-70: from `t`, step to the
neighbour counter-clockwise of `p` until the triangle is null or its edge
clockwise of `p` is constrained; the result is the value of `t` after the
loop. -/
def FinalizationWalk (p : Option Point) : Nat → Option TriId → M (Option TriId)
  | 0, _ => raise Err.out_of_fuel
  | fuel + 1, t =>
    match t with
    | none => pure none
    | some tr => do
      let tri ← getTri tr
      let pt ← deref p
      if !tri.GetConstrainedEdgeCW pt then
        FinalizationWalk p fuel (tri.NeighborCCW pt)
      else
        pure (some tr)

/-- `Sweep::FinalizationPolygon(tcx)`, lines 63-76. -/
def FinalizationPolygon (ops : ContextOps) (fuel : Nat) : M Unit := do
  -- Get an Internal triangle to start with
  let head ← deref (← getCtx).head_
  let t := (← getNode (← deref (← getNode head).next)).triangle
  let p := (← getNode (← deref (← getNode head).next)).point
  let t ← FinalizationWalk p fuel t
  -- Collect interior triangles constrained by edges
  match t with
  | some tr => ops.MeshClean tr
  | none => pure ()

/-- The inner loop of `Sweep::SweepPoints`, lines 56-58: an `EdgeEvent` for
each edge of the list of the point. -/
def SweepEdges (env : Env) (fuel : Nat) (node : NodeId) : List EdgeId → M Unit
  | [] => pure ()
  | j :: rest => do
    EdgeEvent env fuel j node
    SweepEdges env fuel node rest

/-- The loop of `Sweep::SweepPoints`, lines 53-59, from index `i` on, with
`count` points left. -/
def SweepPointsFrom (env : Env) (fuel : Nat) : Nat → Nat → M Unit
  | 0, _ => pure ()
  | count + 1, i => do
    let point ← deref (← getCtx).points_[i]?
    let node ← PointEvent env fuel point
    SweepEdges env fuel node ((← getCtx).edge_list[i]?.getD [])
    SweepPointsFrom env fuel count (i + 1)

/-- `Sweep::SweepPoints(tcx)`, lines 51-60. -/
def SweepPoints (env : Env) (fuel : Nat) : M Unit := do
  SweepPointsFrom env fuel ((← getCtx).points_.length - 1) 1

/-- `Sweep::Triangulate(tcx)`, lines 42-49. -/
def Triangulate (env : Env) (ops : ContextOps) (fuel : Nat) : M Unit := do
  ops.InitTriangulation
  ops.CreateAdvancingFront
  -- Sweep points; build mesh
  SweepPoints env fuel
  -- Clean up
  FinalizationPolygon ops fuel

/-- Modelled from the spec: the order of the sorted input points, section 4.D:
ascending y, tiebreak ascending x. -/
def pointLe (a b : Point) : Prop := a.y < b.y ∨ (a.y = b.y ∧ a.x ≤ b.x)

instance : DecidableRel pointLe := fun a b => by unfold pointLe; infer_instance

/-- Modelled from the spec: `InitTriangulation` of section 4.D
(sweep_context.cc is not under src): sorts the points, allocates the
super-triangle, and builds the per-point edge lists by attaching every
constraint edge to the list of its upper endpoint.  The spec does not say
where the two sentinel points of the super-triangle are, other than below all
input (section 2); they are the parameters `left` and `right`. -/
def InitTriangulation (left right : Point) : M Unit := do
  modifyCtx (fun s => { s with points_ := s.points_.insertionSort pointLe })
  let p0 ← deref (← getCtx).points_[0]?
  let t ← newTriangle p0 left right
  AddToMap t
  modifyCtx (fun s => { s with
    edge_list := s.points_.map (fun p =>
      (List.range s.edges.length).filter (fun e =>
        match s.edges[e]? with
        | some ed => decide (ed.q = p)
        | none => false)) })

/-- Modelled from the spec: `CreateAdvancingFront` of section 4.D
(sweep_context.cc is not under src): inserts head, the first real point's
bootstrap node, and tail; by section 3 the sentinel nodes carry the
super-triangle, taken here to be the first triangle of the registry.
`tailCarries` says whether the tail sentinel carries it as well. -/
def CreateAdvancingFront (tailCarries : Bool) : M Unit := do
  let t ← deref (← getCtx).map_[0]?
  let tri ← getTri t
  let head ← newNode (tri.GetPoint 1)
  let middle ← newNode (tri.GetPoint 0)
  let tail ← newNode (tri.GetPoint 2)
  modifyNode head (fun x => { x with triangle := some t, next := some middle })
  modifyNode middle (fun x => { x with triangle := some t, next := some tail, prev := some head })
  modifyNode tail (fun x => { x with triangle := if tailCarries then some t else none, prev := some middle })
  modifyCtx (fun s => { s with head_ := some head, tail_ := some tail })

/-- Modelled from the spec: the walk of `MeshClean`, section 4.C, with the
triangles still to visit on a stack. -/
def MeshCleanStack : Nat → List (Option TriId) → M Unit
  | 0, _ => raise Err.out_of_fuel
  | _ + 1, [] => pure ()
  | fuel + 1, none :: rest => MeshCleanStack fuel rest
  | fuel + 1, some t :: rest => do
    let tri ← getTri t
    if tri.interior_ then
      MeshCleanStack fuel rest
    else
      modifyTri t (fun x => { x with interior_ := true })
      let across := (List.finRange 3).filterMap (fun i =>
        if tri.constrained_edge.get i then none else some (tri.GetNeighbor i))
      MeshCleanStack fuel (across ++ rest)

/-- Modelled from the spec: `MeshClean(seed)` of section 4.C (sweep_context.cc
is not under src): depth-first walk starting from `seed`, marking every
reachable triangle interior unless the crossing edge is constrained. -/
def MeshClean (fuel : Nat) (seed : TriId) : M Unit :=
  MeshCleanStack fuel [some seed]

/-- The member functions of the context as the spec describes them. -/
def specOps (left right : Point) (tailCarries : Bool) (fuel : Nat) : ContextOps :=
  { InitTriangulation := InitTriangulation left right
    CreateAdvancingFront := CreateAdvancingFront tailCarries
    MeshClean := MeshClean fuel }

/-! ## Notions used to state the properties -/

/-- The determinant `(b.x−a.x)(c.y−a.y) − (b.y−a.y)(c.x−a.x)`: twice the signed
area of the triangle (a, b, c), positive when it is counter-clockwise. -/
def area2 (a b c : Point) : ℚ :=
  (b.x - a.x) * (c.y - a.y) - (b.y - a.y) * (c.x - a.x)

/-- Squared distance from the point `p` to the position `(ox, oy)`. -/
def sqDist (p : Point) (ox oy : ℚ) : ℚ :=
  (p.x - ox) * (p.x - ox) + (p.y - oy) * (p.y - oy)

/-- The point `d` lies strictly inside the circle through `a`, `b` and `c`:
some centre is at one distance from a, b and c and strictly nearer to d. -/
def InCircumcircle (a b c d : Point) : Prop :=
  ∃ ox oy : ℚ, sqDist a ox oy = sqDist b ox oy ∧ sqDist b ox oy = sqDist c ox oy ∧
    sqDist d ox oy < sqDist a ox oy

/-- Did the call return normally? -/
def Res.isOk {α : Type} : Res α → Bool
  | Res.ok _ _ => true
  | Res.throw _ _ => false

/-- The state a call ended in, by normal return or by exception. -/
def Res.ctx {α : Type} : Res α → SweepContext
  | Res.ok _ s => s
  | Res.throw _ s => s

/-- The exception a call ended with, if any. -/
def Res.err {α : Type} : Res α → Option Err
  | Res.ok _ _ => none
  | Res.throw e _ => some e

/-- The two endpoints of edge `i` of a triangle: the vertices other than
vertex `i`. -/
def Triangle.edgeEnds (t : Triangle) (i : Fin 3) : Point × Point :=
  match i with
  | 0 => (t.points_.a1, t.points_.a2)
  | 1 => (t.points_.a2, t.points_.a0)
  | 2 => (t.points_.a0, t.points_.a1)

/-- Edge `i` of the triangle has the endpoints `u` and `v`, in either order. -/
def Triangle.isEdge (t : Triangle) (i : Fin 3) (u v : Point) : Prop :=
  t.edgeEnds i = (u, v) ∨ t.edgeEnds i = (v, u)

instance (t : Triangle) (i : Fin 3) (u v : Point) : Decidable (t.isEdge i u v) := by
  unfold Triangle.isEdge
  infer_instance

/-- The triangle has a side with endpoints `u` and `v`. -/
def Triangle.HasSide (t : Triangle) (u v : Point) : Prop :=
  ∃ i : Fin 3, t.isEdge i u v

instance (t : Triangle) (u v : Point) : Decidable (t.HasSide u v) := by
  unfold Triangle.HasSide
  infer_instance

/-- The triangle has a side with endpoints `u` and `v` that is marked
constrained. -/
def Triangle.HasConstrainedSide (t : Triangle) (u v : Point) : Prop :=
  ∃ i : Fin 3, t.isEdge i u v ∧ t.constrained_edge.get i = true

instance (t : Triangle) (u v : Point) : Decidable (t.HasConstrainedSide u v) := by
  unfold Triangle.HasConstrainedSide
  infer_instance

/-- The three vertices of the triangle are pairwise different points. -/
def Triangle.Distinct (t : Triangle) : Prop :=
  t.points_.a0 ≠ t.points_.a1 ∧ t.points_.a1 ≠ t.points_.a2 ∧ t.points_.a2 ≠ t.points_.a0

instance (t : Triangle) : Decidable t.Distinct := by
  unfold Triangle.Distinct
  infer_instance

/-- The triangle t after lines 612-632 of `RotateTrianglePair(t, p, ot, op)`:
re-vertexed, with the captured flags restored and the neighbours cleared. -/
def rotatedT (tt ott : Triangle) (p op : Point) : Triangle :=
  (((((tt.Legalize p op).SetDelunayEdgeCW p (tt.GetDelunayEdgeCW p)).SetDelunayEdgeCCW op
    (ott.GetDelunayEdgeCCW op)).SetConstrainedEdgeCW p (tt.GetConstrainedEdgeCW p)).SetConstrainedEdgeCCW
    op (ott.GetConstrainedEdgeCCW op)).ClearNeighbors

/-- The triangle ot after lines 613-633 of `RotateTrianglePair(t, p, ot, op)`. -/
def rotatedOT (tt ott : Triangle) (p op : Point) : Triangle :=
  (((((ott.Legalize op p).SetDelunayEdgeCCW p (tt.GetDelunayEdgeCCW p)).SetDelunayEdgeCW op
    (ott.GetDelunayEdgeCW op)).SetConstrainedEdgeCCW p (tt.GetConstrainedEdgeCCW p)).SetConstrainedEdgeCW
    op (ott.GetConstrainedEdgeCW op)).ClearNeighbors

/-- Lines 634-638 of `RotateTrianglePair`: the outer neighbours n1..n4 and
the pair itself are linked again. -/
def RemapNeighbors (t ot : TriId) (n1 n2 n3 n4 : Option TriId) : M Unit := do
  MarkNeighborIf ot n1
  MarkNeighborIf t n2
  MarkNeighborIf t n3
  MarkNeighborIf ot n4
  MarkNeighbor t ot

/-- The index of the side of the triangle with endpoints `u` and `v`, in
either order, if it has one. -/
def Triangle.sideIndex (t : Triangle) (u v : Point) : Option (Fin 3) :=
  if t.isEdge 0 u v then some 0
  else if t.isEdge 1 u v then some 1
  else if t.isEdge 2 u v then some 2
  else none

/-- The constrained flag the triangle carries on its side with endpoints `u`
and `v`; none when it has no such side. -/
def Triangle.constrainedOn (t : Triangle) (u v : Point) : Option Bool :=
  (t.sideIndex u v).map t.constrained_edge.get

/-- The delaunay flag the triangle carries on its side with endpoints `u` and
`v`; none when it has no such side. -/
def Triangle.delaunayOn (t : Triangle) (u v : Point) : Option Bool :=
  (t.sideIndex u v).map t.delaunay_edge.get

/-- The neighbour the triangle records across its side with endpoints `u` and
`v`; none when it has no such side or no neighbour there. -/
def Triangle.neighborOn (t : Triangle) (u v : Point) : Option TriId :=
  (t.sideIndex u v).bind t.neighbors_.get

/-- Everything a triangle object holds except its neighbour links. -/
def Triangle.shape (t : Triangle) : Arr3 Point × Arr3 Bool × Arr3 Bool × Bool :=
  (t.points_, t.constrained_edge, t.delaunay_edge, t.interior_)

/-- The state `s1` differs from `s` at most in the neighbour links of the
triangles. -/
def SameButLinks (s s1 : SweepContext) : Prop :=
  s1 = { s with tris := s1.tris } ∧ s1.tris.map Triangle.shape = s.tris.map Triangle.shape

/-- The unordered pairs {x, y} and {u, v} are the same. -/
def sameEdge (x y u v : Point) : Prop :=
  (x = u ∧ y = v) ∨ (x = v ∧ y = u)

instance (x y u v : Point) : Decidable (sameEdge x y u v) := by
  unfold sameEdge
  infer_instance

/-- The neighbour that triangle object `X` records across its side with
endpoints `x` and `y`; none when `X` is not an object, has no such side, or
has no neighbour there. -/
def linkOn (s : SweepContext) (X : TriId) (x y : Point) : Option TriId :=
  match s.tris[X]? with
  | some tx => tx.neighborOn x y
  | none => none

/-- Every triangle of the mesh has three different vertices. -/
def MeshDistinct (s : SweepContext) : Prop :=
  ∀ (X : TriId) (tx : Triangle), s.tris[X]? = some tx → tx.Distinct

/-- Neighbour links are symmetric (invariant 2 of section 3): when X records
Y as the neighbour across its side with endpoints x and y, then Y has a side
with the same endpoints and records X across it. -/
def SymLinks (s : SweepContext) : Prop :=
  ∀ X x y Y, linkOn s X x y = some Y → linkOn s Y x y = some X

/-- A decision procedure for `MeshDistinct`. -/
def meshDistinctCheck (s : SweepContext) : Bool :=
  s.tris.all (fun t => decide t.Distinct)

/-- A decision procedure for `SymLinks` on meshes whose triangles have three
different vertices: every recorded neighbour records the triangle back across
the side with the same endpoints. -/
def symLinksCheck (s : SweepContext) : Bool :=
  (List.range s.tris.length).all fun X =>
    match s.tris[X]? with
    | none => true
    | some tx =>
      (List.finRange 3).all fun k =>
        match tx.neighbors_.get k with
        | none => true
        | some Y => decide (linkOn s Y (tx.edgeEnds k).1 (tx.edgeEnds k).2 = some X)

/-! ### Properties of the state that a call maintains -/

/-- A property of the state that a piece of code maintains, whether it
returns or throws. -/
def Inv (P : SweepContext → Prop) {α : Type} (m : M α) : Prop :=
  ∀ s, P s → P (m s).ctx

/-- The part of a node that links the advancing front: its point and its two
neighbours on the front, without its triangle. -/
def Node.skel (n : Node) : Option Point × Option NodeId × Option NodeId :=
  (n.point, n.next, n.prev)

/-- The property does not read the triangle heap. -/
def IgnoresTris (P : SweepContext → Prop) : Prop :=
  ∀ s v, P s → P { s with tris := v }

/-- The property does not read the triangle registry. -/
def IgnoresMap (P : SweepContext → Prop) : Prop :=
  ∀ s v, P s → P { s with map_ := v }

/-- The property does not read the triangle pointers of the nodes. -/
def IgnoresNodeTriangles (P : SweepContext → Prop) : Prop :=
  ∀ s v, v.map Node.skel = s.nodes.map Node.skel → P s → P { s with nodes := v }

/-- The property does not read the node heap. -/
def IgnoresNodes (P : SweepContext → Prop) : Prop :=
  ∀ s v, P s → P { s with nodes := v }

/-! ### Inserting a constraint edge -/

/-- The constraint being inserted: the scratch field points at the edge
object `edge`, which runs from ep to eq. -/
def Inserting (edge : EdgeId) (s : SweepContext) (ep eq : Point) : Prop :=
  s.edge_event.constrained_edge = some edge ∧
    ∃ e, s.edges[edge]? = some e ∧ e.p = ep ∧ e.q = eq

/-- Some triangle of the mesh has a side with endpoints a and b that is marked
constrained on it. -/
def ConstrainedSide (s : SweepContext) (a b : Point) : Prop :=
  ∃ tri ∈ s.tris, tri.HasConstrainedSide a b

instance (s : SweepContext) (a b : Point) : Decidable (ConstrainedSide s a b) := by
  unfold ConstrainedSide
  infer_instance

/-- Every side that is marked constrained on some triangle of s is marked
constrained on some triangle of s1. -/
def KeepsConstrainedSides (s s1 : SweepContext) : Prop :=
  ∀ a b, ConstrainedSide s a b → ConstrainedSide s1 a b

/-- The pieces of a constraint towards ep that the interior `EdgeEvent` has
split (lines 141-150 and 170-179): every two consecutive vertices a, b of the
list were found collinear with ep by `Orient2d(a, b, ep)`, and are the
endpoints of a side that is marked constrained on some triangle. -/
def PiecesMarked (env : Env) (s : SweepContext) (ep : Point) (vs : List Point) : Prop :=
  List.Chain' (fun a b => env.Orient2d a b ep = Orientation.COLLINEAR ∧ ConstrainedSide s a b) vs

/-- How a run of `FlipEdgeEvent` for a constraint towards ep that returns
normally has ended, s1 being the state on return.  For some vertex v, the
other end of the piece that the run was inserting when it ended, one of:
the run ended at lines 130-133 of the interior `EdgeEvent`, and a side from ep
to v is marked constrained on return; the run ended at lines 880-883 of
`FlipEdgeEvent`, where in the state after lines 880-881 the triangles t and ot
both have a side from ep to v marked constrained and the two calls of
`Legalize` of lines 882-883 lead from that state to s1; the run ended at the
empty branch of lines 884-886 of `FlipEdgeEvent`, where the scratch edge object
does not run from ep to v and some triangle has a side from ep to v. -/
def FlipRunEnd (ep : Point) (s1 : SweepContext) : Prop :=
  ∃ v : Point,
    ConstrainedSide s1 ep v ∨
    (∃ (k : Nat) (t ot : TriId) (sm sm1 : SweepContext) (b b1 : Bool),
        (∃ tri, sm.tris[t]? = some tri ∧ tri.HasConstrainedSide ep v) ∧
        (∃ tri, sm.tris[ot]? = some tri ∧ tri.HasConstrainedSide ep v) ∧
        Legalize k t sm = Res.ok b sm1 ∧ Legalize k ot sm1 = Res.ok b1 s1) ∨
    (∃ (ce : EdgeId) (e1 : Edge), s1.edge_event.constrained_edge = some ce ∧
        s1.edges[ce]? = some e1 ∧ ¬ (v = e1.q ∧ ep = e1.p) ∧
        ∃ tri ∈ s1.tris, tri.HasSide ep v)

/-- The edge heap and the `edge_event` scratch are as given. -/
def EdgesAre (E : List Edge) (ee : EdgeEventData) (s : SweepContext) : Prop :=
  s.edges = E ∧ s.edge_event = ee

/-- The interior `EdgeEvent` cut off at the call of `FlipEdgeEvent` (line
219), which is made to end the run: a normal return of this function is a run
of the interior `EdgeEvent` that never reaches that call. -/
def EdgeEventInteriorNoFlip (env : Env) : Nat → Point → Point → Option TriId → Point → M Unit
  | 0, _, _, _, _ => raise Err.out_of_fuel
  | fuel + 1, ep, eq, triangle, point =>
    EdgeEventBody env (EdgeEventInteriorNoFlip env fuel) (fun _ _ _ _ => raise Err.out_of_fuel)
      ep eq triangle point

/-! ### The advancing front as a chain -/

/-- What the advancing front consists of: the point, `next` and `prev` of every
node object (indexed like the node heap), the two sentinels and the basin
scratch.  The triangle pointers of the nodes are left out. -/
structure Front where
  pts : List (Option Point)
  next : List (Option NodeId)
  prev : List (Option NodeId)
  head_ : Option NodeId
  tail_ : Option NodeId
  basin : Basin

/-- The front of a state. -/
def front (s : SweepContext) : Front :=
  { pts := s.nodes.map (fun n => n.point)
    next := s.nodes.map (fun n => n.next)
    prev := s.nodes.map (fun n => n.prev)
    head_ := s.head_
    tail_ := s.tail_
    basin := s.basin }

/-- The first element of the list, or `q` when it is empty. -/
def headOr (l : List NodeId) (q : Option NodeId) : Option NodeId :=
  match l with
  | [] => q
  | n :: _ => some n

/-- The last element of the list, or `p` when it is empty. -/
def lastOr : List NodeId → Option NodeId → Option NodeId
  | [], p => p
  | n :: rest, _ => lastOr rest (some n)

/-- Along the list, `next` of each node is the node after it; `next` of the
last one is `q`. -/
def nextSeg (nx : List (Option NodeId)) : List NodeId → Option NodeId → Prop
  | [], _ => True
  | n :: rest, q => nx[n]? = some (headOr rest q) ∧ nextSeg nx rest q

/-- Along the list, `prev` of each node is the node before it; `prev` of the
first one is `p`. -/
def prevSeg (pv : List (Option NodeId)) : Option NodeId → List NodeId → Prop
  | _, [] => True
  | p, n :: rest => pv[n]? = some p ∧ prevSeg pv (some n) rest

/-- The front is the doubly linked chain `L`: the nodes of `L` are different
objects, the first is the head sentinel and has no `prev`, the last is the
tail sentinel and has no `next`, and consecutive nodes point at each other. -/
structure Linked (F : Front) (L : List NodeId) : Prop where
  nodup : L.Nodup
  head : F.head_ = L.head?
  tail : F.tail_ = L.getLast?
  nexts : nextSeg F.next L none
  prevs : prevSeg F.prev none L

/-- Both nodes have a point, and the first is strictly left of the second. -/
def xLt (P : List (Option Point)) (a b : NodeId) : Bool :=
  match P[a]?, P[b]? with
  | some (some pa), some (some pb) => decide (pa.x < pb.x)
  | _, _ => false

/-- The x-coordinates strictly increase along the list. -/
def Sorted (F : Front) (L : List NodeId) : Prop :=
  L.Pairwise (fun a b => xLt F.pts a b = true)

instance (F : Front) (L : List NodeId) : Decidable (Sorted F L) := by
  unfold Sorted
  infer_instance

/-- The front on return is a sorted chain with the same points and sentinels
that still has the node `new`. -/
def Keeps (new : NodeId) (F F1 : Front) : Prop :=
  ∃ L1, Linked F1 L1 ∧ Sorted F1 L1 ∧ new ∈ L1 ∧ F1.pts = F.pts ∧
    F1.head_ = F.head_ ∧ F1.tail_ = F.tail_

/-- The two fronts have the same points, links and sentinels. -/
def SameChain (F F1 : Front) : Prop :=
  F1.pts = F.pts ∧ F1.next = F.next ∧ F1.prev = F.prev ∧ F1.head_ = F.head_ ∧
    F1.tail_ = F.tail_

/-- Partial correctness in terms of the front: when the code is run in a state
with front `F` and returns `a`, then `Q a` holds of the front on return. -/
def FT {α : Type} (m : M α) (F : Front) (Q : α → Front → Prop) : Prop :=
  ∀ s a s1, front s = F → m s = Res.ok a s1 → Q a (front s1)

/-! ### The exceptions a call can end with -/

/-- Every exception the code can end with is one of `E`. -/
def Raises (E : Err → Prop) {α : Type} (m : M α) : Prop :=
  ∀ s e s1, m s = Res.throw e s1 → E e

/-- The error of `PointEvent`, `std::runtime_error("PointEvent - null node")`. -/
def NullNode : Err := Err.runtime_error RuntimeMsg.PointEvent_null_node

/-- What is left when undefined behaviour and running out of fuel are the only
ways not to return. -/
def OnlyStuck (e : Err) : Prop := e = Err.undefined_behaviour ∨ e = Err.out_of_fuel

/-! ### Basins -/

/-- Only the basin scratch differs between `s` and `s1`: no triangle was
created or changed and no front node was touched. -/
def OnlyBasin (s s1 : SweepContext) : Prop := s1 = { s with basin := s1.basin }

/-- The basin is degenerate: `bottom_node = left_node` or
`right_node = bottom_node`. -/
def Basin.Degenerate (b : Basin) : Prop :=
  b.bottom_node = b.left_node ∨ b.right_node = b.bottom_node

/-- The node `n` exists and carries the point `p`. -/
def PointOf (s : SweepContext) (n : Option NodeId) (p : Point) : Prop :=
  ∃ m nd, n = some m ∧ s.nodes[m]? = some nd ∧ nd.point = some p

/-- The basin of the context is shallow at its bottom:
`right.x - left.x > max(left.y, right.y) - bottom.y`. -/
def ShallowAtBottom (s : SweepContext) : Prop :=
  ∃ l r b, PointOf s s.basin.left_node l ∧ PointOf s s.basin.right_node r ∧
    PointOf s s.basin.bottom_node b ∧ r.x - l.x > max l.y r.y - b.y

/-- The property reads the nodes only through their points. -/
def IgnoresNodeLinks (P : SweepContext → Prop) : Prop :=
  ∀ s v, v.map Node.point = s.nodes.map Node.point → P s → P { s with nodes := v }

/-! ### Flips of `Legalize` -/

/-- Edge i of triangle t is flipped by `Legalize` when it is examined in state
`s` (lines 448-471): the edge is not marked delaunay on t, there is a neighbour
ot across it whose side of the edge is neither constrained nor marked
delaunay, `Incircle` holds of the opposite point, and, both sides marked
delaunay, the call `RotateTrianglePair(t, p, ot, op)` is made and returns. -/
def FlipAt (s : SweepContext) (t : TriId) (i : Fin 3) : Prop :=
  ∃ (tt : Triangle) (ot : TriId) (ott : Triangle) (op : Point) (oi : Fin 3) (pccw pcw : Point)
    (sm sr : SweepContext),
    s.tris[t]? = some tt ∧ tt.delaunay_edge.get i = false ∧ tt.GetNeighbor i = some ot ∧
    s.tris[ot]? = some ott ∧ ott.OppositePoint tt (tt.GetPoint i) = some op ∧
    ott.Index op = some oi ∧
    ott.constrained_edge.get oi = false ∧ ott.delaunay_edge.get oi = false ∧
    tt.PointCCW (tt.GetPoint i) = some pccw ∧ tt.PointCW (tt.GetPoint i) = some pcw ∧
    Incircle (tt.GetPoint i) pccw pcw op = true ∧
    (modifyTri t (fun x => { x with delaunay_edge := x.delaunay_edge.set i true }) >>= fun _ =>
      modifyTri ot (fun x => { x with delaunay_edge := x.delaunay_edge.set oi true })) s
      = Res.ok () sm ∧
    RotateTrianglePair t (tt.GetPoint i) ot op sm = Res.ok () sr

/-- The flag `v` is the constrained flag on the neighbour's side of edge i of
the triangle t (with value `tt` when `Legalize` is entered in state `s`), and
that side is constrained or marked delaunay.  The neighbour is read as it is
when the edge is examined: in state `s` when it is another triangle, and with
the constrained flags t has by then when t is recorded as its own neighbour. -/
def CopiedFromNeighbour (s : SweepContext) (t : TriId) (tt : Triangle) (i : Fin 3) (v : Bool) :
    Prop :=
  ∃ (ot : TriId) (ott : Triangle) (op : Point) (oi : Fin 3),
    tt.GetNeighbor i = some ot ∧
    (ot ≠ t → s.tris[ot]? = some ott) ∧
    (ot = t → ∃ ce, ott = { tt with constrained_edge := ce }) ∧
    ott.OppositePoint tt (tt.GetPoint i) = some op ∧ ott.Index op = some oi ∧
    (ott.constrained_edge.get oi = true ∨ ott.delaunay_edge.get oi = true) ∧
    v = ott.constrained_edge.get oi

/-- A state in which `Legalize(t)` may examine edge i, when it was entered in
state `s` with t having the value `tt`: it differs from `s` only in
constrained flags of t on edges before i, each of them copied from the
neighbour across that edge. -/
def ExaminedAt (s : SweepContext) (t : TriId) (tt : Triangle) (i : Nat) (sk : SweepContext) :
    Prop :=
  ∃ ce : Arr3 Bool,
    sk = { s with tris := s.tris.set t { tt with constrained_edge := ce } } ∧
    ∀ j : Fin 3, ce.get j ≠ tt.constrained_edge.get j →
      j.val < i ∧ CopiedFromNeighbour s t tt j (ce.get j)

/-- Every value the code returns satisfies `Q`. -/
def Returns {α : Type} (Q : α → Prop) (m : M α) : Prop :=
  ∀ s a s1, m s = Res.ok a s1 → Q a

/-! ### The walk of `FinalizationPolygon` -/

/-- The triangle reached from `t` by `k` steps to the neighbour
counter-clockwise of `p`; none when a neighbour on the way is missing. -/
def ccwWalk (s : SweepContext) (p : Point) : Nat → Option TriId → Option TriId
  | 0, t => t
  | k + 1, t =>
    match t with
    | some tr =>
      match s.tris[tr]? with
      | some tri => ccwWalk s p k (tri.NeighborCCW p)
      | none => none
    | none => none

/-- The first `k` triangles of the walk from `t` exist and none of them has its
edge clockwise of `p` marked constrained. -/
def WalkUnconstrained (s : SweepContext) (p : Point) (t : Option TriId) (k : Nat) : Prop :=
  ∀ j, j < k → ∃ tj tri, ccwWalk s p j t = some tj ∧ s.tris[tj]? = some tri ∧
    tri.GetConstrainedEdgeCW p = false

/-! ### The two directions of `FillEdgeEvent` -/

/-- The two directions in which `FillEdgeEvent` works along the front. -/
inductive Side where
  | right
  | left
deriving DecidableEq

/-- The neighbour of a node in the direction: `next` going right, `prev`
going left. -/
def Side.step (d : Side) (nd : Node) : Option NodeId :=
  match d with
  | Side.right => nd.next
  | Side.left => nd.prev

/-- The orientation tested in the direction: CCW going right, CW going left. -/
def Side.turn (d : Side) : Orientation :=
  match d with
  | Side.right => Orientation.CCW
  | Side.left => Orientation.CW

/-- The coordinate `a` comes before `b` in the direction: `a < b` going right,
`a > b` going left. -/
def Side.before (d : Side) (a b : ℚ) : Prop :=
  match d with
  | Side.right => a < b
  | Side.left => a > b

instance (d : Side) (a b : ℚ) : Decidable (d.before a b) :=
  match d with
  | Side.right => inferInstanceAs (Decidable (a < b))
  | Side.left => inferInstanceAs (Decidable (a > b))

/-- `FillRightConcaveEdgeEvent` written once for both directions, with the
symmetric logic the spec describes ("CW/CCW swapped"): `next`, `CCW` and `<`
going right, `prev`, `CW` and `>` going left.  The fill step is the parameter
`fill`. -/
def FillConcaveEdgeEventOn (d : Side) (fill : Nat → NodeId → M Unit) (env : Env) :
    Nat → EdgeId → NodeId → M Unit
  | 0, _, _ => raise Err.out_of_fuel
  | fuel + 1, edge, node => do
    fill fuel (← deref (d.step (← getNode node)))
    let nx ← deref (d.step (← getNode node))
    let pn ← nodePoint nx
    let e ← getEdge edge
    if pn ≠ e.p then
      if env.Orient2d e.q pn e.p = d.turn then
        let p ← nodePoint node
        let p2 ← nodePoint (← deref (d.step (← getNode nx)))
        if env.Orient2d p pn p2 = d.turn then
          FillConcaveEdgeEventOn d fill env fuel edge node

/-- `FillRightConvexEdgeEvent` written once for both directions. -/
def FillConvexEdgeEventOn (d : Side) (fill : Nat → NodeId → M Unit) (env : Env) :
    Nat → EdgeId → NodeId → M Unit
  | 0, _, _ => raise Err.out_of_fuel
  | fuel + 1, edge, node => do
    let n1 ← deref (d.step (← getNode node))
    let n2 ← deref (d.step (← getNode n1))
    let n3 ← deref (d.step (← getNode n2))
    let p1 ← nodePoint n1
    let p2 ← nodePoint n2
    let p3 ← nodePoint n3
    if env.Orient2d p1 p2 p3 = d.turn then
      FillConcaveEdgeEventOn d fill env fuel edge n1
    else
      let e ← getEdge edge
      if env.Orient2d e.q p2 e.p = d.turn then
        FillConvexEdgeEventOn d fill env fuel edge n1

/-- `FillRightBelowEdgeEvent` written once for both directions. -/
def FillBelowEdgeEventOn (d : Side) (fill : Nat → NodeId → M Unit) (env : Env) :
    Nat → EdgeId → NodeId → M Unit
  | 0, _, _ => raise Err.out_of_fuel
  | fuel + 1, edge, node => do
    let p ← nodePoint node
    let e ← getEdge edge
    if d.before p.x e.p.x then
      let n1 ← deref (d.step (← getNode node))
      let p1 ← nodePoint n1
      let p2 ← nodePoint (← deref (d.step (← getNode n1)))
      if env.Orient2d p p1 p2 = d.turn then
        FillConcaveEdgeEventOn d fill env fuel edge node
      else
        FillConvexEdgeEventOn d fill env fuel edge node
        FillBelowEdgeEventOn d fill env fuel edge node

/-- `FillRightAboveEdgeEvent` written once for both directions. -/
def FillAboveEdgeEventOn (d : Side) (fill : Nat → NodeId → M Unit) (env : Env) :
    Nat → EdgeId → NodeId → M Unit
  | 0, _, _ => raise Err.out_of_fuel
  | fuel + 1, edge, node => do
    let n1 ← deref (d.step (← getNode node))
    let p1 ← nodePoint n1
    let e ← getEdge edge
    if d.before p1.x e.p.x then
      if env.Orient2d e.q p1 e.p = d.turn then
        FillBelowEdgeEventOn d fill env fuel edge node
        FillAboveEdgeEventOn d fill env fuel edge node
      else
        FillAboveEdgeEventOn d fill env fuel edge n1

/-! ### Reflection in the y-axis -/

/-- The point reflected in the y-axis: x negated, the same point object. -/
def Point.mirror (p : Point) : Point := { p with x := -p.x }

/-- The edge reflected in the y-axis. -/
def Edge.mirror (e : Edge) : Edge := ⟨e.p.mirror, e.q.mirror⟩

/-- The orientation of the reflected triple. -/
def Orientation.mirror (o : Orientation) : Orientation :=
  match o with
  | Orientation.CW => Orientation.CCW
  | Orientation.CCW => Orientation.CW
  | Orientation.COLLINEAR => Orientation.COLLINEAR

/-- The node `nd1` is the node `nd` of the reflected front: x negated, prev and
next exchanged.  The triangle pointer is not part of the reflection. -/
def MirrorNode (nd nd1 : Node) : Prop :=
  nd1.point = nd.point.map Point.mirror ∧ nd1.next = nd.prev ∧ nd1.prev = nd.next

/-- The front and the constraint edges of `s1` are those of `s` reflected in the
y-axis: every x negated, prev and next exchanged.  The mesh is not part of the
reflection. -/
def Mirrored (s s1 : SweepContext) : Prop :=
  (∀ n : NodeId, (s.nodes[n]? = none ∧ s1.nodes[n]? = none) ∨
    ∃ nd nd1, s.nodes[n]? = some nd ∧ s1.nodes[n]? = some nd1 ∧ MirrorNode nd nd1) ∧
  (∀ e : EdgeId, s1.edges[e]? = (s.edges[e]?).map Edge.mirror)

/-- The orientation test of `env1` on reflected points gives the reflected
answer of `env`. -/
def MirrorEnv (env env1 : Env) : Prop :=
  ∀ a b c : Point, env1.Orient2d a.mirror b.mirror c.mirror = (env.Orient2d a b c).mirror

/-- The node reflected in the y-axis: x negated, prev and next exchanged; the
triangle pointer is kept. -/
def Node.mirror (nd : Node) : Node :=
  { nd with point := nd.point.map Point.mirror, next := nd.prev, prev := nd.next }

/-- The triangle with every x negated. -/
def Triangle.mirror (t : Triangle) : Triangle :=
  { t with points_ := ⟨t.points_.a0.mirror, t.points_.a1.mirror, t.points_.a2.mirror⟩ }

/-- The configuration reflected in the y-axis as the words say: every x
negated, prev and next exchanged (and with them the head and the tail of the
front); the triangle pointers and the order of the vertices of the triangles
are kept. -/
def SweepContext.mirror (s : SweepContext) : SweepContext :=
  { s with
    tris := s.tris.map Triangle.mirror
    nodes := s.nodes.map Node.mirror
    edges := s.edges.map Edge.mirror
    head_ := s.tail_
    tail_ := s.head_ }

/-- The state with the node list `nodes_` replaced. -/
def setLog (l : List NodeId) (s : SweepContext) : SweepContext := { s with nodes_ := l }

/-- The outcome with the node list of its state replaced. -/
def Res.withLog {α : Type} (l : List NodeId) (r : Res α) : Res α :=
  match r with
  | Res.ok a s => Res.ok a (setLog l s)
  | Res.throw e s => Res.throw e (setLog l s)

/-- `Fill` keeping a log: before the node is filled it is written at the end
of the node list `nodes_`, which the fill functions neither read nor write. -/
def logFill (k : Nat) (node : NodeId) : M Unit := do
  modifyCtx (fun s => { s with nodes_ := s.nodes_ ++ [node] })
  Fill k node

/-- The code neither reads nor writes the node list `nodes_`. -/
def Oblivious {α : Type} (m : M α) : Prop :=
  ∀ s l, m (setLog l s) = (m s).withLog l

/-- The code `m1` is the code `m` keeping a log in `nodes_`: run from the same
state, whatever the log, it ends as `m` does, in the same state but for the
log. -/
def Logs {α : Type} (m m1 : M α) : Prop :=
  ∀ s l, ∃ l1, m1 (setLog l s) = (m s).withLog l1

/-- The run ended with the exception with which a call of `Fill` ended. -/
def FillFailed {α : Type} (r : Res α) : Prop :=
  ∃ k n s e s1, Fill k n s = Res.throw e s1 ∧ r = Res.throw e s1

/-- The two runs end the same way: both return, with results related by `R`,
or both end with the same exception, in states related by `Rel`. -/
def SameEnd {α β : Type} (Rel : SweepContext → SweepContext → Prop) (R : α → β → Prop)
    (r : Res α) (r1 : Res β) : Prop :=
  match r, r1 with
  | Res.ok a s, Res.ok b s1 => R a b ∧ Rel s s1
  | Res.throw e s, Res.throw e1 s1 => e = e1 ∧ Rel s s1
  | _, _ => False

/-- The two runs end the same way, unless one of them ended inside a call of
`Fill`. -/
def SameEndOrFillFailed {α β : Type} (Rel : SweepContext → SweepContext → Prop)
    (R : α → β → Prop) (r : Res α) (r1 : Res β) : Prop :=
  SameEnd Rel R r r1 ∨ FillFailed r ∨ FillFailed r1

/-- From states related by `Rel`, the two pieces of code end the same way,
unless one of them ends inside a call of `Fill`. -/
def Sim {α β : Type} (Rel : SweepContext → SweepContext → Prop) (R : α → β → Prop)
    (m : M α) (m1 : M β) : Prop :=
  ∀ s s1, Rel s s1 → SameEndOrFillFailed Rel R (m s) (m1 s1)

/-- The fronts are reflections of each other and the same nodes were written
down in `nodes_`, in the same order. -/
def MirroredRecord (s s1 : SweepContext) : Prop :=
  Mirrored s s1 ∧ s1.nodes_ = s.nodes_

/-! ### Orientation of created triangles -/

/-- Twice the signed area of a triangle object, from its vertices in their
stored order. -/
def Triangle.area2 (t : Triangle) : ℚ :=
  p2t.area2 t.points_.a0 t.points_.a1 t.points_.a2

/-- The point `a` comes strictly before `b` in the sweep order: lower y, or
the same y and smaller x. -/
def Precedes (a b : Point) : Prop := a.y < b.y ∨ (a.y = b.y ∧ a.x < b.x)

instance (a b : Point) : Decidable (Precedes a b) := by
  unfold Precedes
  infer_instance

/-- The triangle object `k` exists and has the vertices `pts`, in this order. -/
def HasVertices (k : TriId) (pts : Arr3 Point) (s : SweepContext) : Prop :=
  ∃ tri, s.tris[k]? = some tri ∧ tri.points_ = pts

/-! ### The interior EdgeEvent with the pivot at eq -/

/-- The body of the interior `EdgeEvent` as C23 describes it: there is no
pivot argument, `eq` stands in its place; the test `triangle.Contains(eq, p_i)`
and the `CollinearPoints` throw behind it are left out.  `recur` and `flip`
are the calls of the interior `EdgeEvent` and of `FlipEdgeEvent`, which take
no pivot either. -/
def EdgeEventBodyAtEq (env : Env) (recur : Point → Point → Option TriId → M Unit)
    (flip : Point → Point → TriId → M Unit)
    (ep eq : Point) (triangle : Option TriId) : M Unit :=
  match triangle with
  | none => raise (Err.null_triangle_exception none)
  | some tr => do
    if (← IsEdgeSideOfTriangle tr ep eq) then
      return
    let tri ← getTri tr
    match tri.PointCCW eq with
    | none =>
      raise (Err.degenerate_triangle_exception (tri.GetPoint 0) (tri.GetPoint 1) (tri.GetPoint 2))
    | some p1 =>
      let o1 := env.Orient2d eq p1 ep
      if o1 = Orientation.COLLINEAR then
        modifyTri tr (fun x => x.MarkConstrainedEdge eq p1)
        let ce ← deref (← getCtx).edge_event.constrained_edge
        modifyEdge ce (fun e => { e with q := p1 })
        match (← getTri tr).NeighborAcross eq with
        | some nt => recur ep p1 (some nt)
        | none => raise (Err.null_triangle_exception (some tr))
      else
        match tri.PointCW eq with
        | none =>
          raise (Err.degenerate_triangle_exception (tri.GetPoint 0) (tri.GetPoint 1) (tri.GetPoint 2))
        | some p2 =>
          let o2 := env.Orient2d eq p2 ep
          if o2 = Orientation.COLLINEAR then
            modifyTri tr (fun x => x.MarkConstrainedEdge eq p2)
            let ce ← deref (← getCtx).edge_event.constrained_edge
            modifyEdge ce (fun e => { e with q := p2 })
            match (← getTri tr).NeighborAcross eq with
            | some nt => recur ep p2 (some nt)
            | none => raise (Err.null_triangle_exception (some tr))
          else if o1 = o2 then
            let nt := if o1 = Orientation.CW then tri.NeighborCCW eq else tri.NeighborCW eq
            match nt with
            | some nt => recur ep eq (some nt)
            | none => raise (Err.null_triangle_exception (some tr))
          else
            flip ep eq tr

mutual

/-- The interior `EdgeEvent` as C23 describes it, without pivot argument;
`next` is the call of `NextFlipPoint`. -/
def EdgeEventInteriorAtEq (env : Env) (next : Point → Point → TriId → Point → M Point) :
    Nat → Point → Point → Option TriId → M Unit
  | 0, _, _, _ => raise Err.out_of_fuel
  | fuel + 1, ep, eq, triangle =>
    EdgeEventBodyAtEq env (EdgeEventInteriorAtEq env next fuel) (FlipEdgeEventAtEq env next fuel)
      ep eq triangle

/-- `FlipEdgeEvent` as C23 describes it, without pivot argument: `eq` stands
in its place. -/
def FlipEdgeEventAtEq (env : Env) (next : Point → Point → TriId → Point → M Point) :
    Nat → Point → Point → TriId → M Unit
  | 0, _, _, _ => raise Err.out_of_fuel
  | fuel + 1, ep, eq, t => do
    let tt ← getTri t
    match tt.NeighborAcross eq with
    | none => raise (Err.runtime_error RuntimeMsg.FlipEdgeEvent_null_neighbor_across)
    | some ot =>
      let op ← deref ((← getTri ot).OppositePoint tt eq)
      let pccw ← deref (tt.PointCCW eq)
      let pcw ← deref (tt.PointCW eq)
      if env.InScanArea eq pccw pcw op then
        RotateTrianglePair t eq ot op
        MapTriangleToNodes t
        MapTriangleToNodes ot
        if op = ep then
          let e ← getEdge (← deref (← getCtx).edge_event.constrained_edge)
          if eq = e.q ∧ ep = e.p then
            modifyTri t (fun x => x.MarkConstrainedEdge ep eq)
            modifyTri ot (fun x => x.MarkConstrainedEdge ep eq)
            let _ ← Legalize fuel t
            let _ ← Legalize fuel ot
          else
            pure ()
        else
          let o := env.Orient2d eq op ep
          let t1 ← NextFlipTriangle fuel o t ot eq op
          FlipEdgeEventAtEq env next fuel ep eq t1
      else
        let newP ← next ep eq ot op
        FlipScanEdgeEventAtEq env next fuel ep eq t ot newP
        EdgeEventInteriorAtEq env next fuel ep eq (some t)

/-- `FlipScanEdgeEvent` with its call of `FlipEdgeEvent` taking no pivot. -/
def FlipScanEdgeEventAtEq (env : Env) (next : Point → Point → TriId → Point → M Point) :
    Nat → Point → Point → TriId → TriId → Point → M Unit
  | 0, _, _, _, _, _ => raise Err.out_of_fuel
  | fuel + 1, ep, eq, flip_triangle, t, p => do
    let tt ← getTri t
    match tt.NeighborAcross p with
    | none => raise (Err.runtime_error RuntimeMsg.FlipScanEdgeEvent_null_neighbor_across)
    | some ot =>
      match (← getTri ot).OppositePoint tt p with
      | none => raise (Err.runtime_error RuntimeMsg.FlipScanEdgeEvent_null_opposing_point)
      | some op =>
        let ft ← getTri flip_triangle
        match ft.PointCCW eq, ft.PointCW eq with
        | some p1, some p2 =>
          if env.InScanArea eq p1 p2 op then
            FlipEdgeEventAtEq env next fuel eq op ot
          else
            let newP ← next ep eq ot op
            FlipScanEdgeEventAtEq env next fuel ep eq flip_triangle ot newP
        | _, _ => raise (Err.runtime_error RuntimeMsg.FlipScanEdgeEvent_null_on_either_of_points)

end

/-- The exception is not `collinear_points_exception`. -/
def NotCollinearPoints : Err → Prop
  | Err.collinear_points_exception _ _ _ => False
  | _ => True

/-! ### Counting the triangles a call allocates -/

/-- Every run of the code that returns allocates exactly `k` triangles. -/
def Grows (k : Nat) {α : Type} (m : M α) : Prop :=
  ∀ s a s1, m s = Res.ok a s1 → s1.tris.length = s.tris.length + k

/-- Partial correctness in terms of the front and of the number of triangle
objects: when the code is run in a state with front `F` and `n` triangles and
returns `a`, then `Q a` holds of the front and of the number of triangles on
return. -/
def FTn {α : Type} (m : M α) (F : Front) (n : Nat) (Q : α → Front → Nat → Prop) : Prop :=
  ∀ s a s1, front s = F → s.tris.length = n → m s = Res.ok a s1 →
    Q a (front s1) s1.tris.length


/-! ### Floating point -/

/-- The cross product `(pa - origin) × (pb - origin)`, which `Angle` passes to
`atan2` as its first argument, without rounding. -/
def crossAt (origin pa pb : Point) : ℚ :=
  (pa.x - origin.x) * (pb.y - origin.y) - (pa.y - origin.y) * (pb.x - origin.x)

/-- The dot product `(pa - origin) · (pb - origin)`, which `Angle` passes to
`atan2` as its second argument, without rounding. -/
def dotAt (origin pa pb : Point) : ℚ :=
  (pa.x - origin.x) * (pb.x - origin.x) + (pa.y - origin.y) * (pb.y - origin.y)

/-- Exact arithmetic: no operation rounds, and each comparison that sweep.cc
makes of a value of `atan2(y, x)` with `0`, `PI_div2`, `-PI_div2` or
`PI_3div4` has the outcome that it has for the angle of the direction
`(x, y)` over the reals. -/
def ExactArithmetic (env : Env) : Prop :=
  (∀ q, env.fl q = q) ∧
  ∀ y x : Double,
    (env.atan2 y x < 0 ↔ Complex.arg ⟨(x.val : ℝ), (y.val : ℝ)⟩ < 0) ∧
    (env.atan2 y x > env.PI_div2 ↔ Real.pi / 2 < Complex.arg ⟨(x.val : ℝ), (y.val : ℝ)⟩) ∧
    (env.atan2 y x < -env.PI_div2 ↔ Complex.arg ⟨(x.val : ℝ), (y.val : ℝ)⟩ < -(Real.pi / 2)) ∧
    (env.atan2 y x < env.PI_3div4 ↔ Complex.arg ⟨(x.val : ℝ), (y.val : ℝ)⟩ < 3 * Real.pi / 4)

/-- The basin of the context is shallow at its bottom as `IsShallow` computes
it: the rounded width `right.x - left.x` exceeds the rounded depth
`max(left.y, right.y) - bottom.y`. -/
def ShallowAsComputed (env : Env) (s : SweepContext) : Prop :=
  ∃ l r b, PointOf s s.basin.left_node l ∧ PointOf s s.basin.right_node r ∧
    PointOf s s.basin.bottom_node b ∧ env.fl (r.x - l.x) > env.fl (max l.y r.y - b.y)

/-- The power `2 ^ e` for an integer exponent. -/
def pow2 (e : ℤ) : ℚ :=
  if 0 ≤ e then ((2 ^ e.toNat : ℕ) : ℚ) else 1 / ((2 ^ (-e).toNat : ℕ) : ℚ)

/-- The binary logarithm of a natural number, rounded down (0 for 0). -/
def log2Fuel : Nat → Nat → Nat
  | 0, _ => 0
  | fuel + 1, n => if n < 2 then 0 else log2Fuel fuel (n / 2) + 1

/-- The binary logarithm of a positive rational, rounded down. -/
def floorLog2 (q : ℚ) : ℤ :=
  let e : ℤ := (log2Fuel q.num.natAbs q.num.natAbs : ℤ) - (log2Fuel q.den q.den : ℤ)
  if pow2 e ≤ q then e else e - 1

/-- The integer nearest to `m`, the even one of the two when `m` is halfway. -/
def roundHalfEven (m : ℚ) : ℤ :=
  let f := Rat.floor m
  let d := m - f
  if d < 1 / 2 then f
  else if 1 / 2 < d then f + 1
  else if f % 2 = 0 then f
  else f + 1

/-- The rounding of IEEE 754 binary64 in the default mode, to nearest with
ties to even: the result has 53 significant bits, and is a multiple of
`2 ^ -1074` in the subnormal range.  Overflow to an infinity is left out. -/
def roundDouble (q : ℚ) : ℚ :=
  if q = 0 then 0
  else
    let e := floorLog2 (if q < 0 then -q else q)
    let u := pow2 (max (e - 52) (-1074))
    (roundHalfEven (q / u) : ℚ) * u

/-- Rounding down to a multiple of `2 ^ -128`. -/
def trunc128 (q : ℚ) : ℚ := (Rat.floor (q * 2 ^ 128) : ℚ) / 2 ^ 128

/-- The partial sums of Euler's series for the arc tangent,
`arctan t = Σ (2n)!!/(2n+1)!! · t^(2n+1) / (1+t²)^(n+1)`, with `w = t²/(1+t²)`;
each new term is the previous one times `w (2n+2)/(2n+3)`. -/
def atanTerms (w : ℚ) : Nat → Nat → ℚ → ℚ → ℚ
  | 0, _, _, acc => acc
  | k + 1, n, term, acc =>
    atanTerms w k (n + 1) (trunc128 (term * w * (2 * n + 2) / (2 * n + 3))) (acc + term)

/-- The arc tangent of `t` for `0 ≤ t ≤ 1`, from 120 terms of Euler's series
on the grid of `2 ^ -128`: the terms at least halve, so that the value is
within `2 ^ -100` of `arctan t`. -/
def atanApprox (t : ℚ) : ℚ :=
  atanTerms (trunc128 (t * t / (1 + t * t))) 120 0 (trunc128 (t / (1 + t * t))) 0

/-- The first forty digits of `π`. -/
def piApprox : ℚ := 3141592653589793238462643383279502884197 / 10 ^ 39

/-- The angle of the direction `(x, y)`, not the origin, in `(-π, π]`, to
about thirty digits. -/
def atan2Approx (y x : ℚ) : ℚ :=
  let ax := if x < 0 then -x else x
  let ay := if y < 0 then -y else y
  if ay ≤ ax then
    let a := atanApprox (ay / ax)
    let b := if x < 0 then piApprox - a else a
    if y < 0 then -b else b
  else
    let a := atanApprox (ax / ay)
    let b := if x < 0 then piApprox / 2 + a else piApprox / 2 - a
    if y < 0 then -b else b

/-- The function `atan2(y, x)` of the C library on doubles: the angle of the
direction `(x, y)` rounded to a double; for `y = ±0` the result is `±π` when
`x` is negative or `-0`, and `±0` otherwise (C11, F.10.1.4). -/
def doubleAtan2 (y x : Double) : ℚ :=
  if y.val = 0 then
    if x.val < 0 ∨ (x.val = 0 ∧ x.signbit = true) then
      (if y.signbit then -roundDouble piApprox else roundDouble piApprox)
    else 0
  else roundDouble (atan2Approx y.val x.val)

/-- Modelled from the spec: `Orient2d(a, b, c)` of section 4.A with each
operation rounded by `fl`. -/
def Orient2dRounded (fl : ℚ → ℚ) (eps : ℚ) (a b c : Point) : Orientation :=
  let val := fl (fl (fl (b.x - a.x) * fl (c.y - a.y)) - fl (fl (b.y - a.y) * fl (c.x - a.x)))
  if -eps < val ∧ val < eps then Orientation.COLLINEAR
  else if val = 0 then Orientation.COLLINEAR
  else if val > 0 then Orientation.CCW
  else Orientation.CW

/-- Modelled from the spec: `InScanArea(pa, pb, pc, pd)` of section 4.A with
each operation rounded by `fl`. -/
def InScanAreaRounded (fl : ℚ → ℚ) (eps : ℚ) (pa pb pc pd : Point) : Bool :=
  let oadb := fl (fl (fl (pa.x - pb.x) * fl (pd.y - pb.y)) - fl (fl (pd.x - pb.x) * fl (pa.y - pb.y)))
  if oadb ≥ -eps then false
  else
    let oadc :=
      fl (fl (fl (pa.x - pc.x) * fl (pd.y - pc.y)) - fl (fl (pd.x - pc.x) * fl (pa.y - pc.y)))
    if oadc ≤ eps then false else true

/-- The collaborators in double precision, for a given epsilon: every
operation rounds to the nearest double, `atan2` is `doubleAtan2`, and
`PI_div2` and `PI_3div4` are the doubles nearest to `π/2` and `3π/4`. -/
def doubleEnv (eps : ℚ) : Env :=
  { EPSILON := eps
    PI_div2 := roundDouble (piApprox / 2)
    PI_3div4 := roundDouble (3 * piApprox / 4)
    fl := roundDouble
    atan2 := doubleAtan2
    Orient2d := Orient2dRounded roundDouble eps
    InScanArea := InScanAreaRounded roundDouble eps
    LocateNode := LocateNode }

/-! ## Concrete states used as inputs -/

/-- A context with nothing allocated. -/
def emptyCtx : SweepContext :=
  { tris := []
    nodes := []
    edges := []
    map_ := []
    head_ := none
    tail_ := none
    nodes_ := []
    basin := ⟨none, none, none, 0, false⟩
    edge_event := ⟨none, false⟩
    points_ := []
    edge_list := [] }

/-- A front of three nodes in which the middle node (0,0) is a peak above its
neighbours (-1,-10) and (1,-10). -/
def peakFront : SweepContext :=
  { emptyCtx with
    nodes := [⟨some ⟨0, -1, -10⟩, none, some 1, none⟩,
              ⟨some ⟨1, 0, 0⟩, none, some 2, some 0⟩,
              ⟨some ⟨2, 1, -10⟩, none, none, some 1⟩]
    head_ := some 0
    tail_ := some 2 }

/-- The point q = (0,2) of `splitMesh`. -/
def sq : Point := ⟨0, 0, 2⟩

/-- The point m = (0,1) of `splitMesh`, on the segment from p to q. -/
def sm : Point := ⟨1, 0, 1⟩

/-- The point p = (0,0) of `splitMesh`. -/
def sp : Point := ⟨2, 0, 0⟩

/-- The point x = (1,1) of `splitMesh`. -/
def sx : Point := ⟨3, 1, 1⟩

/-- The point w = (-1,1) of `splitMesh`. -/
def sw : Point := ⟨4, -1, 1⟩

/-- Triangle 0 of `splitMesh`: (q, m, x). -/
def splitT0 : Triangle :=
  { Triangle.mk3 sq sm sx with neighbors_ := ⟨some 1, none, some 2⟩ }

/-- Triangle 1 of `splitMesh`: (m, p, x). -/
def splitT1 : Triangle :=
  { Triangle.mk3 sm sp sx with neighbors_ := ⟨none, some 0, some 3⟩ }

/-- Four counter-clockwise triangles around m = (0,1) filling the square with
corners q = (0,2), w = (-1,1), p = (0,0), x = (1,1): triangle 0 is (q, m, x),
1 is (m, p, x), 2 is (q, w, m) and 3 is (m, w, p).  All neighbour links are
symmetric and no edge is constrained.  The front is w, q, x, the node of q
carries triangle 0, and edge 0 is the constraint from p to q, which passes
through m. -/
def splitMesh : SweepContext :=
  { emptyCtx with
    tris := [splitT0, splitT1,
             { Triangle.mk3 sq sw sm with neighbors_ := ⟨some 3, some 0, none⟩ },
             { Triangle.mk3 sm sw sp with neighbors_ := ⟨none, some 1, some 2⟩ }]
    map_ := [0, 1, 2, 3]
    nodes := [⟨some sw, some 2, some 1, none⟩,
              ⟨some sq, some 0, some 2, some 0⟩,
              ⟨some sx, some 0, none, some 1⟩]
    head_ := some 0
    tail_ := some 2
    edges := [⟨sp, sq⟩]
    edge_event := ⟨some 0, false⟩ }

/-- One counter-clockwise triangle (q, a, b) = ((0,2), (-1,1), (1,1)) without
neighbours; edge 0 is the constraint from p = (0,0) to q, which leaves the
triangle through the side opposite q. -/
def loneTriangle : SweepContext :=
  { emptyCtx with
    tris := [Triangle.mk3 ⟨0, 0, 2⟩ ⟨1, -1, 1⟩ ⟨2, 1, 1⟩]
    map_ := [0]
    edges := [⟨⟨3, 0, 0⟩, ⟨0, 0, 2⟩⟩]
    edge_event := ⟨some 0, false⟩ }

/-- The single counter-clockwise triangle (x, q, m) of `splitMesh` on its own. -/
def oneTriangle : SweepContext :=
  { emptyCtx with
    tris := [Triangle.mk3 sx sq sm]
    map_ := [0] }

/-- The mesh `splitMesh` with the constraint edge 0 running from m = (0,1) to
q = (0,2), a side of triangle 0, which the front node 1 of q carries. -/
def sideMesh : SweepContext :=
  { splitMesh with
    edges := [⟨sm, sq⟩]
    edge_event := ⟨none, false⟩ }

/-- The point p = (0,0) of `fanMesh`. -/
def fp : Point := ⟨0, 0, 0⟩

/-- The point a = (2,-1) of `fanMesh`. -/
def fa : Point := ⟨1, 2, -1⟩

/-- The point b = (2,1) of `fanMesh`. -/
def fb : Point := ⟨2, 2, 1⟩

/-- The point op = (4,0) of `fanMesh`. -/
def fop : Point := ⟨3, 4, 0⟩

/-- Three triangles closing up around the vertex a: 0 is t = (p, a, b), 1 is
ot = (op, b, a) and 2 is (a, p, op), which is the neighbour of t across
(p, a) and of ot across (a, op).  Every neighbour link is symmetric and every
triangle has three different vertices; the mesh is not planar, triangle 2
lies over the other two. -/
def fanMesh : SweepContext :=
  { emptyCtx with
    tris := [{ Triangle.mk3 fp fa fb with neighbors_ := ⟨some 1, none, some 2⟩ },
             { Triangle.mk3 fop fb fa with neighbors_ := ⟨some 0, some 2, none⟩ },
             { Triangle.mk3 fa fp fop with neighbors_ := ⟨none, some 1, some 0⟩ }]
    map_ := [0, 1, 2] }

/-- A front as `CreateAdvancingFront` leaves it: the two sentinels (-10,-1)
and (10,-1), the lowest point (0,0) between them, and the initial triangle. -/
def startFront : SweepContext :=
  { emptyCtx with
    tris := [Triangle.mk3 ⟨1, 0, 0⟩ ⟨0, -10, -1⟩ ⟨2, 10, -1⟩]
    nodes := [⟨some ⟨0, -10, -1⟩, some 0, some 1, none⟩,
              ⟨some ⟨1, 0, 0⟩, some 0, some 2, some 0⟩,
              ⟨some ⟨2, 10, -1⟩, none, none, some 1⟩]
    map_ := [0]
    head_ := some 0
    tail_ := some 2 }

/-- The pair of `fanMesh` after the flip: 0 is t = (p, op, b) and 1 is
ot = (op, p, a), neighbours across the edge (p, op). -/
def flippedPair : SweepContext :=
  { emptyCtx with
    tris := [{ Triangle.mk3 fp fop fb with neighbors_ := ⟨none, none, some 1⟩ },
             { Triangle.mk3 fop fp fa with neighbors_ := ⟨none, none, some 0⟩ }]
    map_ := [0, 1] }

/-- The mesh `flippedPair` with the shared edge marked delaunay on ot = 1. -/
def flippedPairMarked : SweepContext :=
  { flippedPair with
    tris := [{ Triangle.mk3 fp fop fb with neighbors_ := ⟨none, none, some 1⟩ },
             { Triangle.mk3 fop fp fa with neighbors_ := ⟨none, none, some 0⟩
                                           delaunay_edge := ⟨false, false, true⟩ }] }

/-- A front of five nodes, (0,30), (10,26), (20,22), (30,16), (40,9), and
the constraint edge from p = (40,9), the point of the last node, up to
q = (0,30), the point of the first. -/
def retryFront : SweepContext :=
  { emptyCtx with
    nodes := [⟨some ⟨0, 0, 30⟩, none, some 1, none⟩,
              ⟨some ⟨1, 10, 26⟩, none, some 2, some 0⟩,
              ⟨some ⟨2, 20, 22⟩, none, some 3, some 1⟩,
              ⟨some ⟨3, 30, 16⟩, none, some 4, some 2⟩,
              ⟨some ⟨4, 40, 9⟩, none, none, some 3⟩]
    edges := [⟨⟨4, 40, 9⟩, ⟨0, 0, 30⟩⟩]
    head_ := some 0
    tail_ := some 4
    edge_event := ⟨some 0, true⟩ }

/-- The point p = (0,0) of `cascadeMesh`. -/
def cp : Point := ⟨0, 0, 0⟩

/-- The point a = (6,-6) of `cascadeMesh`. -/
def ca : Point := ⟨1, 6, -6⟩

/-- The point b = (6,6) of `cascadeMesh`. -/
def cb : Point := ⟨2, 6, 6⟩

/-- The point c = (11,0) of `cascadeMesh`, inside the circle through p, a, b. -/
def cc : Point := ⟨3, 11, 0⟩

/-- The point d = (9,-4) of `cascadeMesh`, inside the circle through p, a, c. -/
def cd : Point := ⟨4, 9, -4⟩

/-- Three counter-clockwise triangles in a row: 0 is (p, a, b), 1 is (b, a, c)
across the edge (a, b), and 2 is (a, d, c) across the edge (a, c).  The
neighbour links are symmetric, and no edge is constrained or marked delaunay. -/
def cascadeMesh : SweepContext :=
  { emptyCtx with
    tris := [{ Triangle.mk3 cp ca cb with neighbors_ := ⟨some 1, none, none⟩ },
             { Triangle.mk3 cb ca cc with neighbors_ := ⟨some 2, none, some 0⟩ },
             { Triangle.mk3 ca cd cc with neighbors_ := ⟨none, some 1, none⟩ }]
    map_ := [0, 1, 2] }

/-- The mesh `cascadeMesh` after `Legalize` of triangle 0: 0 is (b, p, c),
1 is (d, c, p) and 2 is (p, a, d); triangle 1 has its edge (c, p), shared with
triangle 0, marked delaunay. -/
def cascadeMeshLegalized : SweepContext :=
  { cascadeMesh with
    tris := [{ Triangle.mk3 cb cp cc with neighbors_ := ⟨some 1, none, none⟩ },
             { Triangle.mk3 cd cc cp with neighbors_ := ⟨some 0, some 2, none⟩
                                          delaunay_edge := ⟨true, false, false⟩ },
             { Triangle.mk3 cp ca cd with neighbors_ := ⟨none, some 1, none⟩ }] }

/-- A front of five nodes, (0,10), (1,5), (2,0), (10,1), (20,5): a basin with
left wall (1,5), bottom (2,0) and right wall (20,5), of width 19 and depth 5. -/
def basinFront : SweepContext :=
  { emptyCtx with
    nodes := [⟨some ⟨0, 0, 10⟩, none, some 1, none⟩,
              ⟨some ⟨1, 1, 5⟩, none, some 2, some 0⟩,
              ⟨some ⟨2, 2, 0⟩, none, some 3, some 1⟩,
              ⟨some ⟨3, 10, 1⟩, none, some 4, some 2⟩,
              ⟨some ⟨4, 20, 5⟩, none, none, some 3⟩]
    head_ := some 0
    tail_ := some 4 }

/-- The mesh `flippedPair` with the shared edge marked constrained on
triangle 1 only. -/
def halfConstrainedPair : SweepContext :=
  { flippedPair with
    tris := [{ Triangle.mk3 fp fop fb with neighbors_ := ⟨none, none, some 1⟩ },
             { Triangle.mk3 fop fp fa with neighbors_ := ⟨none, none, some 0⟩
                                           constrained_edge := ⟨false, false, true⟩ }] }

/-- The mesh `flippedPair` with the shared edge marked constrained on both
triangles. -/
def constrainedPair : SweepContext :=
  { flippedPair with
    tris := [{ Triangle.mk3 fp fop fb with neighbors_ := ⟨none, none, some 1⟩
                                           constrained_edge := ⟨false, false, true⟩ },
             { Triangle.mk3 fop fp fa with neighbors_ := ⟨none, none, some 0⟩
                                           constrained_edge := ⟨false, false, true⟩ }] }

/-- The mesh `splitMesh` with the edge (q, m) marked constrained on triangle 2. -/
def seedMesh : SweepContext :=
  { splitMesh with
    tris := [splitT0, splitT1,
             { Triangle.mk3 sq sw sm with neighbors_ := ⟨some 3, some 0, none⟩
                                          constrained_edge := ⟨false, true, false⟩ },
             { Triangle.mk3 sm sw sp with neighbors_ := ⟨none, some 1, some 2⟩ }] }

/-- Modelled from the spec: the constraint edge between two points, section 3:
an ordered pair (p, q) where q is the upper endpoint (higher y, or greater x
on tie). -/
def mkEdge (p1 p2 : Point) : Edge :=
  if p1.y > p2.y ∨ (p1.y = p2.y ∧ p1.x > p2.x) then ⟨p2, p1⟩ else ⟨p1, p2⟩

/-- Modelled from the spec: a context holding only an outline, section 6
(`AddOutline`): the points as given, and a constraint edge for each pair of
consecutive points, with the closing edge from the last to the first. -/
def outlineContext (pts : List Point) : SweepContext :=
  { emptyCtx with
    points_ := pts
    edges := (pts.zip (pts.rotate 1)).map (fun pq => mkEdge pq.1 pq.2) }

/-- The outline [(0,0), (1,0), (0,1)]. -/
def triangleOutline : List Point := [⟨0, 0, 0⟩, ⟨1, 1, 0⟩, ⟨2, 0, 1⟩]

/-- The left sentinel point (-0.3, -0.3) used with `triangleOutline`. -/
def leftSentinel : Point := ⟨100, -3 / 10, -3 / 10⟩

/-- The right sentinel point (1.3, -0.3) used with `triangleOutline`. -/
def rightSentinel : Point := ⟨101, 13 / 10, -3 / 10⟩

/-- A front going down to the right, (0,10), (2,1), (4,3/2), (6,2), and the
constraint edge from p = (6,2) up to q = (0,10): the nodes of (2,1) and
(4,3/2) are below the edge. -/
def rightDip : SweepContext :=
  { emptyCtx with
    nodes := [⟨some ⟨0, 0, 10⟩, none, some 1, none⟩,
              ⟨some ⟨1, 2, 1⟩, none, some 2, some 0⟩,
              ⟨some ⟨2, 4, 3 / 2⟩, none, some 3, some 1⟩,
              ⟨some ⟨3, 6, 2⟩, none, none, some 2⟩]
    edges := [⟨⟨3, 6, 2⟩, ⟨0, 0, 10⟩⟩]
    head_ := some 0
    tail_ := some 3
    edge_event := ⟨some 0, true⟩ }

/-- The front `rightDip` reflected in the y-axis: (0,10), (-2,1), (-4,3/2),
(-6,2), with prev and next exchanged, and the edge from (-6,2) up to (0,10). -/
def leftDip : SweepContext :=
  { emptyCtx with
    nodes := [⟨some ⟨0, 0, 10⟩, none, none, some 1⟩,
              ⟨some ⟨1, -2, 1⟩, none, some 0, some 2⟩,
              ⟨some ⟨2, -4, 3 / 2⟩, none, some 1, some 3⟩,
              ⟨some ⟨3, -6, 2⟩, none, some 2, none⟩]
    edges := [⟨⟨3, -6, 2⟩, ⟨0, 0, 10⟩⟩]
    head_ := some 3
    tail_ := some 0
    edge_event := ⟨some 0, false⟩ }

/-- A front of five nodes over a fan of four counter-clockwise triangles with
apex q = (2,-100): the nodes carry (0,10), (1,9), (2,0), (3,9), (4,10), a
basin of width 3 and depth 10 at the node of (2,0); triangle i is
(q, point i+1, point i) and belongs to node i. -/
def deepBasin : SweepContext :=
  { emptyCtx with
    tris := [{ Triangle.mk3 ⟨5, 2, -100⟩ ⟨1, 1, 9⟩ ⟨0, 0, 10⟩ with
                 neighbors_ := ⟨none, none, some 1⟩ },
             { Triangle.mk3 ⟨5, 2, -100⟩ ⟨2, 2, 0⟩ ⟨1, 1, 9⟩ with
                 neighbors_ := ⟨none, some 0, some 2⟩ },
             { Triangle.mk3 ⟨5, 2, -100⟩ ⟨3, 3, 9⟩ ⟨2, 2, 0⟩ with
                 neighbors_ := ⟨none, some 1, some 3⟩ },
             { Triangle.mk3 ⟨5, 2, -100⟩ ⟨4, 4, 10⟩ ⟨3, 3, 9⟩ with
                 neighbors_ := ⟨none, some 2, none⟩ }]
    map_ := [0, 1, 2, 3]
    nodes := [⟨some ⟨0, 0, 10⟩, some 0, some 1, none⟩,
              ⟨some ⟨1, 1, 9⟩, some 1, some 2, some 0⟩,
              ⟨some ⟨2, 2, 0⟩, some 2, some 3, some 1⟩,
              ⟨some ⟨3, 3, 9⟩, some 3, some 4, some 2⟩,
              ⟨some ⟨4, 4, 10⟩, none, none, some 3⟩]
    head_ := some 0
    tail_ := some 4 }


/-- A front of three nodes, (-2^-60, 1), (0,0), (1,0), without triangles: the
angle at the middle node, from (1,0) to (-2^-60, 1), is just above 90
degrees. -/
def steepLeftWall : SweepContext :=
  { emptyCtx with
    nodes := [⟨some ⟨0, -(1 / 2 ^ 60), 1⟩, none, some 1, none⟩,
              ⟨some ⟨1, 0, 0⟩, none, some 2, some 0⟩,
              ⟨some ⟨2, 1, 0⟩, none, none, some 1⟩]
    head_ := some 0
    tail_ := some 2 }

/-- A front of three nodes, (-2^-60, -1), (0,0), (1,0), over the triangles
(q, (0,0), (-2^-60,-1)) and (q, (1,0), (0,0)) with q = (0,-100): the angle at
the middle node, from (1,0) to (-2^-60, -1), is just below -90 degrees. -/
def steepLeftDrop : SweepContext :=
  { emptyCtx with
    tris := [{ Triangle.mk3 ⟨3, 0, -100⟩ ⟨1, 0, 0⟩ ⟨0, -(1 / 2 ^ 60), -1⟩ with
                 neighbors_ := ⟨none, none, some 1⟩ },
             { Triangle.mk3 ⟨3, 0, -100⟩ ⟨2, 1, 0⟩ ⟨1, 0, 0⟩ with
                 neighbors_ := ⟨none, some 0, none⟩ }]
    map_ := [0, 1]
    nodes := [⟨some ⟨0, -(1 / 2 ^ 60), -1⟩, some 0, some 1, none⟩,
              ⟨some ⟨1, 0, 0⟩, some 1, some 2, some 0⟩,
              ⟨some ⟨2, 1, 0⟩, none, none, some 1⟩]
    head_ := some 0
    tail_ := some 2 }

/-- A front of three nodes, (-2^-60, -2), (0,0), (3,0), without triangles:
the angle at the middle node, from (3,0) to (-2^-60, -2), is just below -90
degrees. -/
def steepLeftCliff : SweepContext :=
  { emptyCtx with
    nodes := [⟨some ⟨0, -(1 / 2 ^ 60), -2⟩, none, some 1, none⟩,
              ⟨some ⟨1, 0, 0⟩, none, some 2, some 0⟩,
              ⟨some ⟨2, 3, 0⟩, none, none, some 1⟩]
    head_ := some 0
    tail_ := some 2 }

/-- A front of five nodes over a fan of four counter-clockwise triangles with
apex q = (1/2,-100): the nodes carry (-1,2), (-2^-60,1), (1/2,0), (1,1),
(2,1/2), a basin of width 1 + 2^-60 and depth 1 at the node of (1/2,0);
triangle i is (q, point i+1, point i) and belongs to node i. -/
def unitBasin : SweepContext :=
  { emptyCtx with
    tris := [{ Triangle.mk3 ⟨5, 1 / 2, -100⟩ ⟨1, -(1 / 2 ^ 60), 1⟩ ⟨0, -1, 2⟩ with
                 neighbors_ := ⟨none, none, some 1⟩ },
             { Triangle.mk3 ⟨5, 1 / 2, -100⟩ ⟨2, 1 / 2, 0⟩ ⟨1, -(1 / 2 ^ 60), 1⟩ with
                 neighbors_ := ⟨none, some 0, some 2⟩ },
             { Triangle.mk3 ⟨5, 1 / 2, -100⟩ ⟨3, 1, 1⟩ ⟨2, 1 / 2, 0⟩ with
                 neighbors_ := ⟨none, some 1, some 3⟩ },
             { Triangle.mk3 ⟨5, 1 / 2, -100⟩ ⟨4, 2, 1 / 2⟩ ⟨3, 1, 1⟩ with
                 neighbors_ := ⟨none, some 2, none⟩ }]
    map_ := [0, 1, 2, 3]
    nodes := [⟨some ⟨0, -1, 2⟩, some 0, some 1, none⟩,
              ⟨some ⟨1, -(1 / 2 ^ 60), 1⟩, some 1, some 2, some 0⟩,
              ⟨some ⟨2, 1 / 2, 0⟩, some 2, some 3, some 1⟩,
              ⟨some ⟨3, 1, 1⟩, some 3, some 4, some 2⟩,
              ⟨some ⟨4, 2, 1 / 2⟩, none, none, some 3⟩]
    head_ := some 0
    tail_ := some 4 }

/-- A front of three nodes, (0,-3), (1,0), (2,1), without triangles: the
angle at the middle node, from (2,1) to (0,-3), is negative, and (2,1) is not
lower than the middle node. -/
def risingFront : SweepContext :=
  { emptyCtx with
    nodes := [⟨some ⟨0, 0, -3⟩, none, some 1, none⟩,
              ⟨some ⟨1, 1, 0⟩, none, some 2, some 0⟩,
              ⟨some ⟨2, 2, 1⟩, none, none, some 1⟩]
    head_ := some 0
    tail_ := some 2 }

/-- The front `leftDip` over a fan of three counter-clockwise triangles with
apex q = (-3,-100): triangle i is (q, point i, point i+1) and belongs to node
i+1, the left end of its side of the front. -/
def leftDipMesh : SweepContext :=
  { leftDip with
    tris := [{ Triangle.mk3 ⟨5, -3, -100⟩ ⟨0, 0, 10⟩ ⟨1, -2, 1⟩ with
                 neighbors_ := ⟨none, some 1, none⟩ },
             { Triangle.mk3 ⟨5, -3, -100⟩ ⟨1, -2, 1⟩ ⟨2, -4, 3 / 2⟩ with
                 neighbors_ := ⟨none, some 2, some 0⟩ },
             { Triangle.mk3 ⟨5, -3, -100⟩ ⟨2, -4, 3 / 2⟩ ⟨3, -6, 2⟩ with
                 neighbors_ := ⟨none, none, some 1⟩ }]
    map_ := [0, 1, 2]
    nodes := [⟨some ⟨0, 0, 10⟩, none, none, some 1⟩,
              ⟨some ⟨1, -2, 1⟩, some 0, some 0, some 2⟩,
              ⟨some ⟨2, -4, 3 / 2⟩, some 1, some 1, some 3⟩,
              ⟨some ⟨3, -6, 2⟩, some 2, some 2, none⟩] }

/-- The front `rightDip` over a fan of three counter-clockwise triangles with
apex q = (3,-100): triangle i is (q, point i+1, point i) and belongs to node
i, the left end of its side of the front.  It is `leftDipMesh` reflected in
the y-axis, with the orientation of the triangles and the triangle pointers
of the nodes set right. -/
def rightDipMesh : SweepContext :=
  { rightDip with
    tris := [{ Triangle.mk3 ⟨5, 3, -100⟩ ⟨1, 2, 1⟩ ⟨0, 0, 10⟩ with
                 neighbors_ := ⟨none, none, some 1⟩ },
             { Triangle.mk3 ⟨5, 3, -100⟩ ⟨2, 4, 3 / 2⟩ ⟨1, 2, 1⟩ with
                 neighbors_ := ⟨none, some 0, some 2⟩ },
             { Triangle.mk3 ⟨5, 3, -100⟩ ⟨3, 6, 2⟩ ⟨2, 4, 3 / 2⟩ with
                 neighbors_ := ⟨none, some 1, none⟩ }]
    map_ := [0, 1, 2]
    nodes := [⟨some ⟨0, 0, 10⟩, some 0, some 1, none⟩,
              ⟨some ⟨1, 2, 1⟩, some 1, some 2, some 0⟩,
              ⟨some ⟨2, 4, 3 / 2⟩, some 2, some 3, some 1⟩,
              ⟨some ⟨3, 6, 2⟩, none, none, some 2⟩] }

/-- Two counter-clockwise triangles on the two sides of the edge from
a = (-1,1) to b = (1,1): triangle 0 is (q, a, b) with q = (0,2), triangle 1 is
(p, b, a) with p = (0,0); they are mutual neighbours and no edge is
constrained.  The front is a, q, b, the node of q carries triangle 0, and
edge 0 is the constraint from p to q, which crosses the edge from a to b. -/
def crossedPair : SweepContext :=
  { emptyCtx with
    tris := [{ Triangle.mk3 ⟨0, 0, 2⟩ ⟨1, -1, 1⟩ ⟨2, 1, 1⟩ with neighbors_ := ⟨some 1, none, none⟩ },
             { Triangle.mk3 ⟨3, 0, 0⟩ ⟨2, 1, 1⟩ ⟨1, -1, 1⟩ with neighbors_ := ⟨some 0, none, none⟩ }]
    map_ := [0, 1]
    nodes := [⟨some ⟨1, -1, 1⟩, some 0, some 1, none⟩,
              ⟨some ⟨0, 0, 2⟩, some 0, some 2, some 0⟩,
              ⟨some ⟨2, 1, 1⟩, none, none, some 1⟩]
    head_ := some 0
    tail_ := some 2
    edges := [⟨⟨3, 0, 0⟩, ⟨0, 0, 2⟩⟩] }

/-- Five counter-clockwise triangles whose neighbour pointers do not form a
triangulation, over the points q = (0,2), a = (-1,1), b = (1,1), p = (0,0),
c = (3,1), z = (-2,-2), w = (-1,0) and d = (-2,-1); w lies on the segment from
z to q, and no vertex other than p and q lies on the line through p and q.
Triangle 0 is (q, a, b) and records triangle 1 across the side opposite q;
triangle 1 is (c, b, z) and records triangle 2 across the side opposite b;
triangle 2 is (z, c, w) and records triangle 3 across the side opposite z;
triangle 3 is (d, w, q) and records triangle 4 across the side opposite w;
triangle 4 is (c, p, d) and records triangle 1 across the side opposite p.  No
edge is constrained.  The front is a, q, b, the node of q carries triangle 0,
and edge 0 is the constraint from p to q. -/
def tangledMesh : SweepContext :=
  { emptyCtx with
    tris := [{ Triangle.mk3 ⟨0, 0, 2⟩ ⟨1, -1, 1⟩ ⟨2, 1, 1⟩ with neighbors_ := ⟨some 1, none, none⟩ },
             { Triangle.mk3 ⟨4, 3, 1⟩ ⟨2, 1, 1⟩ ⟨5, -2, -2⟩ with neighbors_ := ⟨none, some 2, none⟩ },
             { Triangle.mk3 ⟨5, -2, -2⟩ ⟨4, 3, 1⟩ ⟨6, -1, 0⟩ with neighbors_ := ⟨some 3, none, none⟩ },
             { Triangle.mk3 ⟨7, -2, -1⟩ ⟨6, -1, 0⟩ ⟨0, 0, 2⟩ with neighbors_ := ⟨none, some 4, none⟩ },
             { Triangle.mk3 ⟨4, 3, 1⟩ ⟨3, 0, 0⟩ ⟨7, -2, -1⟩ with neighbors_ := ⟨none, some 1, none⟩ }]
    map_ := [0, 1, 2, 3, 4]
    nodes := [⟨some ⟨1, -1, 1⟩, none, some 1, none⟩,
              ⟨some ⟨0, 0, 2⟩, some 0, some 2, some 0⟩,
              ⟨some ⟨2, 1, 1⟩, none, none, some 1⟩]
    head_ := some 0
    tail_ := some 2
    edges := [⟨⟨3, 0, 0⟩, ⟨0, 0, 2⟩⟩] }

/-! ## Theorems -/

/-! ### C2: Incircle -/

/-- The determinant computed by `Incircle`. -/
theorem incircle_det_eq (a b c d : Point) (ox oy r : ℚ)
    (ha : sqDist a ox oy = r) (hb : sqDist b ox oy = r) (hc : sqDist c ox oy = r) :
    ((a.x - d.x) * (a.x - d.x) + (a.y - d.y) * (a.y - d.y)) *
        ((b.x - d.x) * (c.y - d.y) - (c.x - d.x) * (b.y - d.y))
      + ((b.x - d.x) * (b.x - d.x) + (b.y - d.y) * (b.y - d.y)) *
        ((c.x - d.x) * (a.y - d.y) - (a.x - d.x) * (c.y - d.y))
      + ((c.x - d.x) * (c.x - d.x) + (c.y - d.y) * (c.y - d.y)) *
        ((a.x - d.x) * (b.y - d.y) - (b.x - d.x) * (a.y - d.y))
      = (r - sqDist d ox oy) * area2 a b c := by
  unfold sqDist at *
  unfold area2
  linear_combination ((b.x - d.x) * (c.y - d.y) - (c.x - d.x) * (b.y - d.y)) * ha
    + ((c.x - d.x) * (a.y - d.y) - (a.x - d.x) * (c.y - d.y)) * hb
    + ((a.x - d.x) * (b.y - d.y) - (b.x - d.x) * (a.y - d.y)) * hc

/-- Unfolding of `Incircle`: the two early-out tests and the sign of the
determinant. -/
theorem Incircle_iff (a b c d : Point) :
    Incircle a b c d = true ↔
      0 < area2 a b d ∧ 0 < area2 c a d ∧
      0 < ((a.x - d.x) * (a.x - d.x) + (a.y - d.y) * (a.y - d.y)) *
            ((b.x - d.x) * (c.y - d.y) - (c.x - d.x) * (b.y - d.y))
          + ((b.x - d.x) * (b.x - d.x) + (b.y - d.y) * (b.y - d.y)) *
            ((c.x - d.x) * (a.y - d.y) - (a.x - d.x) * (c.y - d.y))
          + ((c.x - d.x) * (c.x - d.x) + (c.y - d.y) * (c.y - d.y)) *
            ((a.x - d.x) * (b.y - d.y) - (b.x - d.x) * (a.y - d.y)) := by
  have e1 : area2 a b d = (a.x - d.x) * (b.y - d.y) - (b.x - d.x) * (a.y - d.y) := by
    unfold area2; ring
  have e2 : area2 c a d = (c.x - d.x) * (a.y - d.y) - (a.x - d.x) * (c.y - d.y) := by
    unfold area2; ring
  rw [e1, e2]
  unfold Incircle
  simp only []
  by_cases h1 : (a.x - d.x) * (b.y - d.y) - (b.x - d.x) * (a.y - d.y) ≤ 0
  · simp [h1, not_lt.mpr h1]
  · by_cases h2 : (c.x - d.x) * (a.y - d.y) - (a.x - d.x) * (c.y - d.y) ≤ 0
    · simp [h1, h2, not_lt.mpr h2]
    · simp only [h1, h2, if_false, decide_eq_true_eq, gt_iff_lt]
      simp only [not_le] at h1 h2
      simp [h1, h2]

/-- The circumcentre of a non-degenerate triangle has rational coordinates. -/
theorem circumcentre_exists (a b c : Point) (h : area2 a b c ≠ 0) :
    ∃ ox oy : ℚ, sqDist a ox oy = sqDist b ox oy ∧ sqDist b ox oy = sqDist c ox oy := by
  have h2 : (2 : ℚ) * area2 a b c ≠ 0 := mul_ne_zero two_ne_zero h
  refine ⟨a.x + ((c.y - a.y) * ((b.x - a.x) * (b.x - a.x) + (b.y - a.y) * (b.y - a.y))
      - (b.y - a.y) * ((c.x - a.x) * (c.x - a.x) + (c.y - a.y) * (c.y - a.y))) / (2 * area2 a b c),
    a.y + ((b.x - a.x) * ((c.x - a.x) * (c.x - a.x) + (c.y - a.y) * (c.y - a.y))
      - (c.x - a.x) * ((b.x - a.x) * (b.x - a.x) + (b.y - a.y) * (b.y - a.y))) / (2 * area2 a b c),
    ?_, ?_⟩
  · unfold sqDist
    field_simp
    unfold area2
    ring
  · unfold sqDist
    field_simp
    unfold area2
    ring

/-- C2 (as amended): in exact arithmetic, for (a, b, c) strictly
counter-clockwise, `Incircle(a, b, c, d)` returns true if and only if d lies
strictly inside the circle through a, b and c and, in addition, strictly to
the left of the directed lines from a to b and from c to a (the two early-out
tests). -/
theorem Incircle_true_iff (a b c d : Point) (hccw : 0 < area2 a b c) :
    Incircle a b c d = true ↔
      InCircumcircle a b c d ∧ 0 < area2 a b d ∧ 0 < area2 c a d := by
  rw [Incircle_iff]
  constructor
  · rintro ⟨h1, h2, h3⟩
    refine ⟨?_, h1, h2⟩
    obtain ⟨ox, oy, hab, hbc⟩ := circumcentre_exists a b c (ne_of_gt hccw)
    refine ⟨ox, oy, hab, hbc, ?_⟩
    have key := incircle_det_eq a b c d ox oy (sqDist a ox oy) rfl hab.symm (hab.trans hbc).symm
    rw [key] at h3
    have := (mul_pos_iff_of_pos_right hccw).1 h3
    linarith
  · rintro ⟨⟨ox, oy, hab, hbc, hd⟩, h1, h2⟩
    refine ⟨h1, h2, ?_⟩
    have key := incircle_det_eq a b c d ox oy (sqDist a ox oy) rfl hab.symm (hab.trans hbc).symm
    rw [key]
    exact mul_pos (by linarith) hccw

/-- Witness for `Incircle_true_iff`: the triangle (0,0), (2,0), (0,2) and the
point (1,1). -/
theorem Incircle_true_iff_witness :
    0 < area2 ⟨0, 0, 0⟩ ⟨1, 2, 0⟩ ⟨2, 0, 2⟩ ∧
    (Incircle ⟨0, 0, 0⟩ ⟨1, 2, 0⟩ ⟨2, 0, 2⟩ ⟨3, 1, 1⟩ = true ↔
      InCircumcircle ⟨0, 0, 0⟩ ⟨1, 2, 0⟩ ⟨2, 0, 2⟩ ⟨3, 1, 1⟩ ∧
        0 < area2 ⟨0, 0, 0⟩ ⟨1, 2, 0⟩ ⟨3, 1, 1⟩ ∧ 0 < area2 ⟨2, 0, 2⟩ ⟨0, 0, 0⟩ ⟨3, 1, 1⟩) :=
  ⟨by decide!, Incircle_true_iff ⟨0, 0, 0⟩ ⟨1, 2, 0⟩ ⟨2, 0, 2⟩ ⟨3, 1, 1⟩ (by decide!)⟩

/-- C2 (counterexample to the claim as stated): (a, b, c) = (0,0), (2,0), (0,2)
is strictly counter-clockwise and d = (1, -3/10) lies strictly inside the
circle through them (centre (1,1), squared radius 2), yet `Incircle` returns
false, because d is on the far side of the line through a and b. -/
theorem Incircle_rejects_point_inside_circle :
    0 < area2 ⟨0, 0, 0⟩ ⟨1, 2, 0⟩ ⟨2, 0, 2⟩ ∧
    InCircumcircle ⟨0, 0, 0⟩ ⟨1, 2, 0⟩ ⟨2, 0, 2⟩ ⟨3, 1, -3 / 10⟩ ∧
    Incircle ⟨0, 0, 0⟩ ⟨1, 2, 0⟩ ⟨2, 0, 2⟩ ⟨3, 1, -3 / 10⟩ = false := by
  refine ⟨by decide!, ⟨1, 1, ?_, ?_, ?_⟩, by decide!⟩
  · decide!
  · decide!
  · decide!


/-! ### C9: a missing neighbour in FlipEdgeEvent -/

/-- C9 (the code at the failing input): the constraint from p = (0,0) to
q = (0,2) crosses the side opposite q of the only triangle, so the interior
`EdgeEvent` enters `FlipEdgeEvent`, which finds no neighbour across the pivot
and throws `std::runtime_error`, not `null_triangle_exception`; so does
`FlipScanEdgeEvent` when there is no neighbour across p. -/
theorem FlipEdgeEvent_missing_neighbour_throws_runtime_error :
    EdgeEventInterior (specEnv 0) 5 ⟨3, 0, 0⟩ ⟨0, 0, 2⟩ (some 0) ⟨0, 0, 2⟩ loneTriangle
      = Res.throw (Err.runtime_error RuntimeMsg.FlipEdgeEvent_null_neighbor_across) loneTriangle ∧
    FlipEdgeEvent (specEnv 0) 5 ⟨3, 0, 0⟩ ⟨0, 0, 2⟩ 0 ⟨0, 0, 2⟩ loneTriangle
      = Res.throw (Err.runtime_error RuntimeMsg.FlipEdgeEvent_null_neighbor_across) loneTriangle ∧
    FlipScanEdgeEvent (specEnv 0) 5 ⟨3, 0, 0⟩ ⟨0, 0, 2⟩ 0 0 ⟨0, 0, 2⟩ loneTriangle
      = Res.throw (Err.runtime_error RuntimeMsg.FlipScanEdgeEvent_null_neighbor_across) loneTriangle := by
  decide!

/-! ### C4: constrained flags across a shared edge -/

/-- C4 (the code at the failing input): in `splitMesh` the constraint from p
to q passes through the vertex m of triangle 0 = (q, m, x).  The interior
`EdgeEvent` returns normally; the collinear branch (lines 141-150) has marked
the side (q, m) constrained on triangle 0 only, so triangle 2 = (q, w, m),
the neighbour of triangle 0 across that side, still has it unmarked. -/
theorem EdgeEvent_collinear_split_marks_one_side :
    (∀ t ∈ splitMesh.tris, t.constrained_edge = ⟨false, false, false⟩) ∧
    (EdgeEventInterior (specEnv 0) 5 sp sq (some 0) sq splitMesh).isOk = true ∧
    ((EdgeEventInterior (specEnv 0) 5 sp sq (some 0) sq splitMesh).ctx.tris.map
        (fun t => (t.points_, t.neighbors_, t.constrained_edge)))
      = [(⟨sq, sm, sx⟩, ⟨some 1, none, some 2⟩, ⟨false, false, true⟩),
         (⟨sm, sp, sx⟩, ⟨none, some 0, some 3⟩, ⟨false, false, true⟩),
         (⟨sq, sw, sm⟩, ⟨some 3, some 0, none⟩, ⟨false, false, false⟩),
         (⟨sm, sw, sp⟩, ⟨none, some 1, some 2⟩, ⟨false, true, false⟩)] := by
  decide!

/-! ### Reasoning about `M` -/

@[simp] theorem run_pure {α : Type} (a : α) (s : SweepContext) :
    (pure a : M α) s = Res.ok a s := rfl

@[simp] theorem run_bind {α β : Type} (m : M α) (f : α → M β) (s : SweepContext) :
    (m >>= f) s = match m s with
      | Res.ok a s1 => f a s1
      | Res.throw e s1 => Res.throw e s1 := rfl

@[simp] theorem run_raise {α : Type} (e : Err) (s : SweepContext) :
    (raise e : M α) s = Res.throw e s := rfl

@[simp] theorem run_deref_some {α : Type} (a : α) (s : SweepContext) :
    deref (some a) s = Res.ok a s := rfl

@[simp] theorem run_deref_none {α : Type} (s : SweepContext) :
    (deref none : M α) s = Res.throw Err.undefined_behaviour s := rfl

@[simp] theorem run_getCtx (s : SweepContext) : getCtx s = Res.ok s s := rfl

@[simp] theorem run_modifyCtx (f : SweepContext → SweepContext) (s : SweepContext) :
    modifyCtx f s = Res.ok () (f s) := rfl

theorem getTri_of_some {s : SweepContext} {t : TriId} {v : Triangle} (h : s.tris[t]? = some v) :
    getTri t s = Res.ok v s := by
  simp [getTri, h]

theorem modifyTri_of_some {s : SweepContext} {t : TriId} {v : Triangle} (h : s.tris[t]? = some v)
    (f : Triangle → Triangle) :
    modifyTri t f s = Res.ok () { s with tris := s.tris.set t (f v) } := by
  simp [modifyTri, h]

theorem getNode_of_some {s : SweepContext} {n : NodeId} {v : Node} (h : s.nodes[n]? = some v) :
    getNode n s = Res.ok v s := by
  simp [getNode, h]

theorem getEdge_of_some {s : SweepContext} {e : EdgeId} {v : Edge} (h : s.edges[e]? = some v) :
    getEdge e s = Res.ok v s := by
  simp [getEdge, h]

theorem bind_ok {α β : Type} {m : M α} {f : α → M β} {s s1 : SweepContext} {r : β}
    (h : (m >>= f) s = Res.ok r s1) : ∃ a s2, m s = Res.ok a s2 ∧ f a s2 = Res.ok r s1 := by
  rw [run_bind] at h
  cases hm : m s with
  | ok a s2 =>
    rw [hm] at h
    exact ⟨a, s2, rfl, h⟩
  | throw e s2 =>
    rw [hm] at h
    cases h

theorem M_bind_assoc {α β γ : Type} (m : M α) (g : α → M β) (f : β → M γ) :
    (m >>= g) >>= f = m >>= fun a => g a >>= f := by
  funext s
  simp only [run_bind]
  cases m s <;> rfl

theorem getNode_bind_cases {α : Type} {n : NodeId} {f : Node → M α} {s : SweepContext}
    {r : Res α} (h : (getNode n >>= f) s = r) :
    r = Res.throw Err.undefined_behaviour s ∨ ∃ nd, s.nodes[n]? = some nd ∧ f nd s = r := by
  simp only [run_bind, getNode] at h
  cases hn : s.nodes[n]? with
  | none => left; rw [hn] at h; exact h.symm
  | some nd => right; rw [hn] at h; exact ⟨nd, rfl, h⟩

theorem deref_bind_cases {α β : Type} {o : Option β} {f : β → M α} {s : SweepContext}
    {r : Res α} (h : (deref o >>= f) s = r) :
    r = Res.throw Err.undefined_behaviour s ∨ ∃ a, o = some a ∧ f a s = r := by
  cases o with
  | none => left; simpa using h.symm
  | some a => right; exact ⟨a, rfl, by simpa using h⟩

theorem nodePoint_bind_cases {α : Type} {n : NodeId} {f : Point → M α} {s : SweepContext}
    {r : Res α} (h : (nodePoint n >>= f) s = r) :
    r = Res.throw Err.undefined_behaviour s ∨
      ∃ nd p, s.nodes[n]? = some nd ∧ nd.point = some p ∧ f p s = r := by
  unfold nodePoint at h
  rw [M_bind_assoc] at h
  rcases getNode_bind_cases h with h | ⟨nd, hnd, h⟩
  · exact Or.inl h
  · rcases deref_bind_cases h with h | ⟨p, hp, h⟩
    · exact Or.inl h
    · exact Or.inr ⟨nd, p, hnd, hp, h⟩

theorem bind_cases {α β : Type} {m : M α} {f : α → M β} {s : SweepContext} {r : Res β}
    (h : (m >>= f) s = r) :
    (∃ e s1, m s = Res.throw e s1 ∧ r = Res.throw e s1) ∨
      ∃ a s1, m s = Res.ok a s1 ∧ f a s1 = r := by
  simp only [run_bind] at h
  cases hm : m s with
  | ok a s1 => right; rw [hm] at h; exact ⟨a, s1, rfl, h⟩
  | throw e s1 => left; rw [hm] at h; exact ⟨e, s1, rfl, h.symm⟩

theorem modifyCtx_bind {α : Type} (g : SweepContext → SweepContext) (f : Unit → M α)
    (s : SweepContext) : (modifyCtx g >>= f) s = f () (g s) := rfl

theorem getCtx_bind {α : Type} (f : SweepContext → M α) (s : SweepContext) :
    (getCtx >>= f) s = f s s := rfl

theorem pure_bind_run {α β : Type} (a : α) (f : α → M β) (s : SweepContext) :
    (pure a >>= f) s = f a s := rfl

/-! ### Sides of a triangle -/

theorem EdgeIndex_isEdge {t : Triangle} {u v : Point} {i : Fin 3}
    (h : t.EdgeIndex u v = some i) : t.isEdge i u v := by
  unfold Triangle.EdgeIndex at h
  unfold Triangle.isEdge Triangle.edgeEnds
  split_ifs at h <;> cases h <;> subst_vars <;> simp

theorem EdgeIndex_none_of_not_HasSide {t : Triangle} {u v : Point}
    (h : ¬ t.HasSide u v) : t.EdgeIndex u v = none := by
  cases hi : t.EdgeIndex u v with
  | none => rfl
  | some i => exact absurd ⟨i, EdgeIndex_isEdge hi⟩ h

theorem EdgeIndex_isSome_of_HasSide {t : Triangle} {u v : Point}
    (h : t.HasSide u v) : ∃ i, t.EdgeIndex u v = some i := by
  obtain ⟨i, hi⟩ := h
  unfold Triangle.isEdge Triangle.edgeEnds at hi
  unfold Triangle.EdgeIndex
  fin_cases i <;> simp at hi <;> rcases hi with ⟨h1, h2⟩ | ⟨h1, h2⟩ <;> subst h1 <;> subst h2 <;>
    split_ifs <;> first | exact ⟨_, rfl⟩ | simp_all

theorem IsEdgeSideOfTriangle_false {s : SweepContext} {tr : TriId} {tri : Triangle} {ep eq : Point}
    (htri : s.tris[tr]? = some tri) (hside : ¬ tri.HasSide ep eq) :
    IsEdgeSideOfTriangle tr ep eq s = Res.ok false s := by
  simp [IsEdgeSideOfTriangle, getTri_of_some htri, EdgeIndex_none_of_not_HasSide hside]


/-! ### The triangle heap -/

theorem heap_set_get {α : Type} {l : List α} {i : Nat} {v : α} (h : l[i]? = some v) (a : α)
    (j : Nat) : (l.set i a)[j]? = if i = j then some a else l[j]? := by
  have hi : i < l.length := (List.getElem?_eq_some.1 h).1
  rw [List.getElem?_set]
  simp [hi]

theorem heap_lt_of_get {α : Type} {l : List α} {i : Nat} {v : α} (h : l[i]? = some v) :
    i < l.length := (List.getElem?_eq_some.1 h).1

theorem heap_get_of_lt {α : Type} {l : List α} {i : Nat} (h : i < l.length) :
    ∃ v, l[i]? = some v := ⟨l[i], List.getElem?_eq_getElem h⟩

/-! ### Marking a constrained edge -/

theorem Arr3.get_set {α : Type} (a : Arr3 α) (i j : Fin 3) (v : α) :
    (a.set i v).get j = if i = j then v else a.get j := by
  fin_cases i <;> fin_cases j <;> rfl

theorem MarkConstrainedEdgeIdx_frame (t : Triangle) (k : Fin 3) :
    (t.MarkConstrainedEdgeIdx k).points_ = t.points_ ∧
    (t.MarkConstrainedEdgeIdx k).neighbors_ = t.neighbors_ ∧
    (t.MarkConstrainedEdgeIdx k).delaunay_edge = t.delaunay_edge ∧
    (t.MarkConstrainedEdgeIdx k).interior_ = t.interior_ := ⟨rfl, rfl, rfl, rfl⟩

theorem MarkConstrainedEdgeIdx_get (t : Triangle) (k j : Fin 3) :
    (t.MarkConstrainedEdgeIdx k).constrained_edge.get j
      = if k = j then true else t.constrained_edge.get j := by
  simp [Triangle.MarkConstrainedEdgeIdx, Arr3.get_set]

theorem MarkConstrainedEdge_frame (t : Triangle) (p q : Point) :
    (t.MarkConstrainedEdge p q).points_ = t.points_ ∧
    (t.MarkConstrainedEdge p q).neighbors_ = t.neighbors_ ∧
    (t.MarkConstrainedEdge p q).delaunay_edge = t.delaunay_edge ∧
    (t.MarkConstrainedEdge p q).interior_ = t.interior_ := by
  unfold Triangle.MarkConstrainedEdge
  split_ifs <;> exact ⟨rfl, rfl, rfl, rfl⟩

/-- `MarkConstrainedEdge(p, q)` changes a flag only by setting it, and only on
a side with endpoints p and q. -/
theorem MarkConstrainedEdge_changes (t : Triangle) (p q : Point) (j : Fin 3)
    (h : (t.MarkConstrainedEdge p q).constrained_edge.get j ≠ t.constrained_edge.get j) :
    t.isEdge j p q ∧ (t.MarkConstrainedEdge p q).constrained_edge.get j = true := by
  unfold Triangle.MarkConstrainedEdge at h ⊢
  unfold Triangle.isEdge Triangle.edgeEnds
  split_ifs at h ⊢ with h1 h2 h3
  · have hj : (2 : Fin 3) = j := by
      by_contra hne
      exact h (by simp [Arr3.get_set, hne])
    subst hj
    refine ⟨?_, by simp [Arr3.get_set]⟩
    rcases h1 with ⟨a, b⟩ | ⟨a, b⟩ <;> simp [a, b]
  · have hj : (1 : Fin 3) = j := by
      by_contra hne
      exact h (by simp [Arr3.get_set, hne])
    subst hj
    refine ⟨?_, by simp [Arr3.get_set]⟩
    rcases h2 with ⟨a, b⟩ | ⟨a, b⟩ <;> simp [a, b]
  · have hj : (0 : Fin 3) = j := by
      by_contra hne
      exact h (by simp [Arr3.get_set, hne])
    subst hj
    refine ⟨?_, by simp [Arr3.get_set]⟩
    rcases h3 with ⟨a, b⟩ | ⟨a, b⟩ <;> simp [a, b]
  · exact absurd rfl h

/-- `MarkConstrainedEdge(p, q)` never clears a flag. -/
theorem MarkConstrainedEdge_mono (t : Triangle) (p q : Point) (j : Fin 3)
    (h : t.constrained_edge.get j = true) :
    (t.MarkConstrainedEdge p q).constrained_edge.get j = true := by
  by_contra hne
  have := (MarkConstrainedEdge_changes t p q j (by rw [h]; exact hne)).2
  exact hne this

/-- `MarkConstrainedEdge(p, q)` marks a side with endpoints p and q when the
triangle has one. -/
theorem MarkConstrainedEdge_marks (t : Triangle) (p q : Point) (h : t.HasSide p q) :
    (t.MarkConstrainedEdge p q).HasConstrainedSide p q := by
  unfold Triangle.MarkConstrainedEdge
  split_ifs with h2 h1 h0
  · refine ⟨2, ?_, by simp [Arr3.get_set]⟩
    unfold Triangle.isEdge Triangle.edgeEnds
    rcases h2 with ⟨a, b⟩ | ⟨a, b⟩ <;> simp [a, b]
  · refine ⟨1, ?_, by simp [Arr3.get_set]⟩
    unfold Triangle.isEdge Triangle.edgeEnds
    rcases h1 with ⟨a, b⟩ | ⟨a, b⟩ <;> simp [a, b]
  · refine ⟨0, ?_, by simp [Arr3.get_set]⟩
    unfold Triangle.isEdge Triangle.edgeEnds
    rcases h0 with ⟨a, b⟩ | ⟨a, b⟩ <;> simp [a, b]
  · exfalso
    obtain ⟨i, hi⟩ := h
    unfold Triangle.isEdge Triangle.edgeEnds at hi
    fin_cases i <;> simp at hi <;> rcases hi with ⟨a, b⟩ | ⟨a, b⟩ <;> simp_all


/-! ### C10: collinear points that the triangle does not contain -/

/-- C10: in the interior `EdgeEvent(ep, eq, triangle, point)`, for a triangle
that has `point` as a vertex (with p1 counter-clockwise and p2 clockwise of
it) and does not have (ep, eq) as a side: if `Orient2d(eq, p1, ep)` is
COLLINEAR and the triangle does not contain both eq and p1, the call throws
`collinear_points_exception` in the state it was called in, so nothing has
been modified; and if p1 is not collinear, the same holds for p2. -/
theorem EdgeEventInterior_collinear_points (env : Env) (fuel : Nat) (s : SweepContext)
    (tr : TriId) (tri : Triangle) (ep eq point p1 p2 : Point)
    (htri : s.tris[tr]? = some tri) (hside : ¬ tri.HasSide ep eq)
    (hp1 : tri.PointCCW point = some p1) (hp2 : tri.PointCW point = some p2) :
    (env.Orient2d eq p1 ep = Orientation.COLLINEAR →
      ¬ (tri.Contains eq = true ∧ tri.Contains p1 = true) →
      EdgeEventInterior env (fuel + 1) ep eq (some tr) point s
        = Res.throw (Err.collinear_points_exception eq p1 ep) s) ∧
    (env.Orient2d eq p1 ep ≠ Orientation.COLLINEAR →
      env.Orient2d eq p2 ep = Orientation.COLLINEAR →
      ¬ (tri.Contains eq = true ∧ tri.Contains p2 = true) →
      EdgeEventInterior env (fuel + 1) ep eq (some tr) point s
        = Res.throw (Err.collinear_points_exception eq p2 ep) s) := by
  constructor
  · intro ho hc
    have hc2 : tri.Contains2 eq p1 = false := by
      simpa [Triangle.Contains2] using hc
    simp [EdgeEventInterior, EdgeEventBody, IsEdgeSideOfTriangle_false htri hside,
      getTri_of_some htri, hp1, ho, hc2]
  · intro ho1 ho hc
    have hc2 : tri.Contains2 eq p2 = false := by
      simpa [Triangle.Contains2] using hc
    simp [EdgeEventInterior, EdgeEventBody, IsEdgeSideOfTriangle_false htri hside,
      getTri_of_some htri, hp1, hp2, ho1, ho, hc2]

/-- Witness for `EdgeEventInterior_collinear_points`: the triangle (x, q, m)
entered at the vertex q, whose counter-clockwise vertex is m = (0,1) and
whose clockwise vertex is x = (1,1).  First the constraint from (0,-1) to
(0,5), which is collinear with m; then the constraint from (3,-1) to (2,0),
which is collinear with x and not with m.  The triangle contains neither
(0,5) nor (2,0). -/
theorem EdgeEventInterior_collinear_points_witness :
    EdgeEventInterior (specEnv 0) (3 + 1) ⟨8, 0, -1⟩ ⟨9, 0, 5⟩ (some 0) sq oneTriangle
        = Res.throw (Err.collinear_points_exception ⟨9, 0, 5⟩ sm ⟨8, 0, -1⟩) oneTriangle ∧
    EdgeEventInterior (specEnv 0) (3 + 1) ⟨8, 3, -1⟩ ⟨9, 2, 0⟩ (some 0) sq oneTriangle
        = Res.throw (Err.collinear_points_exception ⟨9, 2, 0⟩ sx ⟨8, 3, -1⟩) oneTriangle :=
  ⟨(EdgeEventInterior_collinear_points (specEnv 0) 3 oneTriangle 0 (Triangle.mk3 sx sq sm)
      ⟨8, 0, -1⟩ ⟨9, 0, 5⟩ sq sm sx rfl (by decide!) (by decide!) (by decide!)).1
      (by decide!) (by decide!),
   (EdgeEventInterior_collinear_points (specEnv 0) 3 oneTriangle 0 (Triangle.mk3 sx sq sm)
      ⟨8, 3, -1⟩ ⟨9, 2, 0⟩ sq sm sx rfl (by decide!) (by decide!) (by decide!)).2
      (by decide!) (by decide!) (by decide!)⟩


/-! ### C8: the constraint is already a side of the node's triangle -/

/-- The effect of `IsEdgeSideOfTriangle` when `EdgeIndex` finds the edge at
index k: the flag k of the triangle is set, then `MarkConstrainedEdge` is
applied to the neighbour stored at index k. -/
theorem IsEdgeSideOfTriangle_true_spec (s : SweepContext) (tr : TriId) (tri : Triangle)
    (ep eq : Point) (k : Fin 3) (htri : s.tris[tr]? = some tri)
    (hk : tri.EdgeIndex ep eq = some k)
    (hvalid : ∀ n, tri.neighbors_.get k = some n → n < s.tris.length) :
    ∃ T : List Triangle, IsEdgeSideOfTriangle tr ep eq s = Res.ok true { s with tris := T } ∧
      T.length = s.tris.length ∧
      ∀ X tx, s.tris[X]? = some tx →
        T[X]? = some (if tri.neighbors_.get k = some X then
            ((if X = tr then tx.MarkConstrainedEdgeIdx k else tx).MarkConstrainedEdge ep eq)
          else (if X = tr then tx.MarkConstrainedEdgeIdx k else tx)) := by
  have h1 : (s.tris.set tr (tri.MarkConstrainedEdgeIdx k))[tr]? = some (tri.MarkConstrainedEdgeIdx k) := by
    rw [heap_set_get htri]; simp
  cases hn : tri.neighbors_.get k with
  | none =>
    refine ⟨s.tris.set tr (tri.MarkConstrainedEdgeIdx k), ?_, by simp, ?_⟩
    · simp [IsEdgeSideOfTriangle, getTri, modifyTri, htri, hk, h1,
        Triangle.GetNeighbor, (MarkConstrainedEdgeIdx_frame tri k).2.1, hn]
    · intro X tx hX
      rw [heap_set_get htri]
      by_cases hXt : tr = X
      · subst hXt
        rw [htri] at hX
        cases hX
        simp
      · have : ¬ X = tr := fun h => hXt h.symm
        simp [hXt, this, hX]
  | some n =>
    have hlt : n < (s.tris.set tr (tri.MarkConstrainedEdgeIdx k)).length := by
      simpa using hvalid n hn
    obtain ⟨v, hv⟩ := heap_get_of_lt hlt
    refine ⟨(s.tris.set tr (tri.MarkConstrainedEdgeIdx k)).set n (v.MarkConstrainedEdge ep eq),
      ?_, by simp, ?_⟩
    · simp [IsEdgeSideOfTriangle, getTri, modifyTri, htri, hk, h1,
        Triangle.GetNeighbor, (MarkConstrainedEdgeIdx_frame tri k).2.1, hn, hv]
    · intro X tx hX
      rw [heap_set_get hv]
      rw [heap_set_get htri] at hv
      by_cases hnX : n = X
      · subst hnX
        by_cases hXt : tr = n
        · subst hXt
          rw [htri] at hX
          cases hX
          simp at hv
          simp [← hv]
        · have : ¬ n = tr := fun h => hXt h.symm
          simp [hXt, hX] at hv
          simp [this, ← hv]
      · have hne : ¬ (some n = some X) := fun h => hnX (Option.some.inj h)
        rw [heap_set_get htri]
        by_cases hXt : tr = X
        · subst hXt
          rw [htri] at hX
          cases hX
          simp [hnX]
        · have : ¬ X = tr := fun h => hXt h.symm
          simp [hnX, hXt, this, hX]

/-- What the two marking steps of `IsEdgeSideOfTriangle` do to one triangle:
`c2` says that the triangle is the one searched, `c1` that it is the
neighbour stored across the edge found. -/
theorem mark_twice_effect (tx : Triangle) (k : Fin 3) (p q : Point) (c1 c2 : Prop)
    [Decidable c1] [Decidable c2] :
    (if c1 then ((if c2 then tx.MarkConstrainedEdgeIdx k else tx).MarkConstrainedEdge p q)
      else (if c2 then tx.MarkConstrainedEdgeIdx k else tx)).points_ = tx.points_ ∧
    (if c1 then ((if c2 then tx.MarkConstrainedEdgeIdx k else tx).MarkConstrainedEdge p q)
      else (if c2 then tx.MarkConstrainedEdgeIdx k else tx)).neighbors_ = tx.neighbors_ ∧
    (if c1 then ((if c2 then tx.MarkConstrainedEdgeIdx k else tx).MarkConstrainedEdge p q)
      else (if c2 then tx.MarkConstrainedEdgeIdx k else tx)).delaunay_edge = tx.delaunay_edge ∧
    (if c1 then ((if c2 then tx.MarkConstrainedEdgeIdx k else tx).MarkConstrainedEdge p q)
      else (if c2 then tx.MarkConstrainedEdgeIdx k else tx)).interior_ = tx.interior_ ∧
    ∀ j, (if c1 then ((if c2 then tx.MarkConstrainedEdgeIdx k else tx).MarkConstrainedEdge p q)
        else (if c2 then tx.MarkConstrainedEdgeIdx k else tx)).constrained_edge.get j
          ≠ tx.constrained_edge.get j →
      (if c1 then ((if c2 then tx.MarkConstrainedEdgeIdx k else tx).MarkConstrainedEdge p q)
        else (if c2 then tx.MarkConstrainedEdgeIdx k else tx)).constrained_edge.get j = true ∧
      ((c2 ∧ k = j) ∨ (c1 ∧ tx.isEdge j p q)) := by
  by_cases h1 : c1 <;> by_cases h2 : c2
  · rw [if_pos h1, if_pos h2]
    refine ⟨(MarkConstrainedEdge_frame _ _ _).1, (MarkConstrainedEdge_frame _ _ _).2.1,
      (MarkConstrainedEdge_frame _ _ _).2.2.1, (MarkConstrainedEdge_frame _ _ _).2.2.2, ?_⟩
    intro j hj
    by_cases hjk : k = j
    · refine ⟨?_, Or.inl ⟨h2, hjk⟩⟩
      exact MarkConstrainedEdge_mono _ _ _ _ (by simp [MarkConstrainedEdgeIdx_get, hjk])
    · have e2 : (Triangle.MarkConstrainedEdgeIdx tx k).constrained_edge.get j
          = tx.constrained_edge.get j := by simp [MarkConstrainedEdgeIdx_get, hjk]
      have h3 := MarkConstrainedEdge_changes (Triangle.MarkConstrainedEdgeIdx tx k) p q j
        (by rw [e2]; exact hj)
      exact ⟨h3.2, Or.inr ⟨h1, h3.1⟩⟩
  · rw [if_pos h1, if_neg h2]
    refine ⟨(MarkConstrainedEdge_frame _ _ _).1, (MarkConstrainedEdge_frame _ _ _).2.1,
      (MarkConstrainedEdge_frame _ _ _).2.2.1, (MarkConstrainedEdge_frame _ _ _).2.2.2, ?_⟩
    intro j hj
    have h3 := MarkConstrainedEdge_changes tx p q j hj
    exact ⟨h3.2, Or.inr ⟨h1, h3.1⟩⟩
  · rw [if_neg h1, if_pos h2]
    refine ⟨rfl, rfl, rfl, rfl, ?_⟩
    intro j hj
    by_cases hjk : k = j
    · exact ⟨by simp [MarkConstrainedEdgeIdx_get, hjk], Or.inl ⟨h2, hjk⟩⟩
    · exact absurd (by simp [MarkConstrainedEdgeIdx_get, hjk]) hj
  · rw [if_neg h1, if_neg h2]
    exact ⟨rfl, rfl, rfl, rfl, fun j hj => absurd rfl hj⟩

/-- C8: when e.p and e.q are the endpoints of a side of `node.triangle`, the
top-level `EdgeEvent(e, node)` returns normally (for any fuel); the side, at
index k, is marked constrained on `node.triangle` and on the neighbour stored
across it when that triangle has the side as well; no triangle is created;
every triangle keeps its vertices, neighbour links, delaunay flags and
interior flag; a constrained flag changes only on a side with endpoints e.p
and e.q of `node.triangle` or of that neighbour; the advancing front and
every other field are unchanged and only the `edge_event` scratch is
written. -/
theorem EdgeEvent_edge_is_side_of_node_triangle (env : Env) (fuel : Nat) (s : SweepContext)
    (edge : EdgeId) (node : NodeId) (e : Edge) (nd : Node) (tr : TriId) (tri : Triangle)
    (he : s.edges[edge]? = some e) (hnd : s.nodes[node]? = some nd)
    (htr : nd.triangle = some tr) (htri : s.tris[tr]? = some tri)
    (hside : tri.HasSide e.p e.q)
    (hvalid : ∀ i n, tri.neighbors_.get i = some n → n < s.tris.length) :
    ∃ s1 k, EdgeEvent env fuel edge node s = Res.ok () s1 ∧
      tri.isEdge k e.p e.q ∧
      (∃ tri1, s1.tris[tr]? = some tri1 ∧ tri1.constrained_edge.get k = true) ∧
      (∀ n tn, tri.neighbors_.get k = some n → s.tris[n]? = some tn → tn.HasSide e.p e.q →
        ∃ tn1, s1.tris[n]? = some tn1 ∧ tn1.HasConstrainedSide e.p e.q) ∧
      s1.tris.length = s.tris.length ∧ s1.map_ = s.map_ ∧
      (∀ X tx, s.tris[X]? = some tx → ∃ tx1, s1.tris[X]? = some tx1 ∧
        tx1.points_ = tx.points_ ∧ tx1.neighbors_ = tx.neighbors_ ∧
        tx1.delaunay_edge = tx.delaunay_edge ∧ tx1.interior_ = tx.interior_ ∧
        ∀ j, tx1.constrained_edge.get j ≠ tx.constrained_edge.get j →
          tx.isEdge j e.p e.q ∧ tx1.constrained_edge.get j = true ∧
            (X = tr ∨ tri.neighbors_.get k = some X)) ∧
      s1.nodes = s.nodes ∧ s1.head_ = s.head_ ∧ s1.tail_ = s.tail_ ∧ s1.nodes_ = s.nodes_ ∧
      s1.edges = s.edges ∧ s1.basin = s.basin ∧ s1.points_ = s.points_ ∧
      s1.edge_list = s.edge_list ∧
      s1.edge_event = ⟨some edge, decide (e.p.x > e.q.x)⟩ := by
  obtain ⟨k, hk⟩ := EdgeIndex_isSome_of_HasSide hside
  obtain ⟨T, hT, hlen, hget⟩ := IsEdgeSideOfTriangle_true_spec
    { s with edge_event := ⟨some edge, decide (e.p.x > e.q.x)⟩ } tr tri e.p e.q k htri hk
    (fun n hn => hvalid k n hn)
  refine ⟨{ s with edge_event := ⟨some edge, decide (e.p.x > e.q.x)⟩, tris := T }, k, ?_,
    EdgeIndex_isEdge hk, ?_, ?_, hlen, rfl, ?_, rfl, rfl, rfl, rfl, rfl, rfl, rfl, rfl, rfl⟩
  · simp only [EdgeEvent, EdgeEventTop, run_bind, run_modifyCtx, getEdge, he, getNode, hnd, htr,
      run_deref_some]
    rw [hT]
    simp
  · have := hget tr tri htri
    refine ⟨_, this, ?_⟩
    by_cases hn : tri.neighbors_.get k = some tr
    · simp only [hn, if_true]
      exact MarkConstrainedEdge_mono _ _ _ _ (by simp [MarkConstrainedEdgeIdx_get])
    · simp [hn, MarkConstrainedEdgeIdx_get]
  · intro n tn hn htn hs
    refine ⟨_, hget n tn htn, ?_⟩
    simp only [hn, if_true]
    apply MarkConstrainedEdge_marks
    by_cases hnt : n = tr
    · simp only [hnt, if_true]
      obtain ⟨i, hi⟩ := hs
      exact ⟨i, hi⟩
    · simp only [hnt, if_false]
      exact hs
  · intro X tx hX
    refine ⟨_, hget X tx hX, ?_⟩
    have hm := mark_twice_effect tx k e.p e.q (tri.neighbors_.get k = some X) (X = tr)
    refine ⟨hm.1, hm.2.1, hm.2.2.1, hm.2.2.2.1, ?_⟩
    intro j hj
    obtain ⟨h1, h2⟩ := hm.2.2.2.2 j hj
    rcases h2 with ⟨hc, hkj⟩ | ⟨hc, hedge⟩
    · have htx : tx = tri := by
        rw [hc, htri] at hX
        exact (Option.some.inj hX).symm
      subst hkj
      subst htx
      exact ⟨EdgeIndex_isEdge hk, h1, Or.inl hc⟩
    · exact ⟨hedge, h1, Or.inr hc⟩

/-- Witness for `EdgeEvent_edge_is_side_of_node_triangle`: in `sideMesh` the
constraint from m to q is the side of triangle 0 shared with triangle 2. -/
theorem EdgeEvent_edge_is_side_of_node_triangle_witness :
    ∃ s1, EdgeEvent (specEnv 0) 0 0 1 sideMesh = Res.ok () s1 ∧
      s1.nodes = sideMesh.nodes ∧ s1.tris.length = sideMesh.tris.length ∧
      s1.edge_event = ⟨some 0, false⟩ := by
  obtain ⟨s1, k, h, -, -, -, hl, -, -, hn, -, -, -, -, -, -, -, hev⟩ :=
    EdgeEvent_edge_is_side_of_node_triangle (specEnv 0) 0 sideMesh 0 1 ⟨sm, sq⟩
      ⟨some sq, some 0, some 2, some 0⟩ 0
      splitT0
      rfl rfl rfl rfl (by decide!)
      (by
        intro i n h
        fin_cases i <;> simp [Arr3.get, splitT0, splitT1] at h <;> subst h <;> decide)
  exact ⟨s1, h, hn, hl, hev⟩


/-! ### RotateTrianglePair -/

/-- The first part of `RotateTrianglePair` (lines 594-633) evaluated on two
different triangle objects. -/
theorem RotateTrianglePair_run (s : SweepContext) (t ot : TriId) (tt ott : Triangle)
    (p op : Point) (ht : s.tris[t]? = some tt) (hot : s.tris[ot]? = some ott) (hne : t ≠ ot) :
    RotateTrianglePair t p ot op s
      = RemapNeighbors t ot (tt.NeighborCCW p) (tt.NeighborCW p) (ott.NeighborCCW op)
          (ott.NeighborCW op)
          { s with tris := (s.tris.set t (rotatedT tt ott p op)).set ot (rotatedOT tt ott p op) } := by
  have hlt : t < s.tris.length := heap_lt_of_get ht
  have hlot : ot < s.tris.length := heap_lt_of_get hot
  have hne2 : ot ≠ t := fun h => hne h.symm
  have hcomm : ∀ (l : List Triangle) (a b : Triangle), (l.set ot a).set t b = (l.set t b).set ot a :=
    fun l a b => List.set_comm a b l hne2
  simp only [RotateTrianglePair, RemapNeighbors, run_bind, getTri, modifyTri, ht, hot,
    List.getElem?_set, hne, hne2, hlt, hlot, List.length_set, if_true, if_false, hcomm,
    List.set_set, rotatedT, rotatedOT]

theorem SameButLinks.refl (s : SweepContext) : SameButLinks s s := ⟨rfl, rfl⟩

theorem SameButLinks.trans {s s1 s2 : SweepContext} (h1 : SameButLinks s s1)
    (h2 : SameButLinks s1 s2) : SameButLinks s s2 := by
  obtain ⟨a1, b1⟩ := h1
  obtain ⟨a2, b2⟩ := h2
  refine ⟨?_, b2.trans b1⟩
  rw [a2, a1]

theorem SameButLinks.length {s s1 : SweepContext} (h : SameButLinks s s1) :
    s1.tris.length = s.tris.length := by
  have := congrArg List.length h.2
  simpa using this

theorem SameButLinks.get {s s1 : SweepContext} (h : SameButLinks s s1) {X : TriId} {tx : Triangle}
    (hX : s.tris[X]? = some tx) : ∃ tx1, s1.tris[X]? = some tx1 ∧ tx1.shape = tx.shape := by
  have h2 := congrArg (fun l => l[X]?) h.2
  simp only [List.getElem?_map, hX, Option.map_some'] at h2
  cases h1 : s1.tris[X]? with
  | none => rw [h1] at h2; simp at h2
  | some v => rw [h1] at h2; simp at h2; exact ⟨v, rfl, h2⟩

theorem map_shape_set {l : List Triangle} {i : Nat} {v a : Triangle} (h : l[i]? = some v)
    (hs : a.shape = v.shape) : (l.set i a).map Triangle.shape = l.map Triangle.shape := by
  apply List.ext_getElem?
  intro j
  simp only [List.getElem?_map, heap_set_get h]
  by_cases hij : i = j
  · subst hij
    simp [h, hs]
  · simp [hij]

theorem MarkNeighborEdge_shape (x : Triangle) (u v : Point) (n : TriId) :
    (x.MarkNeighborEdge u v n).shape = x.shape := by
  unfold Triangle.MarkNeighborEdge
  split_ifs <;> rfl

/-- `MarkNeighbor` on two valid triangle objects returns and changes nothing
but neighbour links. -/
theorem MarkNeighbor_frame (s : SweepContext) (a b : TriId) (ha : a < s.tris.length)
    (hb : b < s.tris.length) : ∃ s1, MarkNeighbor a b s = Res.ok () s1 ∧ SameButLinks s s1 := by
  obtain ⟨ta, hta⟩ := heap_get_of_lt ha
  obtain ⟨tb, htb⟩ := heap_get_of_lt hb
  have step : ∀ (i : Fin 3) (u v : Point),
      ∃ s1, ((do
        modifyTri a (fun x => { x with neighbors_ := x.neighbors_.set i (some b) })
        modifyTri b (fun x => x.MarkNeighborEdge u v a)) : M Unit) s = Res.ok () s1 ∧
        SameButLinks s s1 := by
    intro i u v
    have h1 : (s.tris.set a { ta with neighbors_ := ta.neighbors_.set i (some b) }).length
        = s.tris.length := by simp
    obtain ⟨w, hw⟩ := heap_get_of_lt (h1.symm ▸ hb)
    refine ⟨{ s with
        tris := List.set (s.tris.set a { ta with neighbors_ := ta.neighbors_.set i (some b) }) b
          (w.MarkNeighborEdge u v a) }, ?_, rfl, ?_⟩
    · simp [modifyTri, hta, hw]
    · show ((s.tris.set a _).set b _).map Triangle.shape = _
      rw [map_shape_set hw (MarkNeighborEdge_shape _ _ _ _)]
      exact map_shape_set hta rfl
  unfold MarkNeighbor
  simp only [run_bind, getTri, hta, htb]
  split_ifs
  · exact step 0 _ _
  · exact step 1 _ _
  · exact step 2 _ _
  · exact ⟨s, rfl, SameButLinks.refl s⟩

theorem MarkNeighborIf_frame (s : SweepContext) (a : TriId) (n : Option TriId)
    (ha : a < s.tris.length) (hn : ∀ b, n = some b → b < s.tris.length) :
    ∃ s1, MarkNeighborIf a n s = Res.ok () s1 ∧ SameButLinks s s1 := by
  cases n with
  | none => exact ⟨s, rfl, SameButLinks.refl s⟩
  | some b => exact MarkNeighbor_frame s a b ha (hn b rfl)

/-- `RemapNeighbors` on valid triangle objects returns and changes nothing but
neighbour links. -/
theorem RemapNeighbors_frame (s : SweepContext) (t ot : TriId) (n1 n2 n3 n4 : Option TriId)
    (ht : t < s.tris.length) (hot : ot < s.tris.length)
    (h1 : ∀ b, n1 = some b → b < s.tris.length) (h2 : ∀ b, n2 = some b → b < s.tris.length)
    (h3 : ∀ b, n3 = some b → b < s.tris.length) (h4 : ∀ b, n4 = some b → b < s.tris.length) :
    ∃ s1, RemapNeighbors t ot n1 n2 n3 n4 s = Res.ok () s1 ∧ SameButLinks s s1 := by
  obtain ⟨sa, ea, fa⟩ := MarkNeighborIf_frame s ot n1 hot h1
  obtain ⟨sb, eb, fb⟩ := MarkNeighborIf_frame sa t n2 (fa.length ▸ ht)
    (fun b hb => fa.length ▸ h2 b hb)
  have fab := fa.trans fb
  obtain ⟨sc, ec, fc⟩ := MarkNeighborIf_frame sb t n3 (fab.length ▸ ht)
    (fun b hb => fab.length ▸ h3 b hb)
  have fabc := fab.trans fc
  obtain ⟨sd, ed, fd⟩ := MarkNeighborIf_frame sc ot n4 (fabc.length ▸ hot)
    (fun b hb => fabc.length ▸ h4 b hb)
  have fabcd := fabc.trans fd
  obtain ⟨se, ee, fe⟩ := MarkNeighbor_frame sd t ot (fabcd.length ▸ ht) (fabcd.length ▸ hot)
  refine ⟨se, ?_, fabcd.trans fe⟩
  simp only [RemapNeighbors, run_bind, ea, eb, ec, ed, ee]

/-- The three layouts of a triangle in which a is counter-clockwise and b
clockwise of p. -/
theorem points_of_ccw_cw {t : Triangle} {p a b : Point} (hccw : t.PointCCW p = some a)
    (hcw : t.PointCW p = some b) :
    t.points_ = ⟨p, a, b⟩ ∨ t.points_ = ⟨b, p, a⟩ ∨ t.points_ = ⟨a, b, p⟩ := by
  obtain ⟨ce, de, ⟨x0, x1, x2⟩, nb, it⟩ := t
  unfold Triangle.PointCCW at hccw
  unfold Triangle.PointCW at hcw
  simp only at hccw hcw
  split_ifs at hccw hcw <;> simp_all

theorem sideIndex_of_shape {t u : Triangle} (h : t.shape = u.shape) (x y : Point) :
    t.sideIndex x y = u.sideIndex x y := by
  have hp : t.points_ = u.points_ := congrArg Prod.fst h
  simp only [Triangle.sideIndex, Triangle.isEdge, Triangle.edgeEnds, hp]

theorem constrainedOn_of_shape {t u : Triangle} (h : t.shape = u.shape) (x y : Point) :
    t.constrainedOn x y = u.constrainedOn x y := by
  have hp : t.constrained_edge = u.constrained_edge := congrArg (fun z => z.2.1) h
  simp only [Triangle.constrainedOn, sideIndex_of_shape h, hp]

theorem delaunayOn_of_shape {t u : Triangle} (h : t.shape = u.shape) (x y : Point) :
    t.delaunayOn x y = u.delaunayOn x y := by
  have hp : t.delaunay_edge = u.delaunay_edge := congrArg (fun z => z.2.2.1) h
  simp only [Triangle.delaunayOn, sideIndex_of_shape h, hp]

/-- The flags on the four outer sides after the re-vertexing and the flag
remap of `RotateTrianglePair`. -/
theorem rotated_outer_flags (tt ott : Triangle) (p op a b : Point)
    (hccw : tt.PointCCW p = some a) (hcw : tt.PointCW p = some b)
    (hoccw : ott.PointCCW op = some b) (hocw : ott.PointCW op = some a)
    (hpa : p ≠ a) (hpb : p ≠ b) (hab : a ≠ b) (hopa : op ≠ a) (hopb : op ≠ b) (hpop : p ≠ op) :
    (((rotatedOT tt ott p op).sideIndex p a).isSome = true ∧
      (rotatedOT tt ott p op).constrainedOn p a = tt.constrainedOn p a ∧
      (rotatedOT tt ott p op).delaunayOn p a = tt.delaunayOn p a) ∧
    (((rotatedT tt ott p op).sideIndex p b).isSome = true ∧
      (rotatedT tt ott p op).constrainedOn p b = tt.constrainedOn p b ∧
      (rotatedT tt ott p op).delaunayOn p b = tt.delaunayOn p b) ∧
    (((rotatedT tt ott p op).sideIndex op b).isSome = true ∧
      (rotatedT tt ott p op).constrainedOn op b = ott.constrainedOn op b ∧
      (rotatedT tt ott p op).delaunayOn op b = ott.delaunayOn op b) ∧
    (((rotatedOT tt ott p op).sideIndex op a).isSome = true ∧
      (rotatedOT tt ott p op).constrainedOn op a = ott.constrainedOn op a ∧
      (rotatedOT tt ott p op).delaunayOn op a = ott.delaunayOn op a) := by
  have h1 := points_of_ccw_cw hccw hcw
  have h2 := points_of_ccw_cw hoccw hocw
  obtain ⟨ce, de, pts, nb, it⟩ := tt
  obtain ⟨ce2, de2, pts2, nb2, it2⟩ := ott
  simp only at h1 h2
  have hap := hpa.symm
  have hbp := hpb.symm
  have hba := hab.symm
  have haop := hopa.symm
  have hbop := hopb.symm
  have hopp := hpop.symm
  rcases h1 with h1 | h1 | h1 <;> rcases h2 with h2 | h2 | h2 <;> subst h1 <;> subst h2 <;>
    simp [rotatedT, rotatedOT, Triangle.Legalize, Triangle.SetDelunayEdgeCW,
      Triangle.SetDelunayEdgeCCW, Triangle.SetConstrainedEdgeCW, Triangle.SetConstrainedEdgeCCW,
      Triangle.GetDelunayEdgeCW, Triangle.GetDelunayEdgeCCW, Triangle.GetConstrainedEdgeCW,
      Triangle.GetConstrainedEdgeCCW, Triangle.ClearNeighbors, Triangle.constrainedOn,
      Triangle.delaunayOn, Triangle.sideIndex, Triangle.isEdge, Triangle.edgeEnds, Arr3.get,
      Arr3.set, hpa, hpb, hab, hopa, hopb, hpop, hap, hbp, hba, haop, hbop, hopp]

theorem NeighborCCW_get {t : Triangle} {p : Point} {n : TriId} (h : t.NeighborCCW p = some n) :
    ∃ i, t.neighbors_.get i = some n := by
  unfold Triangle.NeighborCCW at h
  split_ifs at h
  · exact ⟨2, h⟩
  · exact ⟨0, h⟩
  · exact ⟨1, h⟩

theorem NeighborCW_get {t : Triangle} {p : Point} {n : TriId} (h : t.NeighborCW p = some n) :
    ∃ i, t.neighbors_.get i = some n := by
  unfold Triangle.NeighborCW at h
  split_ifs at h
  · exact ⟨1, h⟩
  · exact ⟨2, h⟩
  · exact ⟨0, h⟩

/-- Two triangle objects that share the side (a, b) opposite the different
points p and op are different objects. -/
theorem pair_ne {s : SweepContext} {t ot : TriId} {tt ott : Triangle} {p op a b : Point}
    (ht : s.tris[t]? = some tt) (hot : s.tris[ot]? = some ott)
    (hccw : tt.PointCCW p = some a) (hcw : tt.PointCW p = some b)
    (hoccw : ott.PointCCW op = some b) (hocw : ott.PointCW op = some a)
    (hopa : op ≠ a) (hpop : p ≠ op) : t ≠ ot := by
  intro h
  subst h
  rw [ht] at hot
  cases hot
  have h1 := points_of_ccw_cw hccw hcw
  have h2 := points_of_ccw_cw hoccw hocw
  rcases h1 with h1 | h1 | h1 <;> rcases h2 with h2 | h2 | h2 <;> rw [h1] at h2 <;>
    simp_all

/-! ### C6: the flags of the four outer edges -/

/-- C6: for triangles t = (p, a, b) and ot = (op, b, a) (up to rotation of
the vertex order) on the four different points p, a, b, op, whose neighbour
pointers are valid, `RotateTrianglePair(t, p, ot, op)` returns, and each of
the four outer sides carries, on the triangle that now contains it, the
constrained flag and the delaunay flag it carried before: (p, a) moves from
t to ot, (p, b) stays on t, (op, b) moves from ot to t, (op, a) stays on
ot. -/
theorem RotateTrianglePair_keeps_outer_flags (s : SweepContext) (t ot : TriId)
    (tt ott : Triangle) (p op a b : Point)
    (ht : s.tris[t]? = some tt) (hot : s.tris[ot]? = some ott)
    (hccw : tt.PointCCW p = some a) (hcw : tt.PointCW p = some b)
    (hoccw : ott.PointCCW op = some b) (hocw : ott.PointCW op = some a)
    (hpa : p ≠ a) (hpb : p ≠ b) (hab : a ≠ b) (hopa : op ≠ a) (hopb : op ≠ b) (hpop : p ≠ op)
    (hvt : ∀ i n, tt.neighbors_.get i = some n → n < s.tris.length)
    (hvot : ∀ i n, ott.neighbors_.get i = some n → n < s.tris.length) :
    ∃ s1 t1 ot1, RotateTrianglePair t p ot op s = Res.ok () s1 ∧
      s1.tris[t]? = some t1 ∧ s1.tris[ot]? = some ot1 ∧
      ((ot1.sideIndex p a).isSome = true ∧ ot1.constrainedOn p a = tt.constrainedOn p a ∧
        ot1.delaunayOn p a = tt.delaunayOn p a) ∧
      ((t1.sideIndex p b).isSome = true ∧ t1.constrainedOn p b = tt.constrainedOn p b ∧
        t1.delaunayOn p b = tt.delaunayOn p b) ∧
      ((t1.sideIndex op b).isSome = true ∧ t1.constrainedOn op b = ott.constrainedOn op b ∧
        t1.delaunayOn op b = ott.delaunayOn op b) ∧
      ((ot1.sideIndex op a).isSome = true ∧ ot1.constrainedOn op a = ott.constrainedOn op a ∧
        ot1.delaunayOn op a = ott.delaunayOn op a) := by
  have hne : t ≠ ot := pair_ne ht hot hccw hcw hoccw hocw hopa hpop
  have hlt : t < s.tris.length := heap_lt_of_get ht
  have hlot : ot < s.tris.length := heap_lt_of_get hot
  rw [RotateTrianglePair_run s t ot tt ott p op ht hot hne]
  have hlen : ({ s with tris := (s.tris.set t (rotatedT tt ott p op)).set ot (rotatedOT tt ott p op) }
      : SweepContext).tris.length = s.tris.length := by simp
  obtain ⟨s1, hrun, hfr⟩ := RemapNeighbors_frame
    { s with tris := (s.tris.set t (rotatedT tt ott p op)).set ot (rotatedOT tt ott p op) } t ot
    (tt.NeighborCCW p) (tt.NeighborCW p) (ott.NeighborCCW op) (ott.NeighborCW op)
    (hlen ▸ hlt) (hlen ▸ hlot)
    (fun n hn => by obtain ⟨i, hi⟩ := NeighborCCW_get hn; exact hlen ▸ hvt i n hi)
    (fun n hn => by obtain ⟨i, hi⟩ := NeighborCW_get hn; exact hlen ▸ hvt i n hi)
    (fun n hn => by obtain ⟨i, hi⟩ := NeighborCCW_get hn; exact hlen ▸ hvot i n hi)
    (fun n hn => by obtain ⟨i, hi⟩ := NeighborCW_get hn; exact hlen ▸ hvot i n hi)
  have gt : ({ s with tris := (s.tris.set t (rotatedT tt ott p op)).set ot (rotatedOT tt ott p op) }
      : SweepContext).tris[t]? = some (rotatedT tt ott p op) := by
    simp [List.getElem?_set, hne, Ne.symm hne, hlt]
  have got : ({ s with tris := (s.tris.set t (rotatedT tt ott p op)).set ot (rotatedOT tt ott p op) }
      : SweepContext).tris[ot]? = some (rotatedOT tt ott p op) := by
    simp [List.getElem?_set, hlot]
  obtain ⟨t1, ht1, hs1⟩ := hfr.get gt
  obtain ⟨ot1, hot1, hs2⟩ := hfr.get got
  have key := rotated_outer_flags tt ott p op a b hccw hcw hoccw hocw hpa hpb hab hopa hopb hpop
  refine ⟨s1, t1, ot1, hrun, ht1, hot1, ?_⟩
  simp only [sideIndex_of_shape hs1, sideIndex_of_shape hs2, constrainedOn_of_shape hs1,
    constrainedOn_of_shape hs2, delaunayOn_of_shape hs1, delaunayOn_of_shape hs2]
  exact key

/-- Witness for `RotateTrianglePair_keeps_outer_flags`: the triangles
0 = (q, m, x) and 1 = (m, p, x) of `splitMesh`, which share the side (m, x)
opposite q and p. -/
theorem RotateTrianglePair_keeps_outer_flags_witness :
    ∃ s1 t1 ot1, RotateTrianglePair 0 sq 1 sp splitMesh = Res.ok () s1 ∧
      s1.tris[0]? = some t1 ∧ s1.tris[1]? = some ot1 ∧
      ot1.constrainedOn sq sm = some false ∧ t1.constrainedOn sq sx = some false ∧
      t1.constrainedOn sp sx = some false ∧ ot1.constrainedOn sp sm = some false := by
  obtain ⟨s1, t1, ot1, h, h0, h1, ⟨-, ha, -⟩, ⟨-, hb, -⟩, ⟨-, hc, -⟩, ⟨-, hd, -⟩⟩ :=
    RotateTrianglePair_keeps_outer_flags splitMesh 0 1
      splitT0
      splitT1
      sq sp sm sx rfl rfl (by decide!) (by decide!) (by decide!) (by decide!)
      (by decide!) (by decide!) (by decide!) (by decide!) (by decide!) (by decide!)
      (by
        intro i n h
        fin_cases i <;> simp [Arr3.get, splitT0, splitT1] at h <;> subst h <;> decide)
      (by
        intro i n h
        fin_cases i <;> simp [Arr3.get, splitT0, splitT1] at h <;> subst h <;> decide)
  exact ⟨s1, t1, ot1, h, h0, h1, ha.trans (by decide!), hb.trans (by decide!),
    hc.trans (by decide!), hd.trans (by decide!)⟩


/-! ### Neighbour links by side -/

theorem sameEdge_comm (x y u v : Point) : sameEdge x y u v ↔ sameEdge y x u v := by
  unfold sameEdge
  constructor <;> rintro (⟨h1, h2⟩ | ⟨h1, h2⟩) <;> simp [h1, h2]

theorem isEdge_iff_sameEdge {t : Triangle} {k : Fin 3} {u v : Point} (h : t.isEdge k u v)
    (x y : Point) : t.isEdge k x y ↔ sameEdge x y u v := by
  unfold Triangle.isEdge at *
  unfold sameEdge
  rcases h with h | h <;> rw [h] <;> simp only [Prod.mk.injEq] <;> constructor <;>
    rintro (⟨h1, h2⟩ | ⟨h1, h2⟩) <;> simp [h1, h2]

/-- In a triangle with three different vertices a side has one index. -/
theorem sideIndex_of_isEdge {t : Triangle} (hd : t.Distinct) {k : Fin 3} {x y : Point}
    (h : t.isEdge k x y) : t.sideIndex x y = some k := by
  obtain ⟨ce, de, ⟨x0, x1, x2⟩, nb, it⟩ := t
  obtain ⟨d1, d2, d3⟩ := hd
  simp only at d1 d2 d3
  have d1s := Ne.symm d1
  have d2s := Ne.symm d2
  have d3s := Ne.symm d3
  unfold Triangle.sideIndex
  unfold Triangle.isEdge Triangle.edgeEnds at *
  fin_cases k <;> simp only [Prod.mk.injEq] at h ⊢ <;> rcases h with ⟨h1, h2⟩ | ⟨h1, h2⟩ <;>
    subst h1 <;> subst h2 <;> simp [d1, d2, d3, d1s, d2s, d3s]

theorem isEdge_of_sideIndex {t : Triangle} {k : Fin 3} {x y : Point}
    (h : t.sideIndex x y = some k) : t.isEdge k x y := by
  unfold Triangle.sideIndex at h
  split_ifs at h with h0 h1 h2 <;> cases h <;> assumption

theorem sideIndex_none_iff {t : Triangle} {x y : Point} :
    t.sideIndex x y = none ↔ ¬ t.HasSide x y := by
  constructor
  · intro h ⟨i, hi⟩
    unfold Triangle.sideIndex at h
    fin_cases i <;> simp_all <;> split_ifs at h
  · intro h
    cases hk : t.sideIndex x y with
    | none => rfl
    | some k => exact absurd ⟨k, isEdge_of_sideIndex hk⟩ h

/-- Writing a neighbour into slot k of a triangle with three different
vertices changes the neighbour across the side k and no other. -/
theorem neighborOn_set {t : Triangle} (hd : t.Distinct) (k : Fin 3) (n : Option TriId)
    (x y : Point) :
    Triangle.neighborOn { t with neighbors_ := t.neighbors_.set k n } x y
      = if t.isEdge k x y then n else t.neighborOn x y := by
  have hd2 : Triangle.Distinct { t with neighbors_ := t.neighbors_.set k n } := hd
  by_cases h : t.isEdge k x y
  · have h2 : Triangle.isEdge { t with neighbors_ := t.neighbors_.set k n } k x y := h
    simp only [Triangle.neighborOn, sideIndex_of_isEdge hd2 h2, h, if_true, Option.some_bind,
      Arr3.get_set]
  · simp only [h, if_false]
    have e : Triangle.sideIndex { t with neighbors_ := t.neighbors_.set k n } x y
        = t.sideIndex x y := rfl
    simp only [Triangle.neighborOn, e]
    cases hj : t.sideIndex x y with
    | none => rfl
    | some j =>
      have hjk : k ≠ j := by
        intro hkj
        subst hkj
        exact h (isEdge_of_sideIndex hj)
      simp [Arr3.get_set, hjk]

/-- `MarkNeighbor(p1, p2, t)` writes the slot of the side with endpoints p1
and p2. -/
theorem MarkNeighborEdge_eq_set {t : Triangle} {k : Fin 3} {u v : Point} (hd : t.Distinct)
    (h : t.isEdge k u v) (n : TriId) :
    t.MarkNeighborEdge u v n = { t with neighbors_ := t.neighbors_.set k (some n) } := by
  obtain ⟨ce, de, ⟨x0, x1, x2⟩, nb, it⟩ := t
  obtain ⟨d1, d2, d3⟩ := hd
  simp only at d1 d2 d3
  have d1s := Ne.symm d1
  have d2s := Ne.symm d2
  have d3s := Ne.symm d3
  unfold Triangle.MarkNeighborEdge
  unfold Triangle.isEdge Triangle.edgeEnds at h
  fin_cases k <;> simp only [Prod.mk.injEq] at h <;> rcases h with ⟨h1, h2⟩ | ⟨h1, h2⟩ <;>
    subst h1 <;> subst h2 <;> simp [d1, d2, d3, d1s, d2s, d3s]

theorem linkOn_of_get {s : SweepContext} {X : TriId} {tx : Triangle} (h : s.tris[X]? = some tx)
    (x y : Point) : linkOn s X x y = tx.neighborOn x y := by
  simp [linkOn, h]

/-- `self.MarkNeighbor(t)` when exactly one side of self, the side k with
endpoints u and v, has both endpoints in t: self records t in slot k and t
records self across its side with the same endpoints; every other link of the
mesh is unchanged. -/
theorem MarkNeighbor_spec (S : SweepContext) (A B : TriId) (ta tb : Triangle) (u v : Point)
    (k kb : Fin 3) (hA : S.tris[A]? = some ta) (hB : S.tris[B]? = some tb) (hne : A ≠ B)
    (hda : ta.Distinct) (hdb : tb.Distinct) (hk : ta.isEdge k u v) (hkb : tb.isEdge kb u v)
    (hnw : tb.Contains (ta.points_.get k) = false) :
    ∃ S1, MarkNeighbor A B S = Res.ok () S1 ∧ SameButLinks S S1 ∧
      ∀ X x y, linkOn S1 X x y
        = if X = A ∧ sameEdge x y u v then some B
          else if X = B ∧ sameEdge x y u v then some A
          else linkOn S X x y := by
  have hu : tb.Contains u = true ∧ tb.Contains v = true := by
    unfold Triangle.isEdge Triangle.edgeEnds at hkb
    unfold Triangle.Contains
    fin_cases kb <;> simp only [Prod.mk.injEq] at hkb <;> rcases hkb with ⟨h1, h2⟩ | ⟨h1, h2⟩ <;>
      subst h1 <;> subst h2 <;> simp
  have hA2 : (S.tris.set A { ta with neighbors_ := ta.neighbors_.set k (some B) })[B]? = some tb := by
    rw [heap_set_get hA]; simp [hne, hB]
  have hrun : MarkNeighbor A B S = Res.ok ()
      { S with
        tris := List.set (S.tris.set A { ta with neighbors_ := ta.neighbors_.set k (some B) }) B
          ({ tb with neighbors_ := tb.neighbors_.set kb (some A) } : Triangle) } := by
    have hset := MarkNeighborEdge_eq_set hdb hkb A
    have hset2 : tb.MarkNeighborEdge v u A
        = { tb with neighbors_ := tb.neighbors_.set kb (some A) } :=
      MarkNeighborEdge_eq_set hdb (Or.symm hkb) A
    unfold Triangle.isEdge Triangle.edgeEnds at hk
    unfold Triangle.Contains at hnw hu
    unfold MarkNeighbor
    fin_cases k <;> simp only [Prod.mk.injEq] at hk <;> rcases hk with ⟨h1, h2⟩ | ⟨h1, h2⟩ <;>
      subst h1 <;> subst h2 <;>
      simp_all [Triangle.Contains2, Triangle.Contains, Arr3.get, getTri, modifyTri]
  refine ⟨_, hrun, ?_, ?_⟩
  · refine ⟨rfl, ?_⟩
    show ((S.tris.set A _).set B _).map Triangle.shape = _
    have e1 : (List.set (S.tris.set A { ta with neighbors_ := ta.neighbors_.set k (some B) }) B
          ({ tb with neighbors_ := tb.neighbors_.set kb (some A) } : Triangle)).map Triangle.shape
        = (S.tris.set A { ta with neighbors_ := ta.neighbors_.set k (some B) }).map Triangle.shape :=
      map_shape_set hA2 rfl
    exact e1.trans (map_shape_set hA rfl)
  · intro X x y
    have hlook : (List.set (S.tris.set A { ta with neighbors_ := ta.neighbors_.set k (some B) }) B
          ({ tb with neighbors_ := tb.neighbors_.set kb (some A) } : Triangle))[X]?
        = if B = X then some { tb with neighbors_ := tb.neighbors_.set kb (some A) }
          else if A = X then some { ta with neighbors_ := ta.neighbors_.set k (some B) }
          else S.tris[X]? := by
      rw [heap_set_get hA2, heap_set_get hA]
    by_cases hXA : X = A
    · subst hXA
      have hBX : ¬ B = X := fun h => hne h.symm
      simp only [linkOn, hlook, hBX, if_false, if_true, true_and, hA]
      simp only [neighborOn_set hda, isEdge_iff_sameEdge hk]
      have hXB : ¬ X = B := hne
      simp only [hXB, false_and, if_false]
    · by_cases hXB : X = B
      · subst hXB
        simp only [linkOn, hlook, if_true, hne.symm, false_and, if_false, true_and, hB]
        simp only [neighborOn_set hdb, isEdge_iff_sameEdge hkb]
      · have h1 : ¬ B = X := fun h => hXB h.symm
        have h2 : ¬ A = X := fun h => hXA h.symm
        simp only [linkOn, hlook, h1, h2, if_false, hXA, hXB, false_and]

theorem points_of_shape {t u : Triangle} (h : t.shape = u.shape) : t.points_ = u.points_ :=
  congrArg Prod.fst h

theorem Distinct_of_shape {t u : Triangle} (h : t.shape = u.shape) (hd : u.Distinct) :
    t.Distinct := by
  unfold Triangle.Distinct at *
  rw [points_of_shape h]
  exact hd

theorem isEdge_of_shape {t u : Triangle} (h : t.shape = u.shape) {k : Fin 3} {x y : Point}
    (he : u.isEdge k x y) : t.isEdge k x y := by
  unfold Triangle.isEdge Triangle.edgeEnds at *
  rw [points_of_shape h]
  exact he

theorem Contains_of_shape {t u : Triangle} (h : t.shape = u.shape) (x : Point) :
    t.Contains x = u.Contains x := by
  unfold Triangle.Contains
  rw [points_of_shape h]

theorem neighborOn_congr (t : Triangle) {x y u v : Point} (h : sameEdge x y u v) :
    t.neighborOn x y = t.neighborOn u v := by
  have e : ∀ k, t.isEdge k x y ↔ t.isEdge k u v := by
    intro k
    unfold Triangle.isEdge
    unfold sameEdge at h
    rcases h with ⟨h1, h2⟩ | ⟨h1, h2⟩ <;> subst h1 <;> subst h2
    · rfl
    · exact Or.comm
  unfold Triangle.neighborOn Triangle.sideIndex
  simp only [e]

theorem linkOn_congr (s : SweepContext) (X : TriId) {x y u v : Point} (h : sameEdge x y u v) :
    linkOn s X x y = linkOn s X u v := by
  unfold linkOn
  cases s.tris[X]? with
  | none => rfl
  | some tx => exact neighborOn_congr tx h

theorem HasSide_of_neighborOn {t : Triangle} {x y : Point} {Y : TriId}
    (h : t.neighborOn x y = some Y) : ∃ k, t.isEdge k x y := by
  unfold Triangle.neighborOn at h
  cases hk : t.sideIndex x y with
  | none => rw [hk] at h; simp at h
  | some k => exact ⟨k, isEdge_of_sideIndex hk⟩

/-- The sides of a triangle in which a is counter-clockwise and b clockwise
of p. -/
theorem sides_of_ccw_cw {t : Triangle} {p a b : Point} (hccw : t.PointCCW p = some a)
    (hcw : t.PointCW p = some b) {k : Fin 3} {x y : Point} (h : t.isEdge k x y) :
    sameEdge x y p a ∨ sameEdge x y p b ∨ sameEdge x y a b := by
  have hl := points_of_ccw_cw hccw hcw
  unfold Triangle.isEdge Triangle.edgeEnds at h
  unfold sameEdge
  rcases hl with hl | hl | hl <;> rw [hl] at h <;> fin_cases k <;>
    simp only [Prod.mk.injEq] at h <;> rcases h with ⟨h1, h2⟩ | ⟨h1, h2⟩ <;>
    subst h1 <;> subst h2 <;> simp

/-- The accessors `NeighborCCW` and `NeighborCW` read the neighbours across
the two sides at p. -/
theorem neighbor_accessors {t : Triangle} {p a b : Point} (hd : t.Distinct)
    (hccw : t.PointCCW p = some a) (hcw : t.PointCW p = some b) :
    t.NeighborCCW p = t.neighborOn p a ∧ t.NeighborCW p = t.neighborOn p b ∧
    t.NeighborAcross p = t.neighborOn a b := by
  have hl := points_of_ccw_cw hccw hcw
  obtain ⟨ce, de, pts, nb, it⟩ := t
  obtain ⟨d1, d2, d3⟩ := hd
  simp only at hl d1 d2 d3
  rcases hl with hl | hl | hl <;> subst hl <;> simp only at d1 d2 d3 <;>
    simp [Triangle.NeighborCCW, Triangle.NeighborCW, Triangle.NeighborAcross,
      Triangle.neighborOn, Triangle.sideIndex, Triangle.isEdge, Triangle.edgeEnds, Arr3.get,
      d1, d2, d3, Ne.symm d1, Ne.symm d2, Ne.symm d3]

/-- The layout of the two triangles after the re-vertexing of
`RotateTrianglePair`: t has the sides (p, b), (op, b) and (p, op), ot has the
sides (p, a), (op, a) and (p, op), each opposite the vertex named, and no
neighbour is recorded. -/
theorem rotated_layout (tt ott : Triangle) (p op a b : Point)
    (hccw : tt.PointCCW p = some a) (hcw : tt.PointCW p = some b)
    (hoccw : ott.PointCCW op = some b) (hocw : ott.PointCW op = some a)
    (hpa : p ≠ a) (hpb : p ≠ b) (hab : a ≠ b) (hopa : op ≠ a) (hopb : op ≠ b) (hpop : p ≠ op) :
    ((rotatedT tt ott p op).Distinct ∧ (rotatedT tt ott p op).neighbors_ = ⟨none, none, none⟩ ∧
      (∃ k, (rotatedT tt ott p op).isEdge k p b ∧ (rotatedT tt ott p op).points_.get k = op) ∧
      (∃ k, (rotatedT tt ott p op).isEdge k op b ∧ (rotatedT tt ott p op).points_.get k = p) ∧
      (∃ k, (rotatedT tt ott p op).isEdge k p op ∧ (rotatedT tt ott p op).points_.get k = b)) ∧
    ((rotatedOT tt ott p op).Distinct ∧ (rotatedOT tt ott p op).neighbors_ = ⟨none, none, none⟩ ∧
      (∃ k, (rotatedOT tt ott p op).isEdge k p a ∧ (rotatedOT tt ott p op).points_.get k = op) ∧
      (∃ k, (rotatedOT tt ott p op).isEdge k op a ∧ (rotatedOT tt ott p op).points_.get k = p) ∧
      (∃ k, (rotatedOT tt ott p op).isEdge k p op ∧ (rotatedOT tt ott p op).points_.get k = a)) := by
  have h1 := points_of_ccw_cw hccw hcw
  have h2 := points_of_ccw_cw hoccw hocw
  obtain ⟨ce, de, pts, nb, it⟩ := tt
  obtain ⟨ce2, de2, pts2, nb2, it2⟩ := ott
  simp only at h1 h2
  have hap := hpa.symm
  have hbp := hpb.symm
  have hba := hab.symm
  have haop := hopa.symm
  have hbop := hopb.symm
  have hopp := hpop.symm
  rcases h1 with h1 | h1 | h1 <;> rcases h2 with h2 | h2 | h2 <;> subst h1 <;> subst h2 <;>
    simp [rotatedT, rotatedOT, Triangle.Legalize, Triangle.SetDelunayEdgeCW,
      Triangle.SetDelunayEdgeCCW, Triangle.SetConstrainedEdgeCW, Triangle.SetConstrainedEdgeCCW,
      Triangle.ClearNeighbors, Triangle.Distinct, Triangle.isEdge, Triangle.edgeEnds, Arr3.get,
      hpa, hpb, hab, hopa, hopb, hpop, hap, hbp, hba, haop, hbop, hopp, Fin.exists_fin_succ]

theorem Contains_of_isEdge {t : Triangle} {k : Fin 3} {x y : Point} (h : t.isEdge k x y) :
    t.Contains x = true ∧ t.Contains y = true := by
  unfold Triangle.isEdge Triangle.edgeEnds at h
  unfold Triangle.Contains
  fin_cases k <;> simp only [Prod.mk.injEq] at h <;> rcases h with ⟨h1, h2⟩ | ⟨h1, h2⟩ <;>
    subst h1 <;> subst h2 <;> simp

/-- One relinking step of `RotateTrianglePair`, stated against the state S0
in which the relinking started: only links have changed since. -/
theorem MarkNeighborIf_step (S0 S : SweepContext) (hfr : SameButLinks S0 S) (A : TriId)
    (n : Option TriId) (ta0 : Triangle) (u v : Point) (k : Fin 3)
    (hA0 : S0.tris[A]? = some ta0) (hda : ta0.Distinct) (hk : ta0.isEdge k u v)
    (hB : ∀ B, n = some B → B ≠ A ∧ ∃ tb0 kb, S0.tris[B]? = some tb0 ∧ tb0.Distinct ∧
      tb0.isEdge kb u v ∧ tb0.Contains (ta0.points_.get k) = false) :
    ∃ S1, MarkNeighborIf A n S = Res.ok () S1 ∧ SameButLinks S0 S1 ∧
      ∀ X x y, linkOn S1 X x y
        = if sameEdge x y u v ∧ X = A ∧ n.isSome = true then n
          else if sameEdge x y u v ∧ n = some X then some A
          else linkOn S X x y := by
  cases n with
  | none =>
    refine ⟨S, rfl, hfr, ?_⟩
    intro X x y
    simp
  | some B =>
    obtain ⟨hBA, tb0, kb, hB0, hdb, hkb, hnw⟩ := hB B rfl
    obtain ⟨ta, hta, hsa⟩ := hfr.get hA0
    obtain ⟨tb, htb, hsb⟩ := hfr.get hB0
    have hnw2 : tb.Contains (ta.points_.get k) = false := by
      rw [Contains_of_shape hsb, points_of_shape hsa]
      exact hnw
    obtain ⟨S1, hrun, hfr1, hl⟩ := MarkNeighbor_spec S A B ta tb u v k kb hta htb
      (fun h => hBA h.symm) (Distinct_of_shape hsa hda) (Distinct_of_shape hsb hdb)
      (isEdge_of_shape hsa hk) (isEdge_of_shape hsb hkb) hnw2
    refine ⟨S1, hrun, hfr.trans hfr1, ?_⟩
    intro X x y
    rw [hl]
    by_cases he : sameEdge x y u v
    · by_cases hXA : X = A
      · simp [he, hXA]
      · by_cases hXB : X = B
        · simp [he, hXA, hXB]
        · have : ¬ B = X := fun h => hXB h.symm
          simp [he, hXA, hXB, this]
    · simp [he]

/-- An outer neighbour of the pair: it is a triangle of the mesh with the
shared side, different from both triangles of the pair. -/
theorem outer_neighbour (s : SweepContext) (hd : MeshDistinct s) (hsym : SymLinks s)
    (O O2 : TriId) (tO tO2 : Triangle) (hO : s.tris[O]? = some tO) (hO2 : s.tris[O2]? = some tO2)
    (x y : Point) (B : TriId) (hn : tO.neighborOn x y = some B) (hself : B ≠ O)
    (hx : tO2.Contains x = false) :
    B ≠ O ∧ B ≠ O2 ∧ ∃ tb kb, s.tris[B]? = some tb ∧ tb.Distinct ∧ tb.isEdge kb x y ∧
      tb.neighborOn x y = some O := by
  have h1 : linkOn s O x y = some B := by rw [linkOn_of_get hO]; exact hn
  have h2 := hsym O x y B h1
  unfold linkOn at h2
  cases htb : s.tris[B]? with
  | none => rw [htb] at h2; simp at h2
  | some tb =>
    rw [htb] at h2
    simp only at h2
    obtain ⟨kb, hkb⟩ := HasSide_of_neighborOn h2
    refine ⟨hself, ?_, tb, kb, rfl, hd B tb htb, hkb, h2⟩
    intro hB
    subst hB
    rw [hO2] at htb
    cases htb
    rw [(Contains_of_isEdge hkb).1] at hx
    exact Bool.noConfusion hx

theorem SetDelunayEdgeCW_points (t : Triangle) (p : Point) (e : Bool) :
    (t.SetDelunayEdgeCW p e).points_ = t.points_ := by
  unfold Triangle.SetDelunayEdgeCW
  split_ifs <;> rfl

theorem SetDelunayEdgeCCW_points (t : Triangle) (p : Point) (e : Bool) :
    (t.SetDelunayEdgeCCW p e).points_ = t.points_ := by
  unfold Triangle.SetDelunayEdgeCCW
  split_ifs <;> rfl

theorem SetConstrainedEdgeCW_points (t : Triangle) (p : Point) (e : Bool) :
    (t.SetConstrainedEdgeCW p e).points_ = t.points_ := by
  unfold Triangle.SetConstrainedEdgeCW
  split_ifs <;> rfl

theorem SetConstrainedEdgeCCW_points (t : Triangle) (p : Point) (e : Bool) :
    (t.SetConstrainedEdgeCCW p e).points_ = t.points_ := by
  unfold Triangle.SetConstrainedEdgeCCW
  split_ifs <;> rfl

theorem rotatedOT_points (tt ott : Triangle) (p op : Point) :
    (rotatedOT tt ott p op).points_ = (ott.Legalize op p).points_ := by
  simp only [rotatedOT, Triangle.ClearNeighbors, SetDelunayEdgeCW_points,
    SetDelunayEdgeCCW_points, SetConstrainedEdgeCW_points, SetConstrainedEdgeCCW_points]

theorem rotatedOT_lacks_b (tt ott : Triangle) (p op a b : Point)
    (hoccw : ott.PointCCW op = some b) (hocw : ott.PointCW op = some a)
    (hpb : p ≠ b) (hab : a ≠ b) (hopb : op ≠ b) (hopa : op ≠ a) :
    (rotatedOT tt ott p op).Contains b = false := by
  have h2 := points_of_ccw_cw hoccw hocw
  unfold Triangle.Contains
  rw [rotatedOT_points]
  obtain ⟨ce2, de2, pts2, nb2, it2⟩ := ott
  simp only at h2
  rcases h2 with h2 | h2 | h2 <;> subst h2 <;>
    simp [Triangle.Legalize, hpb, hab, hopb, hopa, Ne.symm hpb, Ne.symm hab,
      Ne.symm hopb, Ne.symm hopa]

theorem lacks_of_ccw_cw {t : Triangle} {p a b z : Point} (hccw : t.PointCCW p = some a)
    (hcw : t.PointCW p = some b) (h1 : z ≠ p) (h2 : z ≠ a) (h3 : z ≠ b) :
    t.Contains z = false := by
  have hl := points_of_ccw_cw hccw hcw
  unfold Triangle.Contains
  rcases hl with hl | hl | hl <;> rw [hl] <;> simp [h1, h2, h3]

theorem neighborOn_cleared {t : Triangle} (h : t.neighbors_ = ⟨none, none, none⟩) (x y : Point) :
    t.neighborOn x y = none := by
  unfold Triangle.neighborOn
  cases hk : t.sideIndex x y with
  | none => rfl
  | some k => rw [h]; fin_cases k <;> rfl


/-! ### C5: neighbour links after RotateTrianglePair -/

/-- The neighbour links after `RotateTrianglePair(t, p, ot, op)`, side by
side, in a mesh of triangles with three different vertices and symmetric
links, where no outer neighbour of the pair contains both p and op and
neither triangle is its own neighbour. -/
theorem RotateTrianglePair_links (s : SweepContext) (t ot : TriId) (tt ott : Triangle)
    (p op a b : Point) (hd : MeshDistinct s) (hsym : SymLinks s)
    (ht : s.tris[t]? = some tt) (hot : s.tris[ot]? = some ott)
    (hccw : tt.PointCCW p = some a) (hcw : tt.PointCW p = some b)
    (hoccw : ott.PointCCW op = some b) (hocw : ott.PointCW op = some a)
    (hpop : p ≠ op)
    (h5a : ∀ n tn, tt.neighborOn p a = some n → s.tris[n]? = some tn → tn.Contains op = false)
    (h5b : ∀ n tn, tt.neighborOn p b = some n → s.tris[n]? = some tn → tn.Contains op = false)
    (h5c : ∀ n tn, ott.neighborOn op b = some n → s.tris[n]? = some tn → tn.Contains p = false)
    (h5d : ∀ n tn, ott.neighborOn op a = some n → s.tris[n]? = some tn → tn.Contains p = false)
    (h6a : tt.neighborOn p a ≠ some t) (h6b : tt.neighborOn p b ≠ some t)
    (h6c : ott.neighborOn op b ≠ some ot) (h6d : ott.neighborOn op a ≠ some ot) :
    ∃ s1, RotateTrianglePair t p ot op s = Res.ok () s1 ∧ MeshDistinct s1 ∧
      ∀ X x y, linkOn s1 X x y
        = if sameEdge x y p op ∧ X = t then some ot
          else if sameEdge x y p op ∧ X = ot then some t
          else if sameEdge x y op a ∧ X = ot ∧ (ott.neighborOn op a).isSome = true then
            ott.neighborOn op a
          else if sameEdge x y op a ∧ ott.neighborOn op a = some X then some ot
          else if sameEdge x y op b ∧ X = t ∧ (ott.neighborOn op b).isSome = true then
            ott.neighborOn op b
          else if sameEdge x y op b ∧ ott.neighborOn op b = some X then some t
          else if sameEdge x y p b ∧ X = t ∧ (tt.neighborOn p b).isSome = true then
            tt.neighborOn p b
          else if sameEdge x y p b ∧ tt.neighborOn p b = some X then some t
          else if sameEdge x y p a ∧ X = ot ∧ (tt.neighborOn p a).isSome = true then
            tt.neighborOn p a
          else if sameEdge x y p a ∧ tt.neighborOn p a = some X then some ot
          else if X = t ∨ X = ot then none
          else linkOn s X x y := by
  -- the four points are different
  have hdt := hd t tt ht
  have hdot := hd ot ott hot
  have hpa : p ≠ a := by
    intro h; subst h
    rcases points_of_ccw_cw hccw hcw with h | h | h <;>
      (unfold Triangle.Distinct at hdt; rw [h] at hdt; simp at hdt)
  have hpb : p ≠ b := by
    intro h; subst h
    rcases points_of_ccw_cw hccw hcw with h | h | h <;>
      (unfold Triangle.Distinct at hdt; rw [h] at hdt; simp at hdt)
  have hab : a ≠ b := by
    intro h; subst h
    rcases points_of_ccw_cw hccw hcw with h | h | h <;>
      (unfold Triangle.Distinct at hdt; rw [h] at hdt; simp at hdt)
  have hopa : op ≠ a := by
    intro h; subst h
    rcases points_of_ccw_cw hoccw hocw with h | h | h <;>
      (unfold Triangle.Distinct at hdot; rw [h] at hdot; simp at hdot)
  have hopb : op ≠ b := by
    intro h; subst h
    rcases points_of_ccw_cw hoccw hocw with h | h | h <;>
      (unfold Triangle.Distinct at hdot; rw [h] at hdot; simp at hdot)
  have hne : t ≠ ot := pair_ne ht hot hccw hcw hoccw hocw hopa hpop
  have hlt : t < s.tris.length := heap_lt_of_get ht
  have hlot : ot < s.tris.length := heap_lt_of_get hot
  obtain ⟨⟨hdt0, hnbt0, ⟨k2, hk2, hk2w⟩, ⟨k3, hk3, hk3w⟩, ⟨k0, hk0, hk0w⟩⟩,
      ⟨hdot0, hnbot0, ⟨k1, hk1, hk1w⟩, ⟨k4, hk4, hk4w⟩, ⟨k0b, hk0b, -⟩⟩⟩ :=
    rotated_layout tt ott p op a b hccw hcw hoccw hocw hpa hpb hab hopa hopb hpop
  obtain ⟨e1, e2, -⟩ := neighbor_accessors hdt hccw hcw
  obtain ⟨e3, e4, -⟩ := neighbor_accessors hdot hoccw hocw
  rw [RotateTrianglePair_run s t ot tt ott p op ht hot hne, e1, e2, e3, e4]
  -- the state in which the relinking starts
  generalize hS0 : ({ s with
    tris := List.set (s.tris.set t (rotatedT tt ott p op)) ot (rotatedOT tt ott p op) }
      : SweepContext) = S0
  have gt : S0.tris[t]? = some (rotatedT tt ott p op) := by
    rw [← hS0]; simp [List.getElem?_set, hne, Ne.symm hne, hlt]
  have got : S0.tris[ot]? = some (rotatedOT tt ott p op) := by
    rw [← hS0]; simp [List.getElem?_set, hlot]
  have gother : ∀ X, X ≠ t → X ≠ ot → S0.tris[X]? = s.tris[X]? := by
    intro X h1 h2
    rw [← hS0]
    simp [List.getElem?_set, Ne.symm h1, Ne.symm h2]
  have hlen0 : S0.tris.length = s.tris.length := by
    rw [← hS0]; simp
  have hott_p : ott.Contains p = false := lacks_of_ccw_cw hoccw hocw hpop hpb hpa
  have htt_op : tt.Contains op = false := lacks_of_ccw_cw hccw hcw hpop.symm hopa hopb
  -- the five relinking steps
  have hB1 : ∀ B, tt.neighborOn p a = some B → B ≠ ot ∧ ∃ tb0 kb, S0.tris[B]? = some tb0 ∧
      tb0.Distinct ∧ tb0.isEdge kb p a ∧
      tb0.Contains ((rotatedOT tt ott p op).points_.get k1) = false := by
    intro B hB
    obtain ⟨h1, h2, tb, kb, htb, hdb, hkb, -⟩ := outer_neighbour s hd hsym t ot tt ott ht hot p a B
      hB (fun h => h6a (h ▸ hB)) hott_p
    refine ⟨h2, tb, kb, (gother B h1 h2).trans htb, hdb, hkb, ?_⟩
    rw [hk1w]
    exact h5a B tb hB htb
  have hB2 : ∀ B, tt.neighborOn p b = some B → B ≠ t ∧ ∃ tb0 kb, S0.tris[B]? = some tb0 ∧
      tb0.Distinct ∧ tb0.isEdge kb p b ∧
      tb0.Contains ((rotatedT tt ott p op).points_.get k2) = false := by
    intro B hB
    obtain ⟨h1, h2, tb, kb, htb, hdb, hkb, -⟩ := outer_neighbour s hd hsym t ot tt ott ht hot p b B
      hB (fun h => h6b (h ▸ hB)) hott_p
    refine ⟨h1, tb, kb, (gother B h1 h2).trans htb, hdb, hkb, ?_⟩
    rw [hk2w]
    exact h5b B tb hB htb
  have hB3 : ∀ B, ott.neighborOn op b = some B → B ≠ t ∧ ∃ tb0 kb, S0.tris[B]? = some tb0 ∧
      tb0.Distinct ∧ tb0.isEdge kb op b ∧
      tb0.Contains ((rotatedT tt ott p op).points_.get k3) = false := by
    intro B hB
    obtain ⟨h1, h2, tb, kb, htb, hdb, hkb, -⟩ := outer_neighbour s hd hsym ot t ott tt hot ht op b B
      hB (fun h => h6c (h ▸ hB)) htt_op
    refine ⟨h2, tb, kb, (gother B h2 h1).trans htb, hdb, hkb, ?_⟩
    rw [hk3w]
    exact h5c B tb hB htb
  have hB4 : ∀ B, ott.neighborOn op a = some B → B ≠ ot ∧ ∃ tb0 kb, S0.tris[B]? = some tb0 ∧
      tb0.Distinct ∧ tb0.isEdge kb op a ∧
      tb0.Contains ((rotatedOT tt ott p op).points_.get k4) = false := by
    intro B hB
    obtain ⟨h1, h2, tb, kb, htb, hdb, hkb, -⟩ := outer_neighbour s hd hsym ot t ott tt hot ht op a B
      hB (fun h => h6d (h ▸ hB)) htt_op
    refine ⟨h1, tb, kb, (gother B h2 h1).trans htb, hdb, hkb, ?_⟩
    rw [hk4w]
    exact h5d B tb hB htb
  have hB5 : ∀ B, some ot = some B → B ≠ t ∧ ∃ tb0 kb, S0.tris[B]? = some tb0 ∧
      tb0.Distinct ∧ tb0.isEdge kb p op ∧
      tb0.Contains ((rotatedT tt ott p op).points_.get k0) = false := by
    intro B hB
    cases hB
    refine ⟨Ne.symm hne, _, k0b, got, hdot0, hk0b, ?_⟩
    rw [hk0w]
    exact rotatedOT_lacks_b tt ott p op a b hoccw hocw hpb hab hopb hopa
  obtain ⟨S1, r1, f1, l1⟩ := MarkNeighborIf_step S0 S0 (SameButLinks.refl S0) ot
    (tt.neighborOn p a) (rotatedOT tt ott p op) p a k1 got hdot0 hk1 hB1
  obtain ⟨S2, r2, f2, l2⟩ := MarkNeighborIf_step S0 S1 f1 t
    (tt.neighborOn p b) (rotatedT tt ott p op) p b k2 gt hdt0 hk2 hB2
  obtain ⟨S3, r3, f3, l3⟩ := MarkNeighborIf_step S0 S2 f2 t
    (ott.neighborOn op b) (rotatedT tt ott p op) op b k3 gt hdt0 hk3 hB3
  obtain ⟨S4, r4, f4, l4⟩ := MarkNeighborIf_step S0 S3 f3 ot
    (ott.neighborOn op a) (rotatedOT tt ott p op) op a k4 got hdot0 hk4 hB4
  obtain ⟨S5, r5, f5, l5⟩ := MarkNeighborIf_step S0 S4 f4 t
    (some ot) (rotatedT tt ott p op) p op k0 gt hdt0 hk0 hB5
  have hbase : ∀ X x y, linkOn S0 X x y = if X = t ∨ X = ot then none else linkOn s X x y := by
    intro X x y
    by_cases h1 : X = t
    · subst h1
      simp [linkOn, gt, neighborOn_cleared hnbt0]
    · by_cases h2 : X = ot
      · subst h2
        simp [linkOn, got, neighborOn_cleared hnbot0]
      · simp [linkOn, gother X h1 h2, h1, h2]
  refine ⟨S5, ?_, ?_, ?_⟩
  · simp only [RemapNeighbors, run_bind, r1, r2, r3, r4]
    exact r5
  · intro X tx hX
    have hXlt : X < S0.tris.length := by
      rw [← f5.length]; exact heap_lt_of_get hX
    obtain ⟨tx0, htx0⟩ := heap_get_of_lt hXlt
    obtain ⟨tx1, htx1, hs⟩ := f5.get htx0
    rw [hX] at htx1
    cases htx1
    apply Distinct_of_shape hs
    by_cases h1 : X = t
    · subst h1
      rw [gt] at htx0; cases htx0; exact hdt0
    · by_cases h2 : X = ot
      · subst h2
        rw [got] at htx0; cases htx0; exact hdot0
      · rw [gother X h1 h2] at htx0
        exact hd X tx0 htx0
  · intro X x y
    rw [l5, l4, l3, l2, l1, hbase]
    have e1 : (some ot = some X) ↔ X = ot := by
      constructor
      · intro h; exact (Option.some.inj h).symm
      · intro h; rw [h]
    simp only [Option.isSome_some, and_true, e1]

/-- The five sides (p, op), (p, a), (p, b), (op, b), (op, a) of the
quadrilateral and its diagonal are different as unordered pairs. -/
theorem quad_edges_excl {p op a b : Point} (x y : Point)
    (hpa : p ≠ a) (hpb : p ≠ b) (hab : a ≠ b) (hopa : op ≠ a) (hopb : op ≠ b) (hpop : p ≠ op) :
    (sameEdge x y p op → ¬ sameEdge x y p a ∧ ¬ sameEdge x y p b ∧ ¬ sameEdge x y op b ∧
      ¬ sameEdge x y op a ∧ ¬ sameEdge x y a b) ∧
    (sameEdge x y p a → ¬ sameEdge x y p b ∧ ¬ sameEdge x y op b ∧ ¬ sameEdge x y op a ∧
      ¬ sameEdge x y a b) ∧
    (sameEdge x y p b → ¬ sameEdge x y op b ∧ ¬ sameEdge x y op a ∧ ¬ sameEdge x y a b) ∧
    (sameEdge x y op b → ¬ sameEdge x y op a ∧ ¬ sameEdge x y a b) ∧
    (sameEdge x y op a → ¬ sameEdge x y a b) := by
  have hap := hpa.symm
  have hbp := hpb.symm
  have hba := hab.symm
  have haop := hopa.symm
  have hbop := hopb.symm
  have hopp := hpop.symm
  unfold sameEdge
  refine ⟨?_, ?_, ?_, ?_, ?_⟩ <;> rintro (⟨h1, h2⟩ | ⟨h1, h2⟩) <;> subst h1 <;> subst h2 <;>
    simp [hpa, hpb, hab, hopa, hopb, hpop, hap, hbp, hba, haop, hbop, hopp]

set_option maxHeartbeats 1600000 in
/-- C5 (as amended): in a mesh of triangles with three different vertices
and symmetric neighbour links, for t = (p, a, b) and ot = (op, b, a) that are
neighbours across (a, b), with p different from op, when no outer neighbour
of the pair contains both p and op and neither t nor ot is its own
neighbour: `RotateTrianglePair(t, p, ot, op)` returns; t and ot are mutual
neighbours across the new shared side (p, op); each outer neighbour is
linked, in both directions, with the triangle that now contains the side it
shares with the pair ((p, a) and (op, a) with ot, (p, b) and (op, b) with
t); and every neighbour link of the mesh is again symmetric. -/
theorem RotateTrianglePair_relinks (s : SweepContext) (t ot : TriId) (tt ott : Triangle)
    (p op a b : Point) (hd : MeshDistinct s) (hsym : SymLinks s)
    (ht : s.tris[t]? = some tt) (hot : s.tris[ot]? = some ott)
    (hccw : tt.PointCCW p = some a) (hcw : tt.PointCW p = some b)
    (hoccw : ott.PointCCW op = some b) (hocw : ott.PointCW op = some a)
    (hnb : tt.neighborOn a b = some ot)
    (hpop : p ≠ op)
    (h5a : ∀ n tn, tt.neighborOn p a = some n → s.tris[n]? = some tn → tn.Contains op = false)
    (h5b : ∀ n tn, tt.neighborOn p b = some n → s.tris[n]? = some tn → tn.Contains op = false)
    (h5c : ∀ n tn, ott.neighborOn op b = some n → s.tris[n]? = some tn → tn.Contains p = false)
    (h5d : ∀ n tn, ott.neighborOn op a = some n → s.tris[n]? = some tn → tn.Contains p = false)
    (h6a : tt.neighborOn p a ≠ some t) (h6b : tt.neighborOn p b ≠ some t)
    (h6c : ott.neighborOn op b ≠ some ot) (h6d : ott.neighborOn op a ≠ some ot) :
    ∃ s1, RotateTrianglePair t p ot op s = Res.ok () s1 ∧
      (linkOn s1 t p op = some ot ∧ linkOn s1 ot p op = some t) ∧
      (∀ n, tt.neighborOn p a = some n → linkOn s1 ot p a = some n ∧ linkOn s1 n p a = some ot) ∧
      (∀ n, tt.neighborOn p b = some n → linkOn s1 t p b = some n ∧ linkOn s1 n p b = some t) ∧
      (∀ n, ott.neighborOn op b = some n →
        linkOn s1 t op b = some n ∧ linkOn s1 n op b = some t) ∧
      (∀ n, ott.neighborOn op a = some n →
        linkOn s1 ot op a = some n ∧ linkOn s1 n op a = some ot) ∧
      SymLinks s1 ∧ MeshDistinct s1 := by
  obtain ⟨s1, hrun, hd1, hl⟩ := RotateTrianglePair_links s t ot tt ott p op a b hd hsym ht hot
    hccw hcw hoccw hocw hpop h5a h5b h5c h5d h6a h6b h6c h6d
  have hdt := hd t tt ht
  have hdot := hd ot ott hot
  have hpa : p ≠ a := by
    intro h; subst h
    rcases points_of_ccw_cw hccw hcw with h | h | h <;>
      (unfold Triangle.Distinct at hdt; rw [h] at hdt; simp at hdt)
  have hpb : p ≠ b := by
    intro h; subst h
    rcases points_of_ccw_cw hccw hcw with h | h | h <;>
      (unfold Triangle.Distinct at hdt; rw [h] at hdt; simp at hdt)
  have hab : a ≠ b := by
    intro h; subst h
    rcases points_of_ccw_cw hccw hcw with h | h | h <;>
      (unfold Triangle.Distinct at hdt; rw [h] at hdt; simp at hdt)
  have hopa : op ≠ a := by
    intro h; subst h
    rcases points_of_ccw_cw hoccw hocw with h | h | h <;>
      (unfold Triangle.Distinct at hdot; rw [h] at hdot; simp at hdot)
  have hopb : op ≠ b := by
    intro h; subst h
    rcases points_of_ccw_cw hoccw hocw with h | h | h <;>
      (unfold Triangle.Distinct at hdot; rw [h] at hdot; simp at hdot)
  have hne : t ≠ ot := pair_ne ht hot hccw hcw hoccw hocw hopa hpop
  have hott_p : ott.Contains p = false := lacks_of_ccw_cw hoccw hocw hpop hpb hpa
  have htt_op : tt.Contains op = false := lacks_of_ccw_cw hccw hcw hpop.symm hopa hopb
  -- the outer neighbours
  have G1 : ∀ B, tt.neighborOn p a = some B → B ≠ t ∧ B ≠ ot ∧ linkOn s B p a = some t := by
    intro B hB
    obtain ⟨h1, h2, tb, kb, htb, -, -, hback⟩ := outer_neighbour s hd hsym t ot tt ott ht hot p a B
      hB (fun h => h6a (h ▸ hB)) hott_p
    exact ⟨h1, h2, by rw [linkOn_of_get htb]; exact hback⟩
  have G2 : ∀ B, tt.neighborOn p b = some B → B ≠ t ∧ B ≠ ot ∧ linkOn s B p b = some t := by
    intro B hB
    obtain ⟨h1, h2, tb, kb, htb, -, -, hback⟩ := outer_neighbour s hd hsym t ot tt ott ht hot p b B
      hB (fun h => h6b (h ▸ hB)) hott_p
    exact ⟨h1, h2, by rw [linkOn_of_get htb]; exact hback⟩
  have G3 : ∀ B, ott.neighborOn op b = some B → B ≠ t ∧ B ≠ ot ∧ linkOn s B op b = some ot := by
    intro B hB
    obtain ⟨h1, h2, tb, kb, htb, -, -, hback⟩ := outer_neighbour s hd hsym ot t ott tt hot ht op b
      B hB (fun h => h6c (h ▸ hB)) htt_op
    exact ⟨h2, h1, by rw [linkOn_of_get htb]; exact hback⟩
  have G4 : ∀ B, ott.neighborOn op a = some B → B ≠ t ∧ B ≠ ot ∧ linkOn s B op a = some ot := by
    intro B hB
    obtain ⟨h1, h2, tb, kb, htb, -, -, hback⟩ := outer_neighbour s hd hsym ot t ott tt hot ht op a
      B hB (fun h => h6d (h ▸ hB)) htt_op
    exact ⟨h2, h1, by rw [linkOn_of_get htb]; exact hback⟩
  have hnb2 : ott.neighborOn a b = some t := by
    have := hsym t a b ot (by rw [linkOn_of_get ht]; exact hnb)
    rw [linkOn_of_get hot] at this
    exact this
  have eP := fun x y => @quad_edges_excl p op a b x y hpa hpb hab hopa hopb hpop
  have n00 : sameEdge p op p op := Or.inl ⟨rfl, rfl⟩
  have n11 : sameEdge p a p a := Or.inl ⟨rfl, rfl⟩
  have n22 : sameEdge p b p b := Or.inl ⟨rfl, rfl⟩
  have n33 : sameEdge op b op b := Or.inl ⟨rfl, rfl⟩
  have n44 : sameEdge op a op a := Or.inl ⟨rfl, rfl⟩
  refine ⟨s1, hrun, ⟨?_, ?_⟩, ?_, ?_, ?_, ?_, ?_, hd1⟩
  · rw [hl]; simp [n00]
  · rw [hl]; simp [n00, Ne.symm hne]
  · intro n hn
    obtain ⟨g1, g2, -⟩ := G1 n hn
    obtain ⟨h1, h2, h3, -⟩ := (eP p a).2.1 n11
    have h0 : ¬ sameEdge p a p op := fun h => ((eP p a).1 h).1 n11
    constructor
    · rw [hl]; simp [n11, h0, h1, h2, h3, hn, Ne.symm hne]
    · rw [hl]; simp [n11, h0, h1, h2, h3, hn, g1, g2]
  · intro n hn
    obtain ⟨g1, g2, -⟩ := G2 n hn
    obtain ⟨h1, h2, -⟩ := (eP p b).2.2.1 n22
    have h0 : ¬ sameEdge p b p op := fun h => ((eP p b).1 h).2.1 n22
    constructor
    · rw [hl]; simp [n22, h0, h1, h2, hn, hne]
    · rw [hl]; simp [n22, h0, h1, h2, hn, g1, g2]
  · intro n hn
    obtain ⟨g1, g2, -⟩ := G3 n hn
    obtain ⟨h1, -⟩ := (eP op b).2.2.2.1 n33
    have h0 : ¬ sameEdge op b p op := fun h => ((eP op b).1 h).2.2.1 n33
    constructor
    · rw [hl]; simp [n33, h0, h1, hn, hne]
    · rw [hl]; simp [n33, h0, h1, hn, g1, g2]
  · intro n hn
    obtain ⟨g1, g2, -⟩ := G4 n hn
    have h0 : ¬ sameEdge op a p op := fun h => ((eP op a).1 h).2.2.2.1 n44
    constructor
    · rw [hl]; simp [n44, h0, hn, Ne.symm hne]
    · rw [hl]; simp [n44, h0, hn, g1, g2]
  · intro X x y Y h
    rw [hl] at h
    rw [hl]
    obtain ⟨x0, x1, x2, x3, x4⟩ := eP x y
    have Tside : ∀ Z, linkOn s t x y = some Z →
        (sameEdge x y p a ∧ tt.neighborOn p a = some Z) ∨
        (sameEdge x y p b ∧ tt.neighborOn p b = some Z) ∨ (sameEdge x y a b ∧ Z = ot) := by
      intro Z hZ
      rw [linkOn_of_get ht] at hZ
      obtain ⟨k, hk⟩ := HasSide_of_neighborOn hZ
      rcases sides_of_ccw_cw hccw hcw hk with c | c | c
      · rw [neighborOn_congr tt c] at hZ
        exact Or.inl ⟨c, hZ⟩
      · rw [neighborOn_congr tt c] at hZ
        exact Or.inr (Or.inl ⟨c, hZ⟩)
      · rw [neighborOn_congr tt c, hnb] at hZ
        exact Or.inr (Or.inr ⟨c, (Option.some.inj hZ).symm⟩)
    have OTside : ∀ Z, linkOn s ot x y = some Z →
        (sameEdge x y op b ∧ ott.neighborOn op b = some Z) ∨
        (sameEdge x y op a ∧ ott.neighborOn op a = some Z) ∨ (sameEdge x y a b ∧ Z = t) := by
      intro Z hZ
      rw [linkOn_of_get hot] at hZ
      obtain ⟨k, hk⟩ := HasSide_of_neighborOn hZ
      rcases sides_of_ccw_cw hoccw hocw hk with c | c | c
      · rw [neighborOn_congr ott c] at hZ
        exact Or.inl ⟨c, hZ⟩
      · rw [neighborOn_congr ott c] at hZ
        exact Or.inr (Or.inl ⟨c, hZ⟩)
      · have c2 : sameEdge x y a b := by
          unfold sameEdge at c ⊢
          rcases c with ⟨h1, h2⟩ | ⟨h1, h2⟩
          · exact Or.inr ⟨h1, h2⟩
          · exact Or.inl ⟨h1, h2⟩
        rw [neighborOn_congr ott c2, hnb2] at hZ
        exact Or.inr (Or.inr ⟨c2, (Option.some.inj hZ).symm⟩)
    by_cases c1 : sameEdge x y p op ∧ X = t
    · rw [if_pos c1] at h
      cases h
      simp [c1.1, c1.2, Ne.symm hne]
    rw [if_neg c1] at h
    by_cases c2 : sameEdge x y p op ∧ X = ot
    · rw [if_pos c2] at h
      cases h
      simp [c2.1, c2.2]
    rw [if_neg c2] at h
    by_cases c3 : sameEdge x y op a ∧ X = ot ∧ (ott.neighborOn op a).isSome = true
    · rw [if_pos c3] at h
      obtain ⟨g1, g2, -⟩ := G4 Y h
      have n0 : ¬ sameEdge x y p op := fun c => (x0 c).2.2.2.1 c3.1
      simp [c3.1, c3.2.1, g1, g2, n0, h]
    rw [if_neg c3] at h
    by_cases c4 : sameEdge x y op a ∧ ott.neighborOn op a = some X
    · rw [if_pos c4] at h
      cases h
      have n0 : ¬ sameEdge x y p op := fun c => (x0 c).2.2.2.1 c4.1
      simp [c4.1, c4.2, n0, Ne.symm hne]
    rw [if_neg c4] at h
    by_cases c5 : sameEdge x y op b ∧ X = t ∧ (ott.neighborOn op b).isSome = true
    · rw [if_pos c5] at h
      obtain ⟨g1, g2, -⟩ := G3 Y h
      have n0 : ¬ sameEdge x y p op := fun c => (x0 c).2.2.1 c5.1
      have n4 : ¬ sameEdge x y op a := (x3 c5.1).1
      simp [c5.1, c5.2.1, g1, g2, n0, n4, h]
    rw [if_neg c5] at h
    by_cases c6 : sameEdge x y op b ∧ ott.neighborOn op b = some X
    · rw [if_pos c6] at h
      cases h
      have n0 : ¬ sameEdge x y p op := fun c => (x0 c).2.2.1 c6.1
      have n4 : ¬ sameEdge x y op a := (x3 c6.1).1
      simp [c6.1, c6.2, n0, n4, hne]
    rw [if_neg c6] at h
    by_cases c7 : sameEdge x y p b ∧ X = t ∧ (tt.neighborOn p b).isSome = true
    · rw [if_pos c7] at h
      obtain ⟨g1, g2, -⟩ := G2 Y h
      have n0 : ¬ sameEdge x y p op := fun c => (x0 c).2.1 c7.1
      have n4 : ¬ sameEdge x y op a := (x2 c7.1).2.1
      have n3 : ¬ sameEdge x y op b := (x2 c7.1).1
      simp [c7.1, c7.2.1, g1, g2, n0, n4, n3, h]
    rw [if_neg c7] at h
    by_cases c8 : sameEdge x y p b ∧ tt.neighborOn p b = some X
    · rw [if_pos c8] at h
      cases h
      have n0 : ¬ sameEdge x y p op := fun c => (x0 c).2.1 c8.1
      have n4 : ¬ sameEdge x y op a := (x2 c8.1).2.1
      have n3 : ¬ sameEdge x y op b := (x2 c8.1).1
      simp [c8.1, c8.2, n0, n4, n3, hne]
    rw [if_neg c8] at h
    by_cases c9 : sameEdge x y p a ∧ X = ot ∧ (tt.neighborOn p a).isSome = true
    · rw [if_pos c9] at h
      obtain ⟨g1, g2, -⟩ := G1 Y h
      have n0 : ¬ sameEdge x y p op := fun c => (x0 c).1 c9.1
      have n4 : ¬ sameEdge x y op a := (x1 c9.1).2.2.1
      have n3 : ¬ sameEdge x y op b := (x1 c9.1).2.1
      have n2 : ¬ sameEdge x y p b := (x1 c9.1).1
      simp [c9.1, c9.2.1, g1, g2, n0, n4, n3, n2, h]
    rw [if_neg c9] at h
    by_cases c10 : sameEdge x y p a ∧ tt.neighborOn p a = some X
    · rw [if_pos c10] at h
      cases h
      have n0 : ¬ sameEdge x y p op := fun c => (x0 c).1 c10.1
      have n4 : ¬ sameEdge x y op a := (x1 c10.1).2.2.1
      have n3 : ¬ sameEdge x y op b := (x1 c10.1).2.1
      have n2 : ¬ sameEdge x y p b := (x1 c10.1).1
      simp [c10.1, c10.2, n0, n4, n3, n2, Ne.symm hne]
    rw [if_neg c10] at h
    by_cases c11 : X = t ∨ X = ot
    · rw [if_pos c11] at h
      cases h
    rw [if_neg c11] at h
    -- a triangle outside the pair, across a side it does not share with the pair
    have hXt : X ≠ t := fun e => c11 (Or.inl e)
    have hXot : X ≠ ot := fun e => c11 (Or.inr e)
    have hback := hsym X x y Y h
    have hYt : Y ≠ t := by
      intro e
      subst e
      rcases Tside X hback with ⟨c, hn⟩ | ⟨c, hn⟩ | ⟨c, hn⟩
      · exact c10 ⟨c, hn⟩
      · exact c8 ⟨c, hn⟩
      · exact hXot hn
    have hYot : Y ≠ ot := by
      intro e
      subst e
      rcases OTside X hback with ⟨c, hn⟩ | ⟨c, hn⟩ | ⟨c, hn⟩
      · exact c6 ⟨c, hn⟩
      · exact c4 ⟨c, hn⟩
      · exact hXt hn
    have m4 : ¬ (sameEdge x y op a ∧ ott.neighborOn op a = some Y) := by
      rintro ⟨c, hn⟩
      have := (G4 Y hn).2.2
      rw [← linkOn_congr s Y c, hback] at this
      exact hXot (Option.some.inj this)
    have m3 : ¬ (sameEdge x y op b ∧ ott.neighborOn op b = some Y) := by
      rintro ⟨c, hn⟩
      have := (G3 Y hn).2.2
      rw [← linkOn_congr s Y c, hback] at this
      exact hXot (Option.some.inj this)
    have m2 : ¬ (sameEdge x y p b ∧ tt.neighborOn p b = some Y) := by
      rintro ⟨c, hn⟩
      have := (G2 Y hn).2.2
      rw [← linkOn_congr s Y c, hback] at this
      exact hXt (Option.some.inj this)
    have m1 : ¬ (sameEdge x y p a ∧ tt.neighborOn p a = some Y) := by
      rintro ⟨c, hn⟩
      have := (G1 Y hn).2.2
      rw [← linkOn_congr s Y c, hback] at this
      exact hXt (Option.some.inj this)
    simp only [hYt, hYot, and_false, false_and, if_false, m4, m3, m2, m1, or_self]
    exact hback

theorem MeshDistinct_of_check {s : SweepContext} (h : meshDistinctCheck s = true) :
    MeshDistinct s := by
  intro X tx hX
  unfold meshDistinctCheck at h
  rw [List.all_eq_true] at h
  have hm : tx ∈ s.tris := List.mem_iff_getElem?.2 ⟨X, hX⟩
  simpa using h tx hm

theorem SymLinks_of_check {s : SweepContext} (h : symLinksCheck s = true) : SymLinks s := by
  intro X x y Y hl
  unfold symLinksCheck at h
  rw [List.all_eq_true] at h
  unfold linkOn at hl
  cases hX : s.tris[X]? with
  | none => rw [hX] at hl; simp at hl
  | some tx =>
    rw [hX] at hl
    simp only at hl
    have h1 := h X (List.mem_range.2 (heap_lt_of_get hX))
    rw [hX] at h1
    simp only [List.all_eq_true] at h1
    unfold Triangle.neighborOn at hl
    cases hk : tx.sideIndex x y with
    | none => rw [hk] at hl; simp at hl
    | some k =>
      rw [hk] at hl
      simp only [Option.some_bind] at hl
      have h2 := h1 k (List.mem_finRange k)
      rw [hl] at h2
      simp only [decide_eq_true_eq] at h2
      have he : sameEdge x y (tx.edgeEnds k).1 (tx.edgeEnds k).2 := by
        have := isEdge_of_sideIndex hk
        unfold Triangle.isEdge at this
        unfold sameEdge
        rcases this with e | e <;> rw [e] <;> simp
      rw [linkOn_congr s Y he]
      exact h2

/-- Witness for `RotateTrianglePair_relinks`: the triangles 0 = (q, m, x) and
1 = (m, p, x) of `splitMesh`, neighbours across (m, x). -/
theorem RotateTrianglePair_relinks_witness :
    ∃ s1, RotateTrianglePair 0 sq 1 sp splitMesh = Res.ok () s1 ∧
      linkOn s1 0 sq sp = some 1 ∧ linkOn s1 1 sq sp = some 0 ∧
      linkOn s1 1 sq sm = some 2 ∧ linkOn s1 2 sq sm = some 1 ∧
      linkOn s1 1 sp sm = some 3 ∧ linkOn s1 3 sp sm = some 1 ∧ SymLinks s1 := by
  obtain ⟨s1, h, ⟨h1, h2⟩, ha, -, -, hd, hs, -⟩ :=
    RotateTrianglePair_relinks splitMesh 0 1 splitT0 splitT1
      sq sp sm sx (MeshDistinct_of_check (by decide!)) (SymLinks_of_check (by decide!))
      rfl rfl (by decide!) (by decide!) (by decide!) (by decide!) (by decide!) (by decide!)
      (by
        intro n tn h1 h2
        have e : splitT0.neighborOn sq sm = some 2 := by decide!
        rw [e] at h1
        cases h1
        cases h2
        decide!)
      (by
        intro n tn h1
        have e : splitT0.neighborOn sq sx = none := by decide!
        rw [e] at h1
        cases h1)
      (by
        intro n tn h1
        have e : splitT1.neighborOn sp sx = none := by decide!
        rw [e] at h1
        cases h1)
      (by
        intro n tn h1 h2
        have e : splitT1.neighborOn sp sm = some 3 := by decide!
        rw [e] at h1
        cases h1
        cases h2
        decide!)
      (by decide!) (by decide!) (by decide!) (by decide!)
  exact ⟨s1, h, h1, h2, (ha 2 (by decide!)).1, (ha 2 (by decide!)).2,
    (hd 3 (by decide!)).1, (hd 3 (by decide!)).2, hs⟩

/-- C5 (counterexample to the claim as stated): in `fanMesh` every neighbour
link is symmetric and t = 0 and ot = 1 are mutual neighbours across (a, b),
opposite p in t and op in ot.  `RotateTrianglePair(t, p, ot, op)` returns, and
afterwards triangle 2, the outer neighbour across (p, a), still records t
across (a, p), a side that t no longer has, while ot, which now has that
side, records no neighbour across it: the links are not symmetric. -/
theorem RotateTrianglePair_breaks_links_on_fan :
    MeshDistinct fanMesh ∧ SymLinks fanMesh ∧
    linkOn fanMesh 0 fa fb = some 1 ∧ linkOn fanMesh 1 fa fb = some 0 ∧
    fanMesh.tris[0]?.bind (fun t => t.PointCCW fp) = some fa ∧
    fanMesh.tris[0]?.bind (fun t => t.PointCW fp) = some fb ∧
    fanMesh.tris[1]?.bind (fun t => t.PointCCW fop) = some fb ∧
    fanMesh.tris[1]?.bind (fun t => t.PointCW fop) = some fa ∧
    (RotateTrianglePair 0 fp 1 fop fanMesh).isOk = true ∧
    linkOn (RotateTrianglePair 0 fp 1 fop fanMesh).ctx 2 fa fp = some 0 ∧
    linkOn (RotateTrianglePair 0 fp 1 fop fanMesh).ctx 0 fa fp = none ∧
    linkOn (RotateTrianglePair 0 fp 1 fop fanMesh).ctx 1 fa fp = none ∧
    ¬ SymLinks (RotateTrianglePair 0 fp 1 fop fanMesh).ctx := by
  refine ⟨MeshDistinct_of_check (by decide!), SymLinks_of_check (by decide!), by decide!,
    by decide!, by decide!, by decide!, by decide!, by decide!, by decide!, by decide!,
    by decide!, by decide!, ?_⟩
  intro h
  have h1 := h 2 fa fp 0 (by decide!)
  exact absurd h1 (by decide!)


/-! ### Properties of the state that a call maintains -/

theorem Inv_pure {P : SweepContext → Prop} {α : Type} (a : α) : Inv P (pure a : M α) :=
  fun _ h => h

theorem Inv_raise {P : SweepContext → Prop} {α : Type} (e : Err) : Inv P (raise e : M α) :=
  fun _ h => h

theorem Inv_deref {P : SweepContext → Prop} {α : Type} (o : Option α) : Inv P (deref o) := by
  intro s h
  cases o <;> exact h

theorem Inv_getCtx {P : SweepContext → Prop} : Inv P getCtx := fun _ h => h

theorem Inv_getTri {P : SweepContext → Prop} (t : TriId) : Inv P (getTri t) := by
  intro s h
  unfold getTri
  split <;> exact h

theorem Inv_getNode {P : SweepContext → Prop} (t : NodeId) : Inv P (getNode t) := by
  intro s h
  unfold getNode
  split <;> exact h

theorem Inv_getEdge {P : SweepContext → Prop} (t : EdgeId) : Inv P (getEdge t) := by
  intro s h
  unfold getEdge
  split <;> exact h

theorem Inv_bind {P : SweepContext → Prop} {α β : Type} {m : M α} {f : α → M β}
    (hm : Inv P m) (hf : ∀ a, Inv P (f a)) : Inv P (m >>= f) := by
  intro s h
  have h1 := hm s h
  rw [run_bind]
  cases hr : m s with
  | ok a s1 =>
    rw [hr] at h1
    exact hf a s1 h1
  | throw e s1 =>
    rw [hr] at h1
    exact h1

theorem Inv_modifyCtx {P : SweepContext → Prop} {f : SweepContext → SweepContext}
    (hf : ∀ s, P s → P (f s)) : Inv P (modifyCtx f) := fun s h => hf s h

theorem Inv_modifyTri {P : SweepContext → Prop} (hP : IgnoresTris P) (t : TriId)
    (f : Triangle → Triangle) : Inv P (modifyTri t f) := by
  intro s h
  unfold modifyTri
  split
  · exact hP s _ h
  · exact h

theorem Inv_newTriangle {P : SweepContext → Prop} (hP : IgnoresTris P) (a b c : Point) :
    Inv P (newTriangle a b c) := fun s h => hP s _ h

theorem Inv_MarkNeighbor {P : SweepContext → Prop} (hP : IgnoresTris P) (a b : TriId) :
    Inv P (MarkNeighbor a b) := by
  unfold MarkNeighbor
  repeat' first
    | exact Inv_pure _ | exact Inv_getTri _ | exact Inv_modifyTri hP _ _
    | refine Inv_bind ?_ (fun _ => ?_) | split | dsimp only

theorem Inv_MarkNeighborIf {P : SweepContext → Prop} (hP : IgnoresTris P) (a : TriId)
    (b : Option TriId) : Inv P (MarkNeighborIf a b) := by
  unfold MarkNeighborIf
  split
  · exact Inv_MarkNeighbor hP _ _
  · exact Inv_pure _

theorem Inv_RotateTrianglePair {P : SweepContext → Prop} (hP : IgnoresTris P) (t : TriId)
    (p : Point) (ot : TriId) (op : Point) : Inv P (RotateTrianglePair t p ot op) := by
  unfold RotateTrianglePair
  repeat' first
    | exact Inv_pure _ | exact Inv_getTri _ | exact Inv_modifyTri hP _ _
    | exact Inv_MarkNeighbor hP _ _ | exact Inv_MarkNeighborIf hP _ _
    | refine Inv_bind ?_ (fun _ => ?_) | split | dsimp only


theorem mapToNodes_skel (t : TriId) (tri : Triangle) :
    ∀ (l : List NodeId) (ns : List Node),
      (mapToNodes t tri l ns).map Node.skel = ns.map Node.skel := by
  intro l
  induction l with
  | nil => intro ns; rfl
  | cons n rest ih =>
    intro ns
    cases hn : ns[n]? with
    | none => simpa [mapToNodes, hn] using ih ns
    | some nd =>
      cases hp : nd.point with
      | none => simpa [mapToNodes, hn, hp] using ih ns
      | some p =>
        by_cases hc : tri.Contains p = true
        · simp only [mapToNodes, hn, hp, hc, if_true]
          rw [ih]
          apply List.ext_getElem?
          intro i
          rw [List.getElem?_map, List.getElem?_map, heap_set_get hn]
          by_cases hi : n = i
          · subst hi
            simp [hn, Node.skel, hp]
          · simp [hi]
        · simpa [mapToNodes, hn, hp, hc] using ih ns

theorem Inv_MapTriangleToNodes {P : SweepContext → Prop} (hN : IgnoresNodeTriangles P)
    (t : TriId) : Inv P (MapTriangleToNodes t) := by
  unfold MapTriangleToNodes
  refine Inv_bind (Inv_getTri _) (fun tri => Inv_modifyCtx (fun s h => ?_))
  exact hN s _ (mapToNodes_skel _ _ _ _) h

theorem Inv_AddToMap {P : SweepContext → Prop} (hM : IgnoresMap P) (t : TriId) :
    Inv P (AddToMap t) :=
  Inv_modifyCtx (fun s h => hM s _ h)

theorem Inv_LegalizeEdge {P : SweepContext → Prop} (hP : IgnoresTris P)
    (hN : IgnoresNodeTriangles P) (rec : TriId → M Bool) (hrec : ∀ t, Inv P (rec t))
    (t : TriId) (i : Fin 3) : Inv P (LegalizeEdge rec t i) := by
  unfold LegalizeEdge
  repeat' first
    | exact Inv_pure _ | exact Inv_getTri _ | exact Inv_modifyTri hP _ _ | exact Inv_deref _
    | exact Inv_RotateTrianglePair hP _ _ _ _ | exact Inv_MapTriangleToNodes hN _
    | exact hrec _
    | refine Inv_bind ?_ (fun _ => ?_) | split | dsimp only

theorem Inv_Legalize {P : SweepContext → Prop} (hP : IgnoresTris P)
    (hN : IgnoresNodeTriangles P) : ∀ (fuel : Nat) (t : TriId), Inv P (Legalize fuel t) := by
  intro fuel
  induction fuel with
  | zero => intro t; exact Inv_raise _
  | succ fuel ih =>
    intro t
    unfold Legalize
    repeat' first
      | exact Inv_pure _ | exact Inv_LegalizeEdge hP hN _ ih _ _
      | refine Inv_bind ?_ (fun _ => ?_) | split | dsimp only

theorem Inv_IsEdgeSideOfTriangle {P : SweepContext → Prop} (hP : IgnoresTris P)
    (t : TriId) (ep eq : Point) : Inv P (IsEdgeSideOfTriangle t ep eq) := by
  unfold IsEdgeSideOfTriangle
  repeat' first
    | exact Inv_pure _ | exact Inv_getTri _ | exact Inv_modifyTri hP _ _
    | refine Inv_bind ?_ (fun _ => ?_) | split | dsimp only

theorem Inv_nodePoint {P : SweepContext → Prop} (n : NodeId) : Inv P (nodePoint n) :=
  Inv_bind (Inv_getNode _) (fun _ => Inv_deref _)

theorem Inv_modifyNode {P : SweepContext → Prop} (hP : IgnoresNodes P) (t : NodeId)
    (f : Node → Node) : Inv P (modifyNode t f) := by
  intro s h
  unfold modifyNode
  split
  · exact hP s _ h
  · exact h

theorem IgnoresNodeTriangles_of_IgnoresNodes {P : SweepContext → Prop} (h : IgnoresNodes P) :
    IgnoresNodeTriangles P := fun s v _ hs => h s v hs

theorem Inv_Fill_nodes {P : SweepContext → Prop} (hP : IgnoresTris P) (hM : IgnoresMap P)
    (hN : IgnoresNodes P) (fuel : Nat) (n : NodeId) : Inv P (Fill fuel n) := by
  unfold Fill
  repeat' first
    | exact Inv_pure _ | exact Inv_getTri _ | exact Inv_modifyTri hP _ _ | exact Inv_deref _
    | exact Inv_getNode _ | exact Inv_nodePoint _ | exact Inv_modifyNode hN _ _
    | exact Inv_newTriangle hP _ _ _ | exact Inv_MarkNeighbor hP _ _ | exact Inv_AddToMap hM _
    | exact Inv_Legalize hP (IgnoresNodeTriangles_of_IgnoresNodes hN) _ _
    | exact Inv_MapTriangleToNodes (IgnoresNodeTriangles_of_IgnoresNodes hN) _
    | refine Inv_bind ?_ (fun _ => ?_) | split | dsimp only


theorem Inv_FillRightConcaveEdgeEvent {P : SweepContext → Prop} (hP : IgnoresTris P) (hM : IgnoresMap P)
    (hN : IgnoresNodes P) (env : Env) :
    ∀ (fuel : Nat) (edge : EdgeId) (node : NodeId), Inv P (FillRightConcaveEdgeEvent env fuel edge node) := by
  intro fuel
  induction fuel with
  | zero => intro edge node; exact Inv_raise _
  | succ fuel ih =>
    intro edge node
    unfold FillRightConcaveEdgeEvent
    repeat' first
      | exact Inv_pure _ | exact Inv_deref _ | exact Inv_getNode _ | exact Inv_nodePoint _
      | exact Inv_getEdge _ | exact Inv_getCtx | exact Inv_Fill_nodes hP hM hN _ _
      | exact ih _ _
      | refine Inv_bind ?_ (fun _ => ?_) | split | dsimp only

theorem Inv_FillRightConvexEdgeEvent {P : SweepContext → Prop} (hP : IgnoresTris P) (hM : IgnoresMap P)
    (hN : IgnoresNodes P) (env : Env) :
    ∀ (fuel : Nat) (edge : EdgeId) (node : NodeId), Inv P (FillRightConvexEdgeEvent env fuel edge node) := by
  intro fuel
  induction fuel with
  | zero => intro edge node; exact Inv_raise _
  | succ fuel ih =>
    intro edge node
    unfold FillRightConvexEdgeEvent
    repeat' first
      | exact Inv_pure _ | exact Inv_deref _ | exact Inv_getNode _ | exact Inv_nodePoint _
      | exact Inv_getEdge _ | exact Inv_getCtx | exact Inv_Fill_nodes hP hM hN _ _
      | exact Inv_FillRightConcaveEdgeEvent hP hM hN _ _ _ _
      | exact ih _ _
      | refine Inv_bind ?_ (fun _ => ?_) | split | dsimp only

theorem Inv_FillRightBelowEdgeEvent {P : SweepContext → Prop} (hP : IgnoresTris P) (hM : IgnoresMap P)
    (hN : IgnoresNodes P) (env : Env) :
    ∀ (fuel : Nat) (edge : EdgeId) (node : NodeId), Inv P (FillRightBelowEdgeEvent env fuel edge node) := by
  intro fuel
  induction fuel with
  | zero => intro edge node; exact Inv_raise _
  | succ fuel ih =>
    intro edge node
    unfold FillRightBelowEdgeEvent
    repeat' first
      | exact Inv_pure _ | exact Inv_deref _ | exact Inv_getNode _ | exact Inv_nodePoint _
      | exact Inv_getEdge _ | exact Inv_getCtx | exact Inv_Fill_nodes hP hM hN _ _
      | exact Inv_FillRightConcaveEdgeEvent hP hM hN _ _ _ _
      | exact Inv_FillRightConvexEdgeEvent hP hM hN _ _ _ _
      | exact ih _ _
      | refine Inv_bind ?_ (fun _ => ?_) | split | dsimp only

theorem Inv_FillRightAboveEdgeEvent {P : SweepContext → Prop} (hP : IgnoresTris P) (hM : IgnoresMap P)
    (hN : IgnoresNodes P) (env : Env) :
    ∀ (fuel : Nat) (edge : EdgeId) (node : NodeId), Inv P (FillRightAboveEdgeEvent env fuel edge node) := by
  intro fuel
  induction fuel with
  | zero => intro edge node; exact Inv_raise _
  | succ fuel ih =>
    intro edge node
    unfold FillRightAboveEdgeEvent
    repeat' first
      | exact Inv_pure _ | exact Inv_deref _ | exact Inv_getNode _ | exact Inv_nodePoint _
      | exact Inv_getEdge _ | exact Inv_getCtx | exact Inv_Fill_nodes hP hM hN _ _
      | exact Inv_FillRightBelowEdgeEvent hP hM hN _ _ _ _
      | exact ih _ _
      | refine Inv_bind ?_ (fun _ => ?_) | split | dsimp only

theorem Inv_FillLeftConcaveEdgeEvent {P : SweepContext → Prop} (hP : IgnoresTris P) (hM : IgnoresMap P)
    (hN : IgnoresNodes P) (env : Env) :
    ∀ (fuel : Nat) (edge : EdgeId) (node : NodeId), Inv P (FillLeftConcaveEdgeEvent env fuel edge node) := by
  intro fuel
  induction fuel with
  | zero => intro edge node; exact Inv_raise _
  | succ fuel ih =>
    intro edge node
    unfold FillLeftConcaveEdgeEvent
    repeat' first
      | exact Inv_pure _ | exact Inv_deref _ | exact Inv_getNode _ | exact Inv_nodePoint _
      | exact Inv_getEdge _ | exact Inv_getCtx | exact Inv_Fill_nodes hP hM hN _ _
      | exact ih _ _
      | refine Inv_bind ?_ (fun _ => ?_) | split | dsimp only

theorem Inv_FillLeftConvexEdgeEvent {P : SweepContext → Prop} (hP : IgnoresTris P) (hM : IgnoresMap P)
    (hN : IgnoresNodes P) (env : Env) :
    ∀ (fuel : Nat) (edge : EdgeId) (node : NodeId), Inv P (FillLeftConvexEdgeEvent env fuel edge node) := by
  intro fuel
  induction fuel with
  | zero => intro edge node; exact Inv_raise _
  | succ fuel ih =>
    intro edge node
    unfold FillLeftConvexEdgeEvent
    repeat' first
      | exact Inv_pure _ | exact Inv_deref _ | exact Inv_getNode _ | exact Inv_nodePoint _
      | exact Inv_getEdge _ | exact Inv_getCtx | exact Inv_Fill_nodes hP hM hN _ _
      | exact Inv_FillLeftConcaveEdgeEvent hP hM hN _ _ _ _
      | exact ih _ _
      | refine Inv_bind ?_ (fun _ => ?_) | split | dsimp only

theorem Inv_FillLeftBelowEdgeEvent {P : SweepContext → Prop} (hP : IgnoresTris P) (hM : IgnoresMap P)
    (hN : IgnoresNodes P) (env : Env) :
    ∀ (fuel : Nat) (edge : EdgeId) (node : NodeId), Inv P (FillLeftBelowEdgeEvent env fuel edge node) := by
  intro fuel
  induction fuel with
  | zero => intro edge node; exact Inv_raise _
  | succ fuel ih =>
    intro edge node
    unfold FillLeftBelowEdgeEvent
    repeat' first
      | exact Inv_pure _ | exact Inv_deref _ | exact Inv_getNode _ | exact Inv_nodePoint _
      | exact Inv_getEdge _ | exact Inv_getCtx | exact Inv_Fill_nodes hP hM hN _ _
      | exact Inv_FillLeftConcaveEdgeEvent hP hM hN _ _ _ _
      | exact Inv_FillLeftConvexEdgeEvent hP hM hN _ _ _ _
      | exact ih _ _
      | refine Inv_bind ?_ (fun _ => ?_) | split | dsimp only

theorem Inv_FillLeftAboveEdgeEvent {P : SweepContext → Prop} (hP : IgnoresTris P) (hM : IgnoresMap P)
    (hN : IgnoresNodes P) (env : Env) :
    ∀ (fuel : Nat) (edge : EdgeId) (node : NodeId), Inv P (FillLeftAboveEdgeEvent env fuel edge node) := by
  intro fuel
  induction fuel with
  | zero => intro edge node; exact Inv_raise _
  | succ fuel ih =>
    intro edge node
    unfold FillLeftAboveEdgeEvent
    repeat' first
      | exact Inv_pure _ | exact Inv_deref _ | exact Inv_getNode _ | exact Inv_nodePoint _
      | exact Inv_getEdge _ | exact Inv_getCtx | exact Inv_Fill_nodes hP hM hN _ _
      | exact Inv_FillLeftBelowEdgeEvent hP hM hN _ _ _ _
      | exact ih _ _
      | refine Inv_bind ?_ (fun _ => ?_) | split | dsimp only

theorem Inv_FillEdgeEvent {P : SweepContext → Prop} (hP : IgnoresTris P) (hM : IgnoresMap P)
    (hN : IgnoresNodes P) (env : Env) (fuel : Nat) (edge : EdgeId) (node : NodeId) :
    Inv P (FillEdgeEvent env fuel edge node) := by
  unfold FillEdgeEvent
  refine Inv_bind Inv_getCtx (fun _ => ?_)
  split
  · exact Inv_FillRightAboveEdgeEvent hP hM hN _ _ _ _
  · exact Inv_FillLeftAboveEdgeEvent hP hM hN _ _ _ _

theorem Inv_LargeHole_DontFill {P : SweepContext → Prop} {env : Env} (n : NodeId) :
    Inv P (LargeHole_DontFill env n) := by
  unfold LargeHole_DontFill
  repeat' first
    | exact Inv_pure _ | exact Inv_deref _ | exact Inv_getNode _ | exact Inv_nodePoint _
    | refine Inv_bind ?_ (fun _ => ?_) | split | dsimp only

theorem Inv_IsShallow {P : SweepContext → Prop} {env : Env} (n : NodeId) :
    Inv P (IsShallow env n) := by
  unfold IsShallow
  repeat' first
    | exact Inv_pure _ | exact Inv_deref _ | exact Inv_getNode _ | exact Inv_nodePoint _
    | exact Inv_getCtx
    | refine Inv_bind ?_ (fun _ => ?_) | split | dsimp only

theorem Inv_BasinAngle {P : SweepContext → Prop} {env : Env} (n : NodeId) :
    Inv P (BasinAngle env n) := by
  unfold BasinAngle
  repeat' first
    | exact Inv_pure _ | exact Inv_deref _ | exact Inv_getNode _ | exact Inv_nodePoint _
    | refine Inv_bind ?_ (fun _ => ?_) | split | dsimp only


/-! ### Chains -/

theorem headOr_append (a b : List NodeId) (q : Option NodeId) :
    headOr (a ++ b) q = headOr a (headOr b q) := by
  cases a <;> rfl

theorem lastOr_append (a b : List NodeId) (p : Option NodeId) :
    lastOr (a ++ b) p = lastOr b (lastOr a p) := by
  induction a generalizing p with
  | nil => rfl
  | cons n rest ih => exact ih (some n)

theorem head?_eq_headOr (l : List NodeId) : l.head? = headOr l none := by
  cases l <;> rfl

theorem lastOr_cons_some (l : List NodeId) (n : NodeId) (p : Option NodeId) :
    ∃ x, lastOr (n :: l) p = some x := by
  induction l generalizing n p with
  | nil => exact ⟨n, rfl⟩
  | cons m rest ih => exact ih m (some n)

theorem lastOr_eq_some {l : List NodeId} {x : NodeId} (h : lastOr l none = some x) :
    ∃ a, l = a ++ [x] := by
  rcases List.eq_nil_or_concat l with rfl | ⟨a, y, rfl⟩
  · cases h
  · rw [List.concat_eq_append, lastOr_append] at h
    cases h
    exact ⟨a, by simp⟩

theorem getLast?_eq_lastOr (l : List NodeId) : l.getLast? = lastOr l none := by
  rcases List.eq_nil_or_concat l with rfl | ⟨a, y, rfl⟩
  · rfl
  · rw [List.concat_eq_append, lastOr_append]
    simp [lastOr]

theorem headOr_eq_some {l : List NodeId} {x : NodeId} (h : headOr l none = some x) :
    ∃ b, l = x :: b := by
  cases l with
  | nil => cases h
  | cons n rest =>
    cases h
    exact ⟨rest, rfl⟩

theorem nextSeg_append (nx : List (Option NodeId)) (a b : List NodeId) (q : Option NodeId) :
    nextSeg nx (a ++ b) q ↔ nextSeg nx a (headOr b q) ∧ nextSeg nx b q := by
  induction a with
  | nil => simp [nextSeg]
  | cons n rest ih =>
    show (nx[n]? = some (headOr (rest ++ b) q) ∧ nextSeg nx (rest ++ b) q) ↔
      (nx[n]? = some (headOr rest (headOr b q)) ∧ nextSeg nx rest (headOr b q)) ∧ nextSeg nx b q
    rw [ih, headOr_append]
    tauto

theorem prevSeg_append (pv : List (Option NodeId)) (p : Option NodeId) (a b : List NodeId) :
    prevSeg pv p (a ++ b) ↔ prevSeg pv p a ∧ prevSeg pv (lastOr a p) b := by
  induction a generalizing p with
  | nil => simp [prevSeg, lastOr]
  | cons n rest ih =>
    show (pv[n]? = some p ∧ prevSeg pv (some n) (rest ++ b)) ↔
      (pv[n]? = some p ∧ prevSeg pv (some n) rest) ∧ prevSeg pv (lastOr rest (some n)) b
    rw [ih]
    tauto

theorem nextSeg_congr {nx nx1 : List (Option NodeId)} {l : List NodeId} {q : Option NodeId}
    (h : ∀ n ∈ l, nx1[n]? = nx[n]?) (h1 : nextSeg nx l q) : nextSeg nx1 l q := by
  induction l with
  | nil => trivial
  | cons n rest ih =>
    refine ⟨?_, ih (fun k hk => h k (List.mem_cons_of_mem _ hk)) h1.2⟩
    rw [h n (List.mem_cons_self _ _)]
    exact h1.1

theorem prevSeg_congr {pv pv1 : List (Option NodeId)} {l : List NodeId} {p : Option NodeId}
    (h : ∀ n ∈ l, pv1[n]? = pv[n]?) (h1 : prevSeg pv p l) : prevSeg pv1 p l := by
  induction l generalizing p with
  | nil => trivial
  | cons n rest ih =>
    refine ⟨?_, ih (fun k hk => h k (List.mem_cons_of_mem _ hk)) h1.2⟩
    rw [h n (List.mem_cons_self _ _)]
    exact h1.1

theorem nextSeg_lt {nx : List (Option NodeId)} {l : List NodeId} {q : Option NodeId}
    (h1 : nextSeg nx l q) : ∀ n ∈ l, n < nx.length := by
  induction l with
  | nil => intro n hn; cases hn
  | cons k rest ih =>
    intro n hn
    rcases List.mem_cons.1 hn with rfl | hn
    · exact heap_lt_of_get h1.1
    · exact ih h1.2 n hn

/-- In a chain, a member of the chain knows its two neighbours. -/
theorem Linked.split {F : Front} {L : List NodeId} (h : Linked F L) {n : NodeId} (hn : n ∈ L) :
    ∃ a b, L = a ++ n :: b ∧ F.next[n]? = some (headOr b none) ∧
      F.prev[n]? = some (lastOr a none) := by
  obtain ⟨a, b, rfl⟩ := List.append_of_mem hn
  refine ⟨a, b, rfl, ?_, ?_⟩
  · exact ((nextSeg_append _ _ _ _).1 h.nexts).2.1
  · exact ((prevSeg_append _ _ _ _).1 h.prevs).2.1

theorem Linked.next_mem {F : Front} {L : List NodeId} (h : Linked F L) {n k : NodeId}
    (hn : n ∈ L) (hk : F.next[n]? = some (some k)) : ∃ a b, L = a ++ n :: k :: b := by
  obtain ⟨a, b, rfl, h1, _⟩ := h.split hn
  rw [h1] at hk
  obtain ⟨b1, rfl⟩ := headOr_eq_some (Option.some.inj hk)
  exact ⟨a, b1, rfl⟩

theorem Linked.prev_mem {F : Front} {L : List NodeId} (h : Linked F L) {n k : NodeId}
    (hn : n ∈ L) (hk : F.prev[n]? = some (some k)) : ∃ a b, L = a ++ k :: n :: b := by
  obtain ⟨a, b, rfl, _, h1⟩ := h.split hn
  rw [h1] at hk
  obtain ⟨a1, rfl⟩ := lastOr_eq_some (Option.some.inj hk)
  exact ⟨a1, b, by simp⟩


theorem set_get_self {α : Type} {l : List α} {i : Nat} (h : i < l.length) (a : α) :
    (l.set i a)[i]? = some a := by
  obtain ⟨v, hv⟩ := heap_get_of_lt h
  rw [heap_set_get hv]
  simp

theorem set_get_ne {α : Type} {l : List α} {i j : Nat} (h : i ≠ j) (a : α) :
    (l.set i a)[j]? = l[j]? := List.getElem?_set_ne h

/-- Unlinking an inner node of the chain, as `Fill` does, leaves the chain
without that node. -/
theorem Linked.unlink {F : Front} {L : List NodeId} (h : Linked F L) {m pv nx : NodeId}
    (hm : m ∈ L) (hpv : F.prev[m]? = some (some pv)) (hnx : F.next[m]? = some (some nx)) :
    ∃ a b, L = a ++ pv :: m :: nx :: b ∧
      Linked { F with next := F.next.set pv (some nx), prev := F.prev.set nx (some pv) }
        (a ++ pv :: nx :: b) := by
  obtain ⟨l1, l2, rfl, h1, h2⟩ := h.split hm
  rw [h1] at hnx
  obtain ⟨b, rfl⟩ := headOr_eq_some (Option.some.inj hnx)
  rw [h2] at hpv
  obtain ⟨a, rfl⟩ := lastOr_eq_some (Option.some.inj hpv)
  refine ⟨a, b, by simp, ?_⟩
  have hL : (a ++ [pv]) ++ m :: nx :: b = a ++ pv :: m :: nx :: b := by simp
  have hnd := h.nodup
  have hne := h.nexts
  have hpr := h.prevs
  have hhd := h.head
  have htl := h.tail
  rw [hL] at hnd hne hpr hhd htl
  rw [nextSeg_append] at hne
  rw [prevSeg_append] at hpr
  have hpa : pv ∉ a := fun hin => by
    have := (List.nodup_append.1 hnd).2.2 hin (List.mem_cons_self _ _)
    exact this
  have hna : nx ∉ a := fun hin => by
    have := (List.nodup_append.1 hnd).2.2 hin
      (List.mem_cons_of_mem _ (List.mem_cons_of_mem _ (List.mem_cons_self _ _)))
    exact this
  have hnd2 : (pv :: m :: nx :: b).Nodup := (List.nodup_append.1 hnd).2.1
  simp only [List.nodup_cons, List.mem_cons, not_or] at hnd2
  obtain ⟨⟨hpm, hpn, hpb⟩, ⟨hmn, hmb⟩, hnb, hbb⟩ := hnd2
  refine ⟨?_, ?_, ?_, ?_, ?_⟩
  · have := List.nodup_append.1 hnd
    refine List.nodup_append.2 ⟨this.1, ?_, ?_⟩
    · simp only [List.nodup_cons, List.mem_cons, not_or]
      exact ⟨⟨hpn, hpb⟩, hnb, hbb⟩
    · intro x hx hx2
      refine this.2.2 hx ?_
      rcases List.mem_cons.1 hx2 with rfl | hx2
      · exact List.mem_cons_self _ _
      · exact List.mem_cons_of_mem _ (List.mem_cons_of_mem _ hx2)
  · show F.head_ = _
    rw [hhd, head?_eq_headOr, head?_eq_headOr, headOr_append, headOr_append]
    rfl
  · show F.tail_ = _
    rw [htl, getLast?_eq_lastOr, getLast?_eq_lastOr, lastOr_append, lastOr_append]
    rfl
  · show nextSeg (F.next.set pv (some nx)) (a ++ pv :: nx :: b) none
    rw [nextSeg_append]
    refine ⟨nextSeg_congr (fun n hn => by
      apply set_get_ne; rintro rfl; exact hpa hn) hne.1, ?_, ?_⟩
    · exact set_get_self (heap_lt_of_get hne.2.1) _
    · refine nextSeg_congr (fun n hn => ?_) hne.2.2.2
      apply set_get_ne
      rintro rfl
      rcases List.mem_cons.1 hn with e | hn
      · exact hpn e
      · exact hpb hn
  · show prevSeg (F.prev.set nx (some pv)) none (a ++ pv :: nx :: b)
    rw [prevSeg_append]
    refine ⟨prevSeg_congr (fun n hn => by
      apply set_get_ne; rintro rfl; exact hna hn) hpr.1, ?_, ?_, ?_⟩
    · rw [set_get_ne (fun e => hpn e.symm)]
      exact hpr.2.1
    · exact set_get_self (heap_lt_of_get hpr.2.2.2.1) _
    · exact prevSeg_congr (fun n hn => by
      apply set_get_ne; rintro rfl; exact hnb hn) hpr.2.2.2.2


theorem grow_get_other {α : Type} {l : List α} {x v1 v2 : α} {i k n : Nat}
    (hi : i ≠ n) (hk : k ≠ n) (hn : n < l.length) :
    (((l ++ [x]).set i v1).set k v2)[n]? = l[n]? := by
  rw [set_get_ne hk, set_get_ne hi, List.getElem?_append_left hn]

theorem grow_lt {α : Type} {l : List α} {x v : α} {i n : Nat} (hn : n ≤ l.length) :
    n < ((l ++ [x]).set i v).length := by
  simp
  omega

/-- Linking a fresh node into the chain after `node`, as `NewFrontTriangle`
does, gives the chain with the new node after `node`. -/
theorem Linked.insert_after {F : Front} {L : List NodeId} (h : Linked F L) {node nx : NodeId}
    (point : Point) (hm : node ∈ L) (hnx : F.next[node]? = some (some nx))
    (hl1 : F.next.length = F.pts.length) (hl2 : F.prev.length = F.pts.length) :
    F.pts.length ∉ L ∧ ∃ a b, L = a ++ node :: nx :: b ∧
      Linked { F with pts := F.pts ++ [some point],
                      next := ((F.next ++ [none]).set F.pts.length (some nx)).set node
                        (some F.pts.length),
                      prev := ((F.prev ++ [none]).set F.pts.length (some node)).set nx
                        (some F.pts.length) }
        (a ++ node :: F.pts.length :: nx :: b) := by
  have hlt : ∀ n ∈ L, n < F.pts.length := fun n hn => by
    rw [← hl1]
    exact nextSeg_lt h.nexts n hn
  have hnew : F.pts.length ∉ L := fun hin => Nat.lt_irrefl _ (hlt _ hin)
  refine ⟨hnew, ?_⟩
  obtain ⟨a, b, rfl⟩ := h.next_mem hm hnx
  refine ⟨a, b, rfl, ?_⟩
  have hnd := h.nodup
  have hne := h.nexts
  have hpr := h.prevs
  rw [nextSeg_append] at hne
  rw [prevSeg_append] at hpr
  have hnd1 := List.nodup_append.1 hnd
  have hnd2 : (node :: nx :: b).Nodup := hnd1.2.1
  simp only [List.nodup_cons, List.mem_cons, not_or] at hnd2
  obtain ⟨⟨hmn, hmb⟩, hnb, hbb⟩ := hnd2
  have hma : node ∉ a := fun hin => hnd1.2.2 hin (List.mem_cons_self _ _)
  have hna : nx ∉ a := fun hin =>
    hnd1.2.2 hin (List.mem_cons_of_mem _ (List.mem_cons_self _ _))
  have hNa : F.pts.length ∉ a := fun hin => hnew (List.mem_append_left _ hin)
  have hNm : F.pts.length ≠ node := fun e =>
    hnew (e ▸ List.mem_append_right _ (List.mem_cons_self _ _))
  have hNn : F.pts.length ≠ nx := fun e =>
    hnew (e ▸ List.mem_append_right _ (List.mem_cons_of_mem _ (List.mem_cons_self _ _)))
  have hNb : F.pts.length ∉ b := fun hin =>
    hnew (List.mem_append_right _ (List.mem_cons_of_mem _ (List.mem_cons_of_mem _ hin)))
  have hlta : ∀ n ∈ a, n < F.pts.length := fun n hn => hlt n (List.mem_append_left _ hn)
  have hltb : ∀ n ∈ b, n < F.pts.length := fun n hn =>
    hlt n (List.mem_append_right _ (List.mem_cons_of_mem _ (List.mem_cons_of_mem _ hn)))
  have hltm : node < F.pts.length := hlt _ hm
  have hltn : nx < F.pts.length :=
    hlt _ (List.mem_append_right _ (List.mem_cons_of_mem _ (List.mem_cons_self _ _)))
  refine ⟨?_, ?_, ?_, ?_, ?_⟩
  · refine List.nodup_append.2 ⟨hnd1.1, ?_, ?_⟩
    · simp only [List.nodup_cons, List.mem_cons, not_or]
      exact ⟨⟨fun e => hNm e.symm, hmn, hmb⟩, ⟨hNn, hNb⟩, hnb, hbb⟩
    · intro x hx hx2
      rcases List.mem_cons.1 hx2 with rfl | hx2
      · exact hma hx
      · rcases List.mem_cons.1 hx2 with rfl | hx2
        · exact hNa hx
        · exact hnd1.2.2 hx (List.mem_cons_of_mem _ hx2)
  · show F.head_ = _
    rw [h.head, head?_eq_headOr, head?_eq_headOr, headOr_append, headOr_append]
    rfl
  · show F.tail_ = _
    rw [h.tail, getLast?_eq_lastOr, getLast?_eq_lastOr, lastOr_append, lastOr_append]
    rfl
  · show nextSeg (((F.next ++ [none]).set F.pts.length (some nx)).set node (some F.pts.length))
      (a ++ node :: F.pts.length :: nx :: b) none
    rw [nextSeg_append]
    refine ⟨nextSeg_congr (fun n hn => ?_) hne.1, ?_, ?_, ?_⟩
    · exact grow_get_other (fun e => hNa (e ▸ hn)) (fun e => hma (e ▸ hn))
        (by rw [hl1]; exact hlta n hn)
    · exact set_get_self (grow_lt (by rw [hl1]; exact Nat.le_of_lt hltm)) _
    · rw [set_get_ne (fun e => hNm e.symm)]
      exact set_get_self (by rw [List.length_append, hl1]; exact Nat.lt_succ_self _) _
    · refine nextSeg_congr (fun n hn => ?_) hne.2.2
      refine grow_get_other ?_ ?_ ?_
      · rintro rfl
        rcases List.mem_cons.1 hn with e | hn
        · exact hNn e
        · exact hNb hn
      · rintro rfl
        rcases List.mem_cons.1 hn with e | hn
        · exact hmn e
        · exact hmb hn
      · rw [hl1]
        rcases List.mem_cons.1 hn with rfl | hn
        · exact hltn
        · exact hltb n hn
  · show prevSeg (((F.prev ++ [none]).set F.pts.length (some node)).set nx (some F.pts.length))
      none (a ++ node :: F.pts.length :: nx :: b)
    rw [prevSeg_append]
    refine ⟨prevSeg_congr (fun n hn => ?_) hpr.1, ?_, ?_, ?_, ?_⟩
    · exact grow_get_other (fun e => hNa (e ▸ hn)) (fun e => hna (e ▸ hn))
        (by rw [hl2]; exact hlta n hn)
    · rw [grow_get_other hNm (fun e => hmn e.symm) (by rw [hl2]; exact hltm)]
      exact hpr.2.1
    · rw [set_get_ne (fun e => hNn e.symm)]
      exact set_get_self (by rw [List.length_append, hl2]; exact Nat.lt_succ_self _) _
    · exact set_get_self (grow_lt (by rw [hl2]; exact Nat.le_of_lt hltn)) _
    · refine prevSeg_congr (fun n hn => ?_) hpr.2.2.2
      exact grow_get_other (fun e => hNb (e ▸ hn)) (fun e => hnb (e ▸ hn))
        (by rw [hl2]; exact hltb n hn)


/-! ### Order along the front -/

theorem xLt_iff {P : List (Option Point)} {a b : NodeId} :
    xLt P a b = true ↔
      ∃ pa pb, P[a]? = some (some pa) ∧ P[b]? = some (some pb) ∧ pa.x < pb.x := by
  unfold xLt
  constructor
  · intro h
    split at h
    · next pa pb ha hb => exact ⟨pa, pb, ha, hb, by simpa using h⟩
    · cases h
  · rintro ⟨pa, pb, ha, hb, hlt⟩
    rw [ha, hb]
    simpa using hlt

theorem xLt_irrefl {P : List (Option Point)} {a : NodeId} : ¬ xLt P a a = true := by
  rw [xLt_iff]
  rintro ⟨pa, pb, ha, hb, hlt⟩
  rw [ha] at hb
  cases hb
  exact lt_irrefl _ hlt

theorem xLt_trans {P : List (Option Point)} {a b c : NodeId}
    (h1 : xLt P a b = true) (h2 : xLt P b c = true) : xLt P a c = true := by
  rw [xLt_iff] at h1 h2 ⊢
  obtain ⟨pa, pb, ha, hb, hlt⟩ := h1
  obtain ⟨pb1, pc, hb1, hc, hlt1⟩ := h2
  rw [hb] at hb1
  cases hb1
  exact ⟨pa, pc, ha, hc, lt_trans hlt hlt1⟩

theorem xLt_asymm {P : List (Option Point)} {a b : NodeId}
    (h1 : xLt P a b = true) (h2 : xLt P b a = true) : False :=
  xLt_irrefl (xLt_trans h1 h2)

theorem xLt_grow {P : List (Option Point)} {a b : NodeId} (x : Option Point)
    (h : xLt P a b = true) : xLt (P ++ [x]) a b = true := by
  rw [xLt_iff] at h ⊢
  obtain ⟨pa, pb, ha, hb, hlt⟩ := h
  refine ⟨pa, pb, ?_, ?_, hlt⟩
  · rw [List.getElem?_append_left (heap_lt_of_get ha)]
    exact ha
  · rw [List.getElem?_append_left (heap_lt_of_get hb)]
    exact hb

/-- In a sorted chain, a node is left of the node its `next` points at. -/
theorem Sorted.next_lt {F : Front} {L : List NodeId} (hL : Linked F L) (hS : Sorted F L)
    {n k : NodeId} (hn : n ∈ L) (hk : F.next[n]? = some (some k)) :
    k ∈ L ∧ xLt F.pts n k = true := by
  obtain ⟨a, b, rfl⟩ := hL.next_mem hn hk
  refine ⟨by simp, ?_⟩
  have := (List.pairwise_append.1 hS).2.1
  exact (List.pairwise_cons.1 this).1 k (List.mem_cons_self _ _)

/-- In a sorted chain, the node a `prev` points at is left of the node. -/
theorem Sorted.prev_lt {F : Front} {L : List NodeId} (hL : Linked F L) (hS : Sorted F L)
    {n k : NodeId} (hn : n ∈ L) (hk : F.prev[n]? = some (some k)) :
    k ∈ L ∧ xLt F.pts k n = true := by
  obtain ⟨a, b, rfl⟩ := hL.prev_mem hn hk
  refine ⟨by simp, ?_⟩
  have := (List.pairwise_append.1 hS).2.1
  exact (List.pairwise_cons.1 this).1 n (List.mem_cons_self _ _)

/-- In a sorted chain, a member left of a node is its predecessor or left of
its predecessor. -/
theorem Sorted.left_of_prev {F : Front} {L : List NodeId} (hL : Linked F L) (hS : Sorted F L)
    {n k l : NodeId} (hn : n ∈ L) (hk : F.prev[n]? = some (some k)) (hl : l ∈ L)
    (hlt : xLt F.pts l n = true) : l = k ∨ xLt F.pts l k = true := by
  obtain ⟨a, b, rfl⟩ := hL.prev_mem hn hk
  have hp := List.pairwise_append.1 hS
  rcases List.mem_append.1 hl with hla | hl2
  · exact Or.inr (hp.2.2 l hla k (List.mem_cons_self _ _))
  · rcases List.mem_cons.1 hl2 with rfl | hl3
    · exact Or.inl rfl
    · exfalso
      rcases List.mem_cons.1 hl3 with rfl | hl4
      · exact xLt_irrefl hlt
      · have h1 := (List.pairwise_cons.1 (List.pairwise_cons.1 hp.2.1).2).1 l hl4
        exact xLt_asymm hlt h1


/-! ### Rules for `FT` -/

theorem map_set_same {α β : Type} {l : List α} {n : Nat} {v w : α} (g : α → β)
    (h : l[n]? = some v) (hg : g w = g v) : (l.set n w).map g = l.map g := by
  apply List.ext_getElem?
  intro i
  rw [List.getElem?_map, List.getElem?_map, heap_set_get h]
  by_cases hi : n = i
  · subst hi
    simp [h, hg]
  · simp [hi]

theorem FT_bind {α β : Type} {m : M α} {f : α → M β} {F : Front} {R : α → Front → Prop}
    {Q : β → Front → Prop} (h1 : FT m F R) (h2 : ∀ a F1, R a F1 → FT (f a) F1 Q) :
    FT (m >>= f) F Q := by
  intro s b s2 hs h
  rw [run_bind] at h
  cases hm : m s with
  | ok a s1 =>
    rw [hm] at h
    exact h2 a (front s1) (h1 s a s1 hs hm) s1 b s2 rfl h
  | throw e s1 =>
    rw [hm] at h
    cases h

theorem FT_conseq {α : Type} {m : M α} {F : Front} {R Q : α → Front → Prop}
    (h1 : FT m F R) (h2 : ∀ a F1, R a F1 → Q a F1) : FT m F Q :=
  fun s a s1 hs h => h2 a _ (h1 s a s1 hs h)

theorem FT_pure {α : Type} {a : α} {F : Front} {Q : α → Front → Prop} (h : Q a F) :
    FT (pure a : M α) F Q := by
  intro s b s1 hs hr
  cases hr
  rw [hs]
  exact h

theorem FT_raise {α : Type} {e : Err} {F : Front} {Q : α → Front → Prop} :
    FT (raise e : M α) F Q := by
  intro s b s1 _ hr
  cases hr

/-- The last statement of a block, put in the form of a sequence. -/
theorem FT_last {α : Type} {m : M α} {F : Front} {Q : α → Front → Prop}
    (h : FT (m >>= fun a => pure a) F Q) : FT m F Q := by
  intro s a s1 hs hr
  refine h s a s1 hs ?_
  rw [run_bind, hr]
  rfl

theorem FT_getNode {α : Type} {n : NodeId} {f : Node → M α} {F : Front}
    {Q : α → Front → Prop}
    (h : ∀ nd : Node, F.pts[n]? = some nd.point → F.next[n]? = some nd.next →
      F.prev[n]? = some nd.prev → FT (f nd) F Q) :
    FT (getNode n >>= f) F Q := by
  refine FT_bind (R := fun nd F1 => F1 = F ∧ F.pts[n]? = some nd.point ∧
    F.next[n]? = some nd.next ∧ F.prev[n]? = some nd.prev) ?_ ?_
  · intro s nd s1 hs hr
    unfold getNode at hr
    cases hn : s.nodes[n]? with
    | none => simp [hn] at hr
    | some v =>
      simp [hn] at hr
      obtain ⟨rfl, rfl⟩ := hr
      subst hs
      simp [front, hn]
  · rintro nd F1 ⟨rfl, h1, h2, h3⟩
    exact h nd h1 h2 h3

theorem FT_deref {α β : Type} {o : Option β} {f : β → M α} {F : Front}
    {Q : α → Front → Prop} (h : ∀ a, o = some a → FT (f a) F Q) :
    FT (deref o >>= f) F Q := by
  refine FT_bind (R := fun a F1 => F1 = F ∧ o = some a) ?_ ?_
  · intro s a s1 hs hr
    cases o with
    | none => cases hr
    | some v =>
      cases hr
      exact ⟨hs, rfl⟩
  · rintro a F1 ⟨rfl, h1⟩
    exact h a h1

theorem FT_nodePoint {α : Type} {n : NodeId} {f : Point → M α} {F : Front}
    {Q : α → Front → Prop} (h : ∀ p : Point, F.pts[n]? = some (some p) → FT (f p) F Q) :
    FT (nodePoint n >>= f) F Q := by
  refine FT_bind (R := fun p F1 => F1 = F ∧ F.pts[n]? = some (some p)) ?_ ?_
  · unfold nodePoint
    refine FT_getNode (fun nd h1 _ _ => ?_)
    refine FT_last (FT_deref (fun p hp => FT_pure ⟨rfl, ?_⟩))
    rw [h1, hp]
  · rintro a F1 ⟨rfl, h1⟩
    exact h a h1

theorem FT_getCtx {α : Type} {f : SweepContext → M α} {F : Front}
    {Q : α → Front → Prop} (h : ∀ s, front s = F → FT (f s) F Q) :
    FT (getCtx >>= f) F Q := by
  refine FT_bind (R := fun s F1 => F1 = F ∧ front s = F) ?_ ?_
  · intro s a s1 hs hr
    cases hr
    exact ⟨hs, hs⟩
  · rintro a F1 ⟨rfl, h1⟩
    exact h a h1

/-- A call that leaves the front as it is. -/
theorem FT_frame {α β : Type} {m : M β} {f : β → M α} {F : Front} {Q : α → Front → Prop}
    (hm : Inv (fun s => front s = F) m) (h : ∀ a, FT (f a) F Q) :
    FT (m >>= f) F Q := by
  refine FT_bind (R := fun _ F1 => F1 = F) ?_ ?_
  · intro s a s1 hs hr
    have := hm s hs
    rw [hr] at this
    exact this
  · rintro a F1 rfl
    exact h a

theorem FT_modifyNext {α : Type} {n : NodeId} {v : Option NodeId} {f : Unit → M α} {F : Front}
    {Q : α → Front → Prop}
    (h : n < F.next.length → FT (f ()) { F with next := F.next.set n v } Q) :
    FT (modifyNode n (fun x => { x with next := v }) >>= f) F Q := by
  refine FT_bind (R := fun _ F1 => n < F.next.length ∧ F1 = { F with next := F.next.set n v })
    ?_ ?_
  · intro s a s1 hs hr
    unfold modifyNode at hr
    cases hn : s.nodes[n]? with
    | none => simp [hn] at hr
    | some nd =>
      simp [hn] at hr
      subst hr
      subst hs
      have hlt := heap_lt_of_get hn
      refine ⟨by simpa [front] using hlt, ?_⟩
      simp only [front]
      have e1 := map_set_same (w := { nd with next := v }) (fun n : Node => n.point) hn rfl
      have e2 := map_set_same (w := { nd with next := v }) (fun n : Node => n.prev) hn rfl
      rw [e1, e2, List.map_set]
  · rintro a F1 ⟨h1, rfl⟩
    exact h h1


theorem FT_modifyPrev {α : Type} {n : NodeId} {v : Option NodeId} {f : Unit → M α} {F : Front}
    {Q : α → Front → Prop}
    (h : n < F.prev.length → FT (f ()) { F with prev := F.prev.set n v } Q) :
    FT (modifyNode n (fun x => { x with prev := v }) >>= f) F Q := by
  refine FT_bind (R := fun _ F1 => n < F.prev.length ∧ F1 = { F with prev := F.prev.set n v })
    ?_ ?_
  · intro s a s1 hs hr
    unfold modifyNode at hr
    cases hn : s.nodes[n]? with
    | none => simp [hn] at hr
    | some nd =>
      simp [hn] at hr
      subst hr
      subst hs
      have hlt := heap_lt_of_get hn
      refine ⟨by simpa [front] using hlt, ?_⟩
      simp only [front]
      have e1 := map_set_same (w := { nd with prev := v }) (fun n : Node => n.point) hn rfl
      have e2 := map_set_same (w := { nd with prev := v }) (fun n : Node => n.next) hn rfl
      rw [e1, e2, List.map_set]
  · rintro a F1 ⟨h1, rfl⟩
    exact h h1

theorem FT_newNode {α : Type} {point : Point} {f : NodeId → M α} {F : Front}
    {Q : α → Front → Prop}
    (h : F.next.length = F.pts.length → F.prev.length = F.pts.length →
      FT (f F.pts.length) { F with pts := F.pts ++ [some point], next := F.next ++ [none],
                                    prev := F.prev ++ [none] } Q) :
    FT (newNode point >>= f) F Q := by
  refine FT_bind (R := fun a F1 => a = F.pts.length ∧ F.next.length = F.pts.length ∧
    F.prev.length = F.pts.length ∧
    F1 = { F with pts := F.pts ++ [some point], next := F.next ++ [none],
                  prev := F.prev ++ [none] }) ?_ ?_
  · intro s a s1 hs hr
    cases hr
    subst hs
    simp [front]
  · rintro a F1 ⟨rfl, h1, h2, rfl⟩
    exact h h1 h2

theorem FT_modifyCtx {α : Type} {g : SweepContext → SweepContext} {f : Unit → M α} {F : Front}
    {Q : α → Front → Prop} (G : Front) (hg : ∀ s, front s = F → front (g s) = G)
    (h : FT (f ()) G Q) :
    FT (modifyCtx g >>= f) F Q := by
  refine FT_bind (R := fun _ F1 => F1 = G) ?_ ?_
  · intro s a s1 hs hr
    cases hr
    exact hg s hs
  · rintro a F1 rfl
    exact h

theorem front_frame (F : Front) :
    IgnoresTris (fun s => front s = F) ∧ IgnoresMap (fun s => front s = F) ∧
    IgnoresNodeTriangles (fun s => front s = F) := by
  refine ⟨fun _ _ h => h, fun _ _ h => h, fun s v hv h => ?_⟩
  rw [← h]
  have h1 : v.map (fun n => n.point) = s.nodes.map (fun n => n.point) := by
    have := congrArg (List.map (fun k : Option Point × Option NodeId × Option NodeId => k.1)) hv
    simpa [List.map_map, Function.comp_def, Node.skel] using this
  have h2 : v.map (fun n => n.next) = s.nodes.map (fun n => n.next) := by
    have := congrArg (List.map (fun k : Option Point × Option NodeId × Option NodeId => k.2.1)) hv
    simpa [List.map_map, Function.comp_def, Node.skel] using this
  have h3 : v.map (fun n => n.prev) = s.nodes.map (fun n => n.prev) := by
    have := congrArg (List.map (fun k : Option Point × Option NodeId × Option NodeId => k.2.2)) hv
    simpa [List.map_map, Function.comp_def, Node.skel] using this
  simp only [front, h1, h2, h3]


theorem FT_of_Inv {α : Type} {m : M α} {F : Front} {Q : α → Front → Prop}
    (hm : Inv (fun s => front s = F) m) (h : ∀ a, Q a F) : FT m F Q := by
  intro s a s1 hs hr
  have := hm s hs
  rw [hr] at this
  change front s1 = F at this
  rw [this]
  exact h a

theorem FT_Fill (fuel : Nat) (m : NodeId) (F : Front) :
    FT (Fill fuel m) F (fun _ F1 => ∃ pv nx, F.prev[m]? = some (some pv) ∧
      F.next[m]? = some (some nx) ∧ pv < F.next.length ∧ nx < F.prev.length ∧
      F1 = { F with next := F.next.set pv (some nx), prev := F.prev.set nx (some pv) }) := by
  unfold Fill
  refine FT_getNode (fun nd hpt hnx hpv => ?_)
  refine FT_deref (fun pv hpv1 => ?_)
  refine FT_nodePoint (fun a _ => ?_)
  refine FT_deref (fun b _ => ?_)
  refine FT_deref (fun nx hnx1 => ?_)
  refine FT_nodePoint (fun c _ => ?_)
  refine FT_frame (Inv_newTriangle (front_frame F).1 _ _ _) (fun triangle => ?_)
  refine FT_getNode (fun nd0 _ _ hpv0 => ?_)
  refine FT_deref (fun pv0 _ => ?_)
  refine FT_getNode (fun ndp _ _ _ => ?_)
  refine FT_deref (fun tp _ => ?_)
  refine FT_frame (Inv_MarkNeighbor (front_frame F).1 _ _) (fun _ => ?_)
  refine FT_getNode (fun nd3 _ _ _ => ?_)
  refine FT_deref (fun t3 _ => ?_)
  refine FT_frame (Inv_MarkNeighbor (front_frame F).1 _ _) (fun _ => ?_)
  refine FT_frame (Inv_AddToMap (front_frame F).2.1 _) (fun _ => ?_)
  refine FT_getNode (fun nd1 _ hnx2 hpv2 => ?_)
  refine FT_deref (fun pv2 hpv3 => ?_)
  refine FT_modifyNext (fun hlt => ?_)
  refine FT_getNode (fun nd2 _ hnx4 hpv4 => ?_)
  refine FT_deref (fun nx2 hnx5 => ?_)
  refine FT_modifyPrev (fun hlt2 => ?_)
  refine FT_frame (Inv_Legalize (front_frame _).1 (front_frame _).2.2 _ _) (fun b => ?_)
  have hfin : ∃ pv nx, F.prev[m]? = some (some pv) ∧
      F.next[m]? = some (some nx) ∧ pv < F.next.length ∧ nx < F.prev.length ∧
      ({ F with next := F.next.set pv2 nd1.next, prev := F.prev.set nx2 nd2.prev } : Front)
        = { F with next := F.next.set pv (some nx), prev := F.prev.set nx (some pv) } := by
    have e1 : nd1.prev = some pv := by
      rw [hpv] at hpv2
      rw [← Option.some.inj hpv2, hpv1]
    have e2 : nd1.next = some nx := by
      rw [hnx] at hnx2
      rw [← Option.some.inj hnx2, hnx1]
    have e3 : pv2 = pv := by
      rw [e1] at hpv3
      exact (Option.some.inj hpv3).symm
    subst e3
    have e4 : nd2.prev = some pv2 := by
      change F.prev[m]? = some nd2.prev at hpv4
      rw [hpv2, e1] at hpv4
      exact (Option.some.inj hpv4).symm
    have e5 : nd2.next = some nx := by
      change (F.next.set pv2 nd1.next)[m]? = some nd2.next at hnx4
      obtain ⟨w, hw⟩ := heap_get_of_lt hlt
      rw [heap_set_get hw] at hnx4
      split_ifs at hnx4 with h1
      · rw [← Option.some.inj hnx4, e2]
      · rw [hnx2] at hnx4
        rw [← Option.some.inj hnx4, e2]
    have e6 : nx2 = nx := by
      rw [e5] at hnx5
      exact (Option.some.inj hnx5).symm
    subst e6
    refine ⟨pv2, nx2, by rw [hpv, hpv1], by rw [hnx, hnx1], hlt, hlt2, ?_⟩
    rw [e2, e4]
  split
  · exact FT_of_Inv (Inv_MapTriangleToNodes (front_frame _).2.2 _) (fun _ => hfin)
  · exact FT_pure hfin


theorem FT_NewFrontTriangle (fuel : Nat) (point : Point) (node : NodeId) (F : Front) :
    FT (NewFrontTriangle fuel point node) F (fun new F1 => ∃ nx,
      F.next[node]? = some (some nx) ∧ new = F.pts.length ∧
      F.next.length = F.pts.length ∧ F.prev.length = F.pts.length ∧
      node < F.pts.length ∧ nx < F.pts.length ∧
      F1 = { F with pts := F.pts ++ [some point],
                    next := ((F.next ++ [none]).set new (some nx)).set node (some new),
                    prev := ((F.prev ++ [none]).set new (some node)).set nx (some new) }) := by
  unfold NewFrontTriangle
  refine FT_getNode (fun nd hpt hnx hpv => ?_)
  refine FT_deref (fun p1 _ => ?_)
  refine FT_deref (fun nx hnx1 => ?_)
  refine FT_nodePoint (fun p2 hp2 => ?_)
  refine FT_frame (Inv_newTriangle (front_frame F).1 _ _ _) (fun triangle => ?_)
  refine FT_deref (fun t0 _ => ?_)
  refine FT_frame (Inv_MarkNeighbor (front_frame F).1 _ _) (fun _ => ?_)
  refine FT_frame (Inv_AddToMap (front_frame F).2.1 _) (fun _ => ?_)
  refine FT_newNode (fun hl1 hl2 => ?_)
  refine FT_modifyCtx _ (fun s hs => hs) ?_
  refine FT_getNode (fun nda _ hnxa _ => ?_)
  dsimp only
  refine FT_modifyNext (fun _ => ?_)
  refine FT_modifyPrev (fun _ => ?_)
  refine FT_getNode (fun ndb _ hnxb _ => ?_)
  refine FT_deref (fun nxb hnxb1 => ?_)
  refine FT_modifyPrev (fun _ => ?_)
  refine FT_modifyNext (fun _ => ?_)
  refine FT_frame (Inv_Legalize (front_frame _).1 (front_frame _).2.2 _ _) (fun b => ?_)
  have hnode : node < F.pts.length := by
    rw [← hl1]
    exact heap_lt_of_get hnx
  have hnxlt : nx < F.pts.length := heap_lt_of_get hp2
  have hne : ¬ F.pts.length = node := Nat.ne_of_gt hnode
  have e1 : nda.next = some nx := by
    change (F.next ++ [none])[node]? = some nda.next at hnxa
    rw [List.getElem?_append_left (heap_lt_of_get hnx), hnx] at hnxa
    rw [← Option.some.inj hnxa, hnx1]
  have e2 : nxb = nx := by
    change ((F.next ++ [none]).set F.pts.length nda.next)[node]? = some ndb.next at hnxb
    rw [List.getElem?_set_ne hne, List.getElem?_append_left (heap_lt_of_get hnx), hnx] at hnxb
    rw [← Option.some.inj hnxb, hnx1] at hnxb1
    exact (Option.some.inj hnxb1).symm
  subst e2
  have hfin : ∃ nx, F.next[node]? = some (some nx) ∧ F.pts.length = F.pts.length ∧
      F.next.length = F.pts.length ∧ F.prev.length = F.pts.length ∧
      node < F.pts.length ∧ nx < F.pts.length ∧
      ({ pts := F.pts ++ [some point],
         next := ((F.next ++ [none]).set F.pts.length nda.next).set node (some F.pts.length),
         prev := ((F.prev ++ [none]).set F.pts.length (some node)).set nxb (some F.pts.length),
         head_ := F.head_, tail_ := F.tail_, basin := F.basin } : Front)
      = { F with pts := F.pts ++ [some point],
                 next := ((F.next ++ [none]).set F.pts.length (some nx)).set node
                   (some F.pts.length),
                 prev := ((F.prev ++ [none]).set F.pts.length (some node)).set nx
                   (some F.pts.length) } :=
    ⟨nxb, by rw [hnx, hnx1], rfl, hl1, hl2, hnode, hnxlt, by rw [e1]⟩
  dsimp only
  split
  · exact FT_frame (Inv_MapTriangleToNodes (front_frame _).2.2 _) (fun _ => FT_pure hfin)
  · exact FT_bind (FT_pure (Q := fun _ F1 => F1 = _) rfl) (fun _ F1 h => by
      subst h
      exact FT_pure hfin)


/-! ### C7: the advancing front stays a sorted chain -/

theorem sublist_drop_mid {α : Type} (a b : List α) (x m : α) :
    (a ++ x :: b).Sublist (a ++ x :: m :: b) :=
  List.Sublist.append_left (List.Sublist.cons₂ _ (List.sublist_cons_self _ _)) _

/-- `Fill` on a node of the chain: the node has a predecessor and a successor
in the chain, and on return the chain is the old one without the node; points,
sentinels and basin are as before and the node keeps its own two pointers. -/
theorem FT_Fill_chain {F : Front} {L : List NodeId} (hL : Linked F L) (fuel : Nat)
    {m : NodeId} (hm : m ∈ L) :
    FT (Fill fuel m) F (fun _ F1 => ∃ a pv nx b, L = a ++ pv :: m :: nx :: b ∧
      Linked F1 (a ++ pv :: nx :: b) ∧ F1.pts = F.pts ∧ F1.basin = F.basin ∧
      F1.head_ = F.head_ ∧ F1.tail_ = F.tail_ ∧
      F1.next[m]? = some (some nx) ∧ F1.prev[m]? = some (some pv)) := by
  refine FT_conseq (FT_Fill fuel m F) ?_
  rintro _ F1 ⟨pv, nx, hpv, hnx, _, _, rfl⟩
  obtain ⟨a, b, hLe, hL1⟩ := hL.unlink hm hpv hnx
  refine ⟨a, pv, nx, b, hLe, hL1, rfl, rfl, rfl, rfl, ?_, ?_⟩
  · have hnd := hL.nodup
    rw [hLe] at hnd
    have h2 : (pv :: m :: nx :: b).Nodup := (List.nodup_append.1 hnd).2.1
    simp only [List.nodup_cons, List.mem_cons, not_or] at h2
    show (F.next.set pv (some nx))[m]? = _
    rw [set_get_ne h2.1.1]
    exact hnx
  · have hnd := hL.nodup
    rw [hLe] at hnd
    have h2 : (pv :: m :: nx :: b).Nodup := (List.nodup_append.1 hnd).2.1
    simp only [List.nodup_cons, List.mem_cons, not_or] at h2
    show (F.prev.set nx (some pv))[m]? = _
    rw [set_get_ne (fun e => h2.2.1.1 e.symm)]
    exact hpv

theorem FT_pure_bind {α β : Type} {a : β} {f : β → M α} {F : Front} {Q : α → Front → Prop}
    (h : FT (f a) F Q) : FT (pure a >>= f) F Q :=
  FT_bind (FT_pure (Q := fun b F1 => b = a ∧ F1 = F) ⟨rfl, rfl⟩) (fun b F1 hb => by
    obtain ⟨rfl, rfl⟩ := hb
    exact h)

theorem mem_drop_mid {α : Type} {a b : List α} {x pv m nx : α}
    (h : x ∈ a ++ pv :: m :: nx :: b) (hne : x ≠ m) : x ∈ a ++ pv :: nx :: b := by
  simp only [List.mem_append, List.mem_cons] at h ⊢
  tauto

theorem Sorted.drop_mid {F F1 : Front} {a b : List NodeId} {pv m nx : NodeId}
    (hS : Sorted F (a ++ pv :: m :: nx :: b)) (hp : F1.pts = F.pts) :
    Sorted F1 (a ++ pv :: nx :: b) := by
  unfold Sorted at hS ⊢
  rw [hp]
  exact hS.sublist (sublist_drop_mid a (nx :: b) pv m)

theorem Keeps.rebase {new : NodeId} {F F1 F2 : Front} (hp : F1.pts = F.pts)
    (hh : F1.head_ = F.head_) (ht : F1.tail_ = F.tail_) (h : Keeps new F1 F2) :
    Keeps new F F2 := by
  obtain ⟨L, h1, h2, h3, h4, h5, h6⟩ := h
  exact ⟨L, h1, h2, h3, h4.trans hp, h5.trans hh, h6.trans ht⟩

theorem FT_FillRightHoles {env : Env} (new : NodeId) :
    ∀ (fuel : Nat) (m : Option NodeId) (F : Front) (L : List NodeId),
      Linked F L → Sorted F L → new ∈ L →
      (∀ k, m = some k → k ∈ L ∧ xLt F.pts new k = true) →
      FT (FillRightHoles env fuel m) F (fun _ F1 => Keeps new F F1 ∧ F1.basin = F.basin) := by
  intro fuel
  induction fuel with
  | zero => intro m F L _ _ _ _; exact FT_raise
  | succ fuel ih =>
    intro m F L hL hS hnew hm
    unfold FillRightHoles
    cases m with
    | none => exact FT_pure ⟨⟨L, hL, hS, hnew, rfl, rfl, rfl⟩, rfl⟩
    | some k =>
      obtain ⟨hk, hlt⟩ := hm k rfl
      dsimp only
      refine FT_getNode (fun nd _ _ _ => ?_)
      have base : Keeps new F F ∧ F.basin = F.basin := ⟨⟨L, hL, hS, hnew, rfl, rfl, rfl⟩, rfl⟩
      split
      · exact FT_pure base
      · refine FT_pure_bind ?_
        refine FT_frame (Inv_LargeHole_DontFill k) (fun b => ?_)
        split
        · exact FT_pure base
        · refine FT_pure_bind ?_
          refine FT_bind (FT_Fill_chain hL fuel hk) (fun _ F1 h => ?_)
          obtain ⟨a, pv, nx, b, rfl, hL1, hp, hb, hh, ht, hnx, hpv⟩ := h
          refine FT_getNode (fun nd1 _ hnx1 _ => ?_)
          rw [hnx] at hnx1
          rw [← Option.some.inj hnx1]
          have hkn : xLt F.pts k nx = true := by
            have := (List.pairwise_append.1 hS).2.1
            exact (List.pairwise_cons.1 (List.pairwise_cons.1 this).2).1 nx
              (List.mem_cons_self _ _)
          refine FT_conseq (ih (some nx) F1 _ hL1 (hS.drop_mid hp)
            (mem_drop_mid hnew (fun e => xLt_irrefl (e ▸ hlt))) ?_) ?_
          · intro k1 hk1
            cases hk1
            refine ⟨by simp, ?_⟩
            rw [hp]
            exact xLt_trans hlt hkn
          · rintro _ F2 ⟨hK, hb2⟩
            exact ⟨hK.rebase hp hh ht, hb2.trans hb⟩


theorem FT_FillLeftHoles {env : Env} (new : NodeId) :
    ∀ (fuel : Nat) (m : Option NodeId) (F : Front) (L : List NodeId),
      Linked F L → Sorted F L → new ∈ L →
      (∀ k, m = some k → k ∈ L ∧ xLt F.pts k new = true) →
      FT (FillLeftHoles env fuel m) F (fun _ F1 => Keeps new F F1 ∧ F1.basin = F.basin) := by
  intro fuel
  induction fuel with
  | zero => intro m F L _ _ _ _; exact FT_raise
  | succ fuel ih =>
    intro m F L hL hS hnew hm
    unfold FillLeftHoles
    cases m with
    | none => exact FT_pure ⟨⟨L, hL, hS, hnew, rfl, rfl, rfl⟩, rfl⟩
    | some k =>
      obtain ⟨hk, hlt⟩ := hm k rfl
      dsimp only
      refine FT_getNode (fun nd _ _ _ => ?_)
      have base : Keeps new F F ∧ F.basin = F.basin := ⟨⟨L, hL, hS, hnew, rfl, rfl, rfl⟩, rfl⟩
      split
      · exact FT_pure base
      · refine FT_pure_bind ?_
        refine FT_frame (Inv_LargeHole_DontFill k) (fun b => ?_)
        split
        · exact FT_pure base
        · refine FT_pure_bind ?_
          refine FT_bind (FT_Fill_chain hL fuel hk) (fun _ F1 h => ?_)
          obtain ⟨a, pv, nx, b, rfl, hL1, hp, hb, hh, ht, hnx, hpv⟩ := h
          refine FT_getNode (fun nd1 _ _ hpv1 => ?_)
          rw [hpv] at hpv1
          rw [← Option.some.inj hpv1]
          have hkn : xLt F.pts pv k = true := by
            have := (List.pairwise_append.1 hS).2.1
            exact (List.pairwise_cons.1 this).1 k (List.mem_cons_self _ _)
          refine FT_conseq (ih (some pv) F1 _ hL1 (hS.drop_mid hp)
            (mem_drop_mid hnew (fun e => xLt_irrefl (e ▸ hlt))) ?_) ?_
          · intro k1 hk1
            cases hk1
            refine ⟨by simp, ?_⟩
            rw [hp]
            exact xLt_trans hkn hlt
          · rintro _ F2 ⟨hK, hb2⟩
            exact ⟨hK.rebase hp hh ht, hb2.trans hb⟩

theorem SameChain.same (F : Front) : SameChain F F := ⟨rfl, rfl, rfl, rfl, rfl⟩

theorem SameChain.andThen {F F1 F2 : Front} (h1 : SameChain F F1) (h2 : SameChain F1 F2) :
    SameChain F F2 :=
  ⟨h2.1.trans h1.1, h2.2.1.trans h1.2.1, h2.2.2.1.trans h1.2.2.1,
    h2.2.2.2.1.trans h1.2.2.2.1, h2.2.2.2.2.trans h1.2.2.2.2⟩

theorem SameChain.linked {F F1 : Front} (h : SameChain F F1) {L : List NodeId}
    (hL : Linked F L) : Linked F1 L :=
  ⟨hL.nodup, h.2.2.2.1.trans hL.head, h.2.2.2.2.trans hL.tail, by rw [h.2.1]; exact hL.nexts,
    by rw [h.2.2.1]; exact hL.prevs⟩

theorem SameChain.sorted {F F1 : Front} (h : SameChain F F1) {L : List NodeId}
    (hS : Sorted F L) : Sorted F1 L := by
  unfold Sorted at hS ⊢
  rw [h.1]
  exact hS

theorem FT_FillBasinBottom :
    ∀ (fuel : Nat) (F : Front) (L : List NodeId) (left bn : NodeId),
      Linked F L → Sorted F L → F.basin.bottom_node = some bn → bn ∈ L →
      (bn = left ∨ xLt F.pts left bn = true) →
      FT (FillBasinBottom fuel) F (fun _ F1 => SameChain F F1 ∧
        F1.basin.left_node = F.basin.left_node ∧ ∃ bn1, F1.basin.bottom_node = some bn1 ∧
          bn1 ∈ L ∧ (bn1 = left ∨ xLt F.pts left bn1 = true)) := by
  intro fuel
  induction fuel with
  | zero => intro F L left bn _ _ _ _ _; exact FT_raise
  | succ fuel ih =>
    intro F L left bn hL hS hb hbn hle
    unfold FillBasinBottom
    refine FT_getCtx (fun s hs => ?_)
    have hsb : s.basin = F.basin := by rw [← hs]; rfl
    rw [hsb, hb]
    refine FT_deref (fun b hbe => ?_)
    cases hbe
    refine FT_getNode (fun nd _ hnx _ => ?_)
    have base : SameChain F F ∧ F.basin.left_node = F.basin.left_node ∧
        ∃ bn1, F.basin.bottom_node = some bn1 ∧ bn1 ∈ L ∧
          (bn1 = left ∨ xLt F.pts left bn1 = true) :=
      ⟨SameChain.same F, rfl, bn, hb, hbn, hle⟩
    split
    · exact FT_pure base
    · next nx hnxe =>
      rw [hnxe] at hnx
      obtain ⟨hnxL, hlt⟩ := hS.next_lt hL hbn hnx
      refine FT_deref (fun p _ => ?_)
      refine FT_nodePoint (fun p1 _ => ?_)
      split
      · refine FT_modifyCtx { F with basin := { F.basin with bottom_node := some nx } }
          (fun s hs => by subst hs; rfl) ?_
        have hsc : SameChain F { F with basin := { F.basin with bottom_node := some nx } } :=
          ⟨rfl, rfl, rfl, rfl, rfl⟩
        refine FT_conseq (ih _ L left nx (hsc.linked hL) (hsc.sorted hS) rfl hnxL ?_) ?_
        · right
          rcases hle with rfl | hle
          · exact hlt
          · exact xLt_trans hle hlt
        · rintro _ F2 ⟨h1, h2, bn1, h3, h4, h5⟩
          exact ⟨hsc.andThen h1, h2, bn1, h3, h4, h5⟩
      · exact FT_pure base

theorem FT_FillBasinRight :
    ∀ (fuel : Nat) (F : Front),
      FT (FillBasinRight fuel) F (fun _ F1 => SameChain F F1 ∧
        F1.basin.left_node = F.basin.left_node ∧
        F1.basin.bottom_node = F.basin.bottom_node) := by
  intro fuel
  induction fuel with
  | zero => intro F; exact FT_raise
  | succ fuel ih =>
    intro F
    unfold FillBasinRight
    refine FT_getCtx (fun s hs => ?_)
    refine FT_deref (fun b _ => ?_)
    refine FT_getNode (fun nd _ _ _ => ?_)
    split
    · exact FT_pure ⟨SameChain.same F, rfl, rfl⟩
    · next nx _ =>
      refine FT_deref (fun p _ => ?_)
      refine FT_nodePoint (fun p1 _ => ?_)
      split
      · refine FT_modifyCtx { F with basin := { F.basin with right_node := some nx } }
          (fun s hs => by subst hs; rfl) ?_
        refine FT_conseq (ih _) ?_
        rintro _ F2 ⟨h1, h2, h3⟩
        exact ⟨SameChain.andThen ⟨rfl, rfl, rfl, rfl, rfl⟩ h1, h2, h3⟩
      · exact FT_pure ⟨SameChain.same F, rfl, rfl⟩


theorem FT_FillBasinReq (env : Env) (new : NodeId) :
    ∀ (fuel : Nat) (node : NodeId) (F : Front) (L : List NodeId) (left : NodeId),
      Linked F L → Sorted F L → new ∈ L → F.basin.left_node = some left → left ∈ L →
      xLt F.pts new left = true → node ∈ L → xLt F.pts left node = true →
      FT (FillBasinReq env fuel node) F (fun _ F1 => Keeps new F F1) := by
  intro fuel
  induction fuel with
  | zero => intro node F L left _ _ _ _ _ _ _ _; exact FT_raise
  | succ fuel ih =>
    intro node F L left hL hS hnew hleft hleftL hnl hnode hln
    unfold FillBasinReq
    refine FT_frame (Inv_IsShallow node) (fun b => ?_)
    split
    · exact FT_pure ⟨L, hL, hS, hnew, rfl, rfl, rfl⟩
    · refine FT_pure_bind ?_
      refine FT_bind (FT_Fill_chain hL fuel hnode) (fun _ F1 h => ?_)
      obtain ⟨a, pv, nx, b, rfl, hL1, hp, hb, hh, ht, hnx, hpv⟩ := h
      have hS1 := hS.drop_mid hp
      have hnn : xLt F.pts new node = true := xLt_trans hnl hln
      have hnew1 := mem_drop_mid hnew (fun e => xLt_irrefl (e ▸ hnn))
      have hleft1 := mem_drop_mid hleftL (fun e => xLt_irrefl (e ▸ hln))
      have hbl : F1.basin.left_node = some left := by rw [hb]; exact hleft
      have hkn : xLt F.pts node nx = true := by
        have := (List.pairwise_append.1 hS).2.1
        exact (List.pairwise_cons.1 (List.pairwise_cons.1 this).2).1 nx
          (List.mem_cons_self _ _)
      have base : Keeps new F F1 := ⟨_, hL1, hS1, hnew1, hp, hh, ht⟩
      have rnext : FT (FillBasinReq env fuel nx) F1 (fun _ F2 => Keeps new F F2) := by
        refine FT_conseq (ih nx F1 _ left hL1 hS1 hnew1 hbl hleft1 (by rw [hp]; exact hnl)
          (by simp) (by rw [hp]; exact xLt_trans hln hkn)) ?_
        intro _ F2 hK
        exact hK.rebase hp hh ht
      have rprev : some pv ≠ some left →
          FT (FillBasinReq env fuel pv) F1 (fun _ F2 => Keeps new F F2) := by
        intro hne
        have hpvF : F.prev[node]? = some (some pv) :=
          ((prevSeg_append _ _ _ _).1 hL.prevs).2.2.1
        have hlp : xLt F.pts left pv = true := by
          rcases hS.left_of_prev hL hnode hpvF hleftL hln with e | h
          · exact absurd (congrArg some e.symm) hne
          · exact h
        refine FT_conseq (ih pv F1 _ left hL1 hS1 hnew1 hbl hleft1 (by rw [hp]; exact hnl)
          (by simp) (by rw [hp]; exact hlp)) ?_
        intro _ F2 hK
        exact hK.rebase hp hh ht
      refine FT_getNode (fun nd _ hnx1 hpv1 => ?_)
      rw [hnx] at hnx1
      rw [hpv] at hpv1
      have enx : nd.next = some nx := (Option.some.inj hnx1).symm
      have epv : nd.prev = some pv := (Option.some.inj hpv1).symm
      refine FT_getCtx (fun s hs => ?_)
      have hsb : s.basin = F1.basin := by rw [← hs]; rfl
      rw [hsb, hbl, enx, epv]
      split
      · exact FT_pure base
      · split
        · refine FT_deref (fun p _ => ?_)
          refine FT_deref (fun n1 hn1 => ?_)
          cases hn1
          refine FT_nodePoint (fun p1 _ => ?_)
          refine FT_getNode (fun nd2 _ _ _ => ?_)
          refine FT_deref (fun n2 _ => ?_)
          refine FT_nodePoint (fun p2 _ => ?_)
          dsimp only
          split
          · exact FT_pure base
          · exact FT_pure_bind rnext
        · next hne =>
          split
          · refine FT_deref (fun p _ => ?_)
            refine FT_deref (fun n1 hn1 => ?_)
            cases hn1
            refine FT_nodePoint (fun p1 _ => ?_)
            refine FT_getNode (fun nd2 _ _ _ => ?_)
            refine FT_deref (fun n2 _ => ?_)
            refine FT_nodePoint (fun p2 _ => ?_)
            dsimp only
            split
            · exact FT_pure base
            · exact FT_pure_bind (rprev hne)
          · refine FT_deref (fun n1 hn1 => ?_)
            cases hn1
            refine FT_deref (fun n2 hn2 => ?_)
            cases hn2
            refine FT_nodePoint (fun p1 _ => ?_)
            refine FT_nodePoint (fun p2 _ => ?_)
            split
            · exact rprev hne
            · exact rnext


theorem FT_modifyBasin {α : Type} {g : SweepContext → SweepContext} {f : Unit → M α}
    {F : Front} {Q : α → Front → Prop} (h : Basin → Basin)
    (hg : ∀ s, g s = { s with basin := h s.basin })
    (k : FT (f ()) { F with basin := h F.basin } Q) : FT (modifyCtx g >>= f) F Q := by
  refine FT_modifyCtx _ (fun s hs => ?_) k
  rw [hg, ← hs]
  rfl

theorem FT_FillBasin (env : Env) (fuel : Nat) (new : NodeId) (F : Front) (L : List NodeId)
    (hL : Linked F L) (hS : Sorted F L) (hnew : new ∈ L) :
    FT (FillBasin env fuel new) F (fun _ F1 => Keeps new F F1) := by
  unfold FillBasin
  refine FT_getNode (fun nd _ hnx _ => ?_)
  refine FT_deref (fun p _ => ?_)
  refine FT_deref (fun n1 hn1 => ?_)
  rw [hn1] at hnx
  obtain ⟨hn1L, hlt1⟩ := hS.next_lt hL hnew hnx
  refine FT_nodePoint (fun p1 _ => ?_)
  refine FT_getNode (fun nd1 _ hnx1 _ => ?_)
  dsimp only
  refine FT_deref (fun n2 hn2 => ?_)
  rw [hn2] at hnx1
  obtain ⟨hn2L, hlt2⟩ := hS.next_lt hL hn1L hnx1
  refine FT_nodePoint (fun p2 _ => ?_)
  split
  on_goal 1 =>
    obtain ⟨left, hle, hleftL, hnl⟩ : ∃ left, some left = nd1.next ∧ left ∈ L ∧
        xLt F.pts new left = true := ⟨n2, hn2.symm, hn2L, xLt_trans hlt1 hlt2⟩
    rw [← hle]
  on_goal 2 =>
    obtain ⟨left, hle, hleftL, hnl⟩ : ∃ left, some left = some n1 ∧ left ∈ L ∧
        xLt F.pts new left = true := ⟨n1, rfl, hn1L, hlt1⟩
    rw [← hle]
  all_goals
    refine FT_modifyBasin (fun b => { b with left_node := some left }) (fun s => rfl) ?_
    refine FT_modifyBasin (fun b => { b with bottom_node := b.left_node }) (fun s => rfl) ?_
    have hsc1 : SameChain F
        { F with basin := { F.basin with left_node := some left, bottom_node := some left } } :=
      ⟨rfl, rfl, rfl, rfl, rfl⟩
    refine FT_bind (FT_FillBasinBottom fuel _ L left left (hsc1.linked hL) (hsc1.sorted hS) rfl
      hleftL (Or.inl rfl)) (fun _ F2 h => ?_)
    obtain ⟨hsc2, hl2, bn, hbn, hbnL, hble⟩ := h
    have hsc02 := hsc1.andThen hsc2
    have hl2 : F2.basin.left_node = some left := hl2
    have hble : bn = left ∨ xLt F.pts left bn = true := hble
    have base2 : Keeps new F F2 :=
      ⟨L, hsc02.linked hL, hsc02.sorted hS, hnew, hsc02.1, hsc02.2.2.2.1, hsc02.2.2.2.2⟩
    refine FT_getCtx (fun s1 hs1 => ?_)
    refine FT_getCtx (fun s2 hs2 => ?_)
    have hb1 : s1.basin = F2.basin := by rw [← hs1]; rfl
    have hb2 : s2.basin = F2.basin := by rw [← hs2]; rfl
    rw [hb1, hb2, hbn, hl2]
    split
    · exact FT_pure base2
    · next hne =>
      have hlb : xLt F.pts left bn = true := by
        rcases hble with e | h
        · exact absurd (congrArg some e) hne
        · exact h
      refine FT_pure_bind ?_
      refine FT_modifyBasin (fun b => { b with right_node := b.bottom_node }) (fun s => rfl) ?_
      refine FT_bind (FT_FillBasinRight fuel _) (fun _ F4 h => ?_)
      obtain ⟨hsc4, hl4, hb4⟩ := h
      have hsc04 : SameChain F F4 := hsc02.andThen (SameChain.andThen ⟨rfl, rfl, rfl, rfl, rfl⟩ hsc4)
      have hl4 : F4.basin.left_node = some left := hl4.trans hl2
      have hb4 : F4.basin.bottom_node = some bn := hb4.trans hbn
      refine FT_getCtx (fun s3 hs3 => ?_)
      refine FT_getCtx (fun s4 hs4 => ?_)
      split
      · exact FT_pure ⟨L, hsc04.linked hL, hsc04.sorted hS, hnew, hsc04.1, hsc04.2.2.2.1,
          hsc04.2.2.2.2⟩
      · refine FT_pure_bind ?_
        refine FT_getCtx (fun s5 hs5 => ?_)
        refine FT_deref (fun rn _ => ?_)
        refine FT_nodePoint (fun r _ => ?_)
        refine FT_getCtx (fun s6 hs6 => ?_)
        refine FT_deref (fun ln _ => ?_)
        refine FT_nodePoint (fun l _ => ?_)
        refine FT_modifyBasin (fun b => { b with width := env.fl (r.x - l.x) }) (fun s => rfl) ?_
        refine FT_modifyBasin (fun b => { b with left_highest := decide (l.y > r.y) })
          (fun s => rfl) ?_
        have hsc6 : SameChain F
            { F4 with basin := { F4.basin with width := env.fl (r.x - l.x),
                                               left_highest := decide (l.y > r.y) } } :=
          hsc04.andThen ⟨rfl, rfl, rfl, rfl, rfl⟩
        refine FT_getCtx (fun s7 hs7 => ?_)
        have hb7 : s7.basin.bottom_node = some bn := by
          have e : s7.basin = (front s7).basin := rfl
          rw [e, hs7]
          exact hb4
        rw [hb7]
        refine FT_deref (fun bn1 hbn1 => ?_)
        cases hbn1
        refine FT_conseq (FT_FillBasinReq env new fuel bn _ L left (hsc6.linked hL)
          (hsc6.sorted hS) hnew hl4 hleftL
          (show xLt F4.pts new left = true by rw [hsc04.1]; exact hnl) hbnL
          (show xLt F4.pts left bn = true by rw [hsc04.1]; exact hlb)) ?_
        intro _ F8 hK
        exact hK.rebase hsc6.1 hsc6.2.2.2.1 hsc6.2.2.2.2


theorem Keeps.comp {new : NodeId} {F F1 F2 : Front} (h1 : Keeps new F F1)
    (h2 : Keeps new F1 F2) : Keeps new F F2 := by
  obtain ⟨_, _, _, _, hp, hh, ht⟩ := h1
  exact h2.rebase hp hh ht

theorem FT_FillAdvancingFront (env : Env) (fuel : Nat) (new : NodeId) (F : Front)
    (L : List NodeId) (hL : Linked F L) (hS : Sorted F L) (hnew : new ∈ L) :
    FT (FillAdvancingFront env fuel new) F (fun _ F1 => Keeps new F F1) := by
  unfold FillAdvancingFront
  refine FT_getNode (fun nd _ hnx _ => ?_)
  refine FT_bind (FT_FillRightHoles new fuel nd.next F L hL hS hnew (fun k hk => ?_))
    (fun _ F1 h1 => ?_)
  · rw [hk] at hnx
    exact hS.next_lt hL hnew hnx
  obtain ⟨hK1, _⟩ := h1
  obtain ⟨L1, hL1, hS1, hnew1, hp1, hh1, ht1⟩ := hK1
  have hK1 : Keeps new F F1 := ⟨L1, hL1, hS1, hnew1, hp1, hh1, ht1⟩
  refine FT_getNode (fun nd1 _ _ hpv1 => ?_)
  refine FT_bind (FT_FillLeftHoles new fuel nd1.prev F1 L1 hL1 hS1 hnew1 (fun k hk => ?_))
    (fun _ F2 h2 => ?_)
  · rw [hk] at hpv1
    exact hS1.prev_lt hL1 hnew1 hpv1
  obtain ⟨hK2, _⟩ := h2
  have hK02 := hK1.comp hK2
  obtain ⟨L2, hL2, hS2, hnew2, hp2, hh2, ht2⟩ := hK2
  refine FT_getNode (fun nd2 _ _ _ => ?_)
  split
  · exact FT_pure hK02
  · refine FT_getNode (fun nd3 _ _ _ => ?_)
    split
    · refine FT_frame (Inv_BasinAngle new) (fun angle => ?_)
      split
      · refine FT_conseq (FT_FillBasin env fuel new F2 L2 hL2 hS2 hnew2) ?_
        intro _ F3 hK3
        exact hK02.comp hK3
      · exact FT_pure hK02
    · exact FT_pure hK02


/-- The order along the chain after a node with the point p is linked in
after `node`, when `node.x ≤ p.x < node.next.x`: strictly increasing, except
that `node` and the new node may have the same x (unless `c` is excluded). -/
theorem Sorted.insert_point {F : Front} {a b : List NodeId} {node nx : NodeId} {pn pnx p : Point}
    (c : Prop) (hS : Sorted F (a ++ node :: nx :: b))
    (hpn : F.pts[node]? = some (some pn)) (hpnx : F.pts[nx]? = some (some pnx))
    (h1 : pn.x ≤ p.x) (h2 : p.x < pnx.x) (hc : ¬ c → pn.x < p.x) :
    (a ++ node :: F.pts.length :: nx :: b).Pairwise
      (fun x y => xLt (F.pts ++ [some p]) x y = true ∨ (x = node ∧ c)) := by
  have hp := List.pairwise_append.1 hS
  have hp2 := List.pairwise_cons.1 hp.2.1
  have hp3 := List.pairwise_cons.1 hp2.2
  have hN : (F.pts ++ [some p])[F.pts.length]? = some (some p) := by simp
  have hnode : (F.pts ++ [some p])[node]? = some (some pn) := by
    rw [List.getElem?_append_left (heap_lt_of_get hpn)]
    exact hpn
  have hnx : (F.pts ++ [some p])[nx]? = some (some pnx) := by
    rw [List.getElem?_append_left (heap_lt_of_get hpnx)]
    exact hpnx
  have toN : ∀ x, xLt F.pts x node = true → xLt (F.pts ++ [some p]) x F.pts.length = true := by
    intro x hx
    obtain ⟨px, pn1, h3, h4, h5⟩ := xLt_iff.1 (xLt_grow (some p) hx)
    rw [hnode] at h4
    cases h4
    exact xLt_iff.2 ⟨px, p, h3, hN, lt_of_lt_of_le h5 h1⟩
  have fromN : ∀ y, (y = nx ∨ xLt F.pts nx y = true) →
      xLt (F.pts ++ [some p]) F.pts.length y = true := by
    intro y hy
    rcases hy with rfl | hy
    · exact xLt_iff.2 ⟨p, pnx, hN, hnx, h2⟩
    · obtain ⟨pnx1, py, h3, h4, h5⟩ := xLt_iff.1 (xLt_grow (some p) hy)
      rw [hnx] at h3
      cases h3
      exact xLt_iff.2 ⟨p, py, hN, h4, lt_trans h2 h5⟩
  refine List.pairwise_append.2 ⟨hp.1.imp (fun h => Or.inl (xLt_grow _ h)), ?_, ?_⟩
  · refine List.pairwise_cons.2 ⟨?_, List.pairwise_cons.2 ⟨?_, hp2.2.imp
      (fun h => Or.inl (xLt_grow _ h))⟩⟩
    · intro y hy
      rcases List.mem_cons.1 hy with rfl | hy
      · by_cases hcc : c
        · exact Or.inr ⟨rfl, hcc⟩
        · exact Or.inl (xLt_iff.2 ⟨pn, p, hnode, hN, hc hcc⟩)
      · exact Or.inl (xLt_grow _ (hp2.1 y hy))
    · intro y hy
      rcases List.mem_cons.1 hy with rfl | hy
      · exact Or.inl (fromN _ (Or.inl rfl))
      · exact Or.inl (fromN _ (Or.inr (hp3.1 y hy)))
  · intro x hx y hy
    rcases List.mem_cons.1 hy with rfl | hy
    · exact Or.inl (xLt_grow _ (hp.2.2 x hx _ (List.mem_cons_self _ _)))
    · rcases List.mem_cons.1 hy with rfl | hy
      · exact Or.inl (toN x (hp.2.2 x hx _ (List.mem_cons_self _ _)))
      · exact Or.inl (xLt_grow _ (hp.2.2 x hx y (List.mem_cons_of_mem _ hy)))

/-- C7: let the advancing front be the doubly linked chain L (head sentinel
first, tail sentinel last) with strictly increasing x-coordinates, and let the
node located for the point p be a node of L other than the head sentinel with
`node.x ≤ p.x < node.next.x`, with `EPSILON` not negative.  When
`PointEvent(p)` returns, the front is a doubly linked chain L1 from the same
head to the same tail with strictly increasing x-coordinates, and the
returned node is a member of L1 and carries the point p. -/
theorem PointEvent_keeps_front (env : Env) (fuel : Nat) (p : Point) (s s1 : SweepContext)
    (L : List NodeId) (node new_node : NodeId)
    (heps : 0 ≤ env.EPSILON)
    (hL : Linked (front s) L) (hS : Sorted (front s) L)
    (hloc : env.LocateNode s p = some node) (hmem : node ∈ L) (hhead : s.head_ ≠ some node)
    (hx : ∃ nd nnd pn pnx nx, s.nodes[node]? = some nd ∧ nd.point = some pn ∧
      nd.next = some nx ∧ s.nodes[nx]? = some nnd ∧ nnd.point = some pnx ∧
      pn.x ≤ p.x ∧ p.x < pnx.x)
    (hret : PointEvent env fuel p s = Res.ok new_node s1) :
    ∃ L1, Linked (front s1) L1 ∧ Sorted (front s1) L1 ∧ s1.head_ = s.head_ ∧
      s1.tail_ = s.tail_ ∧ new_node ∈ L1 ∧
      ∃ nd, s1.nodes[new_node]? = some nd ∧ nd.point = some p := by
  unfold PointEvent at hret
  rw [run_bind, run_getCtx] at hret
  dsimp only at hret
  rw [hloc] at hret
  dsimp only at hret
  obtain ⟨nd0, nnd0, pn, pnx, nx, hnd0, hpn0, hnx0, hnnd0, hpnx0, hle, hlt⟩ := hx
  have hFpn : (front s).pts[node]? = some (some pn) := by simp [front, hnd0, hpn0]
  have hFnx : (front s).next[node]? = some (some nx) := by simp [front, hnd0, hnx0]
  have hFpnx : (front s).pts[nx]? = some (some pnx) := by simp [front, hnnd0, hpnx0]
  obtain ⟨L1, h1, h2, h3, h4, h5, h6⟩ : ∃ L1, Linked (front s1) L1 ∧ Sorted (front s1) L1 ∧
      (front s1).head_ = (front s).head_ ∧ (front s1).tail_ = (front s).tail_ ∧
      new_node ∈ L1 ∧ (front s1).pts[new_node]? = some (some p) := by
    refine (?_ : FT _ (front s) (fun new F1 => ∃ L1, Linked F1 L1 ∧ Sorted F1 L1 ∧
      F1.head_ = (front s).head_ ∧ F1.tail_ = (front s).tail_ ∧
      new ∈ L1 ∧ F1.pts[new]? = some (some p))) s new_node s1 rfl hret
    generalize front s = F at hL hS hFpn hFnx hFpnx
    refine FT_getNode (fun nd _ _ _ => ?_)
    split
    · exact FT_raise
    refine FT_deref (fun nx1 _ => ?_)
    refine FT_getNode (fun nnd _ _ _ => ?_)
    split
    · exact FT_raise
    refine FT_bind (FT_NewFrontTriangle fuel p node F) (fun new F1 h => ?_)
    obtain ⟨nx2, hnx2, rfl, hl1, hl2, hnlt, hnxlt, rfl⟩ := h
    rw [hFnx] at hnx2
    cases hnx2
    obtain ⟨hnewL, a, b, rfl, hL1⟩ := hL.insert_after p hmem hFnx hl1 hl2
    have hNne : F.pts.length ≠ node := fun e => hnewL (e ▸ hmem)
    have hNpt : (F.pts ++ [some p])[F.pts.length]? = some (some p) := by simp
    have hNin : F.pts.length ∈ a ++ node :: F.pts.length :: nx :: b := by simp
    refine FT_nodePoint (fun pn1 hpn1 => ?_)
    have epn : pn1 = pn := by
      change (F.pts ++ [some p])[node]? = some (some pn1) at hpn1
      rw [List.getElem?_append_left (heap_lt_of_get hFpn), hFpn] at hpn1
      cases hpn1
      rfl
    subst epn
    split
    · have hR := Sorted.insert_point True hS hFpn hFpnx hle hlt (fun h => absurd trivial h)
      refine FT_bind (FT_Fill_chain hL1 fuel (by simp)) (fun _ F2 h => ?_)
      obtain ⟨a1, pv, nx1, b1, hLe2, hL2, hp2, hb2, hh2, ht2, _, _⟩ := h
      have hnd1 := hL1.nodup
      rw [hLe2] at hnd1 hR hNin
      have hnot : node ∉ a1 ++ pv :: nx1 :: b1 := by
        have h2 := List.nodup_append.1 hnd1
        have h3 : (pv :: node :: nx1 :: b1).Nodup := h2.2.1
        simp only [List.nodup_cons, List.mem_cons, not_or] at h3
        intro hin
        rcases List.mem_append.1 hin with hin | hin
        · exact h2.2.2 hin (List.mem_cons_of_mem _ (List.mem_cons_self _ _))
        · rcases List.mem_cons.1 hin with e | hin
          · exact h3.1.1 e.symm
          · rcases List.mem_cons.1 hin with e | hin
            · exact h3.2.1.1 e
            · exact h3.2.1.2 hin
      have hS2 : Sorted F2 (a1 ++ pv :: nx1 :: b1) := by
        unfold Sorted
        rw [hp2]
        refine (hR.sublist (sublist_drop_mid a1 (nx1 :: b1) pv node)).imp_of_mem ?_
        intro x y hx _ hxy
        rcases hxy with h | ⟨e, _⟩
        · exact h
        · exact absurd (e ▸ hx) hnot
      have hnew2 := mem_drop_mid hNin hNne
      refine FT_bind (FT_FillAdvancingFront env fuel _ F2 _ hL2 hS2 hnew2) (fun _ F3 hK => ?_)
      obtain ⟨L3, hL3, hS3, hnew3, hp3, hh3, ht3⟩ := hK
      refine FT_pure ⟨L3, hL3, hS3, hh3.trans hh2, ht3.trans ht2, hnew3, ?_⟩
      rw [hp3, hp2]
      exact hNpt
    · next hgt =>
      have hstrict : pn1.x < p.x := by
        have := lt_of_not_le hgt
        linarith
      have hR := Sorted.insert_point False hS hFpn hFpnx hle hlt (fun _ => hstrict)
      refine FT_pure_bind ?_
      refine FT_bind (FT_FillAdvancingFront env fuel _ _ _ hL1 (hR.imp ?_) hNin)
        (fun _ F3 hK => ?_)
      · intro x y hxy
        rcases hxy with h | ⟨_, hf⟩
        · exact h
        · exact absurd hf id
      obtain ⟨L3, hL3, hS3, hnew3, hp3, hh3, ht3⟩ := hK
      refine FT_pure ⟨L3, hL3, hS3, hh3, ht3, hnew3, ?_⟩
      rw [hp3]
      exact hNpt
  refine ⟨L1, h1, h2, h3, h4, h5, ?_⟩
  have h7 : (s1.nodes.map (fun n => n.point))[new_node]? = some (some p) := h6
  rw [List.getElem?_map] at h7
  cases hn : s1.nodes[new_node]? with
  | none => rw [hn] at h7; cases h7
  | some nd =>
    rw [hn] at h7
    exact ⟨nd, rfl, Option.some.inj h7⟩


theorem startFront_linked : Linked (front startFront) [0, 1, 2] :=
  ⟨by decide, rfl, rfl, ⟨rfl, rfl, rfl, trivial⟩, ⟨rfl, rfl, rfl, trivial⟩⟩

/-- Witness for `PointEvent_keeps_front`: the point (0,1) above the front
point (0,0) of the initial front.  The located node is the node of (0,0),
which has the same x, so `PointEvent` fills it away. -/
theorem PointEvent_keeps_front_witness :
    Linked (front startFront) [0, 1, 2] ∧ Sorted (front startFront) [0, 1, 2] ∧
    (specEnv 0).LocateNode startFront ⟨3, 0, 1⟩ = some 1 ∧
    PointEvent (specEnv 0) 5 ⟨3, 0, 1⟩ startFront
      = Res.ok 3 (PointEvent (specEnv 0) 5 ⟨3, 0, 1⟩ startFront).ctx ∧
    ∃ L1, Linked (front (PointEvent (specEnv 0) 5 ⟨3, 0, 1⟩ startFront).ctx) L1 ∧
      Sorted (front (PointEvent (specEnv 0) 5 ⟨3, 0, 1⟩ startFront).ctx) L1 ∧
      (PointEvent (specEnv 0) 5 ⟨3, 0, 1⟩ startFront).ctx.head_ = startFront.head_ ∧
      (PointEvent (specEnv 0) 5 ⟨3, 0, 1⟩ startFront).ctx.tail_ = startFront.tail_ ∧
      3 ∈ L1 ∧
      ∃ nd, (PointEvent (specEnv 0) 5 ⟨3, 0, 1⟩ startFront).ctx.nodes[3]? = some nd ∧
        nd.point = some ⟨3, 0, 1⟩ :=
  ⟨startFront_linked, by decide!, by decide!, by decide!,
    PointEvent_keeps_front (specEnv 0) 5 ⟨3, 0, 1⟩ startFront
      (PointEvent (specEnv 0) 5 ⟨3, 0, 1⟩ startFront).ctx [0, 1, 2] 1 3 (le_refl _)
      startFront_linked (by decide!) (by decide!) (by decide) (by decide)
      ⟨⟨some ⟨1, 0, 0⟩, some 0, some 2, some 0⟩, ⟨some ⟨2, 10, -1⟩, none, none, some 1⟩,
        ⟨1, 0, 0⟩, ⟨2, 10, -1⟩, 2, rfl, rfl, rfl, rfl, rfl, by decide!, by decide!⟩
      (by decide!)⟩


/-! ### Rules for `Raises` -/

theorem Raises_pure {E : Err → Prop} {α : Type} (a : α) : Raises E (pure a : M α) := by
  intro s e s1 h
  cases h

theorem Raises_raise {E : Err → Prop} {α : Type} {e : Err} (h : E e) :
    Raises E (raise e : M α) := by
  intro s e1 s1 h1
  cases h1
  exact h

theorem Raises_mono {E E1 : Err → Prop} {α : Type} {m : M α} (h : Raises E m)
    (hE : ∀ e, E e → E1 e) : Raises E1 m :=
  fun s e s1 hr => hE e (h s e s1 hr)

theorem Raises_bind {E : Err → Prop} {α β : Type} {m : M α} {f : α → M β}
    (hm : Raises E m) (hf : ∀ a, Raises E (f a)) : Raises E (m >>= f) := by
  intro s e s2 h
  rw [run_bind] at h
  cases hr : m s with
  | ok a s1 =>
    rw [hr] at h
    exact hf a s1 e s2 h
  | throw e1 s1 =>
    rw [hr] at h
    cases h
    exact hm s e s2 hr

theorem Raises_deref {E : Err → Prop} {α : Type} (hU : E Err.undefined_behaviour)
    (o : Option α) : Raises E (deref o) := by
  intro s e s1 h
  cases o with
  | none => cases h; exact hU
  | some a => cases h

theorem Raises_getCtx {E : Err → Prop} : Raises E getCtx := by
  intro s e s1 h
  cases h

theorem Raises_modifyCtx {E : Err → Prop} (f : SweepContext → SweepContext) :
    Raises E (modifyCtx f) := by
  intro s e s1 h
  cases h

theorem Raises_getTri {E : Err → Prop} (hU : E Err.undefined_behaviour) (t : TriId) :
    Raises E (getTri t) := by
  intro s e s1 h
  unfold getTri at h
  split at h
  · cases h
  · cases h; exact hU

theorem Raises_modifyTri {E : Err → Prop} (hU : E Err.undefined_behaviour) (t : TriId)
    (f : Triangle → Triangle) : Raises E (modifyTri t f) := by
  intro s e s1 h
  unfold modifyTri at h
  split at h
  · cases h
  · cases h; exact hU

theorem Raises_getNode {E : Err → Prop} (hU : E Err.undefined_behaviour) (t : NodeId) :
    Raises E (getNode t) := by
  intro s e s1 h
  unfold getNode at h
  split at h
  · cases h
  · cases h; exact hU

theorem Raises_modifyNode {E : Err → Prop} (hU : E Err.undefined_behaviour) (t : NodeId)
    (f : Node → Node) : Raises E (modifyNode t f) := by
  intro s e s1 h
  unfold modifyNode at h
  split at h
  · cases h
  · cases h; exact hU

theorem Raises_getEdge {E : Err → Prop} (hU : E Err.undefined_behaviour) (t : EdgeId) :
    Raises E (getEdge t) := by
  intro s e s1 h
  unfold getEdge at h
  split at h
  · cases h
  · cases h; exact hU

theorem Raises_modifyEdge {E : Err → Prop} (hU : E Err.undefined_behaviour) (t : EdgeId)
    (f : Edge → Edge) : Raises E (modifyEdge t f) := by
  intro s e s1 h
  unfold modifyEdge at h
  split at h
  · cases h
  · cases h; exact hU

theorem Raises_newTriangle {E : Err → Prop} (a b c : Point) : Raises E (newTriangle a b c) := by
  intro s e s1 h
  cases h

theorem Raises_newNode {E : Err → Prop} (a : Point) : Raises E (newNode a) := by
  intro s e s1 h
  cases h

theorem Raises_nodePoint {E : Err → Prop} (hU : E Err.undefined_behaviour) (n : NodeId) :
    Raises E (nodePoint n) :=
  Raises_bind (Raises_getNode hU _) (fun _ => Raises_deref hU _)

theorem Raises_MarkNeighbor {E : Err → Prop} (hU : E Err.undefined_behaviour) (a b : TriId) :
    Raises E (MarkNeighbor a b) := by
  unfold MarkNeighbor
  repeat' first
        | exact Raises_pure _ | exact Raises_getTri hU _ | exact Raises_modifyTri hU _ _
        | refine Raises_bind ?_ (fun _ => ?_) | split

theorem Raises_MarkNeighborIf {E : Err → Prop} (hU : E Err.undefined_behaviour) (a : TriId)
    (b : Option TriId) : Raises E (MarkNeighborIf a b) := by
  unfold MarkNeighborIf
  split
  · exact Raises_MarkNeighbor hU _ _
  · exact Raises_pure _

theorem Raises_RotateTrianglePair {E : Err → Prop} (hU : E Err.undefined_behaviour) (t : TriId)
    (p : Point) (ot : TriId) (op : Point) : Raises E (RotateTrianglePair t p ot op) := by
  unfold RotateTrianglePair
  repeat' first
        | exact Raises_pure _ | exact Raises_getTri hU _ | exact Raises_modifyTri hU _ _
        | exact Raises_MarkNeighbor hU _ _ | exact Raises_MarkNeighborIf hU _ _
        | refine Raises_bind ?_ (fun _ => ?_)

theorem Raises_MapTriangleToNodes {E : Err → Prop} (hU : E Err.undefined_behaviour)
    (t : TriId) : Raises E (MapTriangleToNodes t) :=
  Raises_bind (Raises_getTri hU _) (fun _ => Raises_modifyCtx _)

theorem Raises_LegalizeEdge {E : Err → Prop} (hU : E Err.undefined_behaviour)
    (rec : TriId → M Bool) (hrec : ∀ t, Raises E (rec t))
    (t : TriId) (i : Fin 3) : Raises E (LegalizeEdge rec t i) := by
  unfold LegalizeEdge
  repeat' first
        | exact Raises_pure _ | exact Raises_getTri hU _ | exact Raises_modifyTri hU _ _
        | exact Raises_deref hU _
        | exact Raises_RotateTrianglePair hU _ _ _ _ | exact Raises_MapTriangleToNodes hU _
        | exact hrec _
        | refine Raises_bind ?_ (fun _ => ?_) | split | dsimp only

theorem Raises_Legalize {E : Err → Prop} (hU : E Err.undefined_behaviour)
    (hF : E Err.out_of_fuel) : ∀ (fuel : Nat) (t : TriId), Raises E (Legalize fuel t) := by
  intro fuel
  induction fuel with
  | zero => intro t; exact Raises_raise hF
  | succ fuel ih =>
    intro t
    unfold Legalize
    repeat' first
        | exact Raises_pure _ | exact Raises_LegalizeEdge hU _ ih _ _
        | refine Raises_bind ?_ (fun _ => ?_) | split


theorem Raises_AddToMap {E : Err → Prop} (t : TriId) : Raises E (AddToMap t) :=
  Raises_modifyCtx _

theorem Raises_NewFrontTriangle {E : Err → Prop} (hU : E Err.undefined_behaviour)
    (hF : E Err.out_of_fuel) (fuel : Nat) (point : Point) (node : NodeId) : Raises E (NewFrontTriangle fuel point node) := by
  unfold NewFrontTriangle
  repeat' first
        | exact Raises_pure _ | exact Raises_getTri hU _ | exact Raises_modifyTri hU _ _
        | exact Raises_deref hU _ | exact Raises_getNode hU _ | exact Raises_modifyNode hU _ _
        | exact Raises_nodePoint hU _ | exact Raises_getCtx | exact Raises_modifyCtx _
        | exact Raises_newTriangle _ _ _ | exact Raises_newNode _
        | exact Raises_MarkNeighbor hU _ _ | exact Raises_AddToMap _
        | exact Raises_Legalize hU hF _ _ | exact Raises_MapTriangleToNodes hU _
        | refine Raises_bind ?_ (fun _ => ?_) | split | dsimp only

theorem Raises_Fill {E : Err → Prop} (hU : E Err.undefined_behaviour)
    (hF : E Err.out_of_fuel) (fuel : Nat) (node : NodeId) : Raises E (Fill fuel node) := by
  unfold Fill
  repeat' first
        | exact Raises_pure _ | exact Raises_getTri hU _ | exact Raises_modifyTri hU _ _
        | exact Raises_deref hU _ | exact Raises_getNode hU _ | exact Raises_modifyNode hU _ _
        | exact Raises_nodePoint hU _ | exact Raises_getCtx | exact Raises_modifyCtx _
        | exact Raises_newTriangle _ _ _ | exact Raises_newNode _
        | exact Raises_MarkNeighbor hU _ _ | exact Raises_AddToMap _
        | exact Raises_Legalize hU hF _ _ | exact Raises_MapTriangleToNodes hU _
        | refine Raises_bind ?_ (fun _ => ?_) | split | dsimp only

theorem Raises_LargeHole_DontFill {E : Err → Prop} (hU : E Err.undefined_behaviour)
    (hF : E Err.out_of_fuel) {env : Env} (node : NodeId) : Raises E (LargeHole_DontFill env node) := by
  unfold LargeHole_DontFill
  repeat' first
        | exact Raises_pure _ | exact Raises_getTri hU _ | exact Raises_modifyTri hU _ _
        | exact Raises_deref hU _ | exact Raises_getNode hU _ | exact Raises_modifyNode hU _ _
        | exact Raises_nodePoint hU _ | exact Raises_getCtx | exact Raises_modifyCtx _
        | exact Raises_newTriangle _ _ _ | exact Raises_newNode _
        | exact Raises_MarkNeighbor hU _ _ | exact Raises_AddToMap _
        | exact Raises_Legalize hU hF _ _ | exact Raises_MapTriangleToNodes hU _
        | refine Raises_bind ?_ (fun _ => ?_) | split | dsimp only

theorem Raises_IsShallow {E : Err → Prop} (hU : E Err.undefined_behaviour)
    (hF : E Err.out_of_fuel) {env : Env} (node : NodeId) : Raises E (IsShallow env node) := by
  unfold IsShallow
  repeat' first
        | exact Raises_pure _ | exact Raises_getTri hU _ | exact Raises_modifyTri hU _ _
        | exact Raises_deref hU _ | exact Raises_getNode hU _ | exact Raises_modifyNode hU _ _
        | exact Raises_nodePoint hU _ | exact Raises_getCtx | exact Raises_modifyCtx _
        | exact Raises_newTriangle _ _ _ | exact Raises_newNode _
        | exact Raises_MarkNeighbor hU _ _ | exact Raises_AddToMap _
        | exact Raises_Legalize hU hF _ _ | exact Raises_MapTriangleToNodes hU _
        | refine Raises_bind ?_ (fun _ => ?_) | split | dsimp only

theorem Raises_BasinAngle {E : Err → Prop} (hU : E Err.undefined_behaviour)
    (hF : E Err.out_of_fuel) {env : Env} (node : NodeId) : Raises E (BasinAngle env node) := by
  unfold BasinAngle
  repeat' first
        | exact Raises_pure _ | exact Raises_getTri hU _ | exact Raises_modifyTri hU _ _
        | exact Raises_deref hU _ | exact Raises_getNode hU _ | exact Raises_modifyNode hU _ _
        | exact Raises_nodePoint hU _ | exact Raises_getCtx | exact Raises_modifyCtx _
        | exact Raises_newTriangle _ _ _ | exact Raises_newNode _
        | exact Raises_MarkNeighbor hU _ _ | exact Raises_AddToMap _
        | exact Raises_Legalize hU hF _ _ | exact Raises_MapTriangleToNodes hU _
        | refine Raises_bind ?_ (fun _ => ?_) | split | dsimp only

theorem Raises_FillRightHoles {E : Err → Prop} (hU : E Err.undefined_behaviour)
    (hF : E Err.out_of_fuel) {env : Env} : ∀ (fuel : Nat) (m : Option NodeId), Raises E (FillRightHoles env fuel m) := by
  intro fuel
  induction fuel with
  | zero => intros; first | exact Raises_raise hF | (unfold FillRightHoles; exact Raises_raise hF)
  | succ fuel ih =>
    intros
    unfold FillRightHoles
    repeat' first
        | exact Raises_pure _ | exact Raises_getTri hU _ | exact Raises_modifyTri hU _ _
        | exact Raises_deref hU _ | exact Raises_getNode hU _ | exact Raises_modifyNode hU _ _
        | exact Raises_nodePoint hU _ | exact Raises_getCtx | exact Raises_modifyCtx _
        | exact Raises_newTriangle _ _ _ | exact Raises_newNode _
        | exact Raises_MarkNeighbor hU _ _ | exact Raises_AddToMap _
        | exact Raises_Legalize hU hF _ _ | exact Raises_MapTriangleToNodes hU _
        | exact Raises_Fill hU hF _ _ | exact Raises_LargeHole_DontFill hU hF _ | exact Raises_IsShallow hU hF _
        | exact ih _ | exact ih
        | refine Raises_bind ?_ (fun _ => ?_) | split | dsimp only

theorem Raises_FillLeftHoles {E : Err → Prop} (hU : E Err.undefined_behaviour)
    (hF : E Err.out_of_fuel) {env : Env} : ∀ (fuel : Nat) (m : Option NodeId), Raises E (FillLeftHoles env fuel m) := by
  intro fuel
  induction fuel with
  | zero => intros; first | exact Raises_raise hF | (unfold FillLeftHoles; exact Raises_raise hF)
  | succ fuel ih =>
    intros
    unfold FillLeftHoles
    repeat' first
        | exact Raises_pure _ | exact Raises_getTri hU _ | exact Raises_modifyTri hU _ _
        | exact Raises_deref hU _ | exact Raises_getNode hU _ | exact Raises_modifyNode hU _ _
        | exact Raises_nodePoint hU _ | exact Raises_getCtx | exact Raises_modifyCtx _
        | exact Raises_newTriangle _ _ _ | exact Raises_newNode _
        | exact Raises_MarkNeighbor hU _ _ | exact Raises_AddToMap _
        | exact Raises_Legalize hU hF _ _ | exact Raises_MapTriangleToNodes hU _
        | exact Raises_Fill hU hF _ _ | exact Raises_LargeHole_DontFill hU hF _ | exact Raises_IsShallow hU hF _
        | exact ih _ | exact ih
        | refine Raises_bind ?_ (fun _ => ?_) | split | dsimp only

theorem Raises_FillBasinReq {E : Err → Prop} (hU : E Err.undefined_behaviour)
    (hF : E Err.out_of_fuel) (env : Env) : ∀ (fuel : Nat) (m : NodeId), Raises E (FillBasinReq env fuel m) := by
  intro fuel
  induction fuel with
  | zero => intros; first | exact Raises_raise hF | (unfold FillBasinReq; exact Raises_raise hF)
  | succ fuel ih =>
    intros
    unfold FillBasinReq
    repeat' first
        | exact Raises_pure _ | exact Raises_getTri hU _ | exact Raises_modifyTri hU _ _
        | exact Raises_deref hU _ | exact Raises_getNode hU _ | exact Raises_modifyNode hU _ _
        | exact Raises_nodePoint hU _ | exact Raises_getCtx | exact Raises_modifyCtx _
        | exact Raises_newTriangle _ _ _ | exact Raises_newNode _
        | exact Raises_MarkNeighbor hU _ _ | exact Raises_AddToMap _
        | exact Raises_Legalize hU hF _ _ | exact Raises_MapTriangleToNodes hU _
        | exact Raises_Fill hU hF _ _ | exact Raises_LargeHole_DontFill hU hF _ | exact Raises_IsShallow hU hF _
        | exact ih _ | exact ih
        | refine Raises_bind ?_ (fun _ => ?_) | split | dsimp only

theorem Raises_FillBasinBottom {E : Err → Prop} (hU : E Err.undefined_behaviour)
    (hF : E Err.out_of_fuel)  : ∀ (fuel : Nat) , Raises E (FillBasinBottom fuel) := by
  intro fuel
  induction fuel with
  | zero => intros; first | exact Raises_raise hF | (unfold FillBasinBottom; exact Raises_raise hF)
  | succ fuel ih =>
    intros
    unfold FillBasinBottom
    repeat' first
        | exact Raises_pure _ | exact Raises_getTri hU _ | exact Raises_modifyTri hU _ _
        | exact Raises_deref hU _ | exact Raises_getNode hU _ | exact Raises_modifyNode hU _ _
        | exact Raises_nodePoint hU _ | exact Raises_getCtx | exact Raises_modifyCtx _
        | exact Raises_newTriangle _ _ _ | exact Raises_newNode _
        | exact Raises_MarkNeighbor hU _ _ | exact Raises_AddToMap _
        | exact Raises_Legalize hU hF _ _ | exact Raises_MapTriangleToNodes hU _
        | exact Raises_Fill hU hF _ _ | exact Raises_LargeHole_DontFill hU hF _ | exact Raises_IsShallow hU hF _
        | exact ih _ | exact ih
        | refine Raises_bind ?_ (fun _ => ?_) | split | dsimp only

theorem Raises_FillBasinRight {E : Err → Prop} (hU : E Err.undefined_behaviour)
    (hF : E Err.out_of_fuel)  : ∀ (fuel : Nat) , Raises E (FillBasinRight fuel) := by
  intro fuel
  induction fuel with
  | zero => intros; first | exact Raises_raise hF | (unfold FillBasinRight; exact Raises_raise hF)
  | succ fuel ih =>
    intros
    unfold FillBasinRight
    repeat' first
        | exact Raises_pure _ | exact Raises_getTri hU _ | exact Raises_modifyTri hU _ _
        | exact Raises_deref hU _ | exact Raises_getNode hU _ | exact Raises_modifyNode hU _ _
        | exact Raises_nodePoint hU _ | exact Raises_getCtx | exact Raises_modifyCtx _
        | exact Raises_newTriangle _ _ _ | exact Raises_newNode _
        | exact Raises_MarkNeighbor hU _ _ | exact Raises_AddToMap _
        | exact Raises_Legalize hU hF _ _ | exact Raises_MapTriangleToNodes hU _
        | exact Raises_Fill hU hF _ _ | exact Raises_LargeHole_DontFill hU hF _ | exact Raises_IsShallow hU hF _
        | exact ih _ | exact ih
        | refine Raises_bind ?_ (fun _ => ?_) | split | dsimp only

theorem Raises_FillBasin {E : Err → Prop} (hU : E Err.undefined_behaviour)
    (hF : E Err.out_of_fuel) (env : Env) (fuel : Nat) (node : NodeId) : Raises E (FillBasin env fuel node) := by
  unfold FillBasin
  repeat' first
        | exact Raises_pure _ | exact Raises_getTri hU _ | exact Raises_modifyTri hU _ _
        | exact Raises_deref hU _ | exact Raises_getNode hU _ | exact Raises_modifyNode hU _ _
        | exact Raises_nodePoint hU _ | exact Raises_getCtx | exact Raises_modifyCtx _
        | exact Raises_newTriangle _ _ _ | exact Raises_newNode _
        | exact Raises_MarkNeighbor hU _ _ | exact Raises_AddToMap _
        | exact Raises_Legalize hU hF _ _ | exact Raises_MapTriangleToNodes hU _
        | exact Raises_Fill hU hF _ _ | exact Raises_LargeHole_DontFill hU hF _ | exact Raises_IsShallow hU hF _
        | exact Raises_FillBasinBottom hU hF _ | exact Raises_FillBasinRight hU hF _ | exact Raises_FillBasinReq hU hF _ _ _
        | refine Raises_bind ?_ (fun _ => ?_) | split | dsimp only

theorem Raises_FillAdvancingFront {E : Err → Prop} (hU : E Err.undefined_behaviour)
    (hF : E Err.out_of_fuel) (env : Env) (fuel : Nat) (node : NodeId) : Raises E (FillAdvancingFront env fuel node) := by
  unfold FillAdvancingFront
  repeat' first
        | exact Raises_pure _ | exact Raises_getTri hU _ | exact Raises_modifyTri hU _ _
        | exact Raises_deref hU _ | exact Raises_getNode hU _ | exact Raises_modifyNode hU _ _
        | exact Raises_nodePoint hU _ | exact Raises_getCtx | exact Raises_modifyCtx _
        | exact Raises_newTriangle _ _ _ | exact Raises_newNode _
        | exact Raises_MarkNeighbor hU _ _ | exact Raises_AddToMap _
        | exact Raises_Legalize hU hF _ _ | exact Raises_MapTriangleToNodes hU _
        | exact Raises_Fill hU hF _ _ | exact Raises_LargeHole_DontFill hU hF _ | exact Raises_IsShallow hU hF _
        | exact Raises_FillBasinBottom hU hF _ | exact Raises_FillBasinRight hU hF _ | exact Raises_FillBasinReq hU hF _ _ _
        | exact Raises_FillRightHoles hU hF _ _ | exact Raises_FillLeftHoles hU hF _ _ | exact Raises_BasinAngle hU hF _ | exact Raises_FillBasin hU hF _ _ _
        | refine Raises_bind ?_ (fun _ => ?_) | split | dsimp only

/-! ### C11: the null-node error of `PointEvent` -/

/-- C11: `PointEvent(p)` ends with `std::runtime_error("PointEvent - null node")`
exactly when `LocateNode(p)` returns no node, or the located node has no
point, or no successor, or a successor without a point; and when it ends so,
the state is the one it was called in: no triangle has been created or
registered and the advancing front is as it was. -/
theorem PointEvent_null_node_iff (env : Env) (fuel : Nat) (p : Point) (s s1 : SweepContext) :
    PointEvent env fuel p s = Res.throw NullNode s1 ↔
      (s1 = s ∧ (env.LocateNode s p = none ∨
        ∃ n nd, env.LocateNode s p = some n ∧ s.nodes[n]? = some nd ∧
          (nd.point = none ∨ nd.next = none ∨
            ∃ nx nnd, nd.next = some nx ∧ s.nodes[nx]? = some nnd ∧ nnd.point = none))) := by
  have hU : (fun e => e ≠ NullNode) Err.undefined_behaviour := by decide
  have hF : (fun e => e ≠ NullNode) Err.out_of_fuel := by decide
  unfold PointEvent
  rw [run_bind, run_getCtx]
  dsimp only
  cases hloc : env.LocateNode s p with
  | none =>
    dsimp only
    constructor
    · intro h
      cases h
      exact ⟨rfl, Or.inl rfl⟩
    · rintro ⟨rfl, _⟩
      rfl
  | some n =>
    dsimp only
    cases hnd : s.nodes[n]? with
    | none =>
      have e : getNode n s = Res.throw Err.undefined_behaviour s := by simp [getNode, hnd]
      rw [run_bind, e]
      constructor
      · intro h
        cases h
      · rintro ⟨_, h | ⟨n1, nd, h1, h2, _⟩⟩
        · cases h
        · cases h1
          rw [hnd] at h2
          cases h2
    | some nd =>
      rw [run_bind, getNode_of_some hnd]
      dsimp only
      cases hpt : nd.point with
      | none =>
        simp only [Option.isNone_none, Bool.true_or, if_true, run_raise]
        constructor
        · intro h
          cases h
          exact ⟨rfl, Or.inr ⟨n, nd, rfl, hnd, Or.inl hpt⟩⟩
        · rintro ⟨rfl, _⟩
          rfl
      | some pt =>
        cases hnx : nd.next with
        | none =>
          simp only [Option.isNone_none, Bool.or_true, if_true, run_raise]
          constructor
          · intro h
            cases h
            exact ⟨rfl, Or.inr ⟨n, nd, rfl, hnd, Or.inr (Or.inl hnx)⟩⟩
          · rintro ⟨rfl, _⟩
            rfl
        | some nx =>
          simp only [Option.isNone_some, Bool.or_self, Bool.false_eq_true, if_false]
          rw [run_bind, run_deref_some]
          dsimp only
          cases hnnd : s.nodes[nx]? with
          | none =>
            have e : getNode nx s = Res.throw Err.undefined_behaviour s := by
              simp [getNode, hnnd]
            rw [run_bind, e]
            constructor
            · intro h
              cases h
            · rintro ⟨_, h | ⟨n1, nd1, h1, h2, h3⟩⟩
              · cases h
              · cases h1
                rw [hnd] at h2
                cases h2
                rcases h3 with h3 | h3 | ⟨nx1, nnd, h4, h5, _⟩
                · rw [hpt] at h3; cases h3
                · rw [hnx] at h3; cases h3
                · rw [hnx] at h4
                  cases h4
                  rw [hnnd] at h5
                  cases h5
          | some nnd =>
            rw [run_bind, getNode_of_some hnnd]
            dsimp only
            cases hnpt : nnd.point with
            | none =>
              simp only [Option.isNone_none, if_true, run_raise]
              constructor
              · intro h
                cases h
                exact ⟨rfl, Or.inr ⟨n, nd, rfl, hnd, Or.inr (Or.inr ⟨nx, nnd, hnx, hnnd, hnpt⟩)⟩⟩
              · rintro ⟨rfl, _⟩
                rfl
            | some npt =>
              simp only [Option.isNone_some, Bool.false_eq_true, if_false]
              constructor
              · intro h
                exfalso
                refine (?_ : Raises (fun e => e ≠ NullNode) _) s _ s1 h rfl
                repeat' first
                  | exact Raises_pure _
                  | exact Raises_NewFrontTriangle hU hF _ _ _
                  | exact Raises_nodePoint hU _
                  | exact Raises_Fill hU hF _ _
                  | exact Raises_FillAdvancingFront hU hF _ _ _
                  | refine Raises_bind ?_ (fun _ => ?_) | split | dsimp only
              · rintro ⟨_, h | ⟨n1, nd1, h1, h2, h3⟩⟩
                · cases h
                · cases h1
                  rw [hnd] at h2
                  cases h2
                  rcases h3 with h3 | h3 | ⟨nx1, nnd1, h4, h5, h6⟩
                  · rw [hpt] at h3; cases h3
                  · rw [hnx] at h3; cases h3
                  · rw [hnx] at h4
                    cases h4
                    rw [hnnd] at h5
                    cases h5
                    rw [hnpt] at h6
                    cases h6

/-! ### C17: the triangle returned by `NextFlipTriangle` -/

/-- C17 (counterexample): on the pair t = 0, ot = 1 with the shared edge
(p, op), `NextFlipTriangle` returns t for the orientation CCW and ot for the
orientations CW and COLLINEAR, the other way round than claimed. -/
theorem NextFlipTriangle_CCW_returns_t :
    (∃ s1, NextFlipTriangle 3 Orientation.CCW 0 1 fp fop flippedPair = Res.ok 0 s1) ∧
    (∃ s1, NextFlipTriangle 3 Orientation.CW 0 1 fp fop flippedPair = Res.ok 1 s1) ∧
    (∃ s1, NextFlipTriangle 3 Orientation.COLLINEAR 0 1 fp fop flippedPair = Res.ok 1 s1) := by
  refine ⟨⟨(NextFlipTriangle 3 Orientation.CCW 0 1 fp fop flippedPair).ctx, by decide!⟩,
    ⟨(NextFlipTriangle 3 Orientation.CW 0 1 fp fop flippedPair).ctx, by decide!⟩,
    ⟨(NextFlipTriangle 3 Orientation.COLLINEAR 0 1 fp fop flippedPair).ctx, by decide!⟩⟩

/-- C17 (as amended): `NextFlipTriangle(o, t, ot, p, op)` returns t when o is
CCW and ot for every other orientation.  It legalizes the other triangle of
the two (ot when o is CCW, t otherwise), x below: whenever the call returns,
the value is as said; and when x is a triangle with an edge from p to op and
`Legalize(x)`, run with that edge marked delaunay, returns, the call returns,
in the state `Legalize` left with the delaunay flags of x cleared. -/
theorem NextFlipTriangle_result (fuel : Nat) (o : Orientation) (t ot : TriId) (p op : Point)
    (s : SweepContext) :
    (∀ r s1, NextFlipTriangle fuel o t ot p op s = Res.ok r s1 →
      r = if o = Orientation.CCW then t else ot) ∧
    (∀ (x : TriId) (xt xt1 : Triangle) (k : Fin 3) (b : Bool) (s1 : SweepContext),
      x = (if o = Orientation.CCW then ot else t) →
      s.tris[x]? = some xt → xt.EdgeIndex p op = some k →
      Legalize fuel x
        { s with tris := s.tris.set x { xt with delaunay_edge := xt.delaunay_edge.set k true } }
          = Res.ok b s1 →
      s1.tris[x]? = some xt1 →
      NextFlipTriangle fuel o t ot p op s
        = Res.ok (if o = Orientation.CCW then t else ot)
            { s1 with tris := s1.tris.set x xt1.ClearDelunayEdges }) := by
  constructor
  · intro r s1 h
    unfold NextFlipTriangle at h
    by_cases ho : o = Orientation.CCW
    · rw [if_pos ho] at h ⊢
      obtain ⟨_, _, _, h⟩ := bind_ok h
      obtain ⟨_, _, _, h⟩ := bind_ok h
      obtain ⟨_, _, _, h⟩ := bind_ok h
      obtain ⟨_, _, _, h⟩ := bind_ok h
      obtain ⟨_, _, _, h⟩ := bind_ok h
      cases h
      rfl
    · rw [if_neg ho] at h ⊢
      obtain ⟨_, _, _, h⟩ := bind_ok h
      obtain ⟨_, _, _, h⟩ := bind_ok h
      obtain ⟨_, _, _, h⟩ := bind_ok h
      obtain ⟨_, _, _, h⟩ := bind_ok h
      obtain ⟨_, _, _, h⟩ := bind_ok h
      obtain ⟨_, _, _, h⟩ := bind_ok h
      cases h
      rfl
  · intro x xt xt1 k b s1 hx hxt hk hleg hxt1
    unfold NextFlipTriangle
    by_cases ho : o = Orientation.CCW
    · rw [if_pos ho] at hx ⊢
      subst hx
      simp [getTri, modifyTri, hxt, hk, hleg, hxt1, ho]
    · rw [if_neg ho] at hx ⊢
      subst hx
      simp [getTri, modifyTri, hxt, hk, hleg, hxt1, ho]


/-- Witness for `NextFlipTriangle_result`: the pair of `flippedPair` with the
orientation CCW; ot = 1 has the edge from p to op at index 2, `Legalize` of
ot returns without a flip, and the call returns t = 0 in the state it was
called in. -/
theorem NextFlipTriangle_result_witness :
    (0 : TriId) = (if Orientation.CCW = Orientation.CCW then 0 else 1) ∧
    Legalize 3 1 flippedPairMarked = Res.ok false flippedPairMarked ∧
    NextFlipTriangle 3 Orientation.CCW 0 1 fp fop flippedPair = Res.ok 0 flippedPair :=
  ⟨(NextFlipTriangle_result 3 Orientation.CCW 0 1 fp fop flippedPair).1 0
    (NextFlipTriangle 3 Orientation.CCW 0 1 fp fop flippedPair).ctx (by decide!),
    by decide!,
    ((NextFlipTriangle_result 3 Orientation.CCW 0 1 fp fop flippedPair).2 1
      (Triangle.mk (Triangle.mk3 fop fp fa).constrained_edge ⟨false, false, false⟩
        (Triangle.mk3 fop fp fa).points_ ⟨none, none, some 0⟩ false)
      (Triangle.mk (Triangle.mk3 fop fp fa).constrained_edge ⟨false, false, true⟩
        (Triangle.mk3 fop fp fa).points_ ⟨none, none, some 0⟩ false)
      2 false flippedPairMarked rfl (by decide!) (by decide!) (by decide!) (by decide!)).trans
      (by decide!)⟩

/-! ### C18: the retry of `FillRightBelowEdgeEvent` -/

theorem retry_reads :
    getNode 1 retryFront = Res.ok ⟨some ⟨1, 10, 26⟩, none, some 2, some 0⟩ retryFront ∧
    getNode 2 retryFront = Res.ok ⟨some ⟨2, 20, 22⟩, none, some 3, some 1⟩ retryFront ∧
    getNode 3 retryFront = Res.ok ⟨some ⟨3, 30, 16⟩, none, some 4, some 2⟩ retryFront ∧
    getNode 4 retryFront = Res.ok ⟨some ⟨4, 40, 9⟩, none, none, some 3⟩ retryFront ∧
    getEdge 0 retryFront = Res.ok ⟨⟨4, 40, 9⟩, ⟨0, 0, 30⟩⟩ retryFront :=
  ⟨rfl, rfl, rfl, rfl, rfl⟩

theorem retry_convex (fuel : Nat) :
    FillRightConvexEdgeEvent (specEnv 0) (fuel + 1) 0 1 retryFront = Res.ok () retryFront := by
  have o1 : (specEnv 0).Orient2d ⟨2, 20, 22⟩ ⟨3, 30, 16⟩ ⟨4, 40, 9⟩ = Orientation.CW := by
    decide!
  have o2 : (specEnv 0).Orient2d ⟨0, 0, 30⟩ ⟨3, 30, 16⟩ ⟨4, 40, 9⟩ = Orientation.CW := by
    decide!
  simp [FillRightConvexEdgeEvent, nodePoint, retry_reads, o1, o2]

theorem retry_below :
    ∀ fuel, FillRightBelowEdgeEvent (specEnv 0) fuel 0 1 retryFront
      = Res.throw Err.out_of_fuel retryFront := by
  have o1 : (specEnv 0).Orient2d ⟨1, 10, 26⟩ ⟨2, 20, 22⟩ ⟨3, 30, 16⟩ = Orientation.CW := by
    decide!
  have c : ((10 : ℚ) < 40) := by norm_num
  intro fuel
  induction fuel with
  | zero => rfl
  | succ fuel ih =>
    rw [FillRightBelowEdgeEvent]
    cases fuel with
    | zero =>
      have e : FillRightConvexEdgeEvent (specEnv 0) 0 0 1 = raise Err.out_of_fuel := rfl
      simp [nodePoint, retry_reads, o1, e, c]
    | succ fuel =>
      simp [nodePoint, retry_reads, o1, retry_convex, ih, c]

/-- C18: in `retryFront`, with the constraint edge 0 from p = (40,9) to
q = (0,30) and the node 1 at (10,26): node.x < edge.p.x; the node after it is
convex (`Orient2d(node, next, next.next)` is CW), so
`FillRightBelowEdgeEvent` takes its convex branch; `FillRightConvexEdgeEvent`
finds the next vertex convex (CW) and the vertex after it above the edge (CW),
and returns with the state as it was; and the retry is the same call in the same
state, so that `FillRightBelowEdgeEvent` does not return: for every amount of
fuel the run is cut off, with the state still unchanged. -/
theorem FillRightBelowEdgeEvent_retry_never_returns :
    getNode 1 retryFront = Res.ok ⟨some ⟨1, 10, 26⟩, none, some 2, some 0⟩ retryFront ∧
    getEdge 0 retryFront = Res.ok ⟨⟨4, 40, 9⟩, ⟨0, 0, 30⟩⟩ retryFront ∧
    (10 : ℚ) < 40 ∧
    (specEnv 0).Orient2d ⟨1, 10, 26⟩ ⟨2, 20, 22⟩ ⟨3, 30, 16⟩ = Orientation.CW ∧
    (specEnv 0).Orient2d ⟨2, 20, 22⟩ ⟨3, 30, 16⟩ ⟨4, 40, 9⟩ = Orientation.CW ∧
    (specEnv 0).Orient2d ⟨0, 0, 30⟩ ⟨3, 30, 16⟩ ⟨4, 40, 9⟩ = Orientation.CW ∧
    (∀ fuel, FillRightConvexEdgeEvent (specEnv 0) (fuel + 1) 0 1 retryFront
      = Res.ok () retryFront) ∧
    (∀ fuel, FillRightBelowEdgeEvent (specEnv 0) fuel 0 1 retryFront
      = Res.throw Err.out_of_fuel retryFront) :=
  ⟨rfl, rfl, by norm_num, by decide!, by decide!, by decide!, retry_convex, retry_below⟩

/-! ### The comparisons of angles, over the reals -/

theorem arg_lt_zero_iff (x y : ℚ) : Complex.arg ⟨(x : ℝ), (y : ℝ)⟩ < 0 ↔ y < 0 := by
  rw [Complex.arg_neg_iff]
  simp

theorem arg_gt_pi_div_two_iff (x y : ℚ) :
    Real.pi / 2 < Complex.arg ⟨(x : ℝ), (y : ℝ)⟩ ↔ x < 0 ∧ 0 ≤ y := by
  rw [← not_le, Complex.arg_le_pi_div_two_iff]
  simp

theorem arg_lt_neg_pi_div_two_iff (x y : ℚ) :
    Complex.arg ⟨(x : ℝ), (y : ℝ)⟩ < -(Real.pi / 2) ↔ x < 0 ∧ y < 0 := by
  rw [← not_le, Complex.neg_pi_div_two_le_arg_iff]
  simp

theorem arg_lt_three_pi_div_four_iff (x y : ℚ) :
    Complex.arg ⟨(x : ℝ), (y : ℝ)⟩ < 3 * Real.pi / 4 ↔ ¬ (x < 0 ∧ 0 ≤ y ∧ y ≤ -x) := by
  have hpi := Real.pi_pos
  by_cases hx : x < 0
  · by_cases hy : 0 ≤ y
    · have h1 : Real.pi / 2 < Complex.arg ⟨(x : ℝ), (y : ℝ)⟩ :=
        (arg_gt_pi_div_two_iff x y).2 ⟨hx, hy⟩
      have h2 := Complex.arg_le_pi ⟨(x : ℝ), (y : ℝ)⟩
      have ht := Complex.tan_arg ⟨(x : ℝ), (y : ℝ)⟩
      simp only at ht
      set θ := Complex.arg ⟨(x : ℝ), (y : ℝ)⟩ with hθ
      have hper : Real.tan (θ - Real.pi) = (y : ℝ) / (x : ℝ) := by
        rw [Real.tan_periodic.sub_eq]
        exact ht
      have hm := Real.strictMonoOn_tan
      have hin : θ - Real.pi ∈ Set.Ioo (-(Real.pi / 2)) (Real.pi / 2) := by
        constructor <;> linarith
      have hin4 : -(Real.pi / 4) ∈ Set.Ioo (-(Real.pi / 2)) (Real.pi / 2) := by
        constructor <;> linarith
      have hlt := hm.lt_iff_lt hin hin4
      rw [hper, Real.tan_neg, Real.tan_pi_div_four] at hlt
      have hxr : (x : ℝ) < 0 := by exact_mod_cast hx
      have e1 : θ < 3 * Real.pi / 4 ↔ θ - Real.pi < -(Real.pi / 4) := by
        constructor <;> intro h <;> linarith
      rw [e1, ← hlt, div_lt_iff_of_neg hxr]
      simp only [hx, hy, true_and, not_le]
      constructor
      · intro h
        have : (-(x : ℝ)) < (y : ℝ) := by linarith
        exact_mod_cast this
      · intro h
        have : (-(x : ℝ)) < (y : ℝ) := by exact_mod_cast h
        linarith
    · have h1 : Complex.arg ⟨(x : ℝ), (y : ℝ)⟩ < 0 := (arg_lt_zero_iff x y).2 (not_le.1 hy)
      simp only [hy, false_and, and_false, not_false_eq_true, iff_true]
      linarith
  · have h1 : Complex.arg ⟨(x : ℝ), (y : ℝ)⟩ ≤ Real.pi / 2 := by
      rw [Complex.arg_le_pi_div_two_iff]
      left
      show (0 : ℝ) ≤ (x : ℝ)
      exact_mod_cast not_lt.1 hx
    simp only [hx, false_and, not_false_eq_true, iff_true]
    linarith

/-! ### The angles of `specEnv` -/

theorem pseudoAngle_sum_pos {y x : ℚ} (h : ¬ (x = 0 ∧ y = 0)) :
    0 < (if x < 0 then -x else x) + (if y < 0 then -y else y) := by
  split_ifs with h1 h2 h2
  · linarith
  · linarith
  · linarith
  · rcases (not_lt.1 h1).lt_or_eq with h3 | h3
    · linarith
    · rcases (not_lt.1 h2).lt_or_eq with h4 | h4
      · linarith
      · exact absurd ⟨h3.symm, h4.symm⟩ h

theorem pseudoAngle_cases (y x : ℚ) :
    (x = 0 ∧ y = 0 ∧ pseudoAngle y x = 0) ∨
    ∃ s, 0 < s ∧ s = (if x < 0 then -x else x) + (if y < 0 then -y else y) ∧
      ((0 ≤ x ∧ pseudoAngle y x = y / s) ∨
       (x < 0 ∧ 0 ≤ y ∧ pseudoAngle y x = 2 - y / s) ∨
       (x < 0 ∧ y < 0 ∧ pseudoAngle y x = -2 - y / s)) := by
  by_cases h : x = 0 ∧ y = 0
  · left
    obtain ⟨rfl, rfl⟩ := h
    exact ⟨rfl, rfl, by simp [pseudoAngle]⟩
  · right
    have hs := pseudoAngle_sum_pos h
    refine ⟨_, hs, rfl, ?_⟩
    unfold pseudoAngle
    simp only [ne_of_gt hs, if_false]
    by_cases hx : 0 ≤ x
    · left
      exact ⟨hx, by rw [if_pos hx]⟩
    · right
      by_cases hy : 0 ≤ y
      · left
        exact ⟨not_le.1 hx, hy, by rw [if_neg hx, if_pos hy]⟩
      · right
        exact ⟨not_le.1 hx, not_le.1 hy, by rw [if_neg hx, if_neg hy]⟩

theorem pseudoAngle_lt_zero_iff (y x : ℚ) : pseudoAngle y x < 0 ↔ y < 0 := by
  rcases pseudoAngle_cases y x with ⟨rfl, rfl, e⟩ | ⟨s, hs, es, h⟩
  · rw [e]
  rcases h with ⟨hx, e⟩ | ⟨hx, hy, e⟩ | ⟨hx, hy, e⟩
  · rw [e, div_lt_iff hs]
    simp
  · rw [e]
    have : y / s < 1 := by
      rw [div_lt_iff hs, es, if_pos hx, if_neg (not_lt.2 hy)]
      linarith
    constructor
    · intro h; linarith
    · intro h; linarith
  · rw [e]
    have : -1 < y / s := by
      rw [lt_div_iff hs, es, if_pos hx, if_pos hy]
      linarith
    constructor
    · intro _; exact hy
    · intro _; linarith

theorem pseudoAngle_gt_one_iff (y x : ℚ) : 1 < pseudoAngle y x ↔ x < 0 ∧ 0 ≤ y := by
  rcases pseudoAngle_cases y x with ⟨rfl, rfl, e⟩ | ⟨s, hs, es, h⟩
  · rw [e]
    simp
  rcases h with ⟨hx, e⟩ | ⟨hx, hy, e⟩ | ⟨hx, hy, e⟩
  · rw [e, lt_div_iff hs, es, if_neg (not_lt.2 hx)]
    constructor
    · intro h
      split_ifs at h with c <;> linarith
    · intro h
      exact absurd h.1 (not_lt.2 hx)
  · rw [e]
    have : y / s < 1 := by
      rw [div_lt_iff hs, es, if_pos hx, if_neg (not_lt.2 hy)]
      linarith
    constructor
    · intro _; exact ⟨hx, hy⟩
    · intro _; linarith
  · rw [e]
    have : y / s < 0 := div_neg_of_neg_of_pos hy hs
    have : -1 < y / s := by
      rw [lt_div_iff hs, es, if_pos hx, if_pos hy]
      linarith
    constructor
    · intro h; linarith
    · intro h; exact absurd h.2 (not_le.2 hy)

theorem pseudoAngle_lt_neg_one_iff (y x : ℚ) : pseudoAngle y x < -1 ↔ x < 0 ∧ y < 0 := by
  rcases pseudoAngle_cases y x with ⟨rfl, rfl, e⟩ | ⟨s, hs, es, h⟩
  · rw [e]
    simp
  rcases h with ⟨hx, e⟩ | ⟨hx, hy, e⟩ | ⟨hx, hy, e⟩
  · rw [e, div_lt_iff hs, es, if_neg (not_lt.2 hx)]
    constructor
    · intro h
      split_ifs at h with c <;> linarith
    · intro h
      exact absurd h.1 (not_lt.2 hx)
  · rw [e]
    have : y / s < 1 := by
      rw [div_lt_iff hs, es, if_pos hx, if_neg (not_lt.2 hy)]
      linarith
    constructor
    · intro h; linarith
    · intro h; exact absurd h.2 (not_lt.2 hy)
  · rw [e]
    have : y / s < 0 := div_neg_of_neg_of_pos hy hs
    have : -1 < y / s := by
      rw [lt_div_iff hs, es, if_pos hx, if_pos hy]
      linarith
    constructor
    · intro _; exact ⟨hx, hy⟩
    · intro _; linarith

theorem pseudoAngle_lt_three_halves_iff (y x : ℚ) :
    pseudoAngle y x < 3 / 2 ↔ ¬ (x < 0 ∧ 0 ≤ y ∧ y ≤ -x) := by
  rcases pseudoAngle_cases y x with ⟨rfl, rfl, e⟩ | ⟨s, hs, es, h⟩
  · rw [e]
    simp
  rcases h with ⟨hx, e⟩ | ⟨hx, hy, e⟩ | ⟨hx, hy, e⟩
  · rw [e]
    have : y / s ≤ 1 := by
      rw [div_le_iff hs, es, if_neg (not_lt.2 hx)]
      split_ifs with c <;> linarith
    simp only [not_lt.2 hx, false_and, not_false_eq_true, iff_true]
    linarith
  · rw [e]
    simp only [hx, hy, true_and, not_le]
    have e2 : 2 - y / s < 3 / 2 ↔ 1 / 2 < y / s := by
      constructor <;> intro h <;> linarith
    rw [e2, lt_div_iff hs, es, if_pos hx, if_neg (not_lt.2 hy)]
    constructor <;> intro h <;> linarith
  · rw [e]
    have : y / s < 0 := div_neg_of_neg_of_pos hy hs
    have : -1 < y / s := by
      rw [lt_div_iff hs, es, if_pos hx, if_pos hy]
      linarith
    simp only [not_le.2 hy, false_and, and_false, not_false_eq_true, iff_true]
    linarith

/-- The environment `specEnv` computes in exact arithmetic. -/
theorem specEnv_exact (eps : ℚ) : ExactArithmetic (specEnv eps) := by
  refine ⟨fun _ => rfl, fun y x => ⟨?_, ?_, ?_, ?_⟩⟩
  · rw [arg_lt_zero_iff]
    exact pseudoAngle_lt_zero_iff _ _
  · rw [arg_gt_pi_div_two_iff]
    exact pseudoAngle_gt_one_iff _ _
  · rw [arg_lt_neg_pi_div_two_iff]
    exact pseudoAngle_lt_neg_one_iff _ _
  · rw [arg_lt_three_pi_div_four_iff]
    exact pseudoAngle_lt_three_halves_iff _ _

/-! ### The angle tests in exact arithmetic -/

theorem Angle_exact {env : Env} (h : ∀ q, env.fl q = q) (o a b : Point) :
    ∃ X Y : Double, Angle env o a b = env.atan2 X Y ∧ X.val = crossAt o a b ∧
      Y.val = dotAt o a b := by
  refine ⟨_, _, rfl, ?_, ?_⟩ <;>
    simp [Env.sub, Env.add, Env.mul, Env.result, h, Double.ofCoord, crossAt, dotAt]

theorem AngleIsNegative_iff {env : Env} (hE : ExactArithmetic env) (o a b : Point) :
    AngleIsNegative env o a b = true ↔
      Complex.arg ⟨(dotAt o a b : ℝ), (crossAt o a b : ℝ)⟩ < 0 := by
  obtain ⟨X, Y, e, hx, hy⟩ := Angle_exact hE.1 o a b
  simp only [AngleIsNegative, decide_eq_true_eq, e]
  rw [(hE.2 X Y).1, hx, hy]

theorem AngleExceeds90Degrees_iff {env : Env} (hE : ExactArithmetic env) (o a b : Point) :
    AngleExceeds90Degrees env o a b = true ↔
      (Real.pi / 2 < Complex.arg ⟨(dotAt o a b : ℝ), (crossAt o a b : ℝ)⟩ ∨
        Complex.arg ⟨(dotAt o a b : ℝ), (crossAt o a b : ℝ)⟩ < -(Real.pi / 2)) := by
  obtain ⟨X, Y, e, hx, hy⟩ := Angle_exact hE.1 o a b
  simp only [AngleExceeds90Degrees, Bool.or_eq_true, decide_eq_true_eq, e]
  rw [(hE.2 X Y).2.1, (hE.2 X Y).2.2.1, hx, hy]

theorem AngleExceedsPlus90DegreesOrIsNegative_iff {env : Env} (hE : ExactArithmetic env)
    (o a b : Point) :
    AngleExceedsPlus90DegreesOrIsNegative env o a b = true ↔
      (Complex.arg ⟨(dotAt o a b : ℝ), (crossAt o a b : ℝ)⟩ < 0 ∨
        Real.pi / 2 < Complex.arg ⟨(dotAt o a b : ℝ), (crossAt o a b : ℝ)⟩) := by
  obtain ⟨X, Y, e, hx, hy⟩ := Angle_exact hE.1 o a b
  simp only [AngleExceedsPlus90DegreesOrIsNegative, Bool.or_eq_true, decide_eq_true_eq, e]
  rw [(hE.2 X Y).2.1, (hE.2 X Y).1, hx, hy]
  exact Or.comm

/-! ### Doubles nearest to an angle -/

/-- The angle of a direction just left of straight up: for `x < 0 < y` with
`-x < y`, the angle of `(x, y)` lies between `π/2` and `π/2 + (-x)/y`. -/
theorem arg_steep_bounds (x y : ℝ) (hx : x < 0) (hy : 0 < y) (hxy : -x < y) :
    Real.pi / 2 < Complex.arg ⟨x, y⟩ ∧ Complex.arg ⟨x, y⟩ < Real.pi / 2 + -x / y := by
  have hpi := Real.pi_gt_three
  have h0 : 0 < -x / y := div_pos (by linarith) hy
  have h1 : -x / y < 1 := (div_lt_one hy).2 hxy
  have hlo : Real.pi / 2 < Complex.arg ⟨x, y⟩ := by
    rw [← not_le, Complex.arg_le_pi_div_two_iff]
    simp only [not_or, not_le, not_lt]
    exact ⟨hx, le_of_lt hy⟩
  refine ⟨hlo, ?_⟩
  have hle := Complex.arg_le_pi ⟨x, y⟩
  have ht := Complex.tan_arg ⟨x, y⟩
  simp only at ht
  set θ := Complex.arg ⟨x, y⟩ with hθ
  have hper : Real.tan (θ - Real.pi) = y / x := by
    rw [Real.tan_periodic.sub_eq]
    exact ht
  have hin : θ - Real.pi ∈ Set.Ioo (-(Real.pi / 2)) (Real.pi / 2) := by
    constructor <;> linarith
  have hin2 : -(Real.pi / 2 - -x / y) ∈ Set.Ioo (-(Real.pi / 2)) (Real.pi / 2) := by
    constructor <;> linarith
  have hlt := Real.strictMonoOn_tan.lt_iff_lt hin hin2
  have e1 : θ < Real.pi / 2 + -x / y ↔ θ - Real.pi < -(Real.pi / 2 - -x / y) := by
    constructor <;> intro h <;> linarith
  rw [e1, ← hlt, hper, Real.tan_neg, Real.tan_pi_div_two_sub]
  have htan : -x / y < Real.tan (-x / y) := Real.lt_tan h0 (by linarith)
  have e2 : y / x = -(-x / y)⁻¹ := by
    field_simp
  rw [e2, neg_lt_neg_iff]
  exact inv_lt_inv_of_lt h0 htan

/-- The angle of a direction just left of straight down: for `x < 0`, `y < 0`
with `-x < -y`, the angle of `(x, y)` lies between `-π/2 - x/y` and `-π/2`. -/
theorem arg_steep_bounds_neg (x y : ℝ) (hx : x < 0) (hy : y < 0) (hxy : -x < -y) :
    -(Real.pi / 2) - x / y < Complex.arg ⟨x, y⟩ ∧ Complex.arg ⟨x, y⟩ < -(Real.pi / 2) := by
  have hpi := Real.pi_gt_three
  have h := arg_steep_bounds x (-y) hx (by linarith) hxy
  have hc := Complex.arg_conj ⟨x, -y⟩
  have hne : Complex.arg ⟨x, -y⟩ ≠ Real.pi := by
    intro e
    rw [Complex.arg_eq_pi_iff] at e
    simp only [neg_eq_zero] at e
    linarith [e.2]
  rw [if_neg hne] at hc
  have e : (starRingEnd ℂ) ⟨x, -y⟩ = ⟨x, y⟩ := by
    apply Complex.ext <;> simp
  rw [e] at hc
  rw [hc]
  have e2 : -x / -y = x / y := by rw [neg_div_neg_eq]
  rw [e2] at h
  constructor <;> linarith [h.1, h.2]

theorem roundDouble_pi_div_two : roundDouble (piApprox / 2) = 884279719003555 / 2 ^ 49 := by
  decide!

/-- For `x < 0 < y` with `-x / y ≤ 2^-56`, the double nearest to the angle of
`(x, y)` is the `PI_div2` of `doubleEnv`: the angle is above it by less than
`2^-53`, half the spacing of the doubles between 1 and 2. -/
theorem PI_div2_nearest (x y : ℚ) (hx : x < 0) (hy : 0 < y) (hxy : -x / y ≤ 1 / 2 ^ 56) :
    ((roundDouble (piApprox / 2) : ℚ) : ℝ) < Complex.arg ⟨(x : ℝ), (y : ℝ)⟩ ∧
    Complex.arg ⟨(x : ℝ), (y : ℝ)⟩ < ((roundDouble (piApprox / 2) : ℚ) : ℝ) + 1 / 2 ^ 53 := by
  have hx1 : (x : ℝ) < 0 := by exact_mod_cast hx
  have hy1 : (0 : ℝ) < (y : ℝ) := by exact_mod_cast hy
  have hq : (-(x : ℝ)) / (y : ℝ) ≤ 1 / 2 ^ 56 := by
    have h := (Rat.cast_le (K := ℝ)).2 hxy
    push_cast at h
    exact h
  have hlt : -(x : ℝ) < (y : ℝ) := by
    have : (-(x : ℝ)) / (y : ℝ) < 1 := lt_of_le_of_lt hq (by norm_num)
    exact (div_lt_one hy1).1 this
  have h := arg_steep_bounds (x : ℝ) (y : ℝ) hx1 hy1 hlt
  have hlo := Real.pi_gt_d20
  have hhi := Real.pi_lt_d20
  rw [roundDouble_pi_div_two]
  push_cast
  constructor
  · refine lt_trans ?_ h.1
    norm_num at hlo ⊢
    linarith
  · refine lt_of_lt_of_le h.2 ?_
    norm_num at hhi hq ⊢
    linarith

/-- For `x < 0`, `y < 0` with `x / y ≤ 2^-56`, the double nearest to the angle
of `(x, y)` is `-PI_div2`: the angle is below it by less than `2^-53`. -/
theorem neg_PI_div2_nearest (x y : ℚ) (hx : x < 0) (hy : y < 0) (hxy : x / y ≤ 1 / 2 ^ 56) :
    -((roundDouble (piApprox / 2) : ℚ) : ℝ) - 1 / 2 ^ 53 < Complex.arg ⟨(x : ℝ), (y : ℝ)⟩ ∧
    Complex.arg ⟨(x : ℝ), (y : ℝ)⟩ < -((roundDouble (piApprox / 2) : ℚ) : ℝ) := by
  have hx1 : (x : ℝ) < 0 := by exact_mod_cast hx
  have hy1 : (y : ℝ) < 0 := by exact_mod_cast hy
  have hq : (x : ℝ) / (y : ℝ) ≤ 1 / 2 ^ 56 := by
    have h := (Rat.cast_le (K := ℝ)).2 hxy
    push_cast at h
    exact h
  have hlt : -(x : ℝ) < -(y : ℝ) := by
    have h1 : (-(x : ℝ)) / (-(y : ℝ)) < 1 := by
      rw [neg_div_neg_eq]
      exact lt_of_le_of_lt hq (by norm_num)
    exact (div_lt_one (by linarith)).1 h1
  have h := arg_steep_bounds_neg (x : ℝ) (y : ℝ) hx1 hy1 hlt
  have hlo := Real.pi_gt_d20
  have hhi := Real.pi_lt_d20
  rw [roundDouble_pi_div_two]
  push_cast
  constructor
  · refine lt_of_le_of_lt ?_ h.1
    norm_num at hhi hq ⊢
    linarith
  · refine lt_trans h.2 ?_
    norm_num at hlo ⊢
    linarith

/-! ### C14: the result of LargeHole_DontFill -/

theorem nodePoint_of_some {s : SweepContext} {n : NodeId} {nd : Node} {p : Point}
    (h : s.nodes[n]? = some nd) (hp : nd.point = some p) : nodePoint n s = Res.ok p s := by
  simp [nodePoint, getNode_of_some h, hp]

/-- C15, refuted: in `cascadeMesh` no triangle has a delaunay_edge flag set, the
top-level call `Legalize(0)` returns (true, after two flips, the second one in
the recursive call on triangle 1), and on return triangle 1 has
`delaunay_edge[0]` set. -/
theorem Legalize_cascade_leaves_delaunay_edge :
    (∀ t ∈ cascadeMesh.tris, t.delaunay_edge = ⟨false, false, false⟩) ∧
    Legalize 3 0 cascadeMesh = Res.ok true cascadeMeshLegalized ∧
    (∃ t, cascadeMeshLegalized.tris[1]? = some t ∧ t.delaunay_edge.get 0 = true) := by
  refine ⟨by decide, by decide!, ⟨_, rfl, rfl⟩⟩

/-! ### C20: basins that are degenerate or shallow -/

theorem Inv_FillBasinBottom {P : SweepContext → Prop}
    (hP : ∀ s b, P s → P { s with basin := { s.basin with bottom_node := b } }) :
    ∀ fuel, Inv P (FillBasinBottom fuel) := by
  intro fuel
  induction fuel with
  | zero => exact Inv_raise _
  | succ fuel ih =>
    unfold FillBasinBottom
    repeat' first
      | exact Inv_pure _ | exact Inv_deref _ | exact Inv_getNode _ | exact Inv_nodePoint _
      | exact Inv_getCtx | exact ih | exact Inv_modifyCtx (fun s h => hP s _ h)
      | refine Inv_bind ?_ (fun _ => ?_) | split | dsimp only

theorem Inv_FillBasinRight {P : SweepContext → Prop}
    (hP : ∀ s b, P s → P { s with basin := { s.basin with right_node := b } }) :
    ∀ fuel, Inv P (FillBasinRight fuel) := by
  intro fuel
  induction fuel with
  | zero => exact Inv_raise _
  | succ fuel ih =>
    unfold FillBasinRight
    repeat' first
      | exact Inv_pure _ | exact Inv_deref _ | exact Inv_getNode _ | exact Inv_nodePoint _
      | exact Inv_getCtx | exact ih | exact Inv_modifyCtx (fun s h => hP s _ h)
      | refine Inv_bind ?_ (fun _ => ?_) | split | dsimp only

theorem FillBasinBottom_ctx (fuel : Nat) (s : SweepContext) :
    ∃ b, (FillBasinBottom fuel s).ctx = { s with basin := { s.basin with bottom_node := b } } :=
  Inv_FillBasinBottom
    (P := fun x => ∃ b, x = { s with basin := { s.basin with bottom_node := b } })
    (fun _ b h => by obtain ⟨_, rfl⟩ := h; exact ⟨b, rfl⟩) fuel s ⟨_, rfl⟩

theorem FillBasinRight_ctx (fuel : Nat) (s : SweepContext) :
    ∃ b, (FillBasinRight fuel s).ctx = { s with basin := { s.basin with right_node := b } } :=
  Inv_FillBasinRight
    (P := fun x => ∃ b, x = { s with basin := { s.basin with right_node := b } })
    (fun _ b h => by obtain ⟨_, rfl⟩ := h; exact ⟨b, rfl⟩) fuel s ⟨_, rfl⟩

theorem map_point_set {l : List Node} {n : Nat} {nd : Node} (f : Node → Node)
    (h : l[n]? = some nd) (hf : (f nd).point = nd.point) :
    (l.set n (f nd)).map Node.point = l.map Node.point := by
  rw [List.map_set, hf]
  apply List.ext_getElem?
  intro i
  by_cases hi : n = i
  · subst hi
    have hl := heap_lt_of_get h
    have e : l[n] = nd := by
      have := List.getElem?_eq_getElem hl
      rw [h] at this
      exact (Option.some.inj this).symm
    simp [hl, e]
  · simp [List.getElem?_set_ne hi]

theorem Inv_modifyNode_links {P : SweepContext → Prop} (hP : IgnoresNodeLinks P) (t : NodeId)
    (f : Node → Node) (hf : ∀ nd, (f nd).point = nd.point) : Inv P (modifyNode t f) := by
  intro s h
  unfold modifyNode
  split
  · rename_i nd hnd
    exact hP s _ (map_point_set f hnd (hf nd)) h
  · exact h

theorem IgnoresNodeTriangles_of_IgnoresNodeLinks {P : SweepContext → Prop}
    (h : IgnoresNodeLinks P) : IgnoresNodeTriangles P := by
  intro s v hv hs
  refine h s v ?_ hs
  have := congrArg (List.map (fun x : Option Point × Option NodeId × Option NodeId => x.1)) hv
  simpa [List.map_map, Function.comp_def, Node.skel] using this

theorem Inv_Fill_links {P : SweepContext → Prop} (hP : IgnoresTris P) (hM : IgnoresMap P)
    (hN : IgnoresNodeLinks P) (fuel : Nat) (n : NodeId) : Inv P (Fill fuel n) := by
  unfold Fill
  repeat' first
    | exact Inv_pure _ | exact Inv_getTri _ | exact Inv_modifyTri hP _ _ | exact Inv_deref _
    | exact Inv_getNode _ | exact Inv_nodePoint _
    | exact Inv_modifyNode_links hN _ _ (fun _ => rfl)
    | exact Inv_newTriangle hP _ _ _ | exact Inv_MarkNeighbor hP _ _ | exact Inv_AddToMap hM _
    | exact Inv_Legalize hP (IgnoresNodeTriangles_of_IgnoresNodeLinks hN) _ _
    | exact Inv_MapTriangleToNodes (IgnoresNodeTriangles_of_IgnoresNodeLinks hN) _
    | refine Inv_bind ?_ (fun _ => ?_) | split | dsimp only

theorem Inv_FillBasinReq_links {P : SweepContext → Prop} (hP : IgnoresTris P) (hM : IgnoresMap P)
    (hN : IgnoresNodeLinks P) (env : Env) :
    ∀ (fuel : Nat) (n : NodeId), Inv P (FillBasinReq env fuel n) := by
  intro fuel
  induction fuel with
  | zero => intro n; exact Inv_raise _
  | succ fuel ih =>
    intro n
    unfold FillBasinReq
    repeat' first
      | exact Inv_pure _ | exact Inv_deref _ | exact Inv_getNode _ | exact Inv_nodePoint _
      | exact Inv_getCtx | exact ih _ | exact Inv_IsShallow _
      | exact Inv_Fill_links hP hM hN _ _
      | refine Inv_bind ?_ (fun _ => ?_) | split | dsimp only


theorem OnlyBasin_same (s : SweepContext) : OnlyBasin s s := rfl

theorem OnlyBasin_basin {s s1 : SweepContext} (h : OnlyBasin s s1) (b : Basin) :
    OnlyBasin s { s1 with basin := b } := by
  unfold OnlyBasin at *
  rw [h]

theorem OnlyBasin_nodes {s s1 : SweepContext} (h : OnlyBasin s s1) : s1.nodes = s.nodes := by
  unfold OnlyBasin at h
  rw [h]

/-- The part of `FillBasin` after the left node is chosen. -/
theorem FillBasin_tail (env : Env) (fuel : Nat) (s sA : SweepContext) (hA : OnlyBasin s sA)
    (r : Res Unit)
    (hr : (do
      modifyCtx (fun s => { s with basin := { s.basin with bottom_node := s.basin.left_node } })
      FillBasinBottom fuel
      if (← getCtx).basin.bottom_node = (← getCtx).basin.left_node then
        return
      modifyCtx (fun s => { s with basin := { s.basin with right_node := s.basin.bottom_node } })
      FillBasinRight fuel
      if (← getCtx).basin.right_node = (← getCtx).basin.bottom_node then
        return
      let r ← nodePoint (← deref (← getCtx).basin.right_node)
      let l ← nodePoint (← deref (← getCtx).basin.left_node)
      modifyCtx (fun s => { s with basin := { s.basin with width := env.fl (r.x - l.x) } })
      modifyCtx (fun s => { s with basin := { s.basin with left_highest := decide (l.y > r.y) } })
      FillBasinReq env fuel (← deref (← getCtx).basin.bottom_node) : M Unit) sA = r) :
    OnlyBasin s r.ctx ∨
      ∃ s2 bn, OnlyBasin s s2 ∧ ¬ s2.basin.Degenerate ∧ s2.basin.bottom_node = some bn ∧
        (∃ l r, PointOf s2 s2.basin.left_node l ∧ PointOf s2 s2.basin.right_node r ∧
          s2.basin.width = env.fl (r.x - l.x) ∧ s2.basin.left_highest = decide (l.y > r.y)) ∧
        r = FillBasinReq env fuel bn s2 := by
  rw [modifyCtx_bind] at hr
  rcases bind_cases hr with ⟨e, s1, hm, rfl⟩ | ⟨_, sC, hm, hr⟩
  · left
    obtain ⟨b, hb⟩ := FillBasinBottom_ctx fuel
      { sA with basin := { sA.basin with bottom_node := sA.basin.left_node } }
    rw [hm] at hb
    change s1 = _ at hb
    subst hb
    exact OnlyBasin_basin (OnlyBasin_basin hA _) _
  obtain ⟨b, hb⟩ := FillBasinBottom_ctx fuel
    { sA with basin := { sA.basin with bottom_node := sA.basin.left_node } }
  rw [hm] at hb
  change sC = _ at hb
  have hC : OnlyBasin s sC := by subst hb; exact OnlyBasin_basin (OnlyBasin_basin hA _) _
  have hCl : sC.basin.left_node = sA.basin.left_node := by subst hb; rfl
  clear hm
  rw [getCtx_bind, getCtx_bind] at hr
  by_cases h1 : sC.basin.bottom_node = sC.basin.left_node
  · rw [if_pos h1] at hr
    subst hr
    exact Or.inl hC
  rw [if_neg h1, pure_bind_run] at hr
  dsimp only at hr
  rw [modifyCtx_bind] at hr
  rcases bind_cases hr with ⟨e, s1, hm, rfl⟩ | ⟨_, sE, hm, hr⟩
  · left
    obtain ⟨b, hb⟩ := FillBasinRight_ctx fuel
      { sC with basin := { sC.basin with right_node := sC.basin.bottom_node } }
    rw [hm] at hb
    change s1 = _ at hb
    subst hb
    exact OnlyBasin_basin (OnlyBasin_basin hC _) _
  obtain ⟨b2, hb2⟩ := FillBasinRight_ctx fuel
    { sC with basin := { sC.basin with right_node := sC.basin.bottom_node } }
  rw [hm] at hb2
  change sE = _ at hb2
  have hE : OnlyBasin s sE := by subst hb2; exact OnlyBasin_basin (OnlyBasin_basin hC _) _
  have hEl : sE.basin.left_node = sC.basin.left_node := by subst hb2; rfl
  have hEb : sE.basin.bottom_node = sC.basin.bottom_node := by subst hb2; rfl
  clear hm
  rw [getCtx_bind, getCtx_bind] at hr
  by_cases h2 : sE.basin.right_node = sE.basin.bottom_node
  · rw [if_pos h2] at hr
    subst hr
    exact Or.inl hE
  rw [if_neg h2, pure_bind_run] at hr
  rw [getCtx_bind] at hr
  rcases deref_bind_cases hr with rfl | ⟨rn, hrn, hr⟩
  · exact Or.inl hE
  rcases nodePoint_bind_cases hr with rfl | ⟨rnd, pr, hrnd, hpr, hr⟩
  · exact Or.inl hE
  rw [getCtx_bind] at hr
  rcases deref_bind_cases hr with rfl | ⟨ln, hln, hr⟩
  · exact Or.inl hE
  rcases nodePoint_bind_cases hr with rfl | ⟨lnd, pl, hlnd, hpl, hr⟩
  · exact Or.inl hE
  rw [modifyCtx_bind, modifyCtx_bind, getCtx_bind] at hr
  rcases deref_bind_cases hr with rfl | ⟨bn, hbn, hr⟩
  · exact Or.inl (OnlyBasin_basin (OnlyBasin_basin hE _) _)
  right
  refine ⟨_, bn, OnlyBasin_basin (OnlyBasin_basin hE _) _, ?_, hbn, ⟨pl, pr, ⟨ln, lnd, hln, hlnd, hpl⟩,
    ⟨rn, rnd, hrn, hrnd, hpr⟩, rfl, rfl⟩, hr.symm⟩
  rintro (h | h)
  · exact h1 (by rw [← hEb, ← hEl]; exact h)
  · exact h2 h

theorem FillBasin_frame_main (env : Env) (fuel : Nat) (node : NodeId) (s : SweepContext) :
    OnlyBasin s (FillBasin env fuel node s).ctx ∨
      ∃ s2 bn, OnlyBasin s s2 ∧ ¬ s2.basin.Degenerate ∧ s2.basin.bottom_node = some bn ∧
        (∃ l r, PointOf s2 s2.basin.left_node l ∧ PointOf s2 s2.basin.right_node r ∧
          s2.basin.width = env.fl (r.x - l.x) ∧ s2.basin.left_highest = decide (l.y > r.y)) ∧
        FillBasin env fuel node s = FillBasinReq env fuel bn s2 := by
  generalize hr : FillBasin env fuel node s = r
  unfold FillBasin at hr
  rcases getNode_bind_cases hr with rfl | ⟨nd, hnd, hr⟩
  · exact Or.inl rfl
  rcases deref_bind_cases hr with rfl | ⟨p, hp, hr⟩
  · exact Or.inl rfl
  rcases deref_bind_cases hr with rfl | ⟨n1, hn1, hr⟩
  · exact Or.inl rfl
  rcases nodePoint_bind_cases hr with rfl | ⟨nd1, p1, hnd1, hp1, hr⟩
  · exact Or.inl rfl
  rcases getNode_bind_cases hr with rfl | ⟨nd1b, hnd1b, hr⟩
  · exact Or.inl rfl
  dsimp only at hr
  rcases deref_bind_cases hr with rfl | ⟨n2, hn2, hr⟩
  · exact Or.inl rfl
  rcases nodePoint_bind_cases hr with rfl | ⟨nd2, p2, hnd2, hp2, hr⟩
  · exact Or.inl rfl
  split at hr
  · rw [modifyCtx_bind] at hr
    exact FillBasin_tail env fuel s _ (OnlyBasin_basin (OnlyBasin_same s) _) r hr
  · rw [modifyCtx_bind] at hr
    exact FillBasin_tail env fuel s _ (OnlyBasin_basin (OnlyBasin_same s) _) r hr


theorem PointOf_unique {s : SweepContext} {n : Option NodeId} {p q : Point}
    (hp : PointOf s n p) (hq : PointOf s n q) : p = q := by
  obtain ⟨m, nd, rfl, h1, h2⟩ := hp
  obtain ⟨m1, nd1, e, h3, h4⟩ := hq
  cases e
  rw [h1] at h3
  cases h3
  rw [h2] at h4
  exact Option.some.inj h4

theorem PointOf_of_points {s s1 : SweepContext} {n : Option NodeId} {p : Point}
    (h : s1.nodes.map Node.point = s.nodes.map Node.point) (hp : PointOf s1 n p) :
    PointOf s n p := by
  obtain ⟨m, nd, rfl, h1, h2⟩ := hp
  have e := congrArg (fun l => l[m]?) h
  simp only [List.getElem?_map, h1, Option.map_some'] at e
  cases hm : s.nodes[m]? with
  | none => rw [hm] at e; cases e
  | some nd1 =>
    rw [hm] at e
    simp only [Option.map_some', Option.some.injEq] at e
    exact ⟨m, nd1, rfl, hm, by rw [← e, h2]⟩

theorem nodePoint_of_PointOf {s : SweepContext} {n : NodeId} {p : Point}
    (h : PointOf s (some n) p) : nodePoint n s = Res.ok p s := by
  obtain ⟨m, nd, e, h1, h2⟩ := h
  cases e
  simp [nodePoint, getNode_of_some h1, h2]

theorem IsShallow_of_ShallowAsComputed {env : Env} {s : SweepContext} {bn : NodeId}
    {l r : Point}
    (hbn : s.basin.bottom_node = some bn) (hl : PointOf s s.basin.left_node l)
    (hr : PointOf s s.basin.right_node r) (hw : s.basin.width = env.fl (r.x - l.x))
    (hlh : s.basin.left_highest = decide (l.y > r.y)) (h : ShallowAsComputed env s) :
    IsShallow env bn s = Res.ok true s := by
  obtain ⟨l1, r1, b, hl1, hr1, hb, hlt⟩ := h
  cases PointOf_unique hl hl1
  cases PointOf_unique hr hr1
  rw [hbn] at hb
  have eb := nodePoint_of_PointOf hb
  obtain ⟨ln, lnd, eln, h1, h2⟩ := hl
  obtain ⟨rn, rnd, ern, h3, h4⟩ := hr
  have el := nodePoint_of_PointOf ⟨ln, lnd, rfl, h1, h2⟩
  have er := nodePoint_of_PointOf ⟨rn, rnd, rfl, h3, h4⟩
  by_cases c : l.y > r.y
  · have hm : max l.y r.y = l.y := max_eq_left (le_of_lt c)
    rw [hm] at hlt
    simp [IsShallow, eb, hlh, c, eln, el, hw, hlt]
  · have hm : max l.y r.y = r.y := max_eq_right (not_lt.1 c)
    rw [hm] at hlt
    simp [IsShallow, eb, hlh, c, ern, er, hw, hlt]

/-- Without rounding, a basin is shallow as computed exactly when
`right.x - left.x > max(left.y, right.y) - bottom.y`. -/
theorem ShallowAsComputed_exact {env : Env} (h : ∀ q, env.fl q = q) (s : SweepContext) :
    ShallowAsComputed env s ↔ ShallowAtBottom s := by
  unfold ShallowAsComputed ShallowAtBottom
  simp only [h]

/-- C20 (as amended): if the basin that `FillBasin(N)` leaves in the context
is degenerate (`bottom_node = left_node`, or `right_node = bottom_node`), or
shallow at its bottom as the code computes it (the rounded width
`right.x - left.x` exceeds the rounded depth `max(left.y, right.y) - bottom.y`),
or, where the subtractions do not round, shallow at its bottom
(`right.x - left.x > max(left.y, right.y) - bottom.y`), then the call, however
it ends, has changed nothing but the basin scratch: no triangle was created or
changed, and the nodes of the front are as they were. -/
theorem FillBasin_degenerate_or_shallow_keeps_mesh (env : Env) (fuel : Nat) (node : NodeId)
    (s : SweepContext)
    (h : (FillBasin env fuel node s).ctx.basin.Degenerate ∨
      ShallowAsComputed env (FillBasin env fuel node s).ctx ∨
      ((∀ q, env.fl q = q) ∧ ShallowAtBottom (FillBasin env fuel node s).ctx)) :
    (FillBasin env fuel node s).ctx =
      { s with basin := (FillBasin env fuel node s).ctx.basin } := by
  have h : (FillBasin env fuel node s).ctx.basin.Degenerate ∨
      ShallowAsComputed env (FillBasin env fuel node s).ctx := by
    rcases h with h | h | ⟨hfl, h⟩
    · exact Or.inl h
    · exact Or.inr h
    · exact Or.inr ((ShallowAsComputed_exact hfl _).2 h)
  rcases FillBasin_frame_main env fuel node s with h0 | ⟨s2, bn, h2, hnd, hbn, ⟨l, r, hl, hr, hw, hlh⟩, heq⟩
  · exact h0
  rw [heq] at h ⊢
  have hK := Inv_FillBasinReq_links
    (P := fun x => x.basin = s2.basin ∧ x.nodes.map Node.point = s2.nodes.map Node.point)
    (fun _ _ h => h) (fun _ _ h => h) (fun x v hv h => ⟨h.1, hv.trans h.2⟩) env fuel bn s2
    ⟨rfl, rfl⟩
  have hsh : ShallowAsComputed env s2 := by
    rcases h with h | h
    · rw [hK.1] at h
      exact absurd h hnd
    · obtain ⟨l1, r1, b1, a1, a2, a3, a4⟩ := h
      rw [hK.1] at a1 a2 a3
      exact ⟨l1, r1, b1, PointOf_of_points hK.2 a1, PointOf_of_points hK.2 a2,
        PointOf_of_points hK.2 a3, a4⟩
  have e : (FillBasinReq env fuel bn s2).ctx = s2 := by
    cases fuel with
    | zero => rfl
    | succ fuel =>
      unfold FillBasinReq
      simp [IsShallow_of_ShallowAsComputed hbn hl hr hw hlh hsh]
      rfl
  rw [e]
  exact h2

/-- Witness for `FillBasin_degenerate_or_shallow_keeps_mesh`: the basin of
`basinFront`, of width 19 and depth 5, in the exact arithmetic of `specEnv`. -/
theorem FillBasin_degenerate_or_shallow_keeps_mesh_witness :
    FillBasin (specEnv 0) 5 0 basinFront
      = Res.ok () { basinFront with basin := ⟨some 1, some 2, some 4, 19, false⟩ } ∧
    ShallowAtBottom (FillBasin (specEnv 0) 5 0 basinFront).ctx ∧
    (FillBasin (specEnv 0) 5 0 basinFront).ctx =
      { basinFront with basin := (FillBasin (specEnv 0) 5 0 basinFront).ctx.basin } := by
  have e : FillBasin (specEnv 0) 5 0 basinFront
      = Res.ok () { basinFront with basin := ⟨some 1, some 2, some 4, 19, false⟩ } := by
    decide!
  have hs : ShallowAtBottom (FillBasin (specEnv 0) 5 0 basinFront).ctx := by
    rw [e]
    exact ⟨⟨1, 1, 5⟩, ⟨4, 20, 5⟩, ⟨2, 2, 0⟩, ⟨1, _, rfl, rfl, rfl⟩, ⟨4, _, rfl, rfl, rfl⟩,
      ⟨2, _, rfl, rfl, rfl⟩, by norm_num⟩
  exact ⟨e, hs, FillBasin_degenerate_or_shallow_keeps_mesh (specEnv 0) 5 0 basinFront
    (Or.inr (Or.inr ⟨fun _ => rfl, hs⟩))⟩

/-- C20 (the claim as stated fails in double precision): in `unitBasin` the
basin that `FillBasin` identifies has the walls (-2^-60, 1) and (1, 1) and the
bottom (1/2, 0), so that it is not degenerate and
`right.x - left.x = 1 + 2^-60 > 1 = max(left.y, right.y) - bottom.y`; in doubles
the width is 1, `IsShallow` returns false, and the call fills the bottom node:
it creates a triangle and unlinks the node from the front. -/
theorem FillBasin_fills_basin_of_width_just_above_depth :
    ShallowAtBottom (FillBasin (doubleEnv (1 / 10 ^ 12)) 5 0 unitBasin).ctx ∧
    ¬ (FillBasin (doubleEnv (1 / 10 ^ 12)) 5 0 unitBasin).ctx.basin.Degenerate ∧
    FillBasin (doubleEnv (1 / 10 ^ 12)) 5 0 unitBasin
      = Res.ok () (FillBasin (doubleEnv (1 / 10 ^ 12)) 5 0 unitBasin).ctx ∧
    (FillBasin (doubleEnv (1 / 10 ^ 12)) 5 0 unitBasin).ctx.basin
      = ⟨some 1, some 2, some 3, 1, false⟩ ∧
    unitBasin.tris.length = 4 ∧
    (FillBasin (doubleEnv (1 / 10 ^ 12)) 5 0 unitBasin).ctx.tris.length = 5 ∧
    (unitBasin.nodes.map (fun (n : Node) => (n.prev, n.next)))
      = [(none, some 1), (some 0, some 2), (some 1, some 3), (some 2, some 4), (some 3, none)] ∧
    ((FillBasin (doubleEnv (1 / 10 ^ 12)) 5 0 unitBasin).ctx.nodes.map
        (fun (n : Node) => (n.prev, n.next)))
      = [(none, some 1), (some 0, some 3), (some 1, some 3), (some 1, some 4), (some 3, none)] := by
  have hb : (FillBasin (doubleEnv (1 / 10 ^ 12)) 5 0 unitBasin).ctx.basin
      = ⟨some 1, some 2, some 3, 1, false⟩ := by decide!
  have hn : (FillBasin (doubleEnv (1 / 10 ^ 12)) 5 0 unitBasin).ctx.nodes.map Node.point
      = [some ⟨0, -1, 2⟩, some ⟨1, -(1 / 2 ^ 60), 1⟩, some ⟨2, 1 / 2, 0⟩, some ⟨3, 1, 1⟩,
         some ⟨4, 2, 1 / 2⟩] := by decide!
  have hp : ∀ (n : Nat) (p : Point),
      ((FillBasin (doubleEnv (1 / 10 ^ 12)) 5 0 unitBasin).ctx.nodes.map Node.point)[n]?
        = some (some p) →
      PointOf (FillBasin (doubleEnv (1 / 10 ^ 12)) 5 0 unitBasin).ctx (some n) p := by
    intro n p h
    rw [List.getElem?_map] at h
    cases hnd : (FillBasin (doubleEnv (1 / 10 ^ 12)) 5 0 unitBasin).ctx.nodes[n]? with
    | none => rw [hnd] at h; cases h
    | some nd =>
      rw [hnd] at h
      exact ⟨n, nd, rfl, hnd, Option.some.inj h⟩
  refine ⟨⟨⟨1, -(1 / 2 ^ 60), 1⟩, ⟨3, 1, 1⟩, ⟨2, 1 / 2, 0⟩, ?_, ?_, ?_, by norm_num⟩, ?_,
    by decide!, hb, rfl, by decide!, rfl, by decide!⟩
  · rw [hb]
    exact hp 1 _ (by rw [hn]; rfl)
  · rw [hb]
    exact hp 3 _ (by rw [hn]; rfl)
  · rw [hb]
    exact hp 2 _ (by rw [hn]; rfl)
  · rw [hb]
    unfold Basin.Degenerate
    decide

/-! ### C16: `Legalize` returns false exactly when no edge is flipped -/

theorem Returns_pure {α : Type} {Q : α → Prop} {a : α} (h : Q a) : Returns Q (pure a : M α) := by
  intro s b s1 e
  cases e
  exact h

theorem Returns_bind {α β : Type} {Q : β → Prop} {m : M α} {f : α → M β}
    (h : ∀ a, Returns Q (f a)) : Returns Q (m >>= f) := by
  intro s b s1 e
  obtain ⟨a, s2, _, e2⟩ := bind_ok e
  exact h a s2 b s1 e2


theorem getTri_bind_cases {α : Type} {n : TriId} {f : Triangle → M α} {s : SweepContext}
    {r : Res α} (h : (getTri n >>= f) s = r) :
    r = Res.throw Err.undefined_behaviour s ∨ ∃ nd, s.tris[n]? = some nd ∧ f nd s = r := by
  simp only [run_bind, getTri] at h
  cases hn : s.tris[n]? with
  | none => left; rw [hn] at h; exact h.symm
  | some nd => right; rw [hn] at h; exact ⟨nd, rfl, h⟩

theorem pure_ok {α : Type} {a b : α} {s s1 : SweepContext}
    (h : (pure a : M α) s = Res.ok b s1) : b = a ∧ s1 = s := by
  cases h
  exact ⟨rfl, rfl⟩

theorem FlipAt_facts {s : SweepContext} {t : TriId} {i : Fin 3} (h : FlipAt s t i)
    {tt : Triangle} (htt : s.tris[t]? = some tt) :
    tt.delaunay_edge.get i = false ∧
    ∃ (ot : TriId) (ott : Triangle) (op : Point) (oi : Fin 3) (pccw pcw : Point),
      tt.GetNeighbor i = some ot ∧ s.tris[ot]? = some ott ∧
      ott.OppositePoint tt (tt.GetPoint i) = some op ∧ ott.Index op = some oi ∧
      ott.constrained_edge.get oi = false ∧ ott.delaunay_edge.get oi = false ∧
      tt.PointCCW (tt.GetPoint i) = some pccw ∧ tt.PointCW (tt.GetPoint i) = some pcw ∧
      Incircle (tt.GetPoint i) pccw pcw op = true := by
  obtain ⟨tt1, ot, ott, op, oi, pccw, pcw, sm, sr, h1, hde, hot, hott, hop, hoi, hc, hd, hpccw,
    hpcw, hin, _, _⟩ := h
  rw [htt] at h1
  cases h1
  exact ⟨hde, ot, ott, op, oi, pccw, pcw, hot, hott, hop, hoi, hc, hd, hpccw, hpcw, hin⟩

theorem LegalizeEdge_ok {recur : TriId → M Bool} {t : TriId} {i : Fin 3} {s s1 : SweepContext}
    {b : Bool} (h : LegalizeEdge recur t i s = Res.ok b s1) :
    ∃ tt, s.tris[t]? = some tt ∧
      ((b = false ∧ ¬ FlipAt s t i ∧ (s1 = s ∨
        ∃ (ot : TriId) (ott : Triangle) (op : Point) (oi : Fin 3),
          tt.GetNeighbor i = some ot ∧ s.tris[ot]? = some ott ∧
          ott.OppositePoint tt (tt.GetPoint i) = some op ∧ ott.Index op = some oi ∧
          (ott.constrained_edge.get oi = true ∨ ott.delaunay_edge.get oi = true) ∧
          s1 = { s with tris := s.tris.set t { tt with constrained_edge := tt.constrained_edge.set i (ott.constrained_edge.get oi) } })) ∨
      (b = true ∧ FlipAt s t i)) := by
  unfold LegalizeEdge at h
  rcases getTri_bind_cases h with h | ⟨tt, htt, h⟩
  · cases h
  refine ⟨tt, htt, ?_⟩
  dsimp only at h
  by_cases hde : tt.delaunay_edge.get i = true
  · rw [if_pos hde] at h
    obtain ⟨rfl, rfl⟩ := pure_ok h
    refine Or.inl ⟨rfl, fun hf => ?_, Or.inl rfl⟩
    have := (FlipAt_facts hf htt).1
    rw [hde] at this
    cases this
  rw [if_neg hde, pure_bind_run] at h
  cases hot : tt.GetNeighbor i with
  | none =>
    rw [hot] at h
    obtain ⟨rfl, rfl⟩ := pure_ok h
    refine Or.inl ⟨rfl, fun hf => ?_, Or.inl rfl⟩
    obtain ⟨_, ot1, _, _, _, _, _, h1, _⟩ := FlipAt_facts hf htt
    rw [hot] at h1
    cases h1
  | some ot =>
    rw [hot] at h
    dsimp only at h
    rcases getTri_bind_cases h with h | ⟨ott, hott, h⟩
    · cases h
    rcases deref_bind_cases h with h | ⟨op, hop, h⟩
    · cases h
    rcases deref_bind_cases h with h | ⟨oi, hoi, h⟩
    · cases h
    by_cases hc : (ott.constrained_edge.get oi || ott.delaunay_edge.get oi) = true
    · rw [if_pos hc] at h
      obtain ⟨u, s2, hm, h⟩ := bind_ok h
      obtain ⟨rfl, rfl⟩ := pure_ok h
      rw [modifyTri_of_some htt] at hm
      cases hm
      refine Or.inl ⟨rfl, fun hf => ?_, Or.inr ⟨ot, ott, op, oi, rfl, hott, hop, hoi, ?_, rfl⟩⟩
      · obtain ⟨_, ot1, ott1, op1, oi1, _, _, h1, h2, h3, h4, h5, h6, _⟩ := FlipAt_facts hf htt
        rw [hot] at h1
        cases h1
        rw [hott] at h2
        cases h2
        rw [hop] at h3
        cases h3
        rw [hoi] at h4
        cases h4
        rw [h5, h6] at hc
        cases hc
      · simpa using hc
    rw [if_neg hc, pure_bind_run] at h
    rcases deref_bind_cases h with h | ⟨pccw, hpccw, h⟩
    · cases h
    rcases deref_bind_cases h with h | ⟨pcw, hpcw, h⟩
    · cases h
    by_cases hin : Incircle (tt.GetPoint i) pccw pcw op = true
    · rw [if_pos hin] at h
      obtain ⟨u, sa, hma, h⟩ := bind_ok h
      obtain ⟨u1, sm, hmb, h⟩ := bind_ok h
      obtain ⟨u2, sr, hrot, h⟩ := bind_ok h
      have hb : b = true := by
        refine Returns_bind (Q := fun x => x = true) (fun _ => ?_) _ _ _ h
        repeat' first
          | exact Returns_pure rfl
          | refine Returns_bind (fun _ => ?_)
          | split
      refine Or.inr ⟨hb, tt, ot, ott, op, oi, pccw, pcw, sm, sr, htt, ?_, hot, hott, hop, hoi,
        ?_, ?_, hpccw, hpcw, hin, ?_, hrot⟩
      · simpa using hde
      · simpa using (Bool.or_eq_false_iff.1 (by simpa using hc)).1
      · simpa using (Bool.or_eq_false_iff.1 (by simpa using hc)).2
      · simp only [run_bind, hma, hmb]
    · rw [if_neg hin, pure_bind_run] at h
      obtain ⟨rfl, rfl⟩ := pure_ok h
      refine Or.inl ⟨rfl, fun hf => ?_, Or.inl rfl⟩
      obtain ⟨_, ot1, ott1, op1, oi1, pccw1, pcw1, h1, h2, h3, h4, h5, h6, h7, h8, h9⟩ :=
        FlipAt_facts hf htt
      rw [hot] at h1
      cases h1
      rw [hott] at h2
      cases h2
      rw [hop] at h3
      cases h3
      rw [hpccw] at h7
      cases h7
      rw [hpcw] at h8
      cases h8
      exact hin h9




theorem ExaminedAt_start {s : SweepContext} {t : TriId} {tt : Triangle}
    (htt : s.tris[t]? = some tt) : ExaminedAt s t tt 0 s := by
  refine ⟨tt.constrained_edge, ?_, fun j hj => absurd rfl hj⟩
  have e : s.tris.set t tt = s.tris := by
    apply List.ext_getElem?
    intro j
    rw [heap_set_get htt]
    split
    · rename_i h
      rw [← h, htt]
    · rfl
  change s = { s with tris := s.tris.set t tt }
  rw [e]

theorem ExaminedAt_step {recur : TriId → M Bool} {s sk sk1 : SweepContext} {t : TriId}
    {tt : Triangle} {b : Bool} (k : Fin 3) (htt : s.tris[t]? = some tt)
    (hs : ExaminedAt s t tt k.val sk) (h : LegalizeEdge recur t k sk = Res.ok b sk1) :
    (b = true ∧ FlipAt sk t k) ∨
      (b = false ∧ ¬ FlipAt sk t k ∧ ExaminedAt s t tt (k.val + 1) sk1) := by
  obtain ⟨ce, rfl, hce⟩ := hs
  have hk : (s.tris.set t { tt with constrained_edge := ce })[t]? =
      some { tt with constrained_edge := ce } := by
    rw [heap_set_get htt]
    simp
  obtain ⟨tt1, htt1, hc⟩ := LegalizeEdge_ok h
  change (s.tris.set t { tt with constrained_edge := ce })[t]? = some tt1 at htt1
  rw [hk] at htt1
  cases htt1
  rcases hc with ⟨rfl, hnf, hc⟩ | ⟨rfl, hf⟩
  · refine Or.inr ⟨rfl, hnf, ?_⟩
    rcases hc with rfl | ⟨ot, ott, op, oi, hot, hott, hop, hoi, hcd, rfl⟩
    · exact ⟨ce, rfl, fun j hj => ⟨Nat.lt_succ_of_lt (hce j hj).1, (hce j hj).2⟩⟩
    · refine ⟨ce.set k (ott.constrained_edge.get oi), ?_, ?_⟩
      · simp only [List.set_set]
      · intro j hj
        rw [Arr3.get_set] at hj ⊢
        by_cases hkj : k = j
        · subst hkj
          rw [if_pos rfl]
          refine ⟨Nat.lt_succ_self _, ot, ott, op, oi, hot, fun hne => ?_, fun he => ?_, hop, hoi,
            hcd, rfl⟩
          · change (s.tris.set t _)[ot]? = some ott at hott
            rw [heap_set_get htt, if_neg (Ne.symm hne)] at hott
            exact hott
          · subst he
            change (s.tris.set ot _)[ot]? = some ott at hott
            rw [hk] at hott
            exact ⟨ce, (Option.some.inj hott).symm⟩
        · rw [if_neg hkj] at hj ⊢
          exact ⟨Nat.lt_succ_of_lt (hce j hj).1, (hce j hj).2⟩
  · exact Or.inl ⟨rfl, hf⟩

/-- C16: when `Legalize(t)` returns, t is a triangle of the mesh, and:
if it returns true, an edge of t was flipped, that is, for some edge i the
code reached and completed the call of `RotateTrianglePair` (`FlipAt`), in a
state that differs from the entry state at most in constrained flags of t
copied while earlier edges were skipped; if it returns false, no edge was
flipped when it was examined, and the state on return is the entry state
except for constrained_edge flags of t, each changed flag being the flag on the
neighbour's side of that edge, which is constrained or marked delaunay there:
vertices, neighbour links and delaunay marks of all triangles, the registry,
the node-to-triangle pointers and the front are as on entry. -/
theorem Legalize_false_iff_no_flip (fuel : Nat) (t : TriId) (s s1 : SweepContext) (b : Bool)
    (h : Legalize fuel t s = Res.ok b s1) :
    ∃ tt, s.tris[t]? = some tt ∧
      (b = true → ∃ (i : Fin 3) (sk : SweepContext), ExaminedAt s t tt i.val sk ∧ FlipAt sk t i) ∧
      (b = false →
        (∀ i : Fin 3, ∃ sk, ExaminedAt s t tt i.val sk ∧ ¬ FlipAt sk t i) ∧
        ∃ ce : Arr3 Bool,
          s1 = { s with tris := s.tris.set t { tt with constrained_edge := ce } } ∧
          ∀ j : Fin 3, ce.get j ≠ tt.constrained_edge.get j →
            CopiedFromNeighbour s t tt j (ce.get j)) := by
  cases fuel with
  | zero => cases h
  | succ fuel =>
    unfold Legalize at h
    obtain ⟨b0, s0, h0, h⟩ := bind_ok h
    obtain ⟨tt, htt, _⟩ := LegalizeEdge_ok h0
    refine ⟨tt, htt, ?_⟩
    rcases ExaminedAt_step 0 htt (ExaminedAt_start htt) h0 with ⟨rfl, hf0⟩ | ⟨rfl, hn0, he0⟩
    · obtain ⟨rfl, rfl⟩ := pure_ok h
      exact ⟨fun _ => ⟨0, s, ExaminedAt_start htt, hf0⟩, fun hb => by cases hb⟩
    simp only [Bool.false_eq_true, if_false, pure_bind_run] at h
    obtain ⟨b1, s2, h1, h⟩ := bind_ok h
    rcases ExaminedAt_step 1 htt he0 h1 with ⟨rfl, hf1⟩ | ⟨rfl, hn1, he1⟩
    · obtain ⟨rfl, rfl⟩ := pure_ok h
      exact ⟨fun _ => ⟨1, s0, he0, hf1⟩, fun hb => by cases hb⟩
    simp only [Bool.false_eq_true, if_false, pure_bind_run] at h
    obtain ⟨b2, s3, h2, h⟩ := bind_ok h
    rcases ExaminedAt_step 2 htt he1 h2 with ⟨rfl, hf2⟩ | ⟨rfl, hn2, he2⟩
    · obtain ⟨rfl, rfl⟩ := pure_ok h
      exact ⟨fun _ => ⟨2, s2, he1, hf2⟩, fun hb => by cases hb⟩
    simp only [Bool.false_eq_true, if_false, pure_bind_run] at h
    obtain ⟨rfl, rfl⟩ := pure_ok h
    refine ⟨fun hb => (by cases hb), fun _ => ⟨?_, ?_⟩⟩
    · intro i
      fin_cases i
      · exact ⟨s, ExaminedAt_start htt, hn0⟩
      · exact ⟨s0, he0, hn1⟩
      · exact ⟨s2, he1, hn2⟩
    · obtain ⟨ce, hce, hj⟩ := he2
      exact ⟨ce, hce, fun j hne => (hj j hne).2⟩


theorem Legalize_false_iff_no_flip_witness :
    Legalize 1 0 halfConstrainedPair = Res.ok false constrainedPair ∧
    ∃ tt, halfConstrainedPair.tris[0]? = some tt ∧
      (∀ i : Fin 3, ∃ sk, ExaminedAt halfConstrainedPair 0 tt i.val sk ∧ ¬ FlipAt sk 0 i) ∧
      ∃ ce : Arr3 Bool,
        constrainedPair = { halfConstrainedPair with tris := halfConstrainedPair.tris.set 0 { tt with constrained_edge := ce } } ∧
        ∀ j : Fin 3, ce.get j ≠ tt.constrained_edge.get j →
          CopiedFromNeighbour halfConstrainedPair 0 tt j (ce.get j) := by
  have e : Legalize 1 0 halfConstrainedPair = Res.ok false constrainedPair := by decide!
  obtain ⟨tt, htt, _, hf⟩ :=
    Legalize_false_iff_no_flip 1 0 halfConstrainedPair constrainedPair false e
  exact ⟨e, tt, htt, hf rfl⟩

/-! ### C12: `FinalizationPolygon` -/

theorem WalkUnconstrained_step {s : SweepContext} {p : Point} {t : Option TriId} {k : Nat}
    (h : WalkUnconstrained s p t (k + 1)) :
    ∃ t0 tri, t = some t0 ∧ s.tris[t0]? = some tri ∧ tri.GetConstrainedEdgeCW p = false ∧
      WalkUnconstrained s p (tri.NeighborCCW p) k ∧
      ∀ j, ccwWalk s p (j + 1) t = ccwWalk s p j (tri.NeighborCCW p) := by
  obtain ⟨t0, tri, h0, htri, hc⟩ := h 0 (Nat.succ_pos _)
  change t = some t0 at h0
  subst h0
  have e : ∀ j, ccwWalk s p (j + 1) (some t0) = ccwWalk s p j (tri.NeighborCCW p) := by
    intro j
    simp only [ccwWalk, htri]
  refine ⟨t0, tri, rfl, htri, hc, fun j hj => ?_, e⟩
  obtain ⟨tj, trj, h1, h2, h3⟩ := h (j + 1) (Nat.succ_lt_succ hj)
  rw [e] at h1
  exact ⟨tj, trj, h1, h2, h3⟩

theorem FinalizationWalk_found {s : SweepContext} {p : Point} :
    ∀ (k fuel : Nat) (t : Option TriId) (tk : TriId) (tri : Triangle), k < fuel →
      WalkUnconstrained s p t k → ccwWalk s p k t = some tk → s.tris[tk]? = some tri →
      tri.GetConstrainedEdgeCW p = true →
      FinalizationWalk (some p) fuel t s = Res.ok (some tk) s := by
  intro k
  induction k with
  | zero =>
    intro fuel t tk tri hf _ hw htri hc
    change t = some tk at hw
    subst hw
    obtain ⟨fuel, rfl⟩ := Nat.exists_eq_succ_of_ne_zero (Nat.ne_of_gt hf)
    simp [FinalizationWalk, getTri_of_some htri, hc]
  | succ k ih =>
    intro fuel t tk tri hf hu hw htri hc
    obtain ⟨t0, tri0, rfl, h0, hc0, hu1, e⟩ := WalkUnconstrained_step hu
    obtain ⟨fuel, rfl⟩ := Nat.exists_eq_succ_of_ne_zero (Nat.ne_of_gt (Nat.lt_of_le_of_lt (Nat.zero_le _) hf))
    rw [e] at hw
    have := ih fuel _ tk tri (Nat.lt_of_succ_lt_succ hf) hu1 hw htri hc
    simp [FinalizationWalk, getTri_of_some h0, hc0, this]

theorem FinalizationWalk_missing {s : SweepContext} {p : Point} :
    ∀ (k fuel : Nat) (t : Option TriId), k < fuel →
      WalkUnconstrained s p t k → ccwWalk s p k t = none →
      FinalizationWalk (some p) fuel t s = Res.ok none s := by
  intro k
  induction k with
  | zero =>
    intro fuel t hf _ hw
    change t = none at hw
    subst hw
    obtain ⟨fuel, rfl⟩ := Nat.exists_eq_succ_of_ne_zero (Nat.ne_of_gt hf)
    simp [FinalizationWalk]
  | succ k ih =>
    intro fuel t hf hu hw
    obtain ⟨t0, tri0, rfl, h0, hc0, hu1, e⟩ := WalkUnconstrained_step hu
    obtain ⟨fuel, rfl⟩ := Nat.exists_eq_succ_of_ne_zero (Nat.ne_of_gt (Nat.lt_of_le_of_lt (Nat.zero_le _) hf))
    rw [e] at hw
    have := ih fuel _ (Nat.lt_of_succ_lt_succ hf) hu1 hw
    simp [FinalizationWalk, getTri_of_some h0, hc0, this]

/-- C12: with n = head.next, p = n.point and the walk from n.triangle that
steps to the neighbour counter-clockwise of p: if the triangle reached after k
steps is the first whose edge clockwise of p is marked constrained, then
`FinalizationPolygon` is one call of `MeshClean` on that triangle, in the
state it was entered with; if the walk reaches a missing neighbour after k
steps without finding such a triangle, `FinalizationPolygon` returns without
error and leaves the state, and so every interior flag, as it was, whatever
`MeshClean` is. -/
theorem FinalizationPolygon_seeds_MeshClean (ops : ContextOps) (fuel : Nat) (s : SweepContext)
    (head n : NodeId) (hd nd : Node) (p : Point)
    (hh : s.head_ = some head) (hhd : s.nodes[head]? = some hd) (hn : hd.next = some n)
    (hnd : s.nodes[n]? = some nd) (hp : nd.point = some p) :
    (∀ (k : Nat) (tk : TriId) (tri : Triangle), k < fuel →
      WalkUnconstrained s p nd.triangle k → ccwWalk s p k nd.triangle = some tk →
      s.tris[tk]? = some tri → tri.GetConstrainedEdgeCW p = true →
      FinalizationPolygon ops fuel s = ops.MeshClean tk s) ∧
    (∀ k : Nat, k < fuel →
      WalkUnconstrained s p nd.triangle k → ccwWalk s p k nd.triangle = none →
      FinalizationPolygon ops fuel s = Res.ok () s) := by
  constructor
  · intro k tk tri hk hu hw htri hc
    have := FinalizationWalk_found k fuel _ tk tri hk hu hw htri hc
    simp [FinalizationPolygon, hh, getNode_of_some hhd, hn, getNode_of_some hnd, hp, this]
  · intro k hk hu hw
    have := FinalizationWalk_missing k fuel _ hk hu hw
    simp [FinalizationPolygon, hh, getNode_of_some hhd, hn, getNode_of_some hnd, hp, this]

theorem FinalizationPolygon_seeds_MeshClean_witness :
    FinalizationPolygon (specOps sw sx false 9) 9 seedMesh = MeshClean 9 2 seedMesh ∧
    FinalizationPolygon (specOps sw sx false 9) 9 splitMesh = Res.ok () splitMesh := by
  constructor
  · refine (FinalizationPolygon_seeds_MeshClean (specOps sw sx false 9) 9 seedMesh 0 1
      ⟨some sw, some 2, some 1, none⟩ ⟨some sq, some 0, some 2, some 0⟩ sq rfl rfl rfl rfl rfl).1
      1 2 { Triangle.mk3 sq sw sm with neighbors_ := ⟨some 3, some 0, none⟩
                                       constrained_edge := ⟨false, true, false⟩ }
      (by decide) ?_ rfl rfl rfl
    intro j hj
    obtain rfl : j = 0 := by omega
    exact ⟨0, splitT0, rfl, rfl, rfl⟩
  · refine (FinalizationPolygon_seeds_MeshClean (specOps sw sx false 9) 9 splitMesh 0 1
      ⟨some sw, some 2, some 1, none⟩ ⟨some sq, some 0, some 2, some 0⟩ sq rfl rfl rfl rfl rfl).2
      2 (by decide) ?_ rfl
    intro j hj
    have : j = 0 ∨ j = 1 := by omega
    rcases this with rfl | rfl
    · exact ⟨0, splitT0, rfl, rfl, rfl⟩
    · exact ⟨2, _, rfl, rfl, rfl⟩

/-! ### The single-triangle scenario -/

/-- The single-triangle scenario with the helpers of the context as the spec
words them: `Triangulate` on the outline [(0,0), (1,0), (0,1)] returns with four
triangles in the mesh; `MapTriangleToNodes`, mapping every vertex that is on
the front, has left the front node of (0,1) with the triangle filled to its
left, so `FinalizationPolygon` seeds `MeshClean` there: the three triangles
that have a sentinel vertex are marked interior and the triangle
((0,1), (0,0), (1,0)) of the outline is not. -/
theorem Triangulate_triangle_with_spec_helpers :
    (Triangulate (specEnv 0) (specOps leftSentinel rightSentinel false 9) 9
      (outlineContext triangleOutline)).err = none ∧
    (Triangulate (specEnv 0) (specOps leftSentinel rightSentinel false 9) 9
      (outlineContext triangleOutline)).ctx.tris.map (fun t => (t.points_, t.interior_)) =
        [(⟨⟨0, 0, 0⟩, leftSentinel, rightSentinel⟩, true),
         (⟨⟨1, 1, 0⟩, ⟨0, 0, 0⟩, rightSentinel⟩, true),
         (⟨⟨2, 0, 1⟩, ⟨0, 0, 0⟩, ⟨1, 1, 0⟩⟩, false),
         (⟨leftSentinel, ⟨0, 0, 0⟩, ⟨2, 0, 1⟩⟩, true)] := by
  decide!

/-! ### C19: the left fill functions mirror the right ones -/

theorem FillRightConcaveEdgeEvent_eq_On (env : Env) :
    ∀ fuel edge node, FillRightConcaveEdgeEvent env fuel edge node =
      FillConcaveEdgeEventOn Side.right Fill env fuel edge node := by
  intro fuel
  induction fuel with
  | zero => intro edge node; rfl
  | succ fuel ih =>
    intro edge node
    unfold FillRightConcaveEdgeEvent FillConcaveEdgeEventOn
    simp only [ih]
    rfl

theorem FillLeftConcaveEdgeEvent_eq_On (env : Env) :
    ∀ fuel edge node, FillLeftConcaveEdgeEvent env fuel edge node =
      FillConcaveEdgeEventOn Side.left Fill env fuel edge node := by
  intro fuel
  induction fuel with
  | zero => intro edge node; rfl
  | succ fuel ih =>
    intro edge node
    unfold FillLeftConcaveEdgeEvent FillConcaveEdgeEventOn
    simp only [ih]
    rfl

theorem FillRightConvexEdgeEvent_eq_On (env : Env) :
    ∀ fuel edge node, FillRightConvexEdgeEvent env fuel edge node =
      FillConvexEdgeEventOn Side.right Fill env fuel edge node := by
  intro fuel
  induction fuel with
  | zero => intro edge node; rfl
  | succ fuel ih =>
    intro edge node
    unfold FillRightConvexEdgeEvent FillConvexEdgeEventOn
    simp only [ih, FillRightConcaveEdgeEvent_eq_On]
    rfl

theorem FillLeftConvexEdgeEvent_eq_On (env : Env) :
    ∀ fuel edge node, FillLeftConvexEdgeEvent env fuel edge node =
      FillConvexEdgeEventOn Side.left Fill env fuel edge node := by
  intro fuel
  induction fuel with
  | zero => intro edge node; rfl
  | succ fuel ih =>
    intro edge node
    unfold FillLeftConvexEdgeEvent FillConvexEdgeEventOn
    simp only [ih, FillLeftConcaveEdgeEvent_eq_On]
    rfl

theorem FillRightBelowEdgeEvent_eq_On (env : Env) :
    ∀ fuel edge node, FillRightBelowEdgeEvent env fuel edge node =
      FillBelowEdgeEventOn Side.right Fill env fuel edge node := by
  intro fuel
  induction fuel with
  | zero => intro edge node; rfl
  | succ fuel ih =>
    intro edge node
    unfold FillRightBelowEdgeEvent FillBelowEdgeEventOn
    simp only [ih, FillRightConcaveEdgeEvent_eq_On, FillRightConvexEdgeEvent_eq_On]
    rfl

theorem FillLeftBelowEdgeEvent_eq_On (env : Env) :
    ∀ fuel edge node, FillLeftBelowEdgeEvent env fuel edge node =
      FillBelowEdgeEventOn Side.left Fill env fuel edge node := by
  intro fuel
  induction fuel with
  | zero => intro edge node; rfl
  | succ fuel ih =>
    intro edge node
    unfold FillLeftBelowEdgeEvent FillBelowEdgeEventOn
    simp only [ih, FillLeftConcaveEdgeEvent_eq_On, FillLeftConvexEdgeEvent_eq_On]
    rfl

theorem FillRightAboveEdgeEvent_eq_On (env : Env) :
    ∀ fuel edge node, FillRightAboveEdgeEvent env fuel edge node =
      FillAboveEdgeEventOn Side.right Fill env fuel edge node := by
  intro fuel
  induction fuel with
  | zero => intro edge node; rfl
  | succ fuel ih =>
    intro edge node
    unfold FillRightAboveEdgeEvent FillAboveEdgeEventOn
    simp only [ih, FillRightBelowEdgeEvent_eq_On]
    rfl

theorem FillLeftAboveEdgeEvent_eq_On (env : Env) :
    ∀ fuel edge node, FillLeftAboveEdgeEvent env fuel edge node =
      FillAboveEdgeEventOn Side.left Fill env fuel edge node := by
  intro fuel
  induction fuel with
  | zero => intro edge node; rfl
  | succ fuel ih =>
    intro edge node
    unfold FillLeftAboveEdgeEvent FillAboveEdgeEventOn
    simp only [ih, FillLeftBelowEdgeEvent_eq_On]
    rfl


/-! #### Running two pieces of code side by side -/

theorem FillFailed_bind {α β : Type} {m : M α} {f : α → M β} {s : SweepContext}
    (h : FillFailed (m s)) : FillFailed ((m >>= f) s) := by
  obtain ⟨k, n, s0, e, s1, h1, h2⟩ := h
  exact ⟨k, n, s0, e, s1, h1, by rw [run_bind, h2]⟩

theorem Sim_pure {α β : Type} {Rel : SweepContext → SweepContext → Prop} {R : α → β → Prop}
    {a : α} {b : β} (h : R a b) : Sim Rel R (pure a : M α) (pure b : M β) :=
  fun _ _ hs => Or.inl ⟨h, hs⟩

theorem Sim_raise {α β : Type} {Rel : SweepContext → SweepContext → Prop} {R : α → β → Prop}
    (e : Err) : Sim Rel R (raise e : M α) (raise e : M β) :=
  fun _ _ hs => Or.inl ⟨rfl, hs⟩

theorem Sim_bind {α β γ δ : Type} {Rel : SweepContext → SweepContext → Prop}
    {R : α → β → Prop} {Q : γ → δ → Prop} {m : M α} {m1 : M β} {f : α → M γ} {f1 : β → M δ}
    (hm : Sim Rel R m m1) (hf : ∀ a b, R a b → Sim Rel Q (f a) (f1 b)) :
    Sim Rel Q (m >>= f) (m1 >>= f1) := by
  intro s s1 hs
  rcases hm s s1 hs with h | h | h
  · cases e : m s with
    | ok a s2 =>
      cases e1 : m1 s1 with
      | ok b s3 =>
        rw [e, e1] at h
        have := hf a b h.1 s2 s3 h.2
        simpa only [run_bind, e, e1] using this
      | throw x s3 =>
        rw [e, e1] at h
        exact h.elim
    | throw x s2 =>
      cases e1 : m1 s1 with
      | ok b s3 =>
        rw [e, e1] at h
        exact h.elim
      | throw y s3 =>
        rw [e, e1] at h
        left
        simp only [run_bind, e, e1]
        exact h
  · exact Or.inr (Or.inl (FillFailed_bind h))
  · exact Or.inr (Or.inr (FillFailed_bind h))

theorem Sim_ite {α β : Type} {Rel : SweepContext → SweepContext → Prop} {R : α → β → Prop}
    {c c1 : Prop} [Decidable c] [Decidable c1] {m n : M α} {m1 n1 : M β} (hc : c ↔ c1)
    (hm : Sim Rel R m m1) (hn : Sim Rel R n n1) :
    Sim Rel R (if c then m else n) (if c1 then m1 else n1) := by
  by_cases h : c
  · rw [if_pos h, if_pos (hc.1 h)]
    exact hm
  · rw [if_neg h, if_neg (fun h1 => h (hc.2 h1))]
    exact hn

theorem Sim_deref {α β : Type} {Rel : SweepContext → SweepContext → Prop} {R : α → β → Prop}
    {o : Option α} {o1 : Option β}
    (h : (o = none ∧ o1 = none) ∨ ∃ a b, o = some a ∧ o1 = some b ∧ R a b) :
    Sim Rel R (deref o) (deref o1) := by
  rcases h with ⟨rfl, rfl⟩ | ⟨a, b, rfl, rfl, h⟩
  · exact fun _ _ hs => Or.inl ⟨rfl, hs⟩
  · exact fun _ _ hs => Or.inl ⟨h, hs⟩

theorem Sim_deref_eq {α : Type} {Rel : SweepContext → SweepContext → Prop}
    {o o1 : Option α} (h : o1 = o) : Sim Rel Eq (deref o) (deref o1) := by
  subst h
  cases o1 with
  | none => exact fun _ _ hs => Or.inl ⟨rfl, hs⟩
  | some a => exact fun _ _ hs => Or.inl ⟨rfl, hs⟩

theorem Sim_getNode {Rel : SweepContext → SweepContext → Prop}
    (hM : ∀ s s1, Rel s s1 → Mirrored s s1) (n : NodeId) :
    Sim Rel MirrorNode (getNode n) (getNode n) := by
  intro s s1 hs
  left
  rcases (hM s s1 hs).1 n with ⟨h, h1⟩ | ⟨nd, nd1, h, h1, hm⟩
  · simp only [getNode, h, h1]
    exact ⟨rfl, hs⟩
  · simp only [getNode, h, h1]
    exact ⟨hm, hs⟩

theorem Sim_getEdge {Rel : SweepContext → SweepContext → Prop}
    (hM : ∀ s s1, Rel s s1 → Mirrored s s1) (e : EdgeId) :
    Sim Rel (fun x y => y = x.mirror) (getEdge e) (getEdge e) := by
  intro s s1 hs
  left
  have h := (hM s s1 hs).2 e
  cases he : s.edges[e]? with
  | none =>
    rw [he] at h
    simp only [getEdge, he, h, Option.map_none']
    exact ⟨rfl, hs⟩
  | some x =>
    rw [he] at h
    simp only [getEdge, he, h, Option.map_some']
    exact ⟨rfl, hs⟩

theorem Sim_nodePoint {Rel : SweepContext → SweepContext → Prop}
    (hM : ∀ s s1, Rel s s1 → Mirrored s s1) (n : NodeId) :
    Sim Rel (fun x y => y = x.mirror) (nodePoint n) (nodePoint n) := by
  unfold nodePoint
  refine Sim_bind (Sim_getNode hM n) (fun nd nd1 h => ?_)
  refine Sim_deref ?_
  rw [h.1]
  cases nd.point with
  | none => exact Or.inl ⟨rfl, rfl⟩
  | some p => exact Or.inr ⟨p, p.mirror, rfl, rfl, rfl⟩

/-- The step to the neighbour, going left in the one run and right in the
reflected one. -/
theorem Sim_step {Rel : SweepContext → SweepContext → Prop}
    (hM : ∀ s s1, Rel s s1 → Mirrored s s1) (n : NodeId) :
    Sim Rel Eq (getNode n >>= fun nd => deref (Side.left.step nd))
      (getNode n >>= fun nd => deref (Side.right.step nd)) := by
  refine Sim_bind (Sim_getNode hM n) (fun nd nd1 h => ?_)
  exact Sim_deref_eq h.2.1

theorem Point.mirror_inj {p q : Point} (h : p.mirror = q.mirror) : p = q := by
  cases p
  cases q
  simp only [Point.mirror, Point.mk.injEq, neg_inj] at h
  obtain ⟨h1, h2, h3⟩ := h
  subst h1 h2 h3
  rfl

theorem turn_iff {env env1 : Env} (hE : MirrorEnv env env1) (a b c : Point) :
    env.Orient2d a b c = Side.left.turn ↔
      env1.Orient2d a.mirror b.mirror c.mirror = Side.right.turn := by
  rw [hE]
  cases env.Orient2d a b c <;> simp [Side.turn, Orientation.mirror]

theorem before_iff (a b : Point) :
    Side.left.before a.x b.x ↔ Side.right.before a.mirror.x b.mirror.x := by
  simp [Side.before, Point.mirror]


theorem ne_iff_mirror (p q : Point) : p ≠ q ↔ p.mirror ≠ q.mirror :=
  ⟨fun h e => h (Point.mirror_inj e), fun h e => h (by rw [e])⟩

theorem Sim_FillConcaveEdgeEventOn {Rel : SweepContext → SweepContext → Prop}
    {env env1 : Env} {fill fill1 : Nat → NodeId → M Unit}
    (hE : MirrorEnv env env1) (hM : ∀ s s1, Rel s s1 → Mirrored s s1)
    (hF : ∀ k n, Sim Rel (fun _ _ => True) (fill k n) (fill1 k n)) :
    ∀ (fuel : Nat) (edge : EdgeId) (node : NodeId),
      Sim Rel (fun _ _ => True) (FillConcaveEdgeEventOn Side.left fill env fuel edge node)
        (FillConcaveEdgeEventOn Side.right fill1 env1 fuel edge node) := by
  intro fuel
  induction fuel with
  | zero => intro edge node; exact Sim_raise _
  | succ fuel ih =>
    intro edge node
    unfold FillConcaveEdgeEventOn
    refine Sim_bind (Sim_getNode hM node) (fun nd nd1 hnd => ?_)
    refine Sim_bind (Sim_deref_eq hnd.2.1) (fun x x1 hx => ?_)
    subst hx
    refine Sim_bind (hF fuel x) (fun _ _ _ => ?_)
    refine Sim_bind (Sim_getNode hM node) (fun nd2 nd3 hnd2 => ?_)
    refine Sim_bind (Sim_deref_eq hnd2.2.1) (fun nx nx1 hx => ?_)
    subst hx
    refine Sim_bind (Sim_nodePoint hM nx) (fun pn pn1 hpn => ?_)
    subst hpn
    refine Sim_bind (Sim_getEdge hM edge) (fun e e1 he => ?_)
    subst he
    refine Sim_ite (ne_iff_mirror pn e.p) ?_ (Sim_pure trivial)
    refine Sim_ite (turn_iff hE e.q pn e.p) ?_ (Sim_pure trivial)
    refine Sim_bind (Sim_nodePoint hM node) (fun p p1 hp => ?_)
    subst hp
    refine Sim_bind (Sim_getNode hM nx) (fun nd4 nd5 hnd4 => ?_)
    refine Sim_bind (Sim_deref_eq hnd4.2.1) (fun y y1 hy => ?_)
    subst hy
    refine Sim_bind (Sim_nodePoint hM y) (fun p2 p3 hp2 => ?_)
    subst hp2
    exact Sim_ite (turn_iff hE p pn p2) (ih edge node) (Sim_pure trivial)

theorem Sim_FillConvexEdgeEventOn {Rel : SweepContext → SweepContext → Prop}
    {env env1 : Env} {fill fill1 : Nat → NodeId → M Unit}
    (hE : MirrorEnv env env1) (hM : ∀ s s1, Rel s s1 → Mirrored s s1)
    (hF : ∀ k n, Sim Rel (fun _ _ => True) (fill k n) (fill1 k n)) :
    ∀ (fuel : Nat) (edge : EdgeId) (node : NodeId),
      Sim Rel (fun _ _ => True) (FillConvexEdgeEventOn Side.left fill env fuel edge node)
        (FillConvexEdgeEventOn Side.right fill1 env1 fuel edge node) := by
  intro fuel
  induction fuel with
  | zero => intro edge node; exact Sim_raise _
  | succ fuel ih =>
    intro edge node
    unfold FillConvexEdgeEventOn
    refine Sim_bind (Sim_getNode hM node) (fun nd nd1 hnd => ?_)
    refine Sim_bind (Sim_deref_eq hnd.2.1) (fun n1 x1 hx => ?_)
    subst hx
    refine Sim_bind (Sim_getNode hM n1) (fun nd2 nd3 hnd2 => ?_)
    refine Sim_bind (Sim_deref_eq hnd2.2.1) (fun n2 x1 hx => ?_)
    subst hx
    refine Sim_bind (Sim_getNode hM n2) (fun nd4 nd5 hnd4 => ?_)
    refine Sim_bind (Sim_deref_eq hnd4.2.1) (fun n3 x1 hx => ?_)
    subst hx
    refine Sim_bind (Sim_nodePoint hM n1) (fun p1 q1 hp => ?_)
    subst hp
    refine Sim_bind (Sim_nodePoint hM n2) (fun p2 q2 hp => ?_)
    subst hp
    refine Sim_bind (Sim_nodePoint hM n3) (fun p3 q3 hp => ?_)
    subst hp
    refine Sim_ite (turn_iff hE p1 p2 p3)
      (Sim_FillConcaveEdgeEventOn hE hM hF fuel edge n1) ?_
    refine Sim_bind (Sim_getEdge hM edge) (fun e e1 he => ?_)
    subst he
    exact Sim_ite (turn_iff hE e.q p2 e.p) (ih edge n1) (Sim_pure trivial)

theorem Sim_FillBelowEdgeEventOn {Rel : SweepContext → SweepContext → Prop}
    {env env1 : Env} {fill fill1 : Nat → NodeId → M Unit}
    (hE : MirrorEnv env env1) (hM : ∀ s s1, Rel s s1 → Mirrored s s1)
    (hF : ∀ k n, Sim Rel (fun _ _ => True) (fill k n) (fill1 k n)) :
    ∀ (fuel : Nat) (edge : EdgeId) (node : NodeId),
      Sim Rel (fun _ _ => True) (FillBelowEdgeEventOn Side.left fill env fuel edge node)
        (FillBelowEdgeEventOn Side.right fill1 env1 fuel edge node) := by
  intro fuel
  induction fuel with
  | zero => intro edge node; exact Sim_raise _
  | succ fuel ih =>
    intro edge node
    unfold FillBelowEdgeEventOn
    refine Sim_bind (Sim_nodePoint hM node) (fun p q hp => ?_)
    subst hp
    refine Sim_bind (Sim_getEdge hM edge) (fun e e1 he => ?_)
    subst he
    refine Sim_ite (before_iff p e.p) ?_ (Sim_pure trivial)
    refine Sim_bind (Sim_getNode hM node) (fun nd nd1 hnd => ?_)
    refine Sim_bind (Sim_deref_eq hnd.2.1) (fun n1 x1 hx => ?_)
    subst hx
    refine Sim_bind (Sim_nodePoint hM n1) (fun p1 q1 hp => ?_)
    subst hp
    refine Sim_bind (Sim_getNode hM n1) (fun nd2 nd3 hnd2 => ?_)
    refine Sim_bind (Sim_deref_eq hnd2.2.1) (fun n2 x1 hx => ?_)
    subst hx
    refine Sim_bind (Sim_nodePoint hM n2) (fun p2 q2 hp => ?_)
    subst hp
    refine Sim_ite (turn_iff hE p p1 p2)
      (Sim_FillConcaveEdgeEventOn hE hM hF fuel edge node) ?_
    exact Sim_bind (Sim_FillConvexEdgeEventOn hE hM hF fuel edge node)
      (fun _ _ _ => ih edge node)

theorem Sim_FillAboveEdgeEventOn {Rel : SweepContext → SweepContext → Prop}
    {env env1 : Env} {fill fill1 : Nat → NodeId → M Unit}
    (hE : MirrorEnv env env1) (hM : ∀ s s1, Rel s s1 → Mirrored s s1)
    (hF : ∀ k n, Sim Rel (fun _ _ => True) (fill k n) (fill1 k n)) :
    ∀ (fuel : Nat) (edge : EdgeId) (node : NodeId),
      Sim Rel (fun _ _ => True) (FillAboveEdgeEventOn Side.left fill env fuel edge node)
        (FillAboveEdgeEventOn Side.right fill1 env1 fuel edge node) := by
  intro fuel
  induction fuel with
  | zero => intro edge node; exact Sim_raise _
  | succ fuel ih =>
    intro edge node
    unfold FillAboveEdgeEventOn
    refine Sim_bind (Sim_getNode hM node) (fun nd nd1 hnd => ?_)
    refine Sim_bind (Sim_deref_eq hnd.2.1) (fun n1 x1 hx => ?_)
    subst hx
    refine Sim_bind (Sim_nodePoint hM n1) (fun p1 q1 hp => ?_)
    subst hp
    refine Sim_bind (Sim_getEdge hM edge) (fun e e1 he => ?_)
    subst he
    refine Sim_ite (before_iff p1 e.p) ?_ (Sim_pure trivial)
    refine Sim_ite (turn_iff hE e.q p1 e.p) ?_ (ih edge n1)
    exact Sim_bind (Sim_FillBelowEdgeEventOn hE hM hF fuel edge node)
      (fun _ _ _ => ih edge node)


theorem Orient2d_mirror (eps : ℚ) (a b c : Point) :
    Orient2d eps a.mirror b.mirror c.mirror = (Orient2d eps a b c).mirror := by
  have e : (b.mirror.x - a.mirror.x) * (c.mirror.y - a.mirror.y)
      - (b.mirror.y - a.mirror.y) * (c.mirror.x - a.mirror.x)
      = -((b.x - a.x) * (c.y - a.y) - (b.y - a.y) * (c.x - a.x)) := by
    simp only [Point.mirror]
    ring
  simp only [Orient2d, e]
  generalize (b.x - a.x) * (c.y - a.y) - (b.y - a.y) * (c.x - a.x) = v
  by_cases h1 : -eps < v ∧ v < eps
  · have h2 : -eps < -v ∧ -v < eps := ⟨by linarith [h1.2], by linarith [h1.1]⟩
    simp [h1, h2, Orientation.mirror]
  · have h2 : ¬ (-eps < -v ∧ -v < eps) := fun h => h1 ⟨by linarith [h.2], by linarith [h.1]⟩
    rw [if_neg h1, if_neg h2]
    by_cases h3 : v = 0
    · simp [h3, Orientation.mirror]
    · have h4 : ¬ (-v = 0) := fun h => h3 (by linarith)
      rw [if_neg h3, if_neg h4]
      by_cases h5 : v > 0
      · have h6 : ¬ (-v > 0) := by
          intro h
          linarith
        rw [if_pos h5, if_neg h6]
        rfl
      · have h6 : -v > 0 := by
          rcases lt_trichotomy v 0 with h | h | h
          · linarith
          · exact absurd h h3
          · exact absurd h h5
        rw [if_neg h5, if_pos h6]
        rfl

theorem MirrorEnv_specEnv (eps : ℚ) : MirrorEnv (specEnv eps) (specEnv eps) :=
  fun a b c => Orient2d_mirror eps a b c


/-! #### The reflection of the front across a call of Fill -/

theorem Mirrored.front_eq {s s1 : SweepContext} (h : Mirrored s s1) :
    (front s1).pts = (front s).pts.map (Option.map Point.mirror) ∧
    (front s1).next = (front s).prev ∧ (front s1).prev = (front s).next := by
  refine ⟨?_, ?_, ?_⟩ <;>
  · apply List.ext_getElem?
    intro i
    simp only [front, List.getElem?_map]
    rcases h.1 i with ⟨e, e1⟩ | ⟨nd, nd1, e, e1, hp, hn, hv⟩
    · rw [e, e1]
      rfl
    · rw [e, e1]
      simp only [Option.map_some', hp, hn, hv]

theorem Mirrored_of_front {s s1 : SweepContext}
    (hp : (front s1).pts = (front s).pts.map (Option.map Point.mirror))
    (hn : (front s1).next = (front s).prev) (hv : (front s1).prev = (front s).next)
    (he : ∀ e : EdgeId, s1.edges[e]? = (s.edges[e]?).map Edge.mirror) : Mirrored s s1 := by
  refine ⟨fun n => ?_, he⟩
  have h1 := congrArg (fun l => l[n]?) hp
  have h2 := congrArg (fun l => l[n]?) hn
  have h3 := congrArg (fun l => l[n]?) hv
  simp only [front, List.getElem?_map] at h1 h2 h3
  cases e : s.nodes[n]? with
  | none =>
    rw [e] at h1
    cases e1 : s1.nodes[n]? with
    | none => exact Or.inl ⟨rfl, rfl⟩
    | some nd1 =>
      rw [e1] at h1
      cases h1
  | some nd =>
    rw [e] at h1 h2 h3
    cases e1 : s1.nodes[n]? with
    | none =>
      rw [e1] at h1
      cases h1
    | some nd1 =>
      rw [e1] at h1 h2 h3
      simp only [Option.map_some', Option.some.injEq] at h1 h2 h3
      exact Or.inr ⟨nd, nd1, rfl, rfl, h1, h2, h3⟩

theorem Fill_keeps_edges_and_log (k : Nat) (n : NodeId) (s : SweepContext) :
    (Fill k n s).ctx.edges = s.edges ∧ (Fill k n s).ctx.nodes_ = s.nodes_ :=
  Inv_Fill_nodes (P := fun x => x.edges = s.edges ∧ x.nodes_ = s.nodes_)
    (fun _ _ h => h) (fun _ _ h => h) (fun _ _ h => h) k n s ⟨rfl, rfl⟩

/-- When `Fill` returns on a front and on its reflection, the fronts on return
are reflections of each other. -/
theorem Mirrored_Fill {k k1 : Nat} {n : NodeId} {s s1 s2 s3 : SweepContext}
    (h : Mirrored s s1) (e : Fill k n s = Res.ok () s2) (e1 : Fill k1 n s1 = Res.ok () s3) :
    Mirrored s2 s3 := by
  obtain ⟨hp, hn, hv⟩ := h.front_eq
  obtain ⟨pv, nx, a1, a2, _, _, a5⟩ := FT_Fill k n (front s) s () s2 rfl e
  obtain ⟨pv1, nx1, b1, b2, _, _, b5⟩ := FT_Fill k1 n (front s1) s1 () s3 rfl e1
  rw [hv, a2] at b1
  rw [hn, a1] at b2
  simp only [Option.some.injEq] at b1 b2
  subst b1 b2
  have ee := (Fill_keeps_edges_and_log k n s).1
  have ee1 := (Fill_keeps_edges_and_log k1 n s1).1
  rw [e] at ee
  rw [e1] at ee1
  refine Mirrored_of_front ?_ ?_ ?_ ?_
  · rw [b5, a5]
    exact hp
  · rw [b5, a5]
    show (front s1).next.set nx (some pv) = (front s).prev.set nx (some pv)
    rw [hn]
  · rw [b5, a5]
    show (front s1).prev.set pv (some nx) = (front s).next.set pv (some nx)
    rw [hv]
  · intro x
    change s2.edges = s.edges at ee
    change s3.edges = s1.edges at ee1
    rw [ee, ee1]
    exact h.2 x

theorem Sim_logFill (k : Nat) (n : NodeId) :
    Sim MirroredRecord (fun _ _ => True) (logFill k n) (logFill k n) := by
  intro s s1 hs
  unfold logFill
  rw [modifyCtx_bind, modifyCtx_bind]
  have hrel : Mirrored { s with nodes_ := s.nodes_ ++ [n] } { s1 with nodes_ := s1.nodes_ ++ [n] } :=
    hs.1
  cases e : Fill k n { s with nodes_ := s.nodes_ ++ [n] } with
  | throw x s2 => exact Or.inr (Or.inl ⟨k, n, _, x, s2, e, rfl⟩)
  | ok u s2 =>
    cases e1 : Fill k n { s1 with nodes_ := s1.nodes_ ++ [n] } with
    | throw x s3 => exact Or.inr (Or.inr ⟨k, n, _, x, s3, e1, rfl⟩)
    | ok u1 s3 =>
      left
      refine ⟨trivial, Mirrored_Fill hrel e e1, ?_⟩
      have l := (Fill_keeps_edges_and_log k n { s with nodes_ := s.nodes_ ++ [n] }).2
      have l1 := (Fill_keeps_edges_and_log k n { s1 with nodes_ := s1.nodes_ ++ [n] }).2
      rw [e] at l
      rw [e1] at l1
      change s2.nodes_ = s.nodes_ ++ [n] at l
      change s3.nodes_ = s1.nodes_ ++ [n] at l1
      change s3.nodes_ = s2.nodes_
      rw [l, l1, hs.2]


/-! #### The log in `nodes_` -/

theorem setLog_self (s : SweepContext) : setLog s.nodes_ s = s := rfl

theorem setLog_setLog (l l1 : List NodeId) (s : SweepContext) :
    setLog l (setLog l1 s) = setLog l s := rfl

theorem Oblivious_pure {α : Type} (a : α) : Oblivious (pure a : M α) := fun _ _ => rfl

theorem Oblivious_raise {α : Type} (e : Err) : Oblivious (raise e : M α) := fun _ _ => rfl

theorem Oblivious_deref {α : Type} (o : Option α) : Oblivious (deref o) := by
  cases o <;> exact fun _ _ => rfl

theorem Oblivious_getTri (t : TriId) : Oblivious (getTri t) := by
  intro s l
  show getTri t (setLog l s) = (getTri t s).withLog l
  unfold getTri
  show (match s.tris[t]? with
    | some v => Res.ok v (setLog l s)
    | none => Res.throw Err.undefined_behaviour (setLog l s)) = _
  cases s.tris[t]? <;> rfl

theorem Oblivious_getNode (t : NodeId) : Oblivious (getNode t) := by
  intro s l
  unfold getNode
  show (match s.nodes[t]? with
    | some v => Res.ok v (setLog l s)
    | none => Res.throw Err.undefined_behaviour (setLog l s)) = _
  cases s.nodes[t]? <;> rfl

theorem Oblivious_getEdge (t : EdgeId) : Oblivious (getEdge t) := by
  intro s l
  unfold getEdge
  show (match s.edges[t]? with
    | some v => Res.ok v (setLog l s)
    | none => Res.throw Err.undefined_behaviour (setLog l s)) = _
  cases s.edges[t]? <;> rfl

theorem Oblivious_modifyTri (t : TriId) (f : Triangle → Triangle) :
    Oblivious (modifyTri t f) := by
  intro s l
  unfold modifyTri
  show (match s.tris[t]? with
    | some v => Res.ok () { setLog l s with tris := s.tris.set t (f v) }
    | none => Res.throw Err.undefined_behaviour (setLog l s)) = _
  cases s.tris[t]? <;> rfl

theorem Oblivious_modifyNode (t : NodeId) (f : Node → Node) :
    Oblivious (modifyNode t f) := by
  intro s l
  unfold modifyNode
  show (match s.nodes[t]? with
    | some v => Res.ok () { setLog l s with nodes := s.nodes.set t (f v) }
    | none => Res.throw Err.undefined_behaviour (setLog l s)) = _
  cases s.nodes[t]? <;> rfl

theorem Oblivious_newTriangle (a b c : Point) : Oblivious (newTriangle a b c) :=
  fun _ _ => rfl

theorem Oblivious_modifyCtx {g : SweepContext → SweepContext}
    (hg : ∀ s l, g (setLog l s) = setLog l (g s)) : Oblivious (modifyCtx g) := by
  intro s l
  show Res.ok () (g (setLog l s)) = Res.ok () (setLog l (g s))
  rw [hg]

theorem Oblivious_bind {α β : Type} {m : M α} {f : α → M β}
    (hm : Oblivious m) (hf : ∀ a, Oblivious (f a)) : Oblivious (m >>= f) := by
  intro s l
  rw [run_bind, run_bind, hm s l]
  cases m s with
  | ok a s2 => exact hf a s2 l
  | throw e s2 => rfl

theorem Oblivious_nodePoint (n : NodeId) : Oblivious (nodePoint n) :=
  Oblivious_bind (Oblivious_getNode _) (fun _ => Oblivious_deref _)

theorem Oblivious_MarkNeighbor (a b : TriId) : Oblivious (MarkNeighbor a b) := by
  unfold MarkNeighbor
  repeat' first
    | exact Oblivious_pure _ | exact Oblivious_getTri _ | exact Oblivious_modifyTri _ _
    | refine Oblivious_bind ?_ (fun _ => ?_) | split | dsimp only

theorem Oblivious_MarkNeighborIf (a : TriId) (b : Option TriId) :
    Oblivious (MarkNeighborIf a b) := by
  unfold MarkNeighborIf
  split
  · exact Oblivious_MarkNeighbor _ _
  · exact Oblivious_pure _

theorem Oblivious_RotateTrianglePair (t : TriId) (p : Point) (ot : TriId) (op : Point) :
    Oblivious (RotateTrianglePair t p ot op) := by
  unfold RotateTrianglePair
  repeat' first
    | exact Oblivious_pure _ | exact Oblivious_getTri _ | exact Oblivious_modifyTri _ _
    | exact Oblivious_MarkNeighbor _ _ | exact Oblivious_MarkNeighborIf _ _
    | refine Oblivious_bind ?_ (fun _ => ?_) | split | dsimp only

theorem Oblivious_MapTriangleToNodes (t : TriId) : Oblivious (MapTriangleToNodes t) := by
  unfold MapTriangleToNodes
  exact Oblivious_bind (Oblivious_getTri _) (fun tri => Oblivious_modifyCtx (fun _ _ => rfl))

theorem Oblivious_AddToMap (t : TriId) : Oblivious (AddToMap t) :=
  Oblivious_modifyCtx (fun _ _ => rfl)

theorem Oblivious_LegalizeEdge (rec : TriId → M Bool) (hrec : ∀ t, Oblivious (rec t))
    (t : TriId) (i : Fin 3) : Oblivious (LegalizeEdge rec t i) := by
  unfold LegalizeEdge
  repeat' first
    | exact Oblivious_pure _ | exact Oblivious_getTri _ | exact Oblivious_modifyTri _ _
    | exact Oblivious_deref _
    | exact Oblivious_RotateTrianglePair _ _ _ _ | exact Oblivious_MapTriangleToNodes _
    | exact hrec _
    | refine Oblivious_bind ?_ (fun _ => ?_) | split | dsimp only

theorem Oblivious_Legalize : ∀ (fuel : Nat) (t : TriId), Oblivious (Legalize fuel t) := by
  intro fuel
  induction fuel with
  | zero => intro t; exact Oblivious_raise _
  | succ fuel ih =>
    intro t
    unfold Legalize
    repeat' first
      | exact Oblivious_pure _ | exact Oblivious_LegalizeEdge _ ih _ _
      | refine Oblivious_bind ?_ (fun _ => ?_) | split | dsimp only

/-- `Fill` neither reads nor writes `nodes_`. -/
theorem Oblivious_Fill (fuel : Nat) (n : NodeId) : Oblivious (Fill fuel n) := by
  unfold Fill
  repeat' first
    | exact Oblivious_pure _ | exact Oblivious_getTri _ | exact Oblivious_modifyTri _ _
    | exact Oblivious_deref _ | exact Oblivious_getNode _ | exact Oblivious_nodePoint _
    | exact Oblivious_modifyNode _ _ | exact Oblivious_newTriangle _ _ _
    | exact Oblivious_MarkNeighbor _ _ | exact Oblivious_AddToMap _
    | exact Oblivious_Legalize _ _ | exact Oblivious_MapTriangleToNodes _
    | refine Oblivious_bind ?_ (fun _ => ?_) | split | dsimp only

theorem Logs_of_Oblivious {α : Type} {m : M α} (h : Oblivious m) : Logs m m :=
  fun s l => ⟨l, h s l⟩

theorem Logs_bind {α β : Type} {m m1 : M α} {f f1 : α → M β}
    (hm : Logs m m1) (hf : ∀ a, Logs (f a) (f1 a)) : Logs (m >>= f) (m1 >>= f1) := by
  intro s l
  obtain ⟨l1, h1⟩ := hm s l
  rw [run_bind, run_bind, h1]
  cases m s with
  | ok a s2 => exact hf a s2 l1
  | throw e s2 => exact ⟨l1, rfl⟩

theorem Logs_ite {α : Type} (c : Prop) [Decidable c] {m n m1 n1 : M α}
    (hm : Logs m m1) (hn : Logs n n1) :
    Logs (if c then m else n) (if c then m1 else n1) := by
  by_cases h : c
  · rw [if_pos h, if_pos h]
    exact hm
  · rw [if_neg h, if_neg h]
    exact hn

/-- `logFill` is `Fill` keeping a log. -/
theorem Logs_logFill (k : Nat) (n : NodeId) : Logs (Fill k n) (logFill k n) := by
  intro s l
  refine ⟨l ++ [n], ?_⟩
  unfold logFill
  rw [modifyCtx_bind]
  exact Oblivious_Fill k n s (l ++ [n])

theorem Logs_getNode (n : NodeId) : Logs (getNode n) (getNode n) :=
  Logs_of_Oblivious (Oblivious_getNode _)

theorem Logs_getEdge (n : EdgeId) : Logs (getEdge n) (getEdge n) :=
  Logs_of_Oblivious (Oblivious_getEdge _)

theorem Logs_nodePoint (n : NodeId) : Logs (nodePoint n) (nodePoint n) :=
  Logs_of_Oblivious (Oblivious_nodePoint _)

theorem Logs_deref {α : Type} (o : Option α) : Logs (deref o) (deref o) :=
  Logs_of_Oblivious (Oblivious_deref _)

theorem Logs_pure {α : Type} (a : α) : Logs (pure a : M α) (pure a : M α) :=
  Logs_of_Oblivious (Oblivious_pure _)

theorem Logs_FillConcaveEdgeEventOn (d : Side) (env : Env) :
    ∀ (fuel : Nat) (edge : EdgeId) (node : NodeId),
      Logs (FillConcaveEdgeEventOn d Fill env fuel edge node)
        (FillConcaveEdgeEventOn d logFill env fuel edge node) := by
  intro fuel
  induction fuel with
  | zero => intro edge node; exact Logs_of_Oblivious (Oblivious_raise _)
  | succ fuel ih =>
    intro edge node
    unfold FillConcaveEdgeEventOn
    refine Logs_bind (Logs_getNode _) (fun _ => ?_)
    refine Logs_bind (Logs_deref _) (fun x => ?_)
    refine Logs_bind (Logs_logFill fuel x) (fun _ => ?_)
    refine Logs_bind (Logs_getNode _) (fun _ => ?_)
    refine Logs_bind (Logs_deref _) (fun nx => ?_)
    refine Logs_bind (Logs_nodePoint _) (fun _ => ?_)
    refine Logs_bind (Logs_getEdge _) (fun _ => ?_)
    refine Logs_ite _ ?_ (Logs_pure _)
    refine Logs_ite _ ?_ (Logs_pure _)
    refine Logs_bind (Logs_nodePoint _) (fun _ => ?_)
    refine Logs_bind (Logs_getNode _) (fun _ => ?_)
    refine Logs_bind (Logs_deref _) (fun _ => ?_)
    refine Logs_bind (Logs_nodePoint _) (fun _ => ?_)
    exact Logs_ite _ (ih edge node) (Logs_pure _)

theorem Logs_FillConvexEdgeEventOn (d : Side) (env : Env) :
    ∀ (fuel : Nat) (edge : EdgeId) (node : NodeId),
      Logs (FillConvexEdgeEventOn d Fill env fuel edge node)
        (FillConvexEdgeEventOn d logFill env fuel edge node) := by
  intro fuel
  induction fuel with
  | zero => intro edge node; exact Logs_of_Oblivious (Oblivious_raise _)
  | succ fuel ih =>
    intro edge node
    unfold FillConvexEdgeEventOn
    refine Logs_bind (Logs_getNode _) (fun _ => ?_)
    refine Logs_bind (Logs_deref _) (fun n1 => ?_)
    refine Logs_bind (Logs_getNode _) (fun _ => ?_)
    refine Logs_bind (Logs_deref _) (fun n2 => ?_)
    refine Logs_bind (Logs_getNode _) (fun _ => ?_)
    refine Logs_bind (Logs_deref _) (fun n3 => ?_)
    refine Logs_bind (Logs_nodePoint _) (fun _ => ?_)
    refine Logs_bind (Logs_nodePoint _) (fun _ => ?_)
    refine Logs_bind (Logs_nodePoint _) (fun _ => ?_)
    refine Logs_ite _ (Logs_FillConcaveEdgeEventOn d env fuel edge n1) ?_
    refine Logs_bind (Logs_getEdge _) (fun _ => ?_)
    exact Logs_ite _ (ih edge n1) (Logs_pure _)

theorem Logs_FillBelowEdgeEventOn (d : Side) (env : Env) :
    ∀ (fuel : Nat) (edge : EdgeId) (node : NodeId),
      Logs (FillBelowEdgeEventOn d Fill env fuel edge node)
        (FillBelowEdgeEventOn d logFill env fuel edge node) := by
  intro fuel
  induction fuel with
  | zero => intro edge node; exact Logs_of_Oblivious (Oblivious_raise _)
  | succ fuel ih =>
    intro edge node
    unfold FillBelowEdgeEventOn
    refine Logs_bind (Logs_nodePoint _) (fun _ => ?_)
    refine Logs_bind (Logs_getEdge _) (fun _ => ?_)
    refine Logs_ite _ ?_ (Logs_pure _)
    refine Logs_bind (Logs_getNode _) (fun _ => ?_)
    refine Logs_bind (Logs_deref _) (fun n1 => ?_)
    refine Logs_bind (Logs_nodePoint _) (fun _ => ?_)
    refine Logs_bind (Logs_getNode _) (fun _ => ?_)
    refine Logs_bind (Logs_deref _) (fun n2 => ?_)
    refine Logs_bind (Logs_nodePoint _) (fun _ => ?_)
    refine Logs_ite _ (Logs_FillConcaveEdgeEventOn d env fuel edge node) ?_
    exact Logs_bind (Logs_FillConvexEdgeEventOn d env fuel edge node) (fun _ => ih edge node)

theorem Logs_FillAboveEdgeEventOn (d : Side) (env : Env) :
    ∀ (fuel : Nat) (edge : EdgeId) (node : NodeId),
      Logs (FillAboveEdgeEventOn d Fill env fuel edge node)
        (FillAboveEdgeEventOn d logFill env fuel edge node) := by
  intro fuel
  induction fuel with
  | zero => intro edge node; exact Logs_of_Oblivious (Oblivious_raise _)
  | succ fuel ih =>
    intro edge node
    unfold FillAboveEdgeEventOn
    refine Logs_bind (Logs_getNode _) (fun _ => ?_)
    refine Logs_bind (Logs_deref _) (fun n1 => ?_)
    refine Logs_bind (Logs_nodePoint _) (fun _ => ?_)
    refine Logs_bind (Logs_getEdge _) (fun _ => ?_)
    refine Logs_ite _ ?_ (Logs_pure _)
    refine Logs_ite _ ?_ (ih edge n1)
    exact Logs_bind (Logs_FillBelowEdgeEventOn d env fuel edge node) (fun _ => ih edge node)


/-! #### The reflected runs -/

theorem Mirrored_mirror (s : SweepContext) : Mirrored s s.mirror := by
  refine ⟨fun n => ?_, fun e => ?_⟩
  · cases h : s.nodes[n]? with
    | none =>
      left
      refine ⟨rfl, ?_⟩
      simp only [SweepContext.mirror, List.getElem?_map, h, Option.map_none']
    | some nd =>
      right
      refine ⟨nd, nd.mirror, rfl, ?_, rfl, rfl, rfl⟩
      simp only [SweepContext.mirror, List.getElem?_map, h, Option.map_some']
  · simp only [SweepContext.mirror, List.getElem?_map]

theorem withLog_ok {α : Type} {l : List NodeId} {r : Res α} {a : α} {x : SweepContext}
    (h : Res.ok a x = r.withLog l) : ∃ y, r = Res.ok a y ∧ x = setLog l y := by
  cases r with
  | ok b y =>
    simp only [Res.withLog, Res.ok.injEq] at h
    exact ⟨y, by rw [h.1], h.2⟩
  | throw e y => simp [Res.withLog] at h

theorem withLog_throw {α : Type} {l : List NodeId} {r : Res α} {e : Err} {x : SweepContext}
    (h : Res.throw e x = r.withLog l) : ∃ y, r = Res.throw e y ∧ x = setLog l y := by
  cases r with
  | ok b y => simp [Res.withLog] at h
  | throw e1 y =>
    simp only [Res.withLog, Res.throw.injEq] at h
    exact ⟨y, by rw [h.1], h.2⟩

/-- A run that ended inside a call of `Fill` did so whatever the log was. -/
theorem FillFailed_of_withLog {α : Type} {l : List NodeId} {r : Res α}
    (h : FillFailed (r.withLog l)) : FillFailed r := by
  obtain ⟨k, n, s0, e, sx, h1, h2⟩ := h
  obtain ⟨y, hy, hx⟩ := withLog_throw h2.symm
  refine ⟨k, n, setLog y.nodes_ s0, e, y, ?_, hy⟩
  rw [Oblivious_Fill k n s0 y.nodes_, h1, hx]
  rfl

theorem Mirrored_leftDipMesh_rightDipMesh : Mirrored leftDipMesh rightDipMesh := by
  refine ⟨fun n => ?_, fun e => ?_⟩
  · rcases n with _ | _ | _ | _ | n
    · exact Or.inr ⟨_, _, rfl, rfl, by decide!, rfl, rfl⟩
    · exact Or.inr ⟨_, _, rfl, rfl, by decide!, rfl, rfl⟩
    · exact Or.inr ⟨_, _, rfl, rfl, by decide!, rfl, rfl⟩
    · exact Or.inr ⟨_, _, rfl, rfl, by decide!, rfl, rfl⟩
    · exact Or.inl ⟨rfl, rfl⟩
  · rcases e with _ | e
    · decide!
    · rfl

/-- For three plane vectors A, B, C (the vertices a, b, c seen from d) with
B × C negative, the sum of the three cross products positive and the lifted
determinant positive, the cross product A × B is positive. -/
theorem cross_pos_of_det_pos (A1 A2 B1 B2 C1 C2 : ℚ)
    (hα : B1 * C2 - C1 * B2 < 0)
    (hσ : 0 < (B1 * C2 - C1 * B2) + (C1 * A2 - A1 * C2) + (A1 * B2 - B1 * A2))
    (hdet : 0 < (A1 * A1 + A2 * A2) * (B1 * C2 - C1 * B2)
              + (B1 * B1 + B2 * B2) * (C1 * A2 - A1 * C2)
              + (C1 * C1 + C2 * C2) * (A1 * B2 - B1 * A2)) :
    0 < A1 * B2 - B1 * A2 := by
  by_contra hγ
  rw [not_lt] at hγ
  have hβ : 0 < C1 * A2 - A1 * C2 := by linarith
  have key : (-(B1 * C2 - C1 * B2) - (A1 * B2 - B1 * A2)) * ((B1 * C2 - C1 * B2) *
        ((A1 * A1 + A2 * A2) * (B1 * C2 - C1 * B2)
              + (B1 * B1 + B2 * B2) * (C1 * A2 - A1 * C2)
              + (C1 * C1 + C2 * C2) * (A1 * B2 - B1 * A2)))
      = (-(A1 * B2 - B1 * A2)) *
          (((-(B1 * C2 - C1 * B2) - (A1 * B2 - B1 * A2)) * C1 - (C1 * A2 - A1 * C2) * B1) ^ 2
          + ((-(B1 * C2 - C1 * B2) - (A1 * B2 - B1 * A2)) * C2 - (C1 * A2 - A1 * C2) * B2) ^ 2)
        + (C1 * A2 - A1 * C2)
          * ((B1 * C2 - C1 * B2) + (C1 * A2 - A1 * C2) + (A1 * B2 - B1 * A2))
          * (-(B1 * C2 - C1 * B2)) * (B1 * B1 + B2 * B2) := by
    ring
  have hpos : 0 < -(B1 * C2 - C1 * B2) - (A1 * B2 - B1 * A2) := by linarith
  have hneg : (B1 * C2 - C1 * B2) *
        ((A1 * A1 + A2 * A2) * (B1 * C2 - C1 * B2)
              + (B1 * B1 + B2 * B2) * (C1 * A2 - A1 * C2)
              + (C1 * C1 + C2 * C2) * (A1 * B2 - B1 * A2)) < 0 :=
    mul_neg_of_neg_of_pos hα hdet
  have hl : (-(B1 * C2 - C1 * B2) - (A1 * B2 - B1 * A2)) * ((B1 * C2 - C1 * B2) *
        ((A1 * A1 + A2 * A2) * (B1 * C2 - C1 * B2)
              + (B1 * B1 + B2 * B2) * (C1 * A2 - A1 * C2)
              + (C1 * C1 + C2 * C2) * (A1 * B2 - B1 * A2))) < 0 :=
    mul_neg_of_pos_of_neg hpos hneg
  have hr : 0 ≤ (-(A1 * B2 - B1 * A2)) *
          (((-(B1 * C2 - C1 * B2) - (A1 * B2 - B1 * A2)) * C1 - (C1 * A2 - A1 * C2) * B1) ^ 2
          + ((-(B1 * C2 - C1 * B2) - (A1 * B2 - B1 * A2)) * C2 - (C1 * A2 - A1 * C2) * B2) ^ 2)
        + (C1 * A2 - A1 * C2)
          * ((B1 * C2 - C1 * B2) + (C1 * A2 - A1 * C2) + (A1 * B2 - B1 * A2))
          * (-(B1 * C2 - C1 * B2)) * (B1 * B1 + B2 * B2) := by
    have h1 : 0 ≤ -(A1 * B2 - B1 * A2) := by linarith
    have h2 : 0 < -(B1 * C2 - C1 * B2) := by linarith
    have h3 : 0 ≤ B1 * B1 + B2 * B2 := by nlinarith [mul_self_nonneg B1, mul_self_nonneg B2]
    have h4 := mul_nonneg (mul_nonneg (mul_nonneg hβ.le hσ.le) h2.le) h3
    have h5 := mul_nonneg h1 (add_nonneg (sq_nonneg
      ((-(B1 * C2 - C1 * B2) - (A1 * B2 - B1 * A2)) * C1 - (C1 * A2 - A1 * C2) * B1))
      (sq_nonneg ((-(B1 * C2 - C1 * B2) - (A1 * B2 - B1 * A2)) * C2 - (C1 * A2 - A1 * C2) * B2)))
    linarith
  rw [key] at hl
  exact absurd hl (not_lt.mpr hr)


/-- The mirror image of `cross_pos_of_det_pos`: the cross product C × A is
positive as well. -/
theorem cross_pos_of_det_pos_right (A1 A2 B1 B2 C1 C2 : ℚ)
    (hα : B1 * C2 - C1 * B2 < 0)
    (hσ : 0 < (B1 * C2 - C1 * B2) + (C1 * A2 - A1 * C2) + (A1 * B2 - B1 * A2))
    (hdet : 0 < (A1 * A1 + A2 * A2) * (B1 * C2 - C1 * B2)
              + (B1 * B1 + B2 * B2) * (C1 * A2 - A1 * C2)
              + (C1 * C1 + C2 * C2) * (A1 * B2 - B1 * A2)) :
    0 < C1 * A2 - A1 * C2 := by
  have h := cross_pos_of_det_pos (-A1) A2 (-C1) C2 (-B1) B2 (by linarith) (by linarith)
    (by linarith)
  linarith

/-- C21: in exact arithmetic, for (a, b, c) strictly counter-clockwise and d
strictly on the other side of the line through b and c than a (the position of
the opposite vertex in `Legalize`), `Incircle(a, b, c, d)` returns true if and
only if d lies strictly inside the circle through a, b and c: neither of the
two early-out tests rejects a point inside the circle. -/
theorem Incircle_iff_inside_across_edge (a b c d : Point) (hccw : 0 < area2 a b c)
    (hopp : area2 b c a * area2 b c d < 0) :
    Incircle a b c d = true ↔ InCircumcircle a b c d := by
  have hbca : area2 b c a = area2 a b c := by unfold area2; ring
  rw [hbca] at hopp
  have hd : area2 b c d < 0 := by
    by_contra h
    rw [not_lt] at h
    exact absurd hopp (not_lt.mpr (mul_nonneg hccw.le h))
  obtain ⟨ox, oy, hab, hbc⟩ := circumcentre_exists a b c (ne_of_gt hccw)
  have key := incircle_det_eq a b c d ox oy (sqDist a ox oy) rfl hab.symm (hab.trans hbc).symm
  rw [Incircle_iff]
  constructor
  · rintro ⟨_, _, h3⟩
    refine ⟨ox, oy, hab, hbc, ?_⟩
    rw [key] at h3
    have := (mul_pos_iff_of_pos_right hccw).1 h3
    linarith
  · rintro ⟨ox1, oy1, hab1, hbc1, hd1⟩
    have key1 := incircle_det_eq a b c d ox1 oy1 (sqDist a ox1 oy1) rfl hab1.symm
      (hab1.trans hbc1).symm
    have hdet : 0 < (sqDist a ox1 oy1 - sqDist d ox1 oy1) * area2 a b c :=
      mul_pos (by linarith) hccw
    rw [← key1] at hdet
    have hα : (b.x - d.x) * (c.y - d.y) - (c.x - d.x) * (b.y - d.y) < 0 := by
      have : area2 b c d = (b.x - d.x) * (c.y - d.y) - (c.x - d.x) * (b.y - d.y) := by
        unfold area2; ring
      rw [← this]; exact hd
    have hσ : 0 < ((b.x - d.x) * (c.y - d.y) - (c.x - d.x) * (b.y - d.y))
        + ((c.x - d.x) * (a.y - d.y) - (a.x - d.x) * (c.y - d.y))
        + ((a.x - d.x) * (b.y - d.y) - (b.x - d.x) * (a.y - d.y)) := by
      have : area2 a b c = ((b.x - d.x) * (c.y - d.y) - (c.x - d.x) * (b.y - d.y))
        + ((c.x - d.x) * (a.y - d.y) - (a.x - d.x) * (c.y - d.y))
        + ((a.x - d.x) * (b.y - d.y) - (b.x - d.x) * (a.y - d.y)) := by
        unfold area2; ring
      rw [← this]; exact hccw
    have e1 : area2 a b d = (a.x - d.x) * (b.y - d.y) - (b.x - d.x) * (a.y - d.y) := by
      unfold area2; ring
    have e2 : area2 c a d = (c.x - d.x) * (a.y - d.y) - (a.x - d.x) * (c.y - d.y) := by
      unfold area2; ring
    refine ⟨?_, ?_, hdet⟩
    · rw [e1]; exact cross_pos_of_det_pos _ _ _ _ _ _ hα hσ hdet
    · rw [e2]; exact cross_pos_of_det_pos_right _ _ _ _ _ _ hα hσ hdet

/-- Witness for `Incircle_iff_inside_across_edge`: the triangle (0,0), (2,0),
(0,2) and the point (3/2, 3/2) beyond the side from (2,0) to (0,2). -/
theorem Incircle_iff_inside_across_edge_witness :
    0 < area2 ⟨0, 0, 0⟩ ⟨1, 2, 0⟩ ⟨2, 0, 2⟩ ∧
    area2 ⟨1, 2, 0⟩ ⟨2, 0, 2⟩ ⟨0, 0, 0⟩ * area2 ⟨1, 2, 0⟩ ⟨2, 0, 2⟩ ⟨3, 3 / 2, 3 / 2⟩ < 0 ∧
    (Incircle ⟨0, 0, 0⟩ ⟨1, 2, 0⟩ ⟨2, 0, 2⟩ ⟨3, 3 / 2, 3 / 2⟩ = true ↔
      InCircumcircle ⟨0, 0, 0⟩ ⟨1, 2, 0⟩ ⟨2, 0, 2⟩ ⟨3, 3 / 2, 3 / 2⟩) :=
  ⟨by decide!, by decide!,
    Incircle_iff_inside_across_edge ⟨0, 0, 0⟩ ⟨1, 2, 0⟩ ⟨2, 0, 2⟩ ⟨3, 3 / 2, 3 / 2⟩
      (by decide!) (by decide!)⟩


/-! ### C22: the triangles of a Legalize flip -/

theorem area2_ne {a b c : Point} (h : area2 a b c ≠ 0) : a ≠ b ∧ b ≠ c ∧ c ≠ a := by
  refine ⟨?_, ?_, ?_⟩ <;> rintro rfl <;> apply h <;> unfold area2 <;> ring

/-- The vertices of the neighbour across the side (a, b) of t opposite p, when
it contains a and its vertex clockwise of b is op. -/
theorem opposite_layout {ott : Triangle} {op a b : Point}
    (hcw : ott.PointCW b = some op) (hsh : ott.Contains a = true)
    (hab : a ≠ b) (hopa : op ≠ a) (hopb : op ≠ b) :
    ott.PointCCW op = some b ∧ ott.PointCW op = some a := by
  obtain ⟨ce, de, ⟨x0, x1, x2⟩, nb, it⟩ := ott
  unfold Triangle.PointCW at hcw
  unfold Triangle.Contains at hsh
  unfold Triangle.PointCCW Triangle.PointCW
  simp only [Bool.or_eq_true, beq_iff_eq] at hsh
  simp only at hcw ⊢
  have hba := hab.symm
  have haop := hopa.symm
  have hbop := hopb.symm
  split_ifs at hcw <;> simp_all

/-- The vertices of the two triangles after the re-vertexing of
`RotateTrianglePair`. -/
theorem rotated_points (tt ott : Triangle) (p op a b : Point)
    (hccw : tt.PointCCW p = some a) (hcw : tt.PointCW p = some b)
    (hoccw : ott.PointCCW op = some b) (hocw : ott.PointCW op = some a)
    (hpa : p ≠ a) (hpb : p ≠ b) (hab : a ≠ b) (hopa : op ≠ a) (hopb : op ≠ b) (hpop : p ≠ op) :
    ((rotatedT tt ott p op).PointCCW p = some op ∧ (rotatedT tt ott p op).PointCW p = some b ∧
      (rotatedT tt ott p op).area2 = area2 p op b) ∧
    ((rotatedOT tt ott p op).PointCCW op = some p ∧ (rotatedOT tt ott p op).PointCW op = some a ∧
      (rotatedOT tt ott p op).area2 = area2 op p a) := by
  have h1 := points_of_ccw_cw hccw hcw
  have h2 := points_of_ccw_cw hoccw hocw
  obtain ⟨ce, de, pts, nb, it⟩ := tt
  obtain ⟨ce2, de2, pts2, nb2, it2⟩ := ott
  simp only at h1 h2
  have hap := hpa.symm
  have hbp := hpb.symm
  have hba := hab.symm
  have haop := hopa.symm
  have hbop := hopb.symm
  have hopp := hpop.symm
  rcases h1 with h1 | h1 | h1 <;> rcases h2 with h2 | h2 | h2 <;> subst h1 <;> subst h2 <;>
    simp [rotatedT, rotatedOT, Triangle.Legalize, Triangle.SetDelunayEdgeCW,
      Triangle.SetDelunayEdgeCCW, Triangle.SetConstrainedEdgeCW, Triangle.SetConstrainedEdgeCCW,
      Triangle.ClearNeighbors, Triangle.PointCCW, Triangle.PointCW, Triangle.area2,
      hpa, hpb, hab, hopa, hopb, hpop, hap, hbp, hba, haop, hbop, hopp] <;>
    first
    | (refine ⟨?_, ?_⟩ <;> (unfold area2; ring))
    | (unfold area2; ring)


/-- C22: in exact arithmetic, when the in-circle test of `Legalize` for edge i
of t, `Incircle(p, ccw, cw, op)` with p the vertex opposite the edge,
ccw = t.PointCCW(p), cw = t.PointCW(p) and op the opposite vertex of the
neighbour ot across the edge, returns true, the flip
`RotateTrianglePair(t, p, ot, op)` returns and leaves t as (p, op, cw) and ot
as (op, p, ccw) (up to rotation of the vertex order), both of strictly
positive signed area.  The neighbour is taken to have the side (ccw, cw) in
common with t and the neighbour pointers of the pair to be valid. -/
theorem Legalize_flip_keeps_orientation (s : SweepContext) (t ot : TriId) (tt ott : Triangle)
    (i : Fin 3) (op ccw cw : Point)
    (ht : s.tris[t]? = some tt) (hn : tt.GetNeighbor i = some ot)
    (hot : s.tris[ot]? = some ott)
    (hop : ott.OppositePoint tt (tt.GetPoint i) = some op)
    (hccw : tt.PointCCW (tt.GetPoint i) = some ccw) (hcw : tt.PointCW (tt.GetPoint i) = some cw)
    (hshare : ott.Contains ccw = true)
    (hvt : ∀ j n, tt.neighbors_.get j = some n → n < s.tris.length)
    (hvot : ∀ j n, ott.neighbors_.get j = some n → n < s.tris.length)
    (hin : Incircle (tt.GetPoint i) ccw cw op = true) :
    ∃ s1 t1 ot1, RotateTrianglePair t (tt.GetPoint i) ot op s = Res.ok () s1 ∧
      s1.tris[t]? = some t1 ∧ s1.tris[ot]? = some ot1 ∧
      t1.PointCCW (tt.GetPoint i) = some op ∧ t1.PointCW (tt.GetPoint i) = some cw ∧
      ot1.PointCCW op = some (tt.GetPoint i) ∧ ot1.PointCW op = some ccw ∧
      0 < t1.area2 ∧ 0 < ot1.area2 ∧
      0 < area2 (tt.GetPoint i) op cw ∧ 0 < area2 op (tt.GetPoint i) ccw := by
  generalize tt.GetPoint i = p at *
  clear hn
  obtain ⟨h1, h2, -⟩ := (Incircle_iff p ccw cw op).1 hin
  obtain ⟨hpa, haop, hopp⟩ := area2_ne (ne_of_gt h1)
  obtain ⟨hbp, -, hopb⟩ := area2_ne (ne_of_gt h2)
  have hab : ccw ≠ cw := by
    rintro rfl
    have : area2 ccw p op = -area2 p ccw op := by unfold area2; ring
    linarith
  have hcwop : ott.PointCW cw = some op := by
    unfold Triangle.OppositePoint at hop
    rw [hcw] at hop
    exact hop
  obtain ⟨hoccw, hocw⟩ := opposite_layout hcwop hshare hab haop.symm hopb
  have hpop : p ≠ op := fun h => hopp h.symm
  have hne : t ≠ ot := pair_ne ht hot hccw hcw hoccw hocw haop.symm hpop
  have hlt : t < s.tris.length := heap_lt_of_get ht
  have hlot : ot < s.tris.length := heap_lt_of_get hot
  rw [RotateTrianglePair_run s t ot tt ott p op ht hot hne]
  have hlen : ({ s with tris := (s.tris.set t (rotatedT tt ott p op)).set ot (rotatedOT tt ott p op) }
      : SweepContext).tris.length = s.tris.length := by simp
  obtain ⟨s1, hrun, hfr⟩ := RemapNeighbors_frame
    { s with tris := (s.tris.set t (rotatedT tt ott p op)).set ot (rotatedOT tt ott p op) } t ot
    (tt.NeighborCCW p) (tt.NeighborCW p) (ott.NeighborCCW op) (ott.NeighborCW op)
    (hlen ▸ hlt) (hlen ▸ hlot)
    (fun n hn => by obtain ⟨j, hj⟩ := NeighborCCW_get hn; exact hlen ▸ hvt j n hj)
    (fun n hn => by obtain ⟨j, hj⟩ := NeighborCW_get hn; exact hlen ▸ hvt j n hj)
    (fun n hn => by obtain ⟨j, hj⟩ := NeighborCCW_get hn; exact hlen ▸ hvot j n hj)
    (fun n hn => by obtain ⟨j, hj⟩ := NeighborCW_get hn; exact hlen ▸ hvot j n hj)
  have gt : ({ s with tris := (s.tris.set t (rotatedT tt ott p op)).set ot (rotatedOT tt ott p op) }
      : SweepContext).tris[t]? = some (rotatedT tt ott p op) := by
    simp [List.getElem?_set, hne, Ne.symm hne, hlt]
  have got : ({ s with tris := (s.tris.set t (rotatedT tt ott p op)).set ot (rotatedOT tt ott p op) }
      : SweepContext).tris[ot]? = some (rotatedOT tt ott p op) := by
    simp [List.getElem?_set, hlot]
  obtain ⟨t1, ht1, hs1⟩ := hfr.get gt
  obtain ⟨ot1, hot1, hs2⟩ := hfr.get got
  obtain ⟨⟨k1, k2, k3⟩, k4, k5, k6⟩ :=
    rotated_points tt ott p op ccw cw hccw hcw hoccw hocw hpa (fun h => hbp h.symm) hab
      haop.symm hopb hpop
  have hp1 : t1.points_ = (rotatedT tt ott p op).points_ := congrArg Prod.fst hs1
  have hp2 : ot1.points_ = (rotatedOT tt ott p op).points_ := congrArg Prod.fst hs2
  have a1 : area2 p op cw = area2 cw p op := by unfold area2; ring
  have a2 : area2 op p ccw = area2 p ccw op := by unfold area2; ring
  refine ⟨s1, t1, ot1, hrun, ht1, hot1, ?_, ?_, ?_, ?_, ?_, ?_, ?_, ?_⟩
  · unfold Triangle.PointCCW at k1 ⊢; rw [hp1]; exact k1
  · unfold Triangle.PointCW at k2 ⊢; rw [hp1]; exact k2
  · unfold Triangle.PointCCW at k4 ⊢; rw [hp2]; exact k4
  · unfold Triangle.PointCW at k5 ⊢; rw [hp2]; exact k5
  · unfold Triangle.area2 at k3 ⊢; rw [hp1, k3, a1]; exact h2
  · unfold Triangle.area2 at k6 ⊢; rw [hp2, k6, a2]; exact h1
  · rw [a1]; exact h2
  · rw [a2]; exact h1

/-- Witness for `Legalize_flip_keeps_orientation`: edge 0 of triangle
0 = (p, a, b) of `cascadeMesh`, shared with triangle 1 = (b, a, c), where c
lies inside the circle through p, a and b. -/
theorem Legalize_flip_keeps_orientation_witness :
    ∃ s1 t1 ot1, RotateTrianglePair 0 cp 1 cc cascadeMesh = Res.ok () s1 ∧
      s1.tris[0]? = some t1 ∧ s1.tris[1]? = some ot1 ∧
      t1.PointCCW cp = some cc ∧ t1.PointCW cp = some cb ∧
      ot1.PointCCW cc = some cp ∧ ot1.PointCW cc = some ca ∧
      0 < t1.area2 ∧ 0 < ot1.area2 ∧
      0 < area2 cp cc cb ∧ 0 < area2 cc cp ca :=
  Legalize_flip_keeps_orientation cascadeMesh 0 1
    { Triangle.mk3 cp ca cb with neighbors_ := ⟨some 1, none, none⟩ }
    { Triangle.mk3 cb ca cc with neighbors_ := ⟨some 2, none, some 0⟩ }
    0 cc ca cb rfl rfl rfl (by decide) (by decide) (by decide) (by decide)
    (by decide) (by decide) (by decide!)


/-! ### The vertices of a triangle object across a call -/

theorem Inv_modifyTri_vertices (k : TriId) (pts : Arr3 Point) (t : TriId)
    (f : Triangle → Triangle) (hf : ∀ x, (f x).points_ = x.points_) :
    Inv (HasVertices k pts) (modifyTri t f) := by
  rintro s ⟨tri, h1, h2⟩
  unfold modifyTri
  cases ht : s.tris[t]? with
  | none => exact ⟨tri, h1, h2⟩
  | some v =>
    simp only [Res.ctx]
    by_cases hk : t = k
    · subst hk
      rw [ht] at h1
      obtain rfl : v = tri := Option.some.inj h1
      exact ⟨f v, by simp [heap_set_get ht], (hf v).trans h2⟩
    · exact ⟨tri, by simp [heap_set_get ht, hk, h1], h2⟩

theorem MarkNeighborEdge_points (x : Triangle) (u v : Point) (n : TriId) :
    (x.MarkNeighborEdge u v n).points_ = x.points_ := by
  unfold Triangle.MarkNeighborEdge
  split_ifs <;> rfl

theorem Inv_MarkNeighbor_vertices (k : TriId) (pts : Arr3 Point) (a b : TriId) :
    Inv (HasVertices k pts) (MarkNeighbor a b) := by
  have step : ∀ (i : Fin 3) (u v : Point), Inv (HasVertices k pts) ((do
      modifyTri a (fun x => { x with neighbors_ := x.neighbors_.set i (some b) })
      modifyTri b (fun x => x.MarkNeighborEdge u v a)) : M Unit) := fun i u v =>
    Inv_bind (Inv_modifyTri_vertices k pts a _ (fun _ => rfl))
      (fun _ => Inv_modifyTri_vertices k pts b _ (fun x => MarkNeighborEdge_points x u v a))
  unfold MarkNeighbor
  refine Inv_bind (Inv_getTri _) (fun me => Inv_bind (Inv_getTri _) (fun other => ?_))
  split_ifs
  · exact step 0 _ _
  · exact step 1 _ _
  · exact step 2 _ _
  · exact Inv_pure _

theorem HasVertices_IgnoresNodes (k : TriId) (pts : Arr3 Point) :
    IgnoresNodes (HasVertices k pts) := fun _ _ h => h

theorem HasVertices_IgnoresMap (k : TriId) (pts : Arr3 Point) :
    IgnoresMap (HasVertices k pts) := fun _ _ h => h

theorem HasVertices_newTriangle (a b c : Point) (s : SweepContext) :
    HasVertices s.tris.length ⟨a, b, c⟩ { s with tris := s.tris ++ [Triangle.mk3 a b c] } :=
  ⟨Triangle.mk3 a b c, by simp, rfl⟩

theorem bind_run_ok {α β : Type} {m : M α} {f : α → M β} {s s1 : SweepContext} {a : α}
    (h : m s = Res.ok a s1) : (m >>= f) s = f a s1 := by
  rw [run_bind, h]

theorem deref_some {α : Type} {o : Option α} {a : α} (h : o = some a) (s : SweepContext) :
    deref o s = Res.ok a s := by
  subst h; rfl

theorem Inv_newNode_vertices (k : TriId) (pts : Arr3 Point) (p : Point) :
    Inv (HasVertices k pts) (newNode p) := fun _ h => h

theorem Inv_MapTriangleToNodes_vertices (k : TriId) (pts : Arr3 Point) (t : TriId) :
    Inv (HasVertices k pts) (MapTriangleToNodes t) :=
  Inv_MapTriangleToNodes (fun _ _ _ h => h) t

theorem Inv_Legalize_zero {P : SweepContext → Prop} (t : TriId) : Inv P (Legalize 0 t) :=
  fun _ h => h


/-! ### C25: the triangle of NewFrontTriangle -/

/-- The part of `NewFrontTriangle` between the allocation of the triangle and
the call of `Legalize`, and that call cut off at once, keep the vertices of
every triangle. -/
theorem NewFrontTriangle_vertices (s : SweepContext) (point n m : Point) (node nx : NodeId)
    (nd nn : Node) (hnd : s.nodes[node]? = some nd) (hn : nd.point = some n)
    (hnx : nd.next = some nx) (hnn : s.nodes[nx]? = some nn) (hm : nn.point = some m) :
    HasVertices s.tris.length ⟨point, n, m⟩ (NewFrontTriangle 0 point node s).ctx := by
  unfold NewFrontTriangle
  rw [bind_run_ok (getNode_of_some hnd), bind_run_ok (deref_some hn s),
    bind_run_ok (deref_some hnx s), bind_run_ok (nodePoint_of_some hnn hm),
    bind_run_ok (rfl : newTriangle point n m s = Res.ok _ _)]
  refine (?_ : Inv (HasVertices s.tris.length ⟨point, n, m⟩) _) _ (HasVertices_newTriangle _ _ _ s)
  have hN := HasVertices_IgnoresNodes s.tris.length ⟨point, n, m⟩
  refine Inv_bind (Inv_deref _) (fun _ => ?_)
  refine Inv_bind (Inv_MarkNeighbor_vertices _ _ _ _) (fun _ => ?_)
  refine Inv_bind (Inv_AddToMap (HasVertices_IgnoresMap _ _) _) (fun _ => ?_)
  refine Inv_bind (Inv_newNode_vertices _ _ _) (fun _ => ?_)
  refine Inv_bind (Inv_modifyCtx (fun _ h => h)) (fun _ => ?_)
  refine Inv_bind (Inv_getNode _) (fun _ => ?_)
  refine Inv_bind (Inv_modifyNode hN _ _) (fun _ => ?_)
  refine Inv_bind (Inv_modifyNode hN _ _) (fun _ => ?_)
  refine Inv_bind (Inv_getNode _) (fun _ => ?_)
  refine Inv_bind (Inv_deref _) (fun _ => ?_)
  refine Inv_bind (Inv_modifyNode hN _ _) (fun _ => ?_)
  refine Inv_bind (Inv_modifyNode hN _ _) (fun _ => ?_)
  refine Inv_bind (Inv_Legalize_zero _) (fun _ => ?_)
  dsimp only
  split
  · exact Inv_bind (Inv_MapTriangleToNodes_vertices _ _ _) (fun _ => Inv_pure _)
  · exact Inv_bind (Inv_pure _) (fun _ => Inv_pure _)

theorem locates_bounds {nodes : List Node} {point n m : Point} {node nx : NodeId} {nd nn : Node}
    (hnd : nodes[node]? = some nd) (hn : nd.point = some n) (hnx : nd.next = some nx)
    (hnn : nodes[nx]? = some nn) (hm : nn.point = some m)
    (hloc : locates nodes point node = true) : n.x ≤ point.x ∧ point.x < m.x := by
  unfold locates at hloc
  simp only [hnd, hn, hnx, hnn, hm, decide_eq_true_eq] at hloc
  exact hloc

/-- C25: in exact arithmetic, for a point p and a front node that locates it
(node.x ≤ p.x < node.next.x) whose point and whose successor's point both come
strictly before p in the sweep order, the triangle (p, node.point,
node.next.point) has strictly positive signed area, and it is the triangle
that `NewFrontTriangle` allocates: the state in which `Legalize` is entered
(the run cut off there) holds it as the new triangle object. -/
theorem NewFrontTriangle_creates_ccw_triangle (s : SweepContext) (point n m : Point)
    (node nx : NodeId) (nd nn : Node)
    (hnd : s.nodes[node]? = some nd) (hn : nd.point = some n) (hnx : nd.next = some nx)
    (hnn : s.nodes[nx]? = some nn) (hm : nn.point = some m)
    (hloc : locates s.nodes point node = true)
    (hbn : Precedes n point) (hbm : Precedes m point) :
    0 < area2 point n m ∧
    ∃ tri, (NewFrontTriangle 0 point node s).ctx.tris[s.tris.length]? = some tri ∧
      tri.points_ = ⟨point, n, m⟩ ∧ 0 < tri.area2 := by
  obtain ⟨hx1, hx2⟩ := locates_bounds hnd hn hnx hnn hm hloc
  have hmy : m.y < point.y := by
    rcases hbm with h | ⟨_, h⟩
    · exact h
    · exact absurd h (not_lt.mpr hx2.le)
  have hpos : 0 < area2 point n m := by
    unfold area2
    have h1 : 0 ≤ (n.x - point.x) * (m.y - point.y) :=
      mul_nonneg_of_nonpos_of_nonpos (by linarith) (by linarith)
    rcases hbn with h | ⟨h, hx⟩
    · have h2 : (n.y - point.y) * (m.x - point.x) < 0 :=
        mul_neg_of_neg_of_pos (by linarith) (by linarith)
      linarith
    · have h2 : 0 < (n.x - point.x) * (m.y - point.y) :=
        mul_pos_of_neg_of_neg (by linarith) (by linarith)
      have h3 : (n.y - point.y) * (m.x - point.x) = 0 := by rw [h]; ring
      linarith
  refine ⟨hpos, ?_⟩
  obtain ⟨tri, h1, h2⟩ := NewFrontTriangle_vertices s point n m node nx nd nn hnd hn hnx hnn hm
  refine ⟨tri, h1, h2, ?_⟩
  unfold Triangle.area2
  rw [h2]
  exact hpos

/-- Witness for `NewFrontTriangle_creates_ccw_triangle`: the point (3,2) over
the front of `startFront`, between the nodes of (0,0) and (10,-1). -/
theorem NewFrontTriangle_creates_ccw_triangle_witness :
    0 < area2 ⟨5, 3, 2⟩ ⟨1, 0, 0⟩ ⟨2, 10, -1⟩ ∧
    ∃ tri, (NewFrontTriangle 0 ⟨5, 3, 2⟩ 1 startFront).ctx.tris[startFront.tris.length]?
        = some tri ∧
      tri.points_ = ⟨⟨5, 3, 2⟩, ⟨1, 0, 0⟩, ⟨2, 10, -1⟩⟩ ∧ 0 < tri.area2 :=
  NewFrontTriangle_creates_ccw_triangle startFront ⟨5, 3, 2⟩ ⟨1, 0, 0⟩ ⟨2, 10, -1⟩ 1 2
    ⟨some ⟨1, 0, 0⟩, some 0, some 2, some 0⟩ ⟨some ⟨2, 10, -1⟩, none, none, some 1⟩
    rfl rfl rfl rfl rfl (by decide!) (by decide!) (by decide!)


/-! ### C24: the triangle of Fill after LargeHole_DontFill -/

/-- The part of `Fill` between the allocation of the triangle and the call of
`Legalize`, and that call cut off at once, keep the vertices of every
triangle. -/
theorem Fill_vertices (s : SweepContext) (node pv nx : NodeId) (nd np nn : Node)
    (p pp pn : Point)
    (hnd : s.nodes[node]? = some nd) (hprev : nd.prev = some pv) (hnext : nd.next = some nx)
    (hp : nd.point = some p) (hnp : s.nodes[pv]? = some np) (hpp : np.point = some pp)
    (hnn : s.nodes[nx]? = some nn) (hpn : nn.point = some pn) :
    HasVertices s.tris.length ⟨pp, p, pn⟩ (Fill 0 node s).ctx := by
  unfold Fill
  rw [bind_run_ok (getNode_of_some hnd), bind_run_ok (deref_some hprev s),
    bind_run_ok (nodePoint_of_some hnp hpp), bind_run_ok (deref_some hp s),
    bind_run_ok (deref_some hnext s), bind_run_ok (nodePoint_of_some hnn hpn),
    bind_run_ok (rfl : newTriangle pp p pn s = Res.ok _ _)]
  refine (?_ : Inv (HasVertices s.tris.length ⟨pp, p, pn⟩) _) _ (HasVertices_newTriangle _ _ _ s)
  have hN := HasVertices_IgnoresNodes s.tris.length ⟨pp, p, pn⟩
  refine Inv_bind (Inv_getNode _) (fun _ => ?_)
  refine Inv_bind (Inv_deref _) (fun _ => ?_)
  refine Inv_bind (Inv_getNode _) (fun _ => ?_)
  refine Inv_bind (Inv_deref _) (fun _ => ?_)
  refine Inv_bind (Inv_MarkNeighbor_vertices _ _ _ _) (fun _ => ?_)
  refine Inv_bind (Inv_getNode _) (fun _ => ?_)
  refine Inv_bind (Inv_deref _) (fun _ => ?_)
  refine Inv_bind (Inv_MarkNeighbor_vertices _ _ _ _) (fun _ => ?_)
  refine Inv_bind (Inv_AddToMap (HasVertices_IgnoresMap _ _) _) (fun _ => ?_)
  refine Inv_bind (Inv_getNode _) (fun _ => ?_)
  refine Inv_bind (Inv_deref _) (fun _ => ?_)
  refine Inv_bind (Inv_modifyNode hN _ _) (fun _ => ?_)
  refine Inv_bind (Inv_getNode _) (fun _ => ?_)
  refine Inv_bind (Inv_deref _) (fun _ => ?_)
  refine Inv_bind (Inv_modifyNode hN _ _) (fun _ => ?_)
  refine Inv_bind (Inv_Legalize_zero _) (fun _ => ?_)
  split
  · exact Inv_MapTriangleToNodes_vertices _ _ _
  · exact Inv_pure _

/-- With prev to the left and next to the right of the node and one of them
not lower than it, a negative cross product of `Angle(node, next, prev)` goes
with a negative dot product: the angle is below -90 degrees. -/
theorem dot_neg_of_cross_neg (ax ay bx b_y : ℚ) (hax : 0 < ax) (hbx : bx < 0)
    (hy : 0 ≤ b_y ∨ 0 ≤ ay) (hc : ax * b_y - ay * bx < 0) : ax * bx + ay * b_y < 0 := by
  by_contra hd
  rw [not_lt] at hd
  have h1 : ax * bx < 0 := mul_neg_of_pos_of_neg hax hbx
  have h2 : 0 < ay * b_y := by linarith
  have h3 : 0 < ay ∧ 0 < b_y := by
    rcases hy with h | h
    · have hb : 0 < b_y := by
        rcases h.lt_or_eq with h | h
        · exact h
        · rw [← h] at h2; simp at h2
      exact ⟨(pos_iff_pos_of_mul_pos h2).2 hb, hb⟩
    · have ha : 0 < ay := by
        rcases h.lt_or_eq with h | h
        · exact h
        · rw [← h] at h2; simp at h2
      exact ⟨ha, (pos_iff_pos_of_mul_pos h2).1 ha⟩
  have h4 : 0 < ax * b_y := mul_pos hax h3.2
  have h5 : ay * bx < 0 := mul_neg_of_pos_of_neg h3.1 hbx
  linarith

theorem area2_eq_crossAt (pp p pn : Point) : area2 pp p pn = crossAt p pn pp := by
  unfold area2 crossAt
  ring

/-- In exact arithmetic, with prev to the left and next to the right of the
node and one of them not lower than it, a negative cross product makes both
tests of `LargeHole_DontFill` on `Angle(node, next, prev)` succeed. -/
theorem angle_tests_of_cross_neg {env : Env} (hE : ExactArithmetic env) (p pp pn : Point)
    (hx : pp.x < p.x ∧ p.x < pn.x) (hy : p.y ≤ pp.y ∨ p.y ≤ pn.y)
    (hneg : crossAt p pn pp < 0) :
    AngleExceeds90Degrees env p pn pp = true ∧ AngleIsNegative env p pn pp = true := by
  have hdot : dotAt p pn pp < 0 := by
    unfold dotAt
    unfold crossAt at hneg
    exact dot_neg_of_cross_neg (pn.x - p.x) (pn.y - p.y) (pp.x - p.x) (pp.y - p.y)
      (by linarith [hx.2]) (by linarith [hx.1])
      (by rcases hy with h | h
          · left; linarith
          · right; linarith) hneg
  have h1 : Complex.arg ⟨(dotAt p pn pp : ℝ), (crossAt p pn pp : ℝ)⟩ < -(Real.pi / 2) :=
    (arg_lt_neg_pi_div_two_iff _ _).2 ⟨hdot, hneg⟩
  have h2 : Complex.arg ⟨(dotAt p pn pp : ℝ), (crossAt p pn pp : ℝ)⟩ < 0 :=
    (arg_lt_zero_iff _ _).2 hneg
  exact ⟨(AngleExceeds90Degrees_iff hE _ _ _).2 (Or.inr h1), (AngleIsNegative_iff hE _ _ _).2 h2⟩

theorem Contains2_of_PointCCW {tri : Triangle} {p q : Point} (h : tri.PointCCW p = some q) :
    tri.Contains2 p q = true := by
  obtain ⟨ce, de, ⟨x0, x1, x2⟩, nb, it⟩ := tri
  unfold Triangle.PointCCW at h
  unfold Triangle.Contains2 Triangle.Contains
  simp only at h ⊢
  split_ifs at h <;> simp_all

theorem Contains2_of_PointCW {tri : Triangle} {p q : Point} (h : tri.PointCW p = some q) :
    tri.Contains2 p q = true := by
  obtain ⟨ce, de, ⟨x0, x1, x2⟩, nb, it⟩ := tri
  unfold Triangle.PointCW at h
  unfold Triangle.Contains2 Triangle.Contains
  simp only at h ⊢
  split_ifs at h <;> simp_all

/-- With the pivot at eq, the body of the interior `EdgeEvent` passes the
test `Contains(eq, p_i)` whenever it reaches it and calls `recur` and `flip`
with the pivot at eq again. -/
theorem EdgeEventBody_at_eq (env : Env)
    (recur : Point → Point → Option TriId → Point → M Unit)
    (flip : Point → Point → TriId → Point → M Unit)
    (recurA : Point → Point → Option TriId → M Unit) (flipA : Point → Point → TriId → M Unit)
    (hrecur : ∀ ep eq tr, recur ep eq tr eq = recurA ep eq tr)
    (hflip : ∀ ep eq t, flip ep eq t eq = flipA ep eq t)
    (ep eq : Point) (triangle : Option TriId) :
    EdgeEventBody env recur flip ep eq triangle eq
      = EdgeEventBodyAtEq env recurA flipA ep eq triangle := by
  unfold EdgeEventBody EdgeEventBodyAtEq
  cases triangle with
  | none => rfl
  | some tr =>
    dsimp only
    congr 1
    funext b
    split
    · rfl
    · congr 1
      funext _
      congr 1
      funext tri
      cases h1 : tri.PointCCW eq with
      | none => rfl
      | some p1 =>
        dsimp only
        rw [Contains2_of_PointCCW h1]
        simp only [if_true, hrecur]
        split
        · rfl
        · cases h2 : tri.PointCW eq with
          | none => rfl
          | some p2 =>
            dsimp only
            rw [Contains2_of_PointCW h2]
            simp only [if_true, hrecur, hflip] <;> rfl

/-- Started with the pivot at eq, the interior `EdgeEvent` and `FlipEdgeEvent`
run as their forms without pivot: every call they make of each other has the
pivot at eq. -/
theorem pivot_at_eq (env : Env) : ∀ fuel : Nat,
    (∀ ep eq tr, EdgeEventInterior env fuel ep eq tr eq
      = EdgeEventInteriorAtEq env (NextFlipPoint env) fuel ep eq tr) ∧
    (∀ ep eq t, FlipEdgeEvent env fuel ep eq t eq
      = FlipEdgeEventAtEq env (NextFlipPoint env) fuel ep eq t) ∧
    (∀ ep eq ft t p, FlipScanEdgeEvent env fuel ep eq ft t p
      = FlipScanEdgeEventAtEq env (NextFlipPoint env) fuel ep eq ft t p) := by
  intro fuel
  induction fuel with
  | zero =>
    refine ⟨fun ep eq tr => ?_, fun ep eq t => ?_, fun ep eq ft t p => ?_⟩
    · rw [EdgeEventInterior, EdgeEventInteriorAtEq]
    · rw [FlipEdgeEvent, FlipEdgeEventAtEq]
    · rw [FlipScanEdgeEvent, FlipScanEdgeEventAtEq]
  | succ fuel ih =>
    obtain ⟨ih1, ih2, ih3⟩ := ih
    refine ⟨fun ep eq tr => ?_, fun ep eq t => ?_, fun ep eq ft t p => ?_⟩
    · rw [EdgeEventInterior, EdgeEventInteriorAtEq]
      exact EdgeEventBody_at_eq env _ _ _ _ ih1 ih2 ep eq tr
    · rw [FlipEdgeEvent, FlipEdgeEventAtEq]
      simp only [ih1, ih2, ih3, true_and] <;> (first | rfl | congr!)
    · rw [FlipScanEdgeEvent, FlipScanEdgeEventAtEq]
      simp only [ih2, ih3] <;> (first | rfl | congr!)

/-! ### The exceptions of the edge event -/

theorem Raises_IsEdgeSideOfTriangle {E : Err → Prop} (hU : E Err.undefined_behaviour)
    (t : TriId) (ep eq : Point) : Raises E (IsEdgeSideOfTriangle t ep eq) := by
  unfold IsEdgeSideOfTriangle
  repeat' first
        | exact Raises_pure _ | exact Raises_getTri hU _ | exact Raises_modifyTri hU _ _
        | refine Raises_bind ?_ (fun _ => ?_) | split | dsimp only

theorem Raises_NextFlipTriangle {E : Err → Prop} (hU : E Err.undefined_behaviour)
    (hF : E Err.out_of_fuel) (fuel : Nat) (o : Orientation) (t ot : TriId) (p op : Point) :
    Raises E (NextFlipTriangle fuel o t ot p op) := by
  unfold NextFlipTriangle
  repeat' first
        | exact Raises_pure _ | exact Raises_getTri hU _ | exact Raises_modifyTri hU _ _
        | exact Raises_deref hU _ | exact Raises_Legalize hU hF _ _
        | refine Raises_bind ?_ (fun _ => ?_) | split | dsimp only

theorem Raises_FillRightConcaveEdgeEvent {E : Err → Prop} (hU : E Err.undefined_behaviour)
    (hF : E Err.out_of_fuel) (env : Env) :
    ∀ (fuel : Nat) (edge : EdgeId) (node : NodeId), Raises E (FillRightConcaveEdgeEvent env fuel edge node) := by
  intro fuel
  induction fuel with
  | zero => intros; first | exact Raises_raise hF | (unfold FillRightConcaveEdgeEvent; exact Raises_raise hF)
  | succ fuel ih =>
    intros
    unfold FillRightConcaveEdgeEvent
    repeat' first
        | exact Raises_pure _ | exact Raises_getTri hU _ | exact Raises_modifyTri hU _ _
        | exact Raises_deref hU _ | exact Raises_getNode hU _ | exact Raises_modifyNode hU _ _
        | exact Raises_getEdge hU _ | exact Raises_modifyEdge hU _ _
        | exact Raises_nodePoint hU _ | exact Raises_getCtx | exact Raises_modifyCtx _
        | exact Raises_Legalize hU hF _ _ | exact Raises_MapTriangleToNodes hU _
        | exact Raises_RotateTrianglePair hU _ _ _ _
        | exact Raises_Fill hU hF _ _
        | exact ih _ _
        | refine Raises_bind ?_ (fun _ => ?_) | split | dsimp only

theorem Raises_FillRightConvexEdgeEvent {E : Err → Prop} (hU : E Err.undefined_behaviour)
    (hF : E Err.out_of_fuel) (env : Env) :
    ∀ (fuel : Nat) (edge : EdgeId) (node : NodeId), Raises E (FillRightConvexEdgeEvent env fuel edge node) := by
  intro fuel
  induction fuel with
  | zero => intros; first | exact Raises_raise hF | (unfold FillRightConvexEdgeEvent; exact Raises_raise hF)
  | succ fuel ih =>
    intros
    unfold FillRightConvexEdgeEvent
    repeat' first
        | exact Raises_pure _ | exact Raises_getTri hU _ | exact Raises_modifyTri hU _ _
        | exact Raises_deref hU _ | exact Raises_getNode hU _ | exact Raises_modifyNode hU _ _
        | exact Raises_getEdge hU _ | exact Raises_modifyEdge hU _ _
        | exact Raises_nodePoint hU _ | exact Raises_getCtx | exact Raises_modifyCtx _
        | exact Raises_Legalize hU hF _ _ | exact Raises_MapTriangleToNodes hU _
        | exact Raises_RotateTrianglePair hU _ _ _ _
        | exact Raises_Fill hU hF _ _
        | exact Raises_FillRightConcaveEdgeEvent hU hF _ _ _ _
        | exact ih _ _
        | refine Raises_bind ?_ (fun _ => ?_) | split | dsimp only

theorem Raises_FillRightBelowEdgeEvent {E : Err → Prop} (hU : E Err.undefined_behaviour)
    (hF : E Err.out_of_fuel) (env : Env) :
    ∀ (fuel : Nat) (edge : EdgeId) (node : NodeId), Raises E (FillRightBelowEdgeEvent env fuel edge node) := by
  intro fuel
  induction fuel with
  | zero => intros; first | exact Raises_raise hF | (unfold FillRightBelowEdgeEvent; exact Raises_raise hF)
  | succ fuel ih =>
    intros
    unfold FillRightBelowEdgeEvent
    repeat' first
        | exact Raises_pure _ | exact Raises_getTri hU _ | exact Raises_modifyTri hU _ _
        | exact Raises_deref hU _ | exact Raises_getNode hU _ | exact Raises_modifyNode hU _ _
        | exact Raises_getEdge hU _ | exact Raises_modifyEdge hU _ _
        | exact Raises_nodePoint hU _ | exact Raises_getCtx | exact Raises_modifyCtx _
        | exact Raises_Legalize hU hF _ _ | exact Raises_MapTriangleToNodes hU _
        | exact Raises_RotateTrianglePair hU _ _ _ _
        | exact Raises_Fill hU hF _ _
        | exact Raises_FillRightConcaveEdgeEvent hU hF _ _ _ _
        | exact Raises_FillRightConvexEdgeEvent hU hF _ _ _ _
        | exact ih _ _
        | refine Raises_bind ?_ (fun _ => ?_) | split | dsimp only

theorem Raises_FillRightAboveEdgeEvent {E : Err → Prop} (hU : E Err.undefined_behaviour)
    (hF : E Err.out_of_fuel) (env : Env) :
    ∀ (fuel : Nat) (edge : EdgeId) (node : NodeId), Raises E (FillRightAboveEdgeEvent env fuel edge node) := by
  intro fuel
  induction fuel with
  | zero => intros; first | exact Raises_raise hF | (unfold FillRightAboveEdgeEvent; exact Raises_raise hF)
  | succ fuel ih =>
    intros
    unfold FillRightAboveEdgeEvent
    repeat' first
        | exact Raises_pure _ | exact Raises_getTri hU _ | exact Raises_modifyTri hU _ _
        | exact Raises_deref hU _ | exact Raises_getNode hU _ | exact Raises_modifyNode hU _ _
        | exact Raises_getEdge hU _ | exact Raises_modifyEdge hU _ _
        | exact Raises_nodePoint hU _ | exact Raises_getCtx | exact Raises_modifyCtx _
        | exact Raises_Legalize hU hF _ _ | exact Raises_MapTriangleToNodes hU _
        | exact Raises_RotateTrianglePair hU _ _ _ _
        | exact Raises_Fill hU hF _ _
        | exact Raises_FillRightBelowEdgeEvent hU hF _ _ _ _
        | exact ih _ _
        | refine Raises_bind ?_ (fun _ => ?_) | split | dsimp only

theorem Raises_FillLeftConcaveEdgeEvent {E : Err → Prop} (hU : E Err.undefined_behaviour)
    (hF : E Err.out_of_fuel) (env : Env) :
    ∀ (fuel : Nat) (edge : EdgeId) (node : NodeId), Raises E (FillLeftConcaveEdgeEvent env fuel edge node) := by
  intro fuel
  induction fuel with
  | zero => intros; first | exact Raises_raise hF | (unfold FillLeftConcaveEdgeEvent; exact Raises_raise hF)
  | succ fuel ih =>
    intros
    unfold FillLeftConcaveEdgeEvent
    repeat' first
        | exact Raises_pure _ | exact Raises_getTri hU _ | exact Raises_modifyTri hU _ _
        | exact Raises_deref hU _ | exact Raises_getNode hU _ | exact Raises_modifyNode hU _ _
        | exact Raises_getEdge hU _ | exact Raises_modifyEdge hU _ _
        | exact Raises_nodePoint hU _ | exact Raises_getCtx | exact Raises_modifyCtx _
        | exact Raises_Legalize hU hF _ _ | exact Raises_MapTriangleToNodes hU _
        | exact Raises_RotateTrianglePair hU _ _ _ _
        | exact Raises_Fill hU hF _ _
        | exact ih _ _
        | refine Raises_bind ?_ (fun _ => ?_) | split | dsimp only

theorem Raises_FillLeftConvexEdgeEvent {E : Err → Prop} (hU : E Err.undefined_behaviour)
    (hF : E Err.out_of_fuel) (env : Env) :
    ∀ (fuel : Nat) (edge : EdgeId) (node : NodeId), Raises E (FillLeftConvexEdgeEvent env fuel edge node) := by
  intro fuel
  induction fuel with
  | zero => intros; first | exact Raises_raise hF | (unfold FillLeftConvexEdgeEvent; exact Raises_raise hF)
  | succ fuel ih =>
    intros
    unfold FillLeftConvexEdgeEvent
    repeat' first
        | exact Raises_pure _ | exact Raises_getTri hU _ | exact Raises_modifyTri hU _ _
        | exact Raises_deref hU _ | exact Raises_getNode hU _ | exact Raises_modifyNode hU _ _
        | exact Raises_getEdge hU _ | exact Raises_modifyEdge hU _ _
        | exact Raises_nodePoint hU _ | exact Raises_getCtx | exact Raises_modifyCtx _
        | exact Raises_Legalize hU hF _ _ | exact Raises_MapTriangleToNodes hU _
        | exact Raises_RotateTrianglePair hU _ _ _ _
        | exact Raises_Fill hU hF _ _
        | exact Raises_FillLeftConcaveEdgeEvent hU hF _ _ _ _
        | exact ih _ _
        | refine Raises_bind ?_ (fun _ => ?_) | split | dsimp only

theorem Raises_FillLeftBelowEdgeEvent {E : Err → Prop} (hU : E Err.undefined_behaviour)
    (hF : E Err.out_of_fuel) (env : Env) :
    ∀ (fuel : Nat) (edge : EdgeId) (node : NodeId), Raises E (FillLeftBelowEdgeEvent env fuel edge node) := by
  intro fuel
  induction fuel with
  | zero => intros; first | exact Raises_raise hF | (unfold FillLeftBelowEdgeEvent; exact Raises_raise hF)
  | succ fuel ih =>
    intros
    unfold FillLeftBelowEdgeEvent
    repeat' first
        | exact Raises_pure _ | exact Raises_getTri hU _ | exact Raises_modifyTri hU _ _
        | exact Raises_deref hU _ | exact Raises_getNode hU _ | exact Raises_modifyNode hU _ _
        | exact Raises_getEdge hU _ | exact Raises_modifyEdge hU _ _
        | exact Raises_nodePoint hU _ | exact Raises_getCtx | exact Raises_modifyCtx _
        | exact Raises_Legalize hU hF _ _ | exact Raises_MapTriangleToNodes hU _
        | exact Raises_RotateTrianglePair hU _ _ _ _
        | exact Raises_Fill hU hF _ _
        | exact Raises_FillLeftConcaveEdgeEvent hU hF _ _ _ _
        | exact Raises_FillLeftConvexEdgeEvent hU hF _ _ _ _
        | exact ih _ _
        | refine Raises_bind ?_ (fun _ => ?_) | split | dsimp only

theorem Raises_FillLeftAboveEdgeEvent {E : Err → Prop} (hU : E Err.undefined_behaviour)
    (hF : E Err.out_of_fuel) (env : Env) :
    ∀ (fuel : Nat) (edge : EdgeId) (node : NodeId), Raises E (FillLeftAboveEdgeEvent env fuel edge node) := by
  intro fuel
  induction fuel with
  | zero => intros; first | exact Raises_raise hF | (unfold FillLeftAboveEdgeEvent; exact Raises_raise hF)
  | succ fuel ih =>
    intros
    unfold FillLeftAboveEdgeEvent
    repeat' first
        | exact Raises_pure _ | exact Raises_getTri hU _ | exact Raises_modifyTri hU _ _
        | exact Raises_deref hU _ | exact Raises_getNode hU _ | exact Raises_modifyNode hU _ _
        | exact Raises_getEdge hU _ | exact Raises_modifyEdge hU _ _
        | exact Raises_nodePoint hU _ | exact Raises_getCtx | exact Raises_modifyCtx _
        | exact Raises_Legalize hU hF _ _ | exact Raises_MapTriangleToNodes hU _
        | exact Raises_RotateTrianglePair hU _ _ _ _
        | exact Raises_Fill hU hF _ _
        | exact Raises_FillLeftBelowEdgeEvent hU hF _ _ _ _
        | exact ih _ _
        | refine Raises_bind ?_ (fun _ => ?_) | split | dsimp only

theorem Raises_FillEdgeEvent {E : Err → Prop} (hU : E Err.undefined_behaviour)
    (hF : E Err.out_of_fuel) (env : Env) (fuel : Nat) (edge : EdgeId) (node : NodeId) :
    Raises E (FillEdgeEvent env fuel edge node) := by
  unfold FillEdgeEvent
  repeat' first
        | exact Raises_getCtx
        | exact Raises_FillRightAboveEdgeEvent hU hF _ _ _ _
        | exact Raises_FillLeftAboveEdgeEvent hU hF _ _ _ _
        | refine Raises_bind ?_ (fun _ => ?_) | split | dsimp only


theorem NotCollinearPoints_stuck :
    NotCollinearPoints Err.undefined_behaviour ∧ NotCollinearPoints Err.out_of_fuel :=
  ⟨trivial, trivial⟩

theorem Raises_EdgeEventBodyAtEq (env : Env) (recur : Point → Point → Option TriId → M Unit)
    (flip : Point → Point → TriId → M Unit)
    (hrecur : ∀ ep eq tr, Raises NotCollinearPoints (recur ep eq tr))
    (hflip : ∀ ep eq t, Raises NotCollinearPoints (flip ep eq t))
    (ep eq : Point) (triangle : Option TriId) :
    Raises NotCollinearPoints (EdgeEventBodyAtEq env recur flip ep eq triangle) := by
  have hU : NotCollinearPoints Err.undefined_behaviour := trivial
  unfold EdgeEventBodyAtEq
  repeat' first
        | exact Raises_pure _ | exact Raises_getTri hU _ | exact Raises_modifyTri hU _ _
        | exact Raises_deref hU _ | exact Raises_modifyEdge hU _ _ | exact Raises_getCtx
        | exact Raises_IsEdgeSideOfTriangle hU _ _ _
        | exact Raises_raise trivial
        | exact hrecur _ _ _ | exact hflip _ _ _
        | refine Raises_bind ?_ (fun _ => ?_) | split | dsimp only

/-- The forms without pivot end with `CollinearPoints` only when the call
`next` of `NextFlipPoint` does. -/
theorem Raises_AtEq (env : Env) (next : Point → Point → TriId → Point → M Point)
    (hnext : ∀ ep eq ot op, Raises NotCollinearPoints (next ep eq ot op)) : ∀ fuel : Nat,
    (∀ ep eq tr, Raises NotCollinearPoints (EdgeEventInteriorAtEq env next fuel ep eq tr)) ∧
    (∀ ep eq t, Raises NotCollinearPoints (FlipEdgeEventAtEq env next fuel ep eq t)) ∧
    (∀ ep eq ft t p,
      Raises NotCollinearPoints (FlipScanEdgeEventAtEq env next fuel ep eq ft t p)) := by
  have hU : NotCollinearPoints Err.undefined_behaviour := trivial
  have hF : NotCollinearPoints Err.out_of_fuel := trivial
  intro fuel
  induction fuel with
  | zero =>
    refine ⟨fun ep eq tr => ?_, fun ep eq t => ?_, fun ep eq ft t p => ?_⟩
    · rw [EdgeEventInteriorAtEq]; exact Raises_raise hF
    · rw [FlipEdgeEventAtEq]; exact Raises_raise hF
    · rw [FlipScanEdgeEventAtEq]; exact Raises_raise hF
  | succ fuel ih =>
    obtain ⟨ih1, ih2, ih3⟩ := ih
    refine ⟨fun ep eq tr => ?_, fun ep eq t => ?_, fun ep eq ft t p => ?_⟩
    · rw [EdgeEventInteriorAtEq]
      exact Raises_EdgeEventBodyAtEq env _ _ ih1 ih2 ep eq tr
    · rw [FlipEdgeEventAtEq]
      repeat' first
        | exact Raises_pure _ | exact Raises_getTri hU _ | exact Raises_modifyTri hU _ _
        | exact Raises_deref hU _ | exact Raises_getEdge hU _ | exact Raises_getCtx
        | exact Raises_RotateTrianglePair hU _ _ _ _ | exact Raises_MapTriangleToNodes hU _
        | exact Raises_Legalize hU hF _ _ | exact Raises_NextFlipTriangle hU hF _ _ _ _ _ _
        | exact Raises_raise trivial
        | exact hnext _ _ _ _ | exact ih1 _ _ _ | exact ih2 _ _ _ | exact ih3 _ _ _ _ _
        | refine Raises_bind ?_ (fun _ => ?_) | split | dsimp only
    · rw [FlipScanEdgeEventAtEq]
      repeat' first
        | exact Raises_pure _ | exact Raises_getTri hU _
        | exact Raises_raise trivial
        | exact hnext _ _ _ _ | exact ih2 _ _ _ | exact ih3 _ _ _ _ _
        | refine Raises_bind ?_ (fun _ => ?_) | split | dsimp only

theorem Raises_EdgeEventTop (env : Env) (interior : Point → Point → Option TriId → Point → M Unit)
    (hint : ∀ ep eq tr p, Raises NotCollinearPoints (interior ep eq tr p))
    (fuel : Nat) (edge : EdgeId) (node : NodeId) :
    Raises NotCollinearPoints (EdgeEventTop env interior fuel edge node) := by
  have hU : NotCollinearPoints Err.undefined_behaviour := trivial
  have hF : NotCollinearPoints Err.out_of_fuel := trivial
  unfold EdgeEventTop
  repeat' first
        | exact Raises_pure _ | exact Raises_getNode hU _
        | exact Raises_deref hU _ | exact Raises_getEdge hU _ | exact Raises_modifyCtx _
        | exact Raises_IsEdgeSideOfTriangle hU _ _ _
        | exact Raises_FillEdgeEvent hU hF _ _ _ _
        | exact Raises_raise trivial
        | exact hint _ _ _ _
        | refine Raises_bind ?_ (fun _ => ?_) | split | dsimp only

/-- C23: the top-level `EdgeEvent(e, node)` runs as the form in which the
interior `EdgeEvent` and `FlipEdgeEvent` take no pivot argument, `eq` standing
in its place in every call, and in which the test `triangle.Contains(eq, p_i)`
and the `CollinearPoints` throw behind it are left out; and that form, with
any `next` in the place of `NextFlipPoint` that does not end with
`CollinearPoints`, does not end with `CollinearPoints` either: the error
comes from `NextFlipPoint` alone. -/
theorem EdgeEvent_pivot_is_eq (env : Env) (next : Point → Point → TriId → Point → M Point)
    (hnext : ∀ ep eq ot op, Raises NotCollinearPoints (next ep eq ot op))
    (fuel : Nat) (edge : EdgeId) (node : NodeId) :
    EdgeEvent env fuel edge node
      = EdgeEventTop env
          (fun ep eq tr _ => EdgeEventInteriorAtEq env (NextFlipPoint env) fuel ep eq tr)
          fuel edge node ∧
    Raises NotCollinearPoints
      (EdgeEventTop env (fun ep eq tr _ => EdgeEventInteriorAtEq env next fuel ep eq tr)
        fuel edge node) := by
  refine ⟨?_, Raises_EdgeEventTop env _ (fun ep eq tr _ => (Raises_AtEq env next hnext fuel).1 ep eq tr)
    fuel edge node⟩
  unfold EdgeEvent EdgeEventTop
  simp only [(pivot_at_eq env fuel).1]

/-- Witness for `EdgeEvent_pivot_is_eq`: with `next` returning the opposite
point as it is, which never throws. -/
theorem EdgeEvent_pivot_is_eq_witness :
    EdgeEvent (specEnv 0) 3 0 1
      = EdgeEventTop (specEnv 0)
          (fun ep eq tr _ =>
            EdgeEventInteriorAtEq (specEnv 0) (NextFlipPoint (specEnv 0)) 3 ep eq tr)
          3 0 1 ∧
    Raises NotCollinearPoints
      (EdgeEventTop (specEnv 0)
        (fun ep eq tr _ => EdgeEventInteriorAtEq (specEnv 0) (fun _ _ _ op => pure op) 3 ep eq tr)
        3 0 1) :=
  EdgeEvent_pivot_is_eq (specEnv 0) (fun _ _ _ op => pure op) (fun _ _ _ _ => Raises_pure _) 3 0 1


/-! ### The number of triangle objects across a call -/

theorem Inv_modifyTri_length (n : Nat) (t : TriId) (f : Triangle → Triangle) :
    Inv (fun s => s.tris.length = n) (modifyTri t f) := by
  intro s h
  unfold modifyTri
  split
  · show (s.tris.set t _).length = n
    rw [List.length_set]
    exact h
  · exact h

theorem Inv_MarkNeighbor_of_write {P : SweepContext → Prop}
    (hP : ∀ t f, Inv P (modifyTri t f)) (a b : TriId) : Inv P (MarkNeighbor a b) := by
  unfold MarkNeighbor
  refine Inv_bind (Inv_getTri _) (fun me => Inv_bind (Inv_getTri _) (fun other => ?_))
  split_ifs
  · exact Inv_bind (hP _ _) (fun _ => hP _ _)
  · exact Inv_bind (hP _ _) (fun _ => hP _ _)
  · exact Inv_bind (hP _ _) (fun _ => hP _ _)
  · exact Inv_pure _

theorem Inv_MarkNeighborIf_of_write {P : SweepContext → Prop}
    (hP : ∀ t f, Inv P (modifyTri t f)) (a : TriId) (b : Option TriId) :
    Inv P (MarkNeighborIf a b) := by
  unfold MarkNeighborIf
  split
  · exact Inv_MarkNeighbor_of_write hP _ _
  · exact Inv_pure _

theorem Inv_RotateTrianglePair_of_write {P : SweepContext → Prop}
    (hP : ∀ t f, Inv P (modifyTri t f)) (t : TriId)
    (p : Point) (ot : TriId) (op : Point) : Inv P (RotateTrianglePair t p ot op) := by
  unfold RotateTrianglePair
  repeat' first
    | exact Inv_pure _ | exact Inv_getTri _ | exact hP _ _
    | exact Inv_MarkNeighbor_of_write hP _ _ | exact Inv_MarkNeighborIf_of_write hP _ _
    | refine Inv_bind ?_ (fun _ => ?_) | split | dsimp only

theorem Inv_LegalizeEdge_of_write {P : SweepContext → Prop}
    (hP : ∀ t f, Inv P (modifyTri t f))
    (hN : IgnoresNodeTriangles P) (rec : TriId → M Bool) (hrec : ∀ t, Inv P (rec t))
    (t : TriId) (i : Fin 3) : Inv P (LegalizeEdge rec t i) := by
  unfold LegalizeEdge
  repeat' first
    | exact Inv_pure _ | exact Inv_getTri _ | exact hP _ _ | exact Inv_deref _
    | exact Inv_RotateTrianglePair_of_write hP _ _ _ _ | exact Inv_MapTriangleToNodes hN _
    | exact hrec _
    | refine Inv_bind ?_ (fun _ => ?_) | split | dsimp only

theorem Inv_Legalize_of_write {P : SweepContext → Prop} (hP : ∀ t f, Inv P (modifyTri t f))
    (hN : IgnoresNodeTriangles P) : ∀ (fuel : Nat) (t : TriId), Inv P (Legalize fuel t) := by
  intro fuel
  induction fuel with
  | zero => intro t; exact Inv_raise _
  | succ fuel ih =>
    intro t
    unfold Legalize
    repeat' first
      | exact Inv_pure _ | exact Inv_LegalizeEdge_of_write hP hN _ ih _ _
      | refine Inv_bind ?_ (fun _ => ?_) | split | dsimp only

theorem Grows_of_Inv {α : Type} {m : M α} (h : ∀ n, Inv (fun s => s.tris.length = n) m) :
    Grows 0 m := by
  intro s a s1 hr
  have := h s.tris.length s rfl
  rw [hr] at this
  exact this

theorem Grows_bind_left {α β : Type} {k : Nat} {m : M α} {f : α → M β} (hm : Grows 0 m)
    (hf : ∀ a, Grows k (f a)) : Grows k (m >>= f) := by
  intro s b s2 hr
  obtain ⟨a, s1, h1, h2⟩ := bind_ok hr
  rw [hf a s1 b s2 h2, hm s a s1 h1]
  rfl

theorem Grows_bind_right {α β : Type} {k : Nat} {m : M α} {f : α → M β} (hm : Grows k m)
    (hf : ∀ a, Grows 0 (f a)) : Grows k (m >>= f) := by
  intro s b s2 hr
  obtain ⟨a, s1, h1, h2⟩ := bind_ok hr
  rw [hf a s1 b s2 h2, hm s a s1 h1]
  rfl

theorem Grows_newTriangle (a b c : Point) : Grows 1 (newTriangle a b c) := by
  intro s t s1 hr
  cases hr
  simp

theorem length_frame (n : Nat) :
    IgnoresMap (fun s => s.tris.length = n) ∧ IgnoresNodes (fun s => s.tris.length = n) :=
  ⟨fun _ _ h => h, fun _ _ h => h⟩

/-- A call of `Fill` that returns allocates one triangle. -/
theorem Grows_Fill (fuel : Nat) (node : NodeId) : Grows 1 (Fill fuel node) := by
  unfold Fill
  refine Grows_bind_left (Grows_of_Inv (fun n => Inv_getNode _)) (fun _ => ?_)
  refine Grows_bind_left (Grows_of_Inv (fun n => Inv_deref _)) (fun _ => ?_)
  refine Grows_bind_left (Grows_of_Inv (fun n => Inv_nodePoint _)) (fun _ => ?_)
  refine Grows_bind_left (Grows_of_Inv (fun n => Inv_deref _)) (fun _ => ?_)
  refine Grows_bind_left (Grows_of_Inv (fun n => Inv_deref _)) (fun _ => ?_)
  refine Grows_bind_left (Grows_of_Inv (fun n => Inv_nodePoint _)) (fun _ => ?_)
  refine Grows_bind_right (Grows_newTriangle _ _ _) (fun _ => ?_)
  refine Grows_of_Inv (fun n => ?_)
  have hW : ∀ t f, Inv (fun s : SweepContext => s.tris.length = n) (modifyTri t f) :=
    Inv_modifyTri_length n
  have hN := (length_frame n).2
  refine Inv_bind (Inv_getNode _) (fun _ => ?_)
  refine Inv_bind (Inv_deref _) (fun _ => ?_)
  refine Inv_bind (Inv_getNode _) (fun _ => ?_)
  refine Inv_bind (Inv_deref _) (fun _ => ?_)
  refine Inv_bind (Inv_MarkNeighbor_of_write hW _ _) (fun _ => ?_)
  refine Inv_bind (Inv_getNode _) (fun _ => ?_)
  refine Inv_bind (Inv_deref _) (fun _ => ?_)
  refine Inv_bind (Inv_MarkNeighbor_of_write hW _ _) (fun _ => ?_)
  refine Inv_bind (Inv_AddToMap (length_frame n).1 _) (fun _ => ?_)
  refine Inv_bind (Inv_getNode _) (fun _ => ?_)
  refine Inv_bind (Inv_deref _) (fun _ => ?_)
  refine Inv_bind (Inv_modifyNode hN _ _) (fun _ => ?_)
  refine Inv_bind (Inv_getNode _) (fun _ => ?_)
  refine Inv_bind (Inv_deref _) (fun _ => ?_)
  refine Inv_bind (Inv_modifyNode hN _ _) (fun _ => ?_)
  refine Inv_bind (Inv_Legalize_of_write hW (IgnoresNodeTriangles_of_IgnoresNodes hN) _ _)
    (fun _ => ?_)
  split
  · exact Inv_MapTriangleToNodes (IgnoresNodeTriangles_of_IgnoresNodes hN) _
  · exact Inv_pure _

/-! ### Rules for `FTn` -/

theorem FTn_bind {α β : Type} {m : M α} {f : α → M β} {F : Front} {n : Nat}
    {R : α → Front → Nat → Prop} {Q : β → Front → Nat → Prop} (h1 : FTn m F n R)
    (h2 : ∀ a F1 n1, R a F1 n1 → FTn (f a) F1 n1 Q) : FTn (m >>= f) F n Q := by
  intro s b s2 hs hn h
  obtain ⟨a, s1, hm, hf⟩ := bind_ok h
  exact h2 a (front s1) s1.tris.length (h1 s a s1 hs hn hm) s1 b s2 rfl rfl hf

theorem FTn_conseq {α : Type} {m : M α} {F : Front} {n : Nat} {R Q : α → Front → Nat → Prop}
    (h1 : FTn m F n R) (h2 : ∀ a F1 n1, R a F1 n1 → Q a F1 n1) : FTn m F n Q :=
  fun s a s1 hs hn h => h2 a _ _ (h1 s a s1 hs hn h)

theorem FTn_pure {α : Type} {a : α} {F : Front} {n : Nat} {Q : α → Front → Nat → Prop}
    (h : Q a F n) : FTn (pure a : M α) F n Q := by
  intro s b s1 hs hn hr
  cases hr
  rw [hs, hn]
  exact h

theorem FTn_raise {α : Type} {e : Err} {F : Front} {n : Nat} {Q : α → Front → Nat → Prop} :
    FTn (raise e : M α) F n Q := by
  intro s b s1 _ _ hr
  cases hr

/-- A front property and a triangle count of one call, put together. -/
theorem FTn_of_FT {α : Type} {m : M α} {F : Front} {n k : Nat} {Q : α → Front → Prop}
    (h1 : FT m F Q) (h2 : Grows k m) :
    FTn m F n (fun a F1 n1 => Q a F1 ∧ n1 = n + k) := by
  intro s a s1 hs hn hr
  exact ⟨h1 s a s1 hs hr, by rw [h2 s a s1 hr, hn]⟩

theorem FTn_pure_bind {α β : Type} {a : β} {f : β → M α} {F : Front} {n : Nat}
    {Q : α → Front → Nat → Prop} (h : FTn (f a) F n Q) : FTn (pure a >>= f) F n Q :=
  fun s b s1 hs hn hr => h s b s1 hs hn hr

theorem FTn_getNode {α : Type} {k : NodeId} {f : Node → M α} {F : Front} {n : Nat}
    {Q : α → Front → Nat → Prop}
    (h : ∀ nd : Node, F.pts[k]? = some nd.point → F.next[k]? = some nd.next →
      F.prev[k]? = some nd.prev → FTn (f nd) F n Q) :
    FTn (getNode k >>= f) F n Q := by
  intro s b s1 hs hn hr
  rcases getNode_bind_cases hr with h0 | ⟨nd, hnd, hr⟩
  · cases h0
  · subst hs
    exact h nd (by simp [front, hnd]) (by simp [front, hnd]) (by simp [front, hnd]) s b s1 rfl
      hn hr

theorem FTn_deref {α β : Type} {o : Option β} {f : β → M α} {F : Front} {n : Nat}
    {Q : α → Front → Nat → Prop} (h : ∀ a, o = some a → FTn (f a) F n Q) :
    FTn (deref o >>= f) F n Q := by
  intro s b s1 hs hn hr
  rcases deref_bind_cases hr with h0 | ⟨a, ha, hr⟩
  · cases h0
  · exact h a ha s b s1 hs hn hr

theorem FTn_nodePoint {α : Type} {k : NodeId} {f : Point → M α} {F : Front} {n : Nat}
    {Q : α → Front → Nat → Prop} (h : ∀ p : Point, F.pts[k]? = some (some p) → FTn (f p) F n Q) :
    FTn (nodePoint k >>= f) F n Q := by
  intro s b s1 hs hn hr
  rcases nodePoint_bind_cases hr with h0 | ⟨nd, p, hnd, hp, hr⟩
  · cases h0
  · subst hs
    exact h p (by simp [front, hnd, hp]) s b s1 rfl hn hr

theorem FTn_getCtx {α : Type} {f : SweepContext → M α} {F : Front} {n : Nat}
    {Q : α → Front → Nat → Prop} (h : ∀ s, front s = F → FTn (f s) F n Q) :
    FTn (getCtx >>= f) F n Q :=
  fun s b s1 hs hn hr => h s hs s b s1 hs hn hr

/-- A call that leaves the front and the triangles as they are. -/
theorem FTn_frame {α β : Type} {m : M β} {f : β → M α} {F : Front} {n : Nat}
    {Q : α → Front → Nat → Prop} (hm : Inv (fun s => front s = F) m)
    (hl : Inv (fun s => s.tris.length = n) m) (h : ∀ a, FTn (f a) F n Q) :
    FTn (m >>= f) F n Q := by
  intro s b s2 hs hn hr
  obtain ⟨a, s1, h1, h2⟩ := bind_ok hr
  have e1 := hm s hs
  have e2 := hl s hn
  rw [h1] at e1 e2
  exact h a s1 b s2 e1 e2 h2

theorem FTn_modifyBasin {α : Type} {g : SweepContext → SweepContext} {f : Unit → M α}
    {F : Front} {n : Nat} {Q : α → Front → Nat → Prop} (h : Basin → Basin)
    (hg : ∀ s, g s = { s with basin := h s.basin })
    (k : FTn (f ()) { F with basin := h F.basin } n Q) : FTn (modifyCtx g >>= f) F n Q := by
  intro s b s1 hs hn hr
  rw [modifyCtx_bind] at hr
  refine k (g s) b s1 ?_ ?_ hr
  · rw [hg, ← hs]; rfl
  · rw [hg]; exact hn


/-! ### C26: what FillBasin removes from the front -/

/-- In a list without repetition an element has one position. -/
theorem split_unique {α : Type} {m : α} : ∀ {X X1 Y Y1 : List α},
    (X ++ m :: Y).Nodup → X ++ m :: Y = X1 ++ m :: Y1 → X = X1 ∧ Y = Y1 := by
  intro X
  induction X with
  | nil =>
    intro X1 Y Y1 hnd h
    cases X1 with
    | nil => simpa using h
    | cons x X2 =>
      simp only [List.nil_append, List.cons_append, List.cons.injEq] at h
      obtain ⟨rfl, rfl⟩ := h
      simp at hnd
  | cons x X ih =>
    intro X1 Y Y1 hnd h
    cases X1 with
    | nil =>
      simp only [List.nil_append, List.cons_append, List.cons.injEq] at h
      obtain ⟨rfl, h⟩ := h
      simp at hnd
    | cons x1 X2 =>
      simp only [List.cons_append, List.cons.injEq] at h
      obtain ⟨rfl, h⟩ := h
      have hnd2 : (X ++ m :: Y).Nodup := (List.nodup_cons.1 hnd).2
      obtain ⟨rfl, rfl⟩ := ih hnd2 h
      exact ⟨rfl, rfl⟩

/-- The chain around a node m of the stretch M between l and r, seen from its
two neighbours pv and nx. -/
theorem stretch_split {α : Type} {A M B a b : List α} {l r pv m nx : α}
    (hnd : (A ++ l :: M ++ r :: B).Nodup) (hm : m ∈ M)
    (he : A ++ l :: M ++ r :: B = a ++ pv :: m :: nx :: b) :
    ∃ Ma Mb, M = Ma ++ m :: Mb ∧ a ++ pv :: nx :: b = A ++ l :: (Ma ++ Mb) ++ r :: B ∧
      (pv ≠ l → pv ∈ Ma) ∧ (nx ≠ r → nx ∈ Mb) := by
  obtain ⟨Ma, Mb, rfl⟩ := List.append_of_mem hm
  have e1 : A ++ l :: (Ma ++ m :: Mb) ++ r :: B = (A ++ l :: Ma) ++ m :: (Mb ++ r :: B) := by
    simp
  have e2 : a ++ pv :: m :: nx :: b = (a ++ [pv]) ++ m :: (nx :: b) := by simp
  rw [e1] at hnd he
  rw [e2] at he
  obtain ⟨h1, h2⟩ := split_unique hnd he
  refine ⟨Ma, Mb, rfl, ?_, ?_, ?_⟩
  · have : a ++ pv :: nx :: b = (a ++ [pv]) ++ (nx :: b) := by simp
    rw [this, ← h1, ← h2]
    simp
  · intro hne
    rcases List.eq_nil_or_concat Ma with rfl | ⟨Ma1, z, rfl⟩
    · have := List.append_inj_right' h1 rfl
      simp only [List.cons.injEq, and_true] at this
      exact absurd this.symm hne
    · rw [List.concat_eq_append] at h1 ⊢
      have e3 : A ++ l :: (Ma1 ++ [z]) = (A ++ l :: Ma1) ++ [z] := by simp
      rw [e3] at h1
      have := List.append_inj_right' h1 rfl
      simp only [List.cons.injEq, and_true] at this
      rw [← this]
      simp
  · intro hne
    cases Mb with
    | nil =>
      simp only [List.nil_append, List.cons.injEq] at h2
      exact absurd h2.1.symm hne
    | cons z Mb1 =>
      simp only [List.cons_append, List.cons.injEq] at h2
      rw [← h2.1]
      simp

/-- `FillBasinReq` on a node of the stretch M of the chain strictly between
the basin's left and right node: on return the chain has lost nodes of M
only, one for each triangle allocated. -/
theorem FTn_FillBasinReq (env : Env) :
    ∀ (fuel : Nat) (node : NodeId) (F : Front) (n : Nat) (A M B : List NodeId) (l r : NodeId),
      Linked F (A ++ l :: M ++ r :: B) → F.basin.left_node = some l →
      F.basin.right_node = some r → node ∈ M →
      FTn (FillBasinReq env fuel node) F n (fun _ F1 n1 => ∃ M1, M1.Sublist M ∧
        Linked F1 (A ++ l :: M1 ++ r :: B) ∧ F1.pts = F.pts ∧ F1.basin = F.basin ∧
        F1.head_ = F.head_ ∧ F1.tail_ = F.tail_ ∧ n1 + M1.length = n + M.length) := by
  intro fuel
  induction fuel with
  | zero => intro node F n A M B l r _ _ _ _; exact FTn_raise
  | succ fuel ih =>
    intro node F n A M B l r hL hleft hright hnode
    unfold FillBasinReq
    refine FTn_frame (Inv_IsShallow node) (Inv_IsShallow node) (fun b => ?_)
    have base0 : ∃ M1, M1.Sublist M ∧ Linked F (A ++ l :: M1 ++ r :: B) ∧ F.pts = F.pts ∧
        F.basin = F.basin ∧ F.head_ = F.head_ ∧ F.tail_ = F.tail_ ∧
        n + M1.length = n + M.length :=
      ⟨M, List.Sublist.refl M, hL, rfl, rfl, rfl, rfl, rfl⟩
    split
    · exact FTn_pure base0
    · refine FTn_pure_bind ?_
      have hnodeL : node ∈ A ++ l :: M ++ r :: B := by simp [hnode]
      refine FTn_bind (FTn_of_FT (FT_Fill_chain hL fuel hnodeL) (Grows_Fill fuel node))
        (fun _ F1 n1 h => ?_)
      obtain ⟨⟨a, pv, nx, b, he, hL1, hp, hb, hh, ht, hnx, hpv⟩, rfl⟩ := h
      obtain ⟨Ma, Mb, rfl, hch, hpvm, hnxm⟩ := stretch_split hL.nodup hnode he
      rw [hch] at hL1
      have hsub : (Ma ++ Mb).Sublist (Ma ++ node :: Mb) :=
        List.Sublist.append_left (List.sublist_cons_self _ _) _
      have hbl : F1.basin.left_node = some l := by rw [hb]; exact hleft
      have hbr : F1.basin.right_node = some r := by rw [hb]; exact hright
      have hlen : n + 1 + (Ma ++ Mb).length = n + (Ma ++ node :: Mb).length := by
        simp only [List.length_append, List.length_cons]
        omega
      have base : ∃ M1, M1.Sublist (Ma ++ node :: Mb) ∧ Linked F1 (A ++ l :: M1 ++ r :: B) ∧
          F1.pts = F.pts ∧ F1.basin = F.basin ∧ F1.head_ = F.head_ ∧ F1.tail_ = F.tail_ ∧
          n + 1 + M1.length = n + (Ma ++ node :: Mb).length :=
        ⟨Ma ++ Mb, hsub, hL1, hp, hb, hh, ht, hlen⟩
      have rec : ∀ k, k ∈ Ma ++ Mb →
          FTn (FillBasinReq env fuel k) F1 (n + 1) (fun _ F2 n2 => ∃ M1,
            M1.Sublist (Ma ++ node :: Mb) ∧ Linked F2 (A ++ l :: M1 ++ r :: B) ∧
            F2.pts = F.pts ∧ F2.basin = F.basin ∧ F2.head_ = F.head_ ∧ F2.tail_ = F.tail_ ∧
            n2 + M1.length = n + (Ma ++ node :: Mb).length) := by
        intro k hk
        refine FTn_conseq (ih k F1 (n + 1) A (Ma ++ Mb) B l r hL1 hbl hbr hk) ?_
        rintro _ F2 n2 ⟨M2, h1, h2, h3, h4, h5, h6, h7⟩
        exact ⟨M2, h1.trans hsub, h2, h3.trans hp, h4.trans hb, h5.trans hh, h6.trans ht,
          by rw [h7]; exact hlen⟩
      have rnext : nx ≠ r →
          FTn (FillBasinReq env fuel nx) F1 (n + 1) (fun _ F2 n2 => ∃ M1,
            M1.Sublist (Ma ++ node :: Mb) ∧ Linked F2 (A ++ l :: M1 ++ r :: B) ∧
            F2.pts = F.pts ∧ F2.basin = F.basin ∧ F2.head_ = F.head_ ∧ F2.tail_ = F.tail_ ∧
            n2 + M1.length = n + (Ma ++ node :: Mb).length) :=
        fun hne => rec nx (List.mem_append_right _ (hnxm hne))
      have rprev : pv ≠ l →
          FTn (FillBasinReq env fuel pv) F1 (n + 1) (fun _ F2 n2 => ∃ M1,
            M1.Sublist (Ma ++ node :: Mb) ∧ Linked F2 (A ++ l :: M1 ++ r :: B) ∧
            F2.pts = F.pts ∧ F2.basin = F.basin ∧ F2.head_ = F.head_ ∧ F2.tail_ = F.tail_ ∧
            n2 + M1.length = n + (Ma ++ node :: Mb).length) :=
        fun hne => rec pv (List.mem_append_left _ (hpvm hne))
      refine FTn_getNode (fun nd _ hnx1 hpv1 => ?_)
      rw [hnx] at hnx1
      rw [hpv] at hpv1
      have enx : nd.next = some nx := (Option.some.inj hnx1).symm
      have epv : nd.prev = some pv := (Option.some.inj hpv1).symm
      refine FTn_getCtx (fun s hs => ?_)
      have hsb : s.basin = F1.basin := by rw [← hs]; rfl
      rw [hsb, hbl, hbr, enx, epv]
      split
      · exact FTn_pure base
      · next hnot =>
        split
        · next hpl =>
          have hnr : nx ≠ r := fun e => hnot ⟨hpl, congrArg some e⟩
          refine FTn_deref (fun p _ => ?_)
          refine FTn_deref (fun n1 hn1 => ?_)
          cases hn1
          refine FTn_nodePoint (fun p1 _ => ?_)
          refine FTn_getNode (fun nd2 _ _ _ => ?_)
          refine FTn_deref (fun n2 _ => ?_)
          refine FTn_nodePoint (fun p2 _ => ?_)
          dsimp only
          split
          · exact FTn_pure base
          · exact FTn_pure_bind (rnext hnr)
        · next hne =>
          have hpl : pv ≠ l := fun e => hne (congrArg some e)
          split
          · refine FTn_deref (fun p _ => ?_)
            refine FTn_deref (fun n1 hn1 => ?_)
            cases hn1
            refine FTn_nodePoint (fun p1 _ => ?_)
            refine FTn_getNode (fun nd2 _ _ _ => ?_)
            refine FTn_deref (fun n2 _ => ?_)
            refine FTn_nodePoint (fun p2 _ => ?_)
            dsimp only
            split
            · exact FTn_pure base
            · exact FTn_pure_bind (rprev hpl)
          · next hnr =>
            refine FTn_deref (fun n1 hn1 => ?_)
            cases hn1
            refine FTn_deref (fun n2 hn2 => ?_)
            cases hn2
            refine FTn_nodePoint (fun p1 _ => ?_)
            refine FTn_nodePoint (fun p2 _ => ?_)
            split
            · exact rprev hpl
            · exact rnext (fun e => hnr (congrArg some e))

/-- The second loop of `FillBasin` leaves the chain as it is and moves the
right node to a node of the chain that is the bottom node or right of it. -/
theorem FT_FillBasinRight_pos :
    ∀ (fuel : Nat) (F : Front) (L : List NodeId) (bn rn : NodeId),
      Linked F L → Sorted F L → F.basin.right_node = some rn → rn ∈ L →
      (rn = bn ∨ xLt F.pts bn rn = true) →
      FT (FillBasinRight fuel) F (fun _ F1 => SameChain F F1 ∧
        F1.basin.left_node = F.basin.left_node ∧
        F1.basin.bottom_node = F.basin.bottom_node ∧
        ∃ rn1, F1.basin.right_node = some rn1 ∧
          rn1 ∈ L ∧ (rn1 = bn ∨ xLt F.pts bn rn1 = true)) := by
  intro fuel
  induction fuel with
  | zero => intro F L bn rn _ _ _ _ _; exact FT_raise
  | succ fuel ih =>
    intro F L bn rn hL hS hb hrn hle
    unfold FillBasinRight
    refine FT_getCtx (fun s hs => ?_)
    have hsb : s.basin = F.basin := by rw [← hs]; rfl
    rw [hsb, hb]
    refine FT_deref (fun b hbe => ?_)
    cases hbe
    refine FT_getNode (fun nd _ hnx _ => ?_)
    have base : SameChain F F ∧ F.basin.left_node = F.basin.left_node ∧
        F.basin.bottom_node = F.basin.bottom_node ∧
        ∃ rn1, F.basin.right_node = some rn1 ∧ rn1 ∈ L ∧
          (rn1 = bn ∨ xLt F.pts bn rn1 = true) :=
      ⟨SameChain.same F, rfl, rfl, rn, hb, hrn, hle⟩
    split
    · exact FT_pure base
    · next nx hnxe =>
      rw [hnxe] at hnx
      obtain ⟨hnxL, hlt⟩ := hS.next_lt hL hrn hnx
      refine FT_deref (fun p _ => ?_)
      refine FT_nodePoint (fun p1 _ => ?_)
      split
      · refine FT_modifyCtx { F with basin := { F.basin with right_node := some nx } }
          (fun s hs => by subst hs; rfl) ?_
        have hsc : SameChain F { F with basin := { F.basin with right_node := some nx } } :=
          ⟨rfl, rfl, rfl, rfl, rfl⟩
        refine FT_conseq (ih _ L bn nx (hsc.linked hL) (hsc.sorted hS) rfl hnxL ?_) ?_
        · right
          rcases hle with rfl | hle
          · exact hlt
          · exact xLt_trans hle hlt
        · rintro _ F2 ⟨h1, h2, h3, rn1, h4, h5, h6⟩
          exact ⟨hsc.andThen h1, h2, h3, rn1, h4, h5, h6⟩
      · exact FT_pure base

/-- In a sorted chain, three members in increasing order of x split the chain
around the stretch between the outer two, which holds the middle one; a member
left of the first lies before it. -/
theorem Sorted.between {F : Front} {L : List NodeId} (hS : Sorted F L)
    {k l bn r : NodeId} (hk : k ∈ L) (hl : l ∈ L) (hbn : bn ∈ L) (hr : r ∈ L)
    (hkl : xLt F.pts k l = true) (hlb : xLt F.pts l bn = true) (hbr : xLt F.pts bn r = true) :
    ∃ A M B, L = A ++ l :: M ++ r :: B ∧ k ∈ A ∧ bn ∈ M := by
  obtain ⟨A, R, rfl⟩ := List.append_of_mem hl
  have hp := List.pairwise_append.1 hS
  have hpl := List.pairwise_cons.1 hp.2.1
  have hlr : xLt F.pts l r = true := xLt_trans hlb hbr
  have hrR : r ∈ R := by
    rcases List.mem_append.1 hr with h | h
    · exact absurd (hp.2.2 r h l (List.mem_cons_self _ _)) (xLt_asymm hlr)
    · rcases List.mem_cons.1 h with rfl | h
      · exact absurd hlr xLt_irrefl
      · exact h
  obtain ⟨M, B, rfl⟩ := List.append_of_mem hrR
  have hpr := List.pairwise_append.1 hpl.2
  refine ⟨A, M, B, by simp, ?_, ?_⟩
  · rcases List.mem_append.1 hk with h | h
    · exact h
    · rcases List.mem_cons.1 h with rfl | h
      · exact absurd hkl xLt_irrefl
      · exact absurd (hpl.1 k h) (xLt_asymm hkl)
  · rcases List.mem_append.1 hbn with h | h
    · exact absurd (hp.2.2 bn h l (List.mem_cons_self _ _)) (xLt_asymm hlb)
    · rcases List.mem_cons.1 h with rfl | h
      · exact absurd hlb xLt_irrefl
      · rcases List.mem_append.1 h with h | h
        · exact h
        · rcases List.mem_cons.1 h with rfl | h
          · exact absurd hbr xLt_irrefl
          · exact absurd ((List.pairwise_cons.1 hpr.2.1).1 bn h) (xLt_asymm hbr)

/-- `FillBasin(N)` on a sorted chain, when it returns: either the chain is as
it was and no triangle was allocated, or the chain has lost only nodes of the
stretch strictly between the basin's left and right node, one for each
triangle allocated; N lies before the left node. -/
theorem FTn_FillBasin (env : Env) (fuel : Nat) (N : NodeId) (F : Front) (n : Nat)
    (L : List NodeId) (hL : Linked F L) (hS : Sorted F L) (hN : N ∈ L) :
    FTn (FillBasin env fuel N) F n (fun _ F1 n1 =>
      F1.pts = F.pts ∧ F1.head_ = F.head_ ∧ F1.tail_ = F.tail_ ∧
      ((Linked F1 L ∧ n1 = n) ∨
        ∃ A M M1 B l r, F1.basin.left_node = some l ∧ F1.basin.right_node = some r ∧
          L = A ++ l :: M ++ r :: B ∧ N ∈ A ∧ M1.Sublist M ∧
          Linked F1 (A ++ l :: M1 ++ r :: B) ∧ n1 + M1.length = n + M.length)) := by
  unfold FillBasin
  refine FTn_getNode (fun nd _ hnx _ => ?_)
  refine FTn_deref (fun p _ => ?_)
  refine FTn_deref (fun n1 hn1 => ?_)
  rw [hn1] at hnx
  obtain ⟨hn1L, hlt1⟩ := hS.next_lt hL hN hnx
  refine FTn_nodePoint (fun p1 _ => ?_)
  refine FTn_getNode (fun nd1 _ hnx1 _ => ?_)
  dsimp only
  refine FTn_deref (fun n2 hn2 => ?_)
  rw [hn2] at hnx1
  obtain ⟨hn2L, hlt2⟩ := hS.next_lt hL hn1L hnx1
  refine FTn_nodePoint (fun p2 _ => ?_)
  split
  on_goal 1 =>
    obtain ⟨left, hle, hleftL, hnl⟩ : ∃ left, some left = nd1.next ∧ left ∈ L ∧
        xLt F.pts N left = true := ⟨n2, hn2.symm, hn2L, xLt_trans hlt1 hlt2⟩
    rw [← hle]
  on_goal 2 =>
    obtain ⟨left, hle, hleftL, hnl⟩ : ∃ left, some left = some n1 ∧ left ∈ L ∧
        xLt F.pts N left = true := ⟨n1, rfl, hn1L, hlt1⟩
    rw [← hle]
  all_goals
    refine FTn_modifyBasin (fun b => { b with left_node := some left }) (fun s => rfl) ?_
    refine FTn_modifyBasin (fun b => { b with bottom_node := b.left_node }) (fun s => rfl) ?_
    have hsc1 : SameChain F
        { F with basin := { F.basin with left_node := some left, bottom_node := some left } } :=
      ⟨rfl, rfl, rfl, rfl, rfl⟩
    refine FTn_bind (FTn_of_FT (FT_FillBasinBottom fuel _ L left left (hsc1.linked hL)
      (hsc1.sorted hS) rfl hleftL (Or.inl rfl))
      (Grows_of_Inv (fun k => Inv_FillBasinBottom (fun _ _ h => h) fuel))) (fun _ F2 n2 h => ?_)
    obtain ⟨⟨hsc2, hl2, bn, hbn, hbnL, hble⟩, rfl⟩ := h
    have hsc02 := hsc1.andThen hsc2
    have hl2 : F2.basin.left_node = some left := hl2
    have hble : bn = left ∨ xLt F.pts left bn = true := hble
    refine FTn_getCtx (fun s1 hs1 => ?_)
    refine FTn_getCtx (fun s2 hs2 => ?_)
    have hb1 : s1.basin = F2.basin := by rw [← hs1]; rfl
    have hb2 : s2.basin = F2.basin := by rw [← hs2]; rfl
    rw [hb1, hb2, hbn, hl2]
    split
    · exact FTn_pure ⟨hsc02.1, hsc02.2.2.2.1, hsc02.2.2.2.2, Or.inl ⟨hsc02.linked hL, rfl⟩⟩
    · next hne =>
      have hlb : xLt F.pts left bn = true := by
        rcases hble with e | h
        · exact absurd (congrArg some e) hne
        · exact h
      refine FTn_pure_bind ?_
      refine FTn_modifyBasin (fun b => { b with right_node := b.bottom_node }) (fun s => rfl) ?_
      have hsc3 : SameChain F { F2 with basin := { F2.basin with right_node := F2.basin.bottom_node } } :=
        hsc02.andThen ⟨rfl, rfl, rfl, rfl, rfl⟩
      refine FTn_bind (FTn_of_FT (FT_FillBasinRight_pos fuel _ L bn bn (hsc3.linked hL)
        (hsc3.sorted hS) hbn hbnL (Or.inl rfl))
        (Grows_of_Inv (fun k => Inv_FillBasinRight (fun _ _ h => h) fuel))) (fun _ F4 n4 h => ?_)
      obtain ⟨⟨hsc4, hl4, hb4, rn, hrn, hrnL, hrle⟩, rfl⟩ := h
      have hsc04 : SameChain F F4 := hsc3.andThen hsc4
      have hl4 : F4.basin.left_node = some left := hl4.trans hl2
      have hb4 : F4.basin.bottom_node = some bn := hb4.trans hbn
      have hrle : rn = bn ∨ xLt F.pts bn rn = true := by
        rw [← hsc02.1]; exact hrle
      refine FTn_getCtx (fun s3 hs3 => ?_)
      refine FTn_getCtx (fun s4 hs4 => ?_)
      have hb3 : s3.basin = F4.basin := by rw [← hs3]; rfl
      have hb4' : s4.basin = F4.basin := by rw [← hs4]; rfl
      rw [hb3, hb4', hrn, hb4]
      split
      · exact FTn_pure ⟨hsc04.1, hsc04.2.2.2.1, hsc04.2.2.2.2,
          Or.inl ⟨hsc04.linked hL, by simp⟩⟩
      · next hne2 =>
        have hbr : xLt F.pts bn rn = true := by
          rcases hrle with e | h
          · exact absurd (congrArg some e) hne2
          · exact h
        obtain ⟨A, M, B, rfl, hNA, hbnM⟩ := hS.between hN hleftL hbnL hrnL hnl hlb hbr
        refine FTn_pure_bind ?_
        refine FTn_getCtx (fun s5 hs5 => ?_)
        refine FTn_deref (fun rn0 _ => ?_)
        refine FTn_nodePoint (fun r _ => ?_)
        refine FTn_getCtx (fun s6 hs6 => ?_)
        refine FTn_deref (fun ln _ => ?_)
        refine FTn_nodePoint (fun l _ => ?_)
        refine FTn_modifyBasin (fun b => { b with width := env.fl (r.x - l.x) }) (fun s => rfl) ?_
        refine FTn_modifyBasin (fun b => { b with left_highest := decide (l.y > r.y) })
          (fun s => rfl) ?_
        have hsc6 : SameChain F
            { F4 with basin := { F4.basin with width := env.fl (r.x - l.x),
                                               left_highest := decide (l.y > r.y) } } :=
          hsc04.andThen ⟨rfl, rfl, rfl, rfl, rfl⟩
        refine FTn_getCtx (fun s7 hs7 => ?_)
        have hb7 : s7.basin.bottom_node = some bn := by
          have e : s7.basin = (front s7).basin := rfl
          rw [e, hs7]
          exact hb4
        rw [hb7]
        refine FTn_deref (fun bn1 hbn1 => ?_)
        cases hbn1
        refine FTn_conseq (FTn_FillBasinReq env fuel bn _ _ A M B left rn (hsc6.linked hL)
          hl4 hrn hbnM) ?_
        rintro _ F8 n8 ⟨M1, h1, h2, h3, h4, h5, h6, h7⟩
        refine ⟨h3.trans hsc6.1, h5.trans hsc6.2.2.2.1, h6.trans hsc6.2.2.2.2, Or.inr
          ⟨A, M, M1, B, left, rn, ?_, ?_, rfl, hNA, h1, h2, by simpa using h7⟩⟩
        · rw [h4]; exact hl4
        · rw [h4]; exact hrn

/-- C26: for a front that is a doubly linked chain L with strictly increasing
x and a node N of it, when `FillBasin(N)` returns, the points and the two
sentinels are as before, and either the chain is L still and no triangle was
allocated, or, with l and r the basin's left and right node and M the stretch
of L strictly between them, the chain is L without some nodes of M: N lies
before l, the nodes before l, l, r and the nodes after r are all kept, and the
number of triangles allocated, one by each call of `Fill`, is the number of
nodes removed, so at most the length of M. -/
theorem FillBasin_removes_only_inside (env : Env) (fuel : Nat) (N : NodeId)
    (s s1 : SweepContext) (L : List NodeId)
    (hL : Linked (front s) L) (hS : Sorted (front s) L) (hN : N ∈ L)
    (hrun : FillBasin env fuel N s = Res.ok () s1) :
    (front s1).pts = (front s).pts ∧ s1.head_ = s.head_ ∧ s1.tail_ = s.tail_ ∧
    ((Linked (front s1) L ∧ s1.tris.length = s.tris.length) ∨
      ∃ A M M1 B l r, s1.basin.left_node = some l ∧ s1.basin.right_node = some r ∧
        L = A ++ l :: M ++ r :: B ∧ N ∈ A ∧ M1.Sublist M ∧
        Linked (front s1) (A ++ l :: M1 ++ r :: B) ∧
        s1.tris.length + M1.length = s.tris.length + M.length ∧
        s1.tris.length ≤ s.tris.length + M.length) := by
  obtain ⟨h1, h2, h3, h4⟩ :=
    FTn_FillBasin env fuel N (front s) s.tris.length L hL hS hN s () s1 rfl rfl hrun
  refine ⟨h1, h2, h3, ?_⟩
  rcases h4 with h | ⟨A, M, M1, B, l, r, a1, a2, a3, a4, a5, a6, a7⟩
  · exact Or.inl h
  · exact Or.inr ⟨A, M, M1, B, l, r, a1, a2, a3, a4, a5, a6, a7, by omega⟩

theorem deepBasin_linked : Linked (front deepBasin) [0, 1, 2, 3, 4] :=
  ⟨by decide, rfl, rfl, ⟨rfl, rfl, rfl, rfl, rfl, trivial⟩, ⟨rfl, rfl, rfl, rfl, rfl, trivial⟩⟩

/-- Witness for `FillBasin_removes_only_inside`: `FillBasin` of node 0 of
`deepBasin`, whose basin has the left node 1, the bottom node 2 and the right
node 4; the call fills node 2 and returns. -/
theorem FillBasin_removes_only_inside_witness :
    Linked (front deepBasin) [0, 1, 2, 3, 4] ∧ Sorted (front deepBasin) [0, 1, 2, 3, 4] ∧
    FillBasin (specEnv 0) 5 0 deepBasin
      = Res.ok () (FillBasin (specEnv 0) 5 0 deepBasin).ctx ∧
    (front (FillBasin (specEnv 0) 5 0 deepBasin).ctx).pts = (front deepBasin).pts ∧
    (FillBasin (specEnv 0) 5 0 deepBasin).ctx.head_ = deepBasin.head_ ∧
    (FillBasin (specEnv 0) 5 0 deepBasin).ctx.tail_ = deepBasin.tail_ ∧
    ((Linked (front (FillBasin (specEnv 0) 5 0 deepBasin).ctx) [0, 1, 2, 3, 4] ∧
        (FillBasin (specEnv 0) 5 0 deepBasin).ctx.tris.length = deepBasin.tris.length) ∨
      ∃ A M M1 B l r, (FillBasin (specEnv 0) 5 0 deepBasin).ctx.basin.left_node = some l ∧
        (FillBasin (specEnv 0) 5 0 deepBasin).ctx.basin.right_node = some r ∧
        [0, 1, 2, 3, 4] = A ++ l :: M ++ r :: B ∧ 0 ∈ A ∧ M1.Sublist M ∧
        Linked (front (FillBasin (specEnv 0) 5 0 deepBasin).ctx) (A ++ l :: M1 ++ r :: B) ∧
        (FillBasin (specEnv 0) 5 0 deepBasin).ctx.tris.length + M1.length
          = deepBasin.tris.length + M.length ∧
        (FillBasin (specEnv 0) 5 0 deepBasin).ctx.tris.length
          ≤ deepBasin.tris.length + M.length) :=
  ⟨deepBasin_linked, by decide!, by decide!,
    FillBasin_removes_only_inside (specEnv 0) 5 0 deepBasin
      (FillBasin (specEnv 0) 5 0 deepBasin).ctx [0, 1, 2, 3, 4] deepBasin_linked (by decide!)
      (by decide) (by decide!)⟩

/-- On `deepBasin` the call removes node 2 and allocates one triangle. -/
theorem FillBasin_deepBasin_run :
    Linked (front (FillBasin (specEnv 0) 5 0 deepBasin).ctx) [0, 1, 3, 4] ∧
    (FillBasin (specEnv 0) 5 0 deepBasin).ctx.tris.length = 5 ∧
    (FillBasin (specEnv 0) 5 0 deepBasin).ctx.basin.left_node = some 1 ∧
    (FillBasin (specEnv 0) 5 0 deepBasin).ctx.basin.right_node = some 4 := by
  refine ⟨⟨by decide, by decide!, by decide!, ?_, ?_⟩, by decide!, by decide!, by decide!⟩
  · exact ⟨by decide!, by decide!, by decide!, by decide!, trivial⟩
  · exact ⟨by decide!, by decide!, by decide!, by decide!, trivial⟩


/-! ### C1: inserting a constraint edge -/

theorem HasConstrainedSide_of_idx {t : Triangle} {u v : Point} {k : Fin 3}
    (hk : t.EdgeIndex u v = some k) : (t.MarkConstrainedEdgeIdx k).HasConstrainedSide u v := by
  refine ⟨k, ?_, by simp [MarkConstrainedEdgeIdx_get]⟩
  have := EdgeIndex_isEdge hk
  exact this

theorem HasConstrainedSide_mark {t : Triangle} {u v p q : Point}
    (h : t.HasConstrainedSide u v) : (t.MarkConstrainedEdge p q).HasConstrainedSide u v := by
  obtain ⟨i, h1, h2⟩ := h
  refine ⟨i, ?_, MarkConstrainedEdge_mono _ _ _ _ h2⟩
  unfold Triangle.isEdge Triangle.edgeEnds at h1 ⊢
  rw [(MarkConstrainedEdge_frame t p q).1]
  exact h1

theorem HasConstrainedSide_markIdx {t : Triangle} {u v : Point} (k : Fin 3)
    (h : t.HasConstrainedSide u v) : (t.MarkConstrainedEdgeIdx k).HasConstrainedSide u v := by
  obtain ⟨i, h1, h2⟩ := h
  refine ⟨i, h1, ?_⟩
  rw [MarkConstrainedEdgeIdx_get, h2]
  simp

/-- `MarkConstrainedEdge(p, q)` on a triangle that has a side from p to q
marks such a side. -/
theorem HasConstrainedSide_of_HasSide {t : Triangle} {p q : Point} (h : t.HasSide p q) :
    (t.MarkConstrainedEdge p q).HasConstrainedSide p q := by
  obtain ⟨i, hi⟩ := h
  unfold Triangle.isEdge Triangle.edgeEnds at hi
  unfold Triangle.MarkConstrainedEdge
  split_ifs with h1 h2 h3
  · refine ⟨2, ?_, rfl⟩
    unfold Triangle.isEdge Triangle.edgeEnds
    rcases h1 with ⟨a, b⟩ | ⟨a, b⟩ <;> simp [a, b]
  · refine ⟨1, ?_, rfl⟩
    unfold Triangle.isEdge Triangle.edgeEnds
    rcases h2 with ⟨a, b⟩ | ⟨a, b⟩ <;> simp [a, b]
  · refine ⟨0, ?_, rfl⟩
    unfold Triangle.isEdge Triangle.edgeEnds
    rcases h3 with ⟨a, b⟩ | ⟨a, b⟩ <;> simp [a, b]
  · exfalso
    fin_cases i <;> simp at hi <;> rcases hi with ⟨a, b⟩ | ⟨a, b⟩ <;>
      simp_all

theorem ConstrainedSide_of_get {s : SweepContext} {t : TriId} {tri : Triangle} {a b : Point}
    (h : s.tris[t]? = some tri) (hc : tri.HasConstrainedSide a b) : ConstrainedSide s a b :=
  ⟨tri, List.mem_iff_getElem?.2 ⟨t, h⟩, hc⟩

theorem KeepsConstrainedSides_refl (s : SweepContext) : KeepsConstrainedSides s s :=
  fun _ _ h => h

theorem KeepsConstrainedSides_trans {s s1 s2 : SweepContext} (h1 : KeepsConstrainedSides s s1)
    (h2 : KeepsConstrainedSides s1 s2) : KeepsConstrainedSides s s2 :=
  fun a b h => h2 a b (h1 a b h)

/-- Replacing a triangle object by one with at least the same constrained
sides keeps every constrained side of the mesh. -/
theorem KeepsConstrainedSides_set {s s1 : SweepContext} {t : TriId} {tri x : Triangle}
    (ht : s.tris[t]? = some tri) (h1 : s1.tris = s.tris.set t x)
    (hx : ∀ a b, tri.HasConstrainedSide a b → x.HasConstrainedSide a b) :
    KeepsConstrainedSides s s1 := by
  rintro a b ⟨y, hy, hc⟩
  obtain ⟨i, hi⟩ := List.mem_iff_getElem?.1 hy
  by_cases hti : t = i
  · subst hti
    rw [ht] at hi
    cases hi
    refine ⟨x, ?_, hx a b hc⟩
    rw [h1]
    exact List.mem_iff_getElem?.2 ⟨t, by rw [heap_set_get ht]; simp⟩
  · refine ⟨y, ?_, hc⟩
    rw [h1]
    exact List.mem_iff_getElem?.2 ⟨i, by rw [heap_set_get ht]; simp [hti, hi]⟩

/-- What a normal return of `IsEdgeSideOfTriangle` says: only triangles were
written and no constrained side was lost; on false nothing was written; on
true the triangle has the side with endpoints ep and eq, marked constrained. -/
theorem IsEdgeSideOfTriangle_ok {tr : TriId} {ep eq : Point} {s s1 : SweepContext} {b : Bool}
    (h : IsEdgeSideOfTriangle tr ep eq s = Res.ok b s1) :
    s1 = { s with tris := s1.tris } ∧ KeepsConstrainedSides s s1 ∧ (b = false → s1 = s) ∧
    (b = true → ∃ tri, s1.tris[tr]? = some tri ∧ tri.HasConstrainedSide ep eq) := by
  unfold IsEdgeSideOfTriangle at h
  cases htri : s.tris[tr]? with
  | none => simp [getTri, htri] at h
  | some tri =>
    have h1 : ∀ k : Fin 3, (s.tris.set tr (tri.MarkConstrainedEdgeIdx k))[tr]?
        = some (tri.MarkConstrainedEdgeIdx k) :=
      fun k => by rw [heap_set_get htri]; simp
    have hK : ∀ k : Fin 3, KeepsConstrainedSides s
        { s with tris := s.tris.set tr (tri.MarkConstrainedEdgeIdx k) } :=
      fun k => KeepsConstrainedSides_set htri rfl (fun _ _ hc => HasConstrainedSide_markIdx k hc)
    cases hk : tri.EdgeIndex ep eq with
    | none =>
      simp [getTri, htri, hk] at h
      obtain ⟨rfl, rfl⟩ := h
      exact ⟨rfl, KeepsConstrainedSides_refl _, by simp, by simp⟩
    | some k =>
      cases hn : tri.neighbors_.get k with
      | none =>
        simp [getTri, modifyTri, htri, hk, h1, Triangle.GetNeighbor,
          (MarkConstrainedEdgeIdx_frame tri k).2.1, hn] at h
        obtain ⟨rfl, rfl⟩ := h
        exact ⟨rfl, hK k, by simp, fun _ => ⟨_, h1 k, HasConstrainedSide_of_idx hk⟩⟩
      | some n =>
        cases hv : (s.tris.set tr (tri.MarkConstrainedEdgeIdx k))[n]? with
        | none =>
          simp [getTri, modifyTri, htri, hk, h1, Triangle.GetNeighbor,
            (MarkConstrainedEdgeIdx_frame tri k).2.1, hn, hv] at h
        | some v =>
          simp [getTri, modifyTri, htri, hk, h1, Triangle.GetNeighbor,
            (MarkConstrainedEdgeIdx_frame tri k).2.1, hn, hv] at h
          obtain ⟨rfl, rfl⟩ := h
          refine ⟨rfl, ?_, by simp, fun _ => ?_⟩
          · refine KeepsConstrainedSides_trans (hK k) ?_
            have hs : ({ s with tris := s.tris.set tr (tri.MarkConstrainedEdgeIdx k) } :
                SweepContext).tris[n]? = some v := hv
            exact KeepsConstrainedSides_set hs rfl (fun _ _ hc => HasConstrainedSide_mark hc)
          · show ∃ tri_1, ((s.tris.set tr (tri.MarkConstrainedEdgeIdx k)).set n
              (v.MarkConstrainedEdge ep eq))[tr]? = some tri_1 ∧ _
            rw [heap_set_get hv]
            by_cases hnt : n = tr
            · subst hnt
              rw [h1 k] at hv
              cases hv
              exact ⟨(tri.MarkConstrainedEdgeIdx k).MarkConstrainedEdge ep eq, by simp,
                HasConstrainedSide_mark (HasConstrainedSide_of_idx hk)⟩
            · exact ⟨_, by simp [hnt, h1 k], HasConstrainedSide_of_idx hk⟩

theorem NeighborAcross_mark (t : Triangle) (p q pt : Point) :
    (t.MarkConstrainedEdge p q).NeighborAcross pt = t.NeighborAcross pt := by
  unfold Triangle.NeighborAcross
  rw [(MarkConstrainedEdge_frame t p q).1, (MarkConstrainedEdge_frame t p q).2.1]

theorem HasSide_of_PointCCW {t : Triangle} {p a : Point} (h : t.PointCCW p = some a) :
    t.HasSide p a := by
  unfold Triangle.PointCCW at h
  unfold Triangle.HasSide Triangle.isEdge Triangle.edgeEnds
  split_ifs at h with h0 h1 h2 <;> cases h <;> subst_vars
  · exact ⟨2, by simp⟩
  · exact ⟨0, by simp⟩
  · exact ⟨1, by simp⟩

theorem HasSide_of_PointCW {t : Triangle} {p a : Point} (h : t.PointCW p = some a) :
    t.HasSide p a := by
  unfold Triangle.PointCW at h
  unfold Triangle.HasSide Triangle.isEdge Triangle.edgeEnds
  split_ifs at h with h0 h1 h2 <;> cases h <;> subst_vars
  · exact ⟨1, by simp⟩
  · exact ⟨2, by simp⟩
  · exact ⟨0, by simp⟩

/-- The state after a split at lines 141-150 or 170-179: the piece from eq to
p1 is marked on the triangle, and the edge object ends at p1. -/
theorem split_state {s : SweepContext} {t : TriId} {tri : Triangle} {ce : EdgeId} {e : Edge}
    {eq p1 : Point} (htri : s.tris[t]? = some tri) (hs : tri.HasSide eq p1) :
    ConstrainedSide { s with tris := s.tris.set t (tri.MarkConstrainedEdge eq p1)
                             edges := s.edges.set ce { e with q := p1 } } eq p1 ∧
    KeepsConstrainedSides s { s with tris := s.tris.set t (tri.MarkConstrainedEdge eq p1)
                                     edges := s.edges.set ce { e with q := p1 } } := by
  constructor
  · refine ⟨tri.MarkConstrainedEdge eq p1, List.mem_iff_getElem?.2 ⟨t, ?_⟩,
      HasConstrainedSide_of_HasSide hs⟩
    show (s.tris.set t (tri.MarkConstrainedEdge eq p1))[t]? = _
    rw [heap_set_get htri]
    simp
  · exact KeepsConstrainedSides_set htri rfl (fun _ _ hc => HasConstrainedSide_mark hc)

/-- One level of the interior `EdgeEvent`, for any `recur` and `flip`.  It
ends without calling either, and then a normal return leaves a side from ep to
eq marked constrained, no constrained side lost and the edge objects as they
were; or it ends with the recursive call, either on the same piece in the same
state or, after a split at a vertex that `Orient2d` found collinear, on the
new piece, with the piece split off marked and the scratch edge object ending
at that vertex; or it ends with the call of `FlipEdgeEvent` in the state it
was entered in. -/
theorem EdgeEventBody_step (env : Env) (ep eq : Point) (tr : Option TriId)
    (pt : Point) (s : SweepContext) :
    (∃ r : Res Unit, (∀ recur flip, EdgeEventBody env recur flip ep eq tr pt s = r) ∧
        ∀ s1, r = Res.ok () s1 → ConstrainedSide s1 ep eq ∧ KeepsConstrainedSides s s1 ∧
          s1.edges = s.edges ∧ s1.edge_event = s.edge_event) ∨
    (∃ eq1 nt pt1 s1, (∀ recur flip, EdgeEventBody env recur flip ep eq tr pt s
          = recur ep eq1 (some nt) pt1 s1) ∧ (pt = eq → pt1 = eq1) ∧
        ((eq1 = eq ∧ s1 = s) ∨
          (env.Orient2d eq eq1 ep = Orientation.COLLINEAR ∧
            (pt = eq → ConstrainedSide s1 eq eq1) ∧ KeepsConstrainedSides s s1 ∧
            s1.edge_event = s.edge_event ∧
            ∃ ce e, s.edge_event.constrained_edge = some ce ∧ s.edges[ce]? = some e ∧
              s1.edges = s.edges.set ce { e with q := eq1 }))) ∨
    (∃ t, ∀ recur flip, EdgeEventBody env recur flip ep eq tr pt s = flip ep eq t pt s) := by
  cases tr with
  | none =>
    exact Or.inl ⟨Res.throw (Err.null_triangle_exception none) s, fun _ _ => rfl,
      fun s1 h => by cases h⟩
  | some t =>
    cases hI : IsEdgeSideOfTriangle t ep eq s with
    | throw e s1 =>
      refine Or.inl ⟨Res.throw e s1, fun _ _ => ?_, fun s1 h => by cases h⟩
      simp [EdgeEventBody, hI]
    | ok b s1 =>
      have hok := IsEdgeSideOfTriangle_ok hI
      cases b with
      | true =>
        refine Or.inl ⟨Res.ok () s1, fun _ _ => ?_, fun s2 h => ?_⟩
        · simp [EdgeEventBody, hI]
        · cases h
          obtain ⟨tri, h1, h2⟩ := hok.2.2.2 rfl
          refine ⟨ConstrainedSide_of_get h1 h2, hok.2.1, ?_, ?_⟩
          · rw [hok.1]
          · rw [hok.1]
      | false =>
        have := hok.2.2.1 rfl
        subst this
        cases htri : s1.tris[t]? with
        | none =>
          refine Or.inl ⟨Res.throw Err.undefined_behaviour s1, fun _ _ => ?_,
            fun s1 h => by cases h⟩
          simp [EdgeEventBody, hI, getTri, htri]
        | some tri =>
          have h1 : ∀ p, (s1.tris.set t (tri.MarkConstrainedEdge eq p))[t]?
              = some (tri.MarkConstrainedEdge eq p) :=
            fun p => by rw [heap_set_get htri]; simp
          -- the split at a vertex p1 of the triangle, common to both collinear branches
          have hsplit : ∀ p1 : Point, tri.HasSide pt p1 →
              env.Orient2d eq p1 ep = Orientation.COLLINEAR →
              (∃ r : Res Unit, (∀ (recur : Point → Point → Option TriId → Point → M Unit),
                  (do
                    modifyTri t (fun x => x.MarkConstrainedEdge eq p1)
                    let ce ← deref (← getCtx).edge_event.constrained_edge
                    modifyEdge ce (fun e => { e with q := p1 })
                    match (← getTri t).NeighborAcross pt with
                    | some nt => recur ep p1 (some nt) p1
                    | none => raise (Err.null_triangle_exception (some t)) : M Unit) s1 = r) ∧
                ∀ s2, r ≠ Res.ok () s2) ∨
              (∃ nt s2, (∀ (recur : Point → Point → Option TriId → Point → M Unit),
                  (do
                    modifyTri t (fun x => x.MarkConstrainedEdge eq p1)
                    let ce ← deref (← getCtx).edge_event.constrained_edge
                    modifyEdge ce (fun e => { e with q := p1 })
                    match (← getTri t).NeighborAcross pt with
                    | some nt => recur ep p1 (some nt) p1
                    | none => raise (Err.null_triangle_exception (some t)) : M Unit) s1
                    = recur ep p1 (some nt) p1 s2) ∧
                (pt = eq → ConstrainedSide s2 eq p1) ∧ KeepsConstrainedSides s1 s2 ∧
                s2.edge_event = s1.edge_event ∧
                ∃ ce e, s1.edge_event.constrained_edge = some ce ∧ s1.edges[ce]? = some e ∧
                  s2.edges = s1.edges.set ce { e with q := p1 }) := by
            intro p1 hs ho
            cases hce : s1.edge_event.constrained_edge with
            | none =>
              refine Or.inl ⟨Res.throw Err.undefined_behaviour
                { s1 with tris := s1.tris.set t (tri.MarkConstrainedEdge eq p1) },
                fun _ => ?_, fun _ h => by cases h⟩
              simp [getTri, modifyTri, modifyEdge, htri, hce]
            | some ce =>
              cases he : s1.edges[ce]? with
              | none =>
                refine Or.inl ⟨Res.throw Err.undefined_behaviour
                  { s1 with tris := s1.tris.set t (tri.MarkConstrainedEdge eq p1) },
                  fun _ => ?_, fun _ h => by cases h⟩
                simp [getTri, modifyTri, modifyEdge, htri, hce, he]
              | some e =>
                cases hn : tri.NeighborAcross pt with
                | none =>
                  refine Or.inl ⟨Res.throw (Err.null_triangle_exception (some t))
                    { s1 with tris := s1.tris.set t (tri.MarkConstrainedEdge eq p1)
                              edges := s1.edges.set ce { e with q := p1 } },
                    fun _ => ?_, fun _ h => by cases h⟩
                  simp [getTri, modifyTri, modifyEdge, htri, hce, he, h1,
                    NeighborAcross_mark, hn]
                | some nt =>
                  refine Or.inr ⟨nt,
                    { s1 with tris := s1.tris.set t (tri.MarkConstrainedEdge eq p1)
                              edges := s1.edges.set ce { e with q := p1 } },
                    fun _ => ?_, fun hpt => ?_, ?_, rfl, ce, e, rfl, he, rfl⟩
                  · simp [getTri, modifyTri, modifyEdge, htri, hce, he, h1,
                      NeighborAcross_mark, hn]
                  · subst hpt
                    exact (split_state htri hs).1
                  · exact KeepsConstrainedSides_set htri rfl
                      (fun _ _ hc => HasConstrainedSide_mark hc)
          cases hp1 : tri.PointCCW pt with
          | none =>
            refine Or.inl ⟨Res.throw (Err.degenerate_triangle_exception (tri.GetPoint 0)
              (tri.GetPoint 1) (tri.GetPoint 2)) s1, fun _ _ => ?_, fun s1 h => by cases h⟩
            simp [EdgeEventBody, hI, getTri, htri, hp1]
          | some p1 =>
            by_cases ho1 : env.Orient2d eq p1 ep = Orientation.COLLINEAR
            · by_cases hc : tri.Contains2 eq p1 = true
              · rcases hsplit p1 (HasSide_of_PointCCW hp1) ho1 with
                  ⟨r, hr, hne⟩ | ⟨nt, s2, hr, hcs, hk, hee, hed⟩
                · refine Or.inl ⟨r, fun recur _ => ?_, fun s2 h => absurd h (hne s2)⟩
                  have hr1 := hr recur
                  simp [getTri, htri] at hr1
                  simp [EdgeEventBody, hI, getTri, htri, hp1, ho1, hc]
                  exact hr1
                · refine Or.inr (Or.inl ⟨p1, nt, p1, s2, fun recur _ => ?_, fun _ => rfl,
                    Or.inr ⟨ho1, hcs, hk, hee, hed⟩⟩)
                  have hr1 := hr recur
                  simp [getTri, htri] at hr1
                  simp [EdgeEventBody, hI, getTri, htri, hp1, ho1, hc]
                  exact hr1
              · refine Or.inl ⟨Res.throw (Err.collinear_points_exception eq p1 ep) s1,
                  fun _ _ => ?_, fun s1 h => by cases h⟩
                simp [EdgeEventBody, hI, getTri, htri, hp1, ho1, hc]
            · cases hp2 : tri.PointCW pt with
              | none =>
                refine Or.inl ⟨Res.throw (Err.degenerate_triangle_exception (tri.GetPoint 0)
                  (tri.GetPoint 1) (tri.GetPoint 2)) s1, fun _ _ => ?_, fun s1 h => by cases h⟩
                simp [EdgeEventBody, hI, getTri, htri, hp1, ho1, hp2]
              | some p2 =>
                by_cases ho2 : env.Orient2d eq p2 ep = Orientation.COLLINEAR
                · by_cases hc : tri.Contains2 eq p2 = true
                  · rcases hsplit p2 (HasSide_of_PointCW hp2) ho2 with
                      ⟨r, hr, hne⟩ | ⟨nt, s2, hr, hcs, hk, hee, hed⟩
                    · refine Or.inl ⟨r, fun recur _ => ?_, fun s2 h => absurd h (hne s2)⟩
                      have hr1 := hr recur
                      simp [getTri, htri] at hr1
                      simp [EdgeEventBody, hI, getTri, htri, hp1, ho1, hp2, ho2, hc]
                      exact hr1
                    · refine Or.inr (Or.inl ⟨p2, nt, p2, s2, fun recur _ => ?_, fun _ => rfl,
                        Or.inr ⟨ho2, hcs, hk, hee, hed⟩⟩)
                      have hr1 := hr recur
                      simp [getTri, htri] at hr1
                      simp [EdgeEventBody, hI, getTri, htri, hp1, ho1, hp2, ho2, hc]
                      exact hr1
                  · refine Or.inl ⟨Res.throw (Err.collinear_points_exception eq p2 ep) s1,
                      fun _ _ => ?_, fun s1 h => by cases h⟩
                    simp [EdgeEventBody, hI, getTri, htri, hp1, ho1, hp2, ho2, hc]
                · by_cases ho : env.Orient2d eq p1 ep = env.Orient2d eq p2 ep
                  · cases hn : (if env.Orient2d eq p1 ep = Orientation.CW then tri.NeighborCCW pt
                        else tri.NeighborCW pt) with
                    | none =>
                      refine Or.inl ⟨Res.throw (Err.null_triangle_exception (some t)) s1,
                        fun _ _ => ?_, fun s1 h => by cases h⟩
                      simp [EdgeEventBody, hI, getTri, htri, hp1, ho1, hp2, ho2, ho]
                      rw [← ho, hn]
                      rfl
                    | some nt =>
                      refine Or.inr (Or.inl ⟨eq, nt, pt, s1, fun _ _ => ?_, fun h => h,
                        Or.inl ⟨rfl, rfl⟩⟩)
                      simp [EdgeEventBody, hI, getTri, htri, hp1, ho1, hp2, ho2, ho]
                      rw [← ho, hn]
                  · refine Or.inr (Or.inr ⟨t, fun _ _ => ?_⟩)
                    simp [EdgeEventBody, hI, getTri, htri, hp1, ho1, hp2, ho2, ho]

theorem PiecesMarked_mono {env : Env} {s s1 : SweepContext} {ep : Point} {vs : List Point}
    (hk : KeepsConstrainedSides s s1) (h : PiecesMarked env s ep vs) :
    PiecesMarked env s1 ep vs :=
  List.Chain'.imp (fun _ _ hab => ⟨hab.1, hk _ _ hab.2⟩) h

theorem EdgesAre_frame (E : List Edge) (ee : EdgeEventData) :
    IgnoresTris (EdgesAre E ee) ∧ IgnoresMap (EdgesAre E ee) ∧ IgnoresNodes (EdgesAre E ee) :=
  ⟨fun _ _ h => h, fun _ _ h => h, fun _ _ h => h⟩

/-- The top-level `EdgeEvent`, for any `interior`: it ends before line 116,
and then a normal return leaves the edge a constrained side and the edge
object as it was; or it ends with the call of the interior form at line 116,
on the edge object as it was. -/
theorem EdgeEventTop_shape (env : Env) (fuel : Nat) (edge : EdgeId) (node : NodeId)
    (s : SweepContext) :
    ((∀ interior, EdgeEventTop env interior fuel edge node s
        = EdgeEventTop env (fun _ _ _ _ => pure ()) fuel edge node s) ∧
      ∀ s1, EdgeEventTop env (fun _ _ _ _ => pure ()) fuel edge node s = Res.ok () s1 →
        ∃ e, s.edges[edge]? = some e ∧ s1.edges[edge]? = some e ∧ ConstrainedSide s1 e.p e.q) ∨
    (∃ e tr s1, (∀ interior, EdgeEventTop env interior fuel edge node s
          = interior e.p e.q (some tr) e.q s1) ∧
        s.edges[edge]? = some e ∧ Inserting edge s1 e.p e.q) := by
  cases he : s.edges[edge]? with
  | none =>
    refine Or.inl ⟨fun _ => ?_, fun s1 h => ?_⟩
    · simp [EdgeEventTop, getEdge, he]
    · simp [EdgeEventTop, getEdge, he] at h
  | some e =>
    cases hnd : s.nodes[node]? with
    | none =>
      refine Or.inl ⟨fun _ => ?_, fun s1 h => ?_⟩
      · simp [EdgeEventTop, getEdge, he, getNode, hnd]
      · simp [EdgeEventTop, getEdge, he, getNode, hnd] at h
    | some nd =>
      cases htr : nd.triangle with
      | none =>
        refine Or.inl ⟨fun _ => ?_, fun s1 h => ?_⟩
        · simp [EdgeEventTop, getEdge, he, getNode, hnd, htr]
        · simp [EdgeEventTop, getEdge, he, getNode, hnd, htr] at h
      | some tr =>
        cases hI : IsEdgeSideOfTriangle tr e.p e.q
            { s with edge_event := { constrained_edge := some edge,
                                     right := decide (e.p.x > e.q.x) } } with
        | throw er s2 =>
          refine Or.inl ⟨fun _ => ?_, fun s1 h => ?_⟩
          · simp [EdgeEventTop, getEdge, he, getNode, hnd, htr, hI]
          · simp [EdgeEventTop, getEdge, he, getNode, hnd, htr, hI] at h
        | ok b s2 =>
          have hok := IsEdgeSideOfTriangle_ok hI
          cases b with
          | true =>
            refine Or.inl ⟨fun _ => ?_, fun s1 h => ?_⟩
            · simp [EdgeEventTop, getEdge, he, getNode, hnd, htr, hI]
            · simp [EdgeEventTop, getEdge, he, getNode, hnd, htr, hI] at h
              subst h
              obtain ⟨tri, h1, h2⟩ := hok.2.2.2 rfl
              refine ⟨e, rfl, ?_, ConstrainedSide_of_get h1 h2⟩
              rw [hok.1]
              exact he
          | false =>
            have := hok.2.2.1 rfl
            subst this
            cases hF : FillEdgeEvent env fuel edge node
                { s with edge_event := { constrained_edge := some edge,
                                         right := decide (e.p.x > e.q.x) } } with
            | throw er s3 =>
              refine Or.inl ⟨fun _ => ?_, fun s1 h => ?_⟩
              · simp [EdgeEventTop, getEdge, he, getNode, hnd, htr, hI, hF]
              · simp [EdgeEventTop, getEdge, he, getNode, hnd, htr, hI, hF] at h
            | ok u s3 =>
              have hfr := Inv_FillEdgeEvent (EdgesAre_frame s.edges _).1
                (EdgesAre_frame s.edges _).2.1 (EdgesAre_frame s.edges _).2.2 env fuel edge node
                { s with edge_event := { constrained_edge := some edge,
                                         right := decide (e.p.x > e.q.x) } } ⟨rfl, rfl⟩
              rw [hF] at hfr
              obtain ⟨hE, hee⟩ := hfr
              change s3.edges = s.edges at hE
              change s3.edge_event = _ at hee
              have he3 : s3.edges[edge]? = some e := by rw [hE]; exact he
              cases hnd3 : s3.nodes[node]? with
              | none =>
                refine Or.inl ⟨fun _ => ?_, fun s1 h => ?_⟩
                · simp [EdgeEventTop, getEdge, he, getNode, hnd, htr, hI, hF, hnd3]
                · simp [EdgeEventTop, getEdge, he, getNode, hnd, htr, hI, hF, hnd3] at h
              | some nd3 =>
                cases htr3 : nd3.triangle with
                | none =>
                  refine Or.inl ⟨fun _ => ?_, fun s1 h => ?_⟩
                  · simp [EdgeEventTop, getEdge, he, getNode, hnd, htr, hI, hF, hnd3, htr3]
                  · simp [EdgeEventTop, getEdge, he, getNode, hnd, htr, hI, hF, hnd3, htr3] at h
                | some tr3 =>
                  refine Or.inr ⟨e, tr3, s3, fun _ => ?_, rfl, ?_, e, he3, rfl, rfl⟩
                  · simp [EdgeEventTop, getEdge, he, getNode, hnd, htr, hI, hF, hnd3, htr3, he3]
                  · rw [hee]

/-- The interior `EdgeEvent` entered at the end eq of the constraint: a run
that returns normally either made no call of `FlipEdgeEvent`, and then on
return every piece split off and the last piece from ep are marked and the
edge object runs from ep to the last split vertex; or it ended with a call of
`FlipEdgeEvent`, made when every piece split off was marked and the edge
object ran from ep to the last split vertex. -/
theorem EdgeEventInterior_pieces (env : Env) (edge : EdgeId) :
    ∀ (fuel : Nat) (ep eq : Point) (tr : Option TriId) (s s1 : SweepContext),
      Inserting edge s ep eq →
      EdgeEventInterior env fuel ep eq tr eq s = Res.ok () s1 →
      ∃ (vs : List Point) (v : Point), (eq :: vs).getLast? = some v ∧
        ((PiecesMarked env s1 ep (eq :: vs) ∧ ConstrainedSide s1 ep v ∧
            KeepsConstrainedSides s s1 ∧
            ∃ e1, s1.edges[edge]? = some e1 ∧ e1.p = ep ∧ e1.q = v) ∨
          (∃ k t sx, FlipEdgeEvent env k ep v t v sx = Res.ok () s1 ∧ Inserting edge sx ep v ∧
            PiecesMarked env sx ep (eq :: vs) ∧ KeepsConstrainedSides s sx)) := by
  intro fuel
  induction fuel with
  | zero =>
    intro ep eq tr s s1 _ h
    simp [EdgeEventInterior] at h
  | succ fuel ih =>
    intro ep eq tr s s1 hJ h
    rw [EdgeEventInterior] at h
    rcases EdgeEventBody_step env ep eq tr eq s with
      ⟨r, hr, hG⟩ | ⟨eq1, nt, pt1, s2, hr, hpt, hstep⟩ | ⟨t, hr⟩
    · rw [hr] at h
      obtain ⟨hc, hk, hed, _⟩ := hG s1 h
      obtain ⟨_, e, he, hp, hq⟩ := hJ
      exact ⟨[], eq, rfl, Or.inl ⟨List.chain'_singleton _, hc, hk, e, by rw [hed]; exact he, hp, hq⟩⟩
    · rw [hr] at h
      have hpt1 := hpt rfl
      subst hpt1
      rcases hstep with ⟨rfl, rfl⟩ | ⟨ho, hcs, hk, hee, ce, e, hce, he, hed⟩
      · exact ih ep pt1 (some nt) s2 s1 hJ h
      · have hcs := hcs rfl
        obtain ⟨hJ1, e0, he0, hp0, hq0⟩ := hJ
        rw [hJ1] at hce
        cases hce
        rw [he0] at he
        have hee0 : e0 = e := Option.some.inj he
        subst hee0
        have hJ2 : Inserting edge s2 ep pt1 := by
          refine ⟨by rw [hee]; exact hJ1, { e0 with q := pt1 }, ?_, hp0, rfl⟩
          rw [hed, heap_set_get he0]
          simp
        obtain ⟨vs, v, hl, hcase⟩ := ih ep pt1 (some nt) s2 s1 hJ2 h
        refine ⟨pt1 :: vs, v, by rw [List.getLast?_cons_cons]; exact hl, ?_⟩
        rcases hcase with ⟨hpm, hc, hk2, he1⟩ | ⟨k, t, sx, hf, hJx, hpm, hk2⟩
        · exact Or.inl ⟨List.chain'_cons.2 ⟨⟨ho, hk2 _ _ hcs⟩, hpm⟩, hc, KeepsConstrainedSides_trans hk hk2, he1⟩
        · exact Or.inr ⟨k, t, sx, hf, hJx, List.chain'_cons.2 ⟨⟨ho, hk2 _ _ hcs⟩, hpm⟩,
            KeepsConstrainedSides_trans hk hk2⟩
    · rw [hr] at h
      exact ⟨[], eq, rfl, Or.inr ⟨fuel, t, s, h, hJ, List.chain'_singleton _,
        KeepsConstrainedSides_refl s⟩⟩

/-! #### The rotated pair has the new edge -/

theorem HasSide_of_points {t u : Triangle} (h : u.points_ = t.points_) {a b : Point}
    (hs : t.HasSide a b) : u.HasSide a b := by
  obtain ⟨i, hi⟩ := hs
  refine ⟨i, ?_⟩
  unfold Triangle.isEdge Triangle.edgeEnds at hi ⊢
  rw [h]
  exact hi

/-- A call that keeps the vertices of every triangle object keeps the fact
that a triangle object has a side from a to b. -/
theorem TriSide_of_vertices {α : Type} {m : M α} {k : TriId}
    (hm : ∀ pts, Inv (HasVertices k pts) m) {a b : Point} {s : SweepContext}
    (h : ∃ tri, s.tris[k]? = some tri ∧ tri.HasSide a b) :
    ∃ tri, (m s).ctx.tris[k]? = some tri ∧ tri.HasSide a b := by
  obtain ⟨tri, h1, h2⟩ := h
  obtain ⟨tri1, h3, h4⟩ := hm tri.points_ s ⟨tri, h1, rfl⟩
  exact ⟨tri1, h3, HasSide_of_points h4 h2⟩

theorem Inv_MarkNeighborIf_vertices (k : TriId) (pts : Arr3 Point) (a : TriId)
    (n : Option TriId) : Inv (HasVertices k pts) (MarkNeighborIf a n) := by
  cases n with
  | none => exact Inv_pure _
  | some n => exact Inv_MarkNeighbor_vertices k pts a n

theorem Legalize_HasSide {t : Triangle} {o n : Point}
    (h : o = t.points_.a0 ∨ o = t.points_.a1 ∨ o = t.points_.a2) :
    (t.Legalize o n).HasSide o n ∧
      (n = (t.Legalize o n).points_.a0 ∨ n = (t.Legalize o n).points_.a1 ∨
        n = (t.Legalize o n).points_.a2) := by
  unfold Triangle.Legalize
  split_ifs with h0 h1 h2
  · exact ⟨⟨0, by simp [Triangle.isEdge, Triangle.edgeEnds, h0]⟩, Or.inr (Or.inr rfl)⟩
  · exact ⟨⟨1, by simp [Triangle.isEdge, Triangle.edgeEnds, h1]⟩, Or.inl rfl⟩
  · exact ⟨⟨2, by simp [Triangle.isEdge, Triangle.edgeEnds, h2]⟩, Or.inr (Or.inl rfl)⟩
  · rcases h with h | h | h
    · exact absurd h h0
    · exact absurd h h1
    · exact absurd h h2

theorem HasSide_symm {t : Triangle} {a b : Point} (h : t.HasSide a b) : t.HasSide b a := by
  obtain ⟨i, hi⟩ := h
  exact ⟨i, hi.symm⟩

theorem isVertex_of_PointCCW {t : Triangle} {p a : Point} (h : t.PointCCW p = some a) :
    p = t.points_.a0 ∨ p = t.points_.a1 ∨ p = t.points_.a2 := by
  unfold Triangle.PointCCW at h
  split_ifs at h with h0 h1 h2
  · exact Or.inl h0
  · exact Or.inr (Or.inl h1)
  · exact Or.inr (Or.inr h2)

theorem isVertex_of_OppositePoint {ot t : Triangle} {p op : Point}
    (h : ot.OppositePoint t p = some op) :
    op = ot.points_.a0 ∨ op = ot.points_.a1 ∨ op = ot.points_.a2 := by
  unfold Triangle.OppositePoint at h
  cases hc : t.PointCW p with
  | none => simp [hc] at h
  | some cw =>
    simp only [hc] at h
    unfold Triangle.PointCW at h
    split_ifs at h <;> cases h <;> simp

/-- `RotateTrianglePair` is the two calls of `Triangle::Legalize` followed by
statements that keep the vertices of every triangle object. -/
theorem RotateTrianglePair_split (t : TriId) (p : Point) (ot : TriId) (op : Point) :
    ∃ tail : Triangle → Triangle → M Unit,
      RotateTrianglePair t p ot op = (getTri t >>= fun tt => getTri ot >>= fun ott =>
        modifyTri t (fun x => x.Legalize p op) >>= fun _ =>
        modifyTri ot (fun x => x.Legalize op p) >>= fun _ => tail tt ott) ∧
      ∀ tt ott k pts, Inv (HasVertices k pts) (tail tt ott) := by
  refine ⟨fun tt ott => do
    modifyTri ot (fun x => x.SetDelunayEdgeCCW p (tt.GetDelunayEdgeCCW p))
    modifyTri t (fun x => x.SetDelunayEdgeCW p (tt.GetDelunayEdgeCW p))
    modifyTri t (fun x => x.SetDelunayEdgeCCW op (ott.GetDelunayEdgeCCW op))
    modifyTri ot (fun x => x.SetDelunayEdgeCW op (ott.GetDelunayEdgeCW op))
    modifyTri ot (fun x => x.SetConstrainedEdgeCCW p (tt.GetConstrainedEdgeCCW p))
    modifyTri t (fun x => x.SetConstrainedEdgeCW p (tt.GetConstrainedEdgeCW p))
    modifyTri t (fun x => x.SetConstrainedEdgeCCW op (ott.GetConstrainedEdgeCCW op))
    modifyTri ot (fun x => x.SetConstrainedEdgeCW op (ott.GetConstrainedEdgeCW op))
    modifyTri t Triangle.ClearNeighbors
    modifyTri ot Triangle.ClearNeighbors
    MarkNeighborIf ot (tt.NeighborCCW p)
    MarkNeighborIf t (tt.NeighborCW p)
    MarkNeighborIf t (ott.NeighborCCW op)
    MarkNeighborIf ot (ott.NeighborCW op)
    MarkNeighbor t ot, rfl, ?_⟩
  intro tt ott k pts
  have hD1 : ∀ (x : Triangle) (q : Point) (e : Bool), (x.SetDelunayEdgeCCW q e).points_ = x.points_ :=
    fun x q e => by unfold Triangle.SetDelunayEdgeCCW; split_ifs <;> rfl
  have hD2 : ∀ (x : Triangle) (q : Point) (e : Bool), (x.SetDelunayEdgeCW q e).points_ = x.points_ :=
    fun x q e => by unfold Triangle.SetDelunayEdgeCW; split_ifs <;> rfl
  have hC1 : ∀ (x : Triangle) (q : Point) (e : Bool),
      (x.SetConstrainedEdgeCCW q e).points_ = x.points_ :=
    fun x q e => by unfold Triangle.SetConstrainedEdgeCCW; split_ifs <;> rfl
  have hC2 : ∀ (x : Triangle) (q : Point) (e : Bool),
      (x.SetConstrainedEdgeCW q e).points_ = x.points_ :=
    fun x q e => by unfold Triangle.SetConstrainedEdgeCW; split_ifs <;> rfl
  refine Inv_bind (Inv_modifyTri_vertices k pts _ _ (fun x => hD1 x _ _)) (fun _ => ?_)
  refine Inv_bind (Inv_modifyTri_vertices k pts _ _ (fun x => hD2 x _ _)) (fun _ => ?_)
  refine Inv_bind (Inv_modifyTri_vertices k pts _ _ (fun x => hD1 x _ _)) (fun _ => ?_)
  refine Inv_bind (Inv_modifyTri_vertices k pts _ _ (fun x => hD2 x _ _)) (fun _ => ?_)
  refine Inv_bind (Inv_modifyTri_vertices k pts _ _ (fun x => hC1 x _ _)) (fun _ => ?_)
  refine Inv_bind (Inv_modifyTri_vertices k pts _ _ (fun x => hC2 x _ _)) (fun _ => ?_)
  refine Inv_bind (Inv_modifyTri_vertices k pts _ _ (fun x => hC1 x _ _)) (fun _ => ?_)
  refine Inv_bind (Inv_modifyTri_vertices k pts _ _ (fun x => hC2 x _ _)) (fun _ => ?_)
  refine Inv_bind (Inv_modifyTri_vertices k pts _ _ (fun _ => rfl)) (fun _ => ?_)
  refine Inv_bind (Inv_modifyTri_vertices k pts _ _ (fun _ => rfl)) (fun _ => ?_)
  refine Inv_bind (Inv_MarkNeighborIf_vertices k pts _ _) (fun _ => ?_)
  refine Inv_bind (Inv_MarkNeighborIf_vertices k pts _ _) (fun _ => ?_)
  refine Inv_bind (Inv_MarkNeighborIf_vertices k pts _ _) (fun _ => ?_)
  refine Inv_bind (Inv_MarkNeighborIf_vertices k pts _ _) (fun _ => ?_)
  exact Inv_MarkNeighbor_vertices k pts _ _

/-- After `RotateTrianglePair(t, p, ot, op)`, where p is a vertex of t and op
one of ot, both triangle objects have a side from p to op. -/
theorem RotateTrianglePair_sides {t ot : TriId} {p op : Point} {s s2 : SweepContext}
    {tt ott : Triangle} (h : RotateTrianglePair t p ot op s = Res.ok () s2)
    (htt : s.tris[t]? = some tt) (hott : s.tris[ot]? = some ott)
    (hp : p = tt.points_.a0 ∨ p = tt.points_.a1 ∨ p = tt.points_.a2)
    (hop : op = ott.points_.a0 ∨ op = ott.points_.a1 ∨ op = ott.points_.a2) :
    (∃ tri, s2.tris[t]? = some tri ∧ tri.HasSide p op) ∧
    (∃ tri, s2.tris[ot]? = some tri ∧ tri.HasSide p op) := by
  obtain ⟨tail, hsplit, htail⟩ := RotateTrianglePair_split t p ot op
  rw [hsplit] at h
  have h1 : (s.tris.set t (tt.Legalize p op))[t]? = some (tt.Legalize p op) := by
    rw [heap_set_get htt]; simp
  by_cases hne : t = ot
  · subst hne
    rw [htt] at hott
    obtain rfl : tt = ott := Option.some.inj hott
    simp only [run_bind, getTri, modifyTri, htt, h1, List.set_set] at h
    have hside : ∃ tri, ({ s with tris := s.tris.set t ((tt.Legalize p op).Legalize op p) } :
        SweepContext).tris[t]? = some tri ∧ tri.HasSide p op :=
      ⟨_, by show (s.tris.set t _)[t]? = _; rw [heap_set_get htt]; simp,
        HasSide_symm (Legalize_HasSide (Legalize_HasSide hp).2).1⟩
    have := TriSide_of_vertices (htail tt tt t) hside
    rw [h] at this
    exact ⟨this, this⟩
  · have h2 : (s.tris.set t (tt.Legalize p op))[ot]? = some ott := by
      rw [heap_set_get htt]; simp [hne, hott]
    simp only [run_bind, getTri, modifyTri, htt, hott, h2] at h
    generalize hL : (s.tris.set t (tt.Legalize p op)).set ot (ott.Legalize op p) = L at h
    have hs1 : ∃ tri, ({ s with tris := L } : SweepContext).tris[t]? = some tri ∧
        tri.HasSide p op :=
      ⟨_, by show L[t]? = _; rw [← hL, heap_set_get h2]; simp [Ne.symm hne, h1],
        (Legalize_HasSide hp).1⟩
    have hs2 : ∃ tri, ({ s with tris := L } : SweepContext).tris[ot]? = some tri ∧
        tri.HasSide p op :=
      ⟨_, by show L[ot]? = _; rw [← hL, heap_set_get h2]; simp,
        HasSide_symm (Legalize_HasSide hop).1⟩
    have r1 := TriSide_of_vertices (htail tt ott t) hs1
    have r2 := TriSide_of_vertices (htail tt ott ot) hs2
    rw [h] at r1 r2
    exact ⟨r1, r2⟩

/-! #### How a run of FlipEdgeEvent ends -/

theorem triCS_set {l : List Triangle} {j k : Nat} {v x : Triangle} {a b : Point}
    (hv : l[j]? = some v) (hx : v.HasConstrainedSide a b → x.HasConstrainedSide a b)
    (h : ∃ tri, l[k]? = some tri ∧ tri.HasConstrainedSide a b) :
    ∃ tri, (l.set j x)[k]? = some tri ∧ tri.HasConstrainedSide a b := by
  obtain ⟨tri, h1, h2⟩ := h
  rw [heap_set_get hv]
  by_cases hjk : j = k
  · subst hjk
    rw [hv] at h1
    obtain rfl : v = tri := Option.some.inj h1
    exact ⟨x, by simp, hx h2⟩
  · exact ⟨tri, by simp [hjk, h1], h2⟩

/-- One level of `FlipEdgeEvent` that returns normally: the run ends in this
call, at lines 880-883 or at lines 884-886; or it goes on with the recursive
call of line 890; or with the call of the interior `EdgeEvent` of line 895. -/
theorem FlipEdgeEvent_step (env : Env) (k : Nat) (ep eq : Point) (t : TriId) (p : Point)
    (s s1 : SweepContext) (h : FlipEdgeEvent env (k + 1) ep eq t p s = Res.ok () s1) :
    FlipRunEnd ep s1 ∨
    (∃ t1 s2, FlipEdgeEvent env k ep eq t1 p s2 = Res.ok () s1) ∨
    (∃ s2, EdgeEventInterior env k ep eq (some t) p s2 = Res.ok () s1) := by
  rw [FlipEdgeEvent] at h
  cases htt : s.tris[t]? with
  | none => simp [getTri, htt] at h
  | some tt =>
    cases hn : tt.NeighborAcross p with
    | none => simp [getTri, htt, hn] at h
    | some ot =>
      cases hott : s.tris[ot]? with
      | none => simp [getTri, htt, hn, hott] at h
      | some ott =>
        cases hop : ott.OppositePoint tt p with
        | none => simp [getTri, htt, hn, hott, hop] at h
        | some op =>
          cases hccw : tt.PointCCW p with
          | none => simp [getTri, htt, hn, hott, hop, hccw] at h
          | some pccw =>
            cases hcw : tt.PointCW p with
            | none => simp [getTri, htt, hn, hott, hop, hccw, hcw] at h
            | some pcw =>
              by_cases hscan : env.InScanArea p pccw pcw op = true
              · cases hR : RotateTrianglePair t p ot op s with
                | throw er s2 => simp [getTri, htt, hn, hott, hop, hccw, hcw, hscan, hR] at h
                | ok u2 s2 =>
                  cases hM1 : MapTriangleToNodes t s2 with
                  | throw er s3 =>
                    simp [getTri, htt, hn, hott, hop, hccw, hcw, hscan, hR, hM1] at h
                  | ok u3 s3 =>
                    cases hM2 : MapTriangleToNodes ot s3 with
                    | throw er s4 =>
                      simp [getTri, htt, hn, hott, hop, hccw, hcw, hscan, hR, hM1, hM2] at h
                    | ok u4 s4 =>
                      -- both triangle objects have the new edge
                      obtain ⟨hs2t, hs2o⟩ := RotateTrianglePair_sides hR htt hott
                        (isVertex_of_PointCCW hccw) (isVertex_of_OppositePoint hop)
                      have hs3t := TriSide_of_vertices
                        (fun pts => Inv_MapTriangleToNodes_vertices t pts t) hs2t
                      have hs3o := TriSide_of_vertices
                        (fun pts => Inv_MapTriangleToNodes_vertices ot pts t) hs2o
                      rw [hM1] at hs3t hs3o
                      change ∃ tri, s3.tris[t]? = some tri ∧ tri.HasSide p op at hs3t
                      change ∃ tri, s3.tris[ot]? = some tri ∧ tri.HasSide p op at hs3o
                      have hs4t := TriSide_of_vertices
                        (fun pts => Inv_MapTriangleToNodes_vertices t pts ot) hs3t
                      have hs4o := TriSide_of_vertices
                        (fun pts => Inv_MapTriangleToNodes_vertices ot pts ot) hs3o
                      rw [hM2] at hs4t hs4o
                      change ∃ tri, s4.tris[t]? = some tri ∧ tri.HasSide p op at hs4t
                      change ∃ tri, s4.tris[ot]? = some tri ∧ tri.HasSide p op at hs4o
                      by_cases hpe : p = eq ∧ op = ep
                      · obtain ⟨rfl, rfl⟩ := hpe
                        cases hce : s4.edge_event.constrained_edge with
                        | none =>
                          simp [getTri, htt, hn, hott, hop, hccw, hcw, hscan, hR, hM1, hM2,
                            hce] at h
                        | some ce =>
                          cases he : s4.edges[ce]? with
                          | none =>
                            simp [getTri, getEdge, htt, hn, hott, hop, hccw, hcw, hscan, hR, hM1,
                              hM2, hce, he] at h
                          | some e =>
                            by_cases hchk : p = e.q ∧ op = e.p
                            · have hchk1 := eq_true hchk
                              obtain ⟨tri4, ht4, hside4⟩ := hs4t
                              obtain ⟨tro4, hto4, hsideo4⟩ := hs4o
                              have ht5 : (s4.tris.set t (tri4.MarkConstrainedEdge op p))[t]?
                                  = some (tri4.MarkConstrainedEdge op p) := by
                                rw [heap_set_get ht4]; simp
                              cases hot5 : (s4.tris.set t (tri4.MarkConstrainedEdge op p))[ot]? with
                              | none =>
                                simp [getTri, getEdge, modifyTri, htt, hn, hott, hop, hccw, hcw,
                                  hscan, hR, hM1, hM2, hce, he, hchk1, ht4, hot5] at h
                              | some tro5 =>
                                simp [getTri, getEdge, modifyTri, htt, hn, hott, hop, hccw,
                                  hcw, hscan, hR, hM1, hM2, hce, he, hchk1, ht4, hot5] at h
                                generalize hL : (s4.tris.set t (tri4.MarkConstrainedEdge op p)).set
                                  ot (tro5.MarkConstrainedEdge op p) = L at h
                                generalize hsm : ({ s4 with tris := L } : SweepContext) = sm at h
                                have hsmt : sm.tris = (s4.tris.set t
                                    (tri4.MarkConstrainedEdge op p)).set ot
                                    (tro5.MarkConstrainedEdge op p) := by rw [← hsm, hL]
                                have hc5t : ∃ tri, (s4.tris.set t
                                    (tri4.MarkConstrainedEdge op p))[t]? = some tri ∧
                                    tri.HasConstrainedSide op p :=
                                  ⟨_, ht5, HasConstrainedSide_of_HasSide (HasSide_symm hside4)⟩
                                have hc5o : tro5.HasSide op p := by
                                  rw [heap_set_get ht4] at hot5
                                  by_cases hto : t = ot
                                  · simp [hto] at hot5
                                    subst hot5
                                    exact HasSide_of_points (MarkConstrainedEdge_frame _ _ _).1
                                      (HasSide_symm hside4)
                                  · simp [hto, hto4] at hot5
                                    subst hot5
                                    exact HasSide_symm hsideo4
                                have hmt : ∃ tri, sm.tris[t]? = some tri ∧
                                    tri.HasConstrainedSide op p := by
                                  rw [hsmt]
                                  exact triCS_set hot5 (fun hc => HasConstrainedSide_mark hc) hc5t
                                have hmo : ∃ tri, sm.tris[ot]? = some tri ∧
                                    tri.HasConstrainedSide op p := by
                                  rw [hsmt]
                                  exact ⟨_, by rw [heap_set_get hot5]; simp,
                                    HasConstrainedSide_of_HasSide hc5o⟩
                                cases hL1 : Legalize k t sm with
                                | throw er s7 => simp [hL1] at h
                                | ok b s7 =>
                                  cases hL2 : Legalize k ot s7 with
                                  | throw er s8 => simp [hL1, hL2] at h
                                  | ok b1 s8 =>
                                    simp [hL1, hL2] at h
                                    subst h
                                    exact Or.inl ⟨p, Or.inr (Or.inl ⟨k, t, ot, sm, s7, b, b1,
                                      hmt, hmo, hL1, hL2⟩)⟩
                            · left
                              simp [getTri, getEdge, htt, hn, hott, hop, hccw, hcw, hscan, hR,
                                hM1, hM2, hce, he, hchk] at h
                              subst h
                              obtain ⟨tri4, ht4, hside4⟩ := hs4t
                              exact ⟨p, Or.inr (Or.inr ⟨ce, e, hce, he, hchk, tri4,
                                List.mem_iff_getElem?.2 ⟨t, ht4⟩, HasSide_symm hside4⟩)⟩
                      · cases hNF : NextFlipTriangle k (env.Orient2d eq op ep) t ot p op s4 with
                        | throw er s5 =>
                          simp [getTri, htt, hn, hott, hop, hccw, hcw, hscan, hR, hM1, hM2, hpe,
                            hNF] at h
                        | ok t1 s5 =>
                          simp [getTri, htt, hn, hott, hop, hccw, hcw, hscan, hR, hM1, hM2, hpe,
                            hNF] at h
                          exact Or.inr (Or.inl ⟨t1, s5, h⟩)
              · cases hNP : NextFlipPoint env ep eq ot op s with
                | throw er s2 =>
                  simp [getTri, htt, hn, hott, hop, hccw, hcw, hscan, hNP] at h
                | ok newP s2 =>
                  cases hFS : FlipScanEdgeEvent env k ep eq t ot newP s2 with
                  | throw er s3 =>
                    simp [getTri, htt, hn, hott, hop, hccw, hcw, hscan, hNP, hFS] at h
                  | ok u3 s3 =>
                    simp [getTri, htt, hn, hott, hop, hccw, hcw, hscan, hNP, hFS] at h
                    exact Or.inr (Or.inr ⟨s3, h⟩)

/-- Every run of the interior `EdgeEvent` or of `FlipEdgeEvent` that returns
normally ends in one of the three ways of `FlipRunEnd`. -/
theorem FlipRunEnd_of_ok (env : Env) :
    ∀ k : Nat,
      (∀ (ep eq : Point) (tr : Option TriId) (pt : Point) (s s1 : SweepContext),
        EdgeEventInterior env k ep eq tr pt s = Res.ok () s1 → FlipRunEnd ep s1) ∧
      (∀ (ep eq : Point) (t : TriId) (p : Point) (s s1 : SweepContext),
        FlipEdgeEvent env k ep eq t p s = Res.ok () s1 → FlipRunEnd ep s1) := by
  intro k
  induction k with
  | zero =>
    constructor
    · intro ep eq tr pt s s1 h
      simp [EdgeEventInterior] at h
    · intro ep eq t p s s1 h
      simp [FlipEdgeEvent] at h
  | succ k ih =>
    constructor
    · intro ep eq tr pt s s1 h
      rw [EdgeEventInterior] at h
      rcases EdgeEventBody_step env ep eq tr pt s with
        ⟨r, hr, hG⟩ | ⟨eq1, nt, pt1, s2, hr, _, _⟩ | ⟨t, hr⟩
      · rw [hr] at h
        exact ⟨eq, Or.inl (hG s1 h).1⟩
      · rw [hr] at h
        exact ih.1 _ _ _ _ _ _ h
      · rw [hr] at h
        exact ih.2 _ _ _ _ _ _ h
    · intro ep eq t p s s1 h
      rcases FlipEdgeEvent_step env k ep eq t p s s1 h with hE | ⟨t1, s2, h2⟩ | ⟨s2, h2⟩
      · exact hE
      · exact ih.2 _ _ _ _ _ _ h2
      · exact ih.1 _ _ _ _ _ _ h2

/-- The interior `EdgeEvent` on a run that never calls `FlipEdgeEvent`: on a
normal return every piece split off and the last piece from ep are marked, and
the edge object runs from ep to the last split vertex. -/
theorem EdgeEventInteriorNoFlip_pieces (env : Env) (edge : EdgeId) :
    ∀ (fuel : Nat) (ep eq : Point) (tr : Option TriId) (s s1 : SweepContext),
      Inserting edge s ep eq →
      EdgeEventInteriorNoFlip env fuel ep eq tr eq s = Res.ok () s1 →
      EdgeEventInterior env fuel ep eq tr eq s = Res.ok () s1 ∧
      ∃ (vs : List Point) (v : Point), (eq :: vs).getLast? = some v ∧
        PiecesMarked env s1 ep (eq :: vs) ∧ ConstrainedSide s1 ep v ∧
        KeepsConstrainedSides s s1 ∧
        ∃ e1, s1.edges[edge]? = some e1 ∧ e1.p = ep ∧ e1.q = v := by
  intro fuel
  induction fuel with
  | zero =>
    intro ep eq tr s s1 _ h
    simp [EdgeEventInteriorNoFlip] at h
  | succ fuel ih =>
    intro ep eq tr s s1 hJ h
    rw [EdgeEventInteriorNoFlip] at h
    rw [EdgeEventInterior]
    rcases EdgeEventBody_step env ep eq tr eq s with
      ⟨r, hr, hG⟩ | ⟨eq1, nt, pt1, s2, hr, hpt, hstep⟩ | ⟨t, hr⟩
    · rw [hr] at h ⊢
      obtain ⟨hc, hk, hed, _⟩ := hG s1 h
      obtain ⟨_, e, he, hp, hq⟩ := hJ
      exact ⟨h, [], eq, rfl, List.chain'_singleton _, hc, hk, e, by rw [hed]; exact he, hp, hq⟩
    · rw [hr] at h ⊢
      have hpt1 := hpt rfl
      subst hpt1
      rcases hstep with ⟨rfl, rfl⟩ | ⟨ho, hcs, hk, hee, ce, e, hce, he, hed⟩
      · exact ih ep pt1 (some nt) s2 s1 hJ h
      · have hcs := hcs rfl
        obtain ⟨hJ1, e0, he0, hp0, hq0⟩ := hJ
        rw [hJ1] at hce
        cases hce
        rw [he0] at he
        have hee0 : e0 = e := Option.some.inj he
        subst hee0
        have hJ2 : Inserting edge s2 ep pt1 := by
          refine ⟨by rw [hee]; exact hJ1, { e0 with q := pt1 }, ?_, hp0, rfl⟩
          rw [hed, heap_set_get he0]
          simp
        obtain ⟨hrun, vs, v, hl, hpm, hc, hk2, he1⟩ := ih ep pt1 (some nt) s2 s1 hJ2 h
        exact ⟨hrun, pt1 :: vs, v, by rw [List.getLast?_cons_cons]; exact hl,
          List.chain'_cons.2 ⟨⟨ho, hk2 _ _ hcs⟩, hpm⟩, hc, KeepsConstrainedSides_trans hk hk2, he1⟩
    · rw [hr] at h
      simp at h

end p2t
